import Mathlib

/-! # Cluster configuration monitor (`confmon.c`)

A shallow embedding of `deps/lcb/src/bucketconfig/confmon.c`.

* Pointers to `clconfig_info` are natural numbers indexing a heap of cells.
* A provider is identified by its slot in `all_providers`, a listener by a number.
* The intrusive lists (`active_providers`, `listeners`) are Lean lists of these numbers,
  in list order.
* Calls made to code outside the monitor (listener callbacks, provider hooks, the
  configuration object's destructor) are appended to a call log; a callback entry also
  records the monitor's `config` and `state` fields as the callee finds them.
  Callbacks are taken not to re-enter the monitor.
* `lcb_assert` failures and null dereferences make an operation return `none`.
-/

namespace Confmon

/-! ## Configuration object and ConfigInfo -/

/-- Conversion to a C `int` (32 bits, two's complement). -/
def toInt32 (x : Int) : Int := (x + 2147483648) % 4294967296 - 2147483648

/-- The interface of the configuration object (libvbucket), which is external to the
monitor: the revision getter, the structural comparison (a diff, or `none` for a null
pointer) and the change classification of a diff. -/
structure VBucketOps (V D : Type) where
  vbucket_config_get_revision : V → Int
  vbucket_compare : V → V → Option D
  vbucket_what_changed : D → Nat

/-- Modelled from the spec: the record `clconfig_info`, declared in `clconfig.h` which
is not among the sources ("owns a vbucket configuration, records its origin provider
and a monotonic comparison clock assigned at creation, carries a reference count"). The
fields are the ones `confmon.c` reads and writes; the widths of `cmpclock` and
`refcount` are not fixed by `confmon.c`, they are natural numbers here. -/
structure clconfig_info (V : Type) where
  vbc : V
  cmpclock : Nat
  refcount : Nat
  origin : Nat

/-- The value of the local `int rev_a` (resp. `rev_b`) of `lcb_clconfig_compare`. -/
def revision_of {V D : Type} (ops : VBucketOps V D) (a : clconfig_info V) : Int :=
  toInt32 (ops.vbucket_config_get_revision a.vbc)

/-- Embedding of `lcb_clconfig_compare`, `confmon.c` lines 323-341. The subtraction is an
`int` subtraction. -/
def lcb_clconfig_compare {V D : Type} (ops : VBucketOps V D)
    (a b : clconfig_info V) : Int :=
  let rev_a := revision_of ops a
  let rev_b := revision_of ops b
  if rev_a ≥ 0 ∧ rev_b ≥ 0 then
    toInt32 (rev_a - rev_b)
  else if a.cmpclock = b.cmpclock then
    0
  else if a.cmpclock < b.cmpclock then
    -1
  else
    1

/-! ## Monitor state -/

/-- Modelled from the spec: the error codes `lcb_error_t` of the public error header,
which is not among the sources ("last-error code"). -/
abbrev lcb_error_t := Nat

/-- Modelled from the spec: the code `LCB_SUCCESS` of `lcb_error_t`, the one code that
is no error. -/
def LCB_SUCCESS : lcb_error_t := 0

/-- Modelled from the spec: the state flags of `clconfig.h`, which is not among the
sources ("States: `Idle`; `Active`; `Active∧InGrace`"), one bit a flag. `Idle` is the
state without a flag. -/
def CONFMON_S_INACTIVE : Nat := 0

/-- Modelled from the spec: the flag `Active` (the monitor is refreshing), bit 0 of the
state. -/
def CONFMON_S_ACTIVE : Nat := 1

/-- Modelled from the spec: the flag `InGrace` ("a short cooling-off while advancing the
cursor"), bit 1 of the state. -/
def CONFMON_S_ITERGRACE : Nat := 2

/-- Modelled from the spec: the events `clconfig_event_t` of `clconfig.h` ("Events
emitted to listeners: `GotNewConfig(info)`, `GotAnyConfig(info)`, `ProvidersCycled`,
`MonitorStopped`"), under the names `confmon.c` uses. -/
inductive clconfig_event_t where
  | CLCONFIG_EVENT_GOT_NEW_CONFIG
  | CLCONFIG_EVENT_GOT_ANY_CONFIG
  | CLCONFIG_EVENT_PROVIDERS_CYCLED
  | CLCONFIG_EVENT_MONITOR_STOPPED
  deriving DecidableEq, Repr

/-- A call that leaves the monitor. `callback lsn event info config_seen state_seen` is
`lsn->callback(lsn, event, info)` made while `mon->config = config_seen` and
`mon->state = state_seen`. -/
inductive Call (V : Type) where
  | callback (lsn : Nat) (event : clconfig_event_t) (info : Option Nat)
      (config_seen : Option Nat) (state_seen : Nat)
  | config_updated (provider : Nat) (vbc : V)
  | get_cached (provider : Nat)
  | refresh (provider : Nat)
  | pause (provider : Nat)
  | vbucket_config_destroy (vbc : V)
  deriving DecidableEq, Repr

/-- Modelled from the spec: the record `clconfig_provider` of `clconfig.h` ("exposes
capabilities refresh, get-cached, pause?, config-updated?, shutdown"), as far as
`confmon.c` uses it. `has_pause` and `has_config_updated` say whether the optional hooks
are non-null, `has_get_cached` and `has_refresh` whether the hooks `get_cached` and
`refresh` are, which `do_next_provider` calls without a test; `cached` is what the
provider's `get_cached` hook returns. -/
structure clconfig_provider where
  type : Nat
  enabled : Bool
  has_pause : Bool
  has_config_updated : Bool
  has_get_cached : Bool
  has_refresh : Bool
  cached : Option Nat
  deriving DecidableEq, Repr

/-- Modelled from the spec: the record `lcb_confmon` of `clconfig.h` ("holds the current
ConfigInfo (or none), an ordered list of active providers, a current provider cursor, a
state, last-stop timestamp, last-error, and a listener list"), with the fields
`confmon.c` uses, together with the part of the world the monitor acts on.
`as_start` is the start-timer and `as_stop` the timer of the deferred stop (`some d`:
armed with delay `d`, `none`: not armed). `grace_next_provider` and `grace_next_cycle`
are the two settings read through `mon->settings`. `heap` holds the `clconfig_info`
cells, `freed` the cells given back to `free`, `log` the calls made so far. -/
structure lcb_confmon (V : Type) where
  config : Option Nat
  all_providers : List (Option clconfig_provider)
  active_providers : List Nat
  cur_provider : Option Nat
  state : Nat
  last_stop_us : Nat
  last_error : lcb_error_t
  listeners : List Nat
  as_start : Option Nat
  as_stop : Option Nat
  grace_next_provider : Nat
  grace_next_cycle : Nat
  heap : Nat → clconfig_info V
  freed : List Nat
  log : List (Call V)

/-- The logical negation `!x` of C. -/
def lnot (x : Nat) : Nat := if x = 0 then 1 else 0

/-- The macro `IS_REFRESHING(mon)`, which expands to `(mon)->state & CONFMON_S_ACTIVE`
without outer parentheses. -/
def IS_REFRESHING {V : Type} (mon : lcb_confmon V) : Nat :=
  mon.state &&& CONFMON_S_ACTIVE

/-- The expression `!IS_REFRESHING(mon)` after macro expansion:
`!(mon)->state & CONFMON_S_ACTIVE`, in which `!` binds tighter than `&`. -/
def NOT_IS_REFRESHING {V : Type} (mon : lcb_confmon V) : Nat :=
  lnot mon.state &&& CONFMON_S_ACTIVE

/-- The element of an intrusive list after the node of `cur` (`cur->ll.next`), none when
`LCB_LIST_HAS_NEXT` is false, that is when the node of `cur` is the last one. -/
def list_next (l : List Nat) (cur : Nat) : Option Nat :=
  match l.dropWhile (fun p => decide (p ≠ cur)) with
  | _ :: nxt :: _ => some nxt
  | _ => none

/-- Embedding of `next_active`, lines 32-38: the provider whose node follows the node of
`cur` in `active_providers`, none when `cur` is the last one. -/
def next_active {V : Type} (mon : lcb_confmon V) (cur : Nat) : Option Nat :=
  list_next mon.active_providers cur

/-- Embedding of `first_active`, lines 39-45. -/
def first_active {V : Type} (mon : lcb_confmon V) : Option Nat :=
  match mon.active_providers with
  | [] => none
  | p :: _ => some p

/-- Embedding of `invoke_listeners`, lines 368-377: every listener is called, in list
order. -/
def invoke_listeners {V : Type} (mon : lcb_confmon V) (event : clconfig_event_t)
    (info : Option Nat) : lcb_confmon V :=
  { mon with
    log := mon.log ++
      mon.listeners.map (fun lsn => Call.callback lsn event info mon.config mon.state) }

/-- Modelled from the spec: `lcbio_timer_rearm` of the timer library, which is not part
of `confmon.c` ("arm the start-timer"): the timer is armed with the given delay, whatever
it was before. -/
def lcbio_timer_rearm (_timer : Option Nat) (usec : Nat) : Option Nat := some usec

/-- Modelled from the spec: `lcbio_timer_disarm` of the timer library ("disarm
start-timer", "Disarming a timer is idempotent"). -/
def lcbio_timer_disarm (_timer : Option Nat) : Option Nat := none

/-- Modelled from the spec: `lcbio_async_signal` of the timer library ("asynchronously
schedule a stop"): the timer is armed to fire at the next loop tick. -/
def lcbio_async_signal (timer : Option Nat) : Option Nat := lcbio_timer_rearm timer 0

/-- Embedding of `lcb_confmon_stop`, lines 297-306. -/
def lcb_confmon_stop {V : Type} (mon : lcb_confmon V) : lcb_confmon V :=
  if NOT_IS_REFRESHING mon ≠ 0 then
    mon
  else
    { mon with
      as_start := lcbio_timer_disarm mon.as_start
      as_stop := lcbio_async_signal mon.as_stop
      state := CONFMON_S_INACTIVE }

/-- Embedding of `lcb_clconfig_decref`, lines 308-321. The assertion on the count aborts
(`none`). -/
def lcb_clconfig_decref {V : Type} (mon : lcb_confmon V) (info : Nat) :
    Option (lcb_confmon V) :=
  let cell := mon.heap info
  if cell.refcount = 0 then
    none
  else
    let cell1 := { cell with refcount := cell.refcount - 1 }
    let mon1 := { mon with heap := Function.update mon.heap info cell1 }
    if cell1.refcount ≠ 0 then
      some mon1
    else
      some { mon1 with
        log := mon1.log ++ [Call.vbucket_config_destroy cell1.vbc]
        freed := info :: mon1.freed }

/-- Modelled from the spec: the macro `lcb_clconfig_incref` of `clconfig.h` ("retain
`info`"): the count of the cell goes up by one. -/
def lcb_clconfig_incref {V : Type} (mon : lcb_confmon V) (info : Nat) : lcb_confmon V :=
  let cell := mon.heap info
  { mon with heap := Function.update mon.heap info { cell with refcount := cell.refcount + 1 } }

/-- The loop of lines 169-174 from slot `ii` on: the calls of the `config_updated` hook. -/
def config_updated_calls {V : Type} (vbc : V) :
    List (Option clconfig_provider) → Nat → List (Call V)
  | [], _ => []
  | none :: rest, ii => config_updated_calls vbc rest (ii + 1)
  | some cur :: rest, ii =>
    if cur.enabled ∧ cur.has_config_updated then
      Call.config_updated ii vbc :: config_updated_calls vbc rest (ii + 1)
    else
      config_updated_calls vbc rest (ii + 1)

/-- Lines 169-180 of `do_set_next`: the providers are told, `info` is retained and made
the current configuration, the monitor is stopped and the listeners are called. -/
def do_set_next_install {V : Type} (mon : lcb_confmon V) (info : Nat) : lcb_confmon V :=
  let mon2 :=
    { mon with
      log := mon.log ++ config_updated_calls (mon.heap info).vbc mon.all_providers 0 }
  let mon3 := lcb_clconfig_incref mon2 info
  let mon4 := { mon3 with config := some info }
  let mon5 := lcb_confmon_stop mon4
  invoke_listeners mon5 clconfig_event_t.CLCONFIG_EVENT_GOT_NEW_CONFIG (some info)

/-- Lines 162-182 of `do_set_next`: the new configuration is taken. -/
def do_set_next_accept {V : Type} (mon : lcb_confmon V) (info : Nat) :
    Option (Bool × lcb_confmon V) :=
  let released :=
    match mon.config with
    | some cur => lcb_clconfig_decref mon cur
    | none => some mon
  match released with
  | none => none
  | some mon1 => some (true, do_set_next_install mon1 info)

/-- Embedding of `do_set_next`, lines 139-183. -/
def do_set_next {V D : Type} (ops : VBucketOps V D) (mon : lcb_confmon V) (info : Nat)
    (notify_miss : Bool) : Option (Bool × lcb_confmon V) :=
  match mon.config with
  | some cur =>
    match ops.vbucket_compare (mon.heap cur).vbc (mon.heap info).vbc with
    | none => some (false, mon)
    | some diff =>
      let chstatus := ops.vbucket_what_changed diff
      if chstatus = 0 ∨ lcb_clconfig_compare ops (mon.heap cur) (mon.heap info) ≥ 0 then
        if notify_miss then
          some (false,
            invoke_listeners mon clconfig_event_t.CLCONFIG_EVENT_GOT_ANY_CONFIG (some info))
        else
          some (false, mon)
      else
        do_set_next_accept mon info
  | none => do_set_next_accept mon info

/-- Lines 197-211 of `lcb_confmon_provider_failed`, reached when `mon->cur_provider` is
`cur`: the reason is recorded unless it is `LCB_SUCCESS`, the cursor moves on, and either
the cycle ends or the start-timer is armed for the next provider. -/
def provider_failed_advance {V : Type} (mon : lcb_confmon V) (reason : lcb_error_t)
    (cur : Nat) : lcb_confmon V :=
  let mon1 :=
    { mon with last_error := if reason ≠ LCB_SUCCESS then reason else mon.last_error }
  let mon2 := { mon1 with cur_provider := next_active mon1 cur }
  match mon2.cur_provider with
  | none =>
    let mon3 := invoke_listeners mon2 clconfig_event_t.CLCONFIG_EVENT_PROVIDERS_CYCLED none
    let mon4 := { mon3 with cur_provider := first_active mon3 }
    lcb_confmon_stop mon4
  | some _ =>
    { mon2 with
      state := mon2.state ||| CONFMON_S_ITERGRACE
      as_start := lcbio_timer_rearm mon2.as_start mon2.grace_next_provider }

/-- Embedding of `lcb_confmon_provider_failed`, lines 185-212. The log statement of the
ignoring branch reads `mon->cur_provider->type`. -/
def lcb_confmon_provider_failed {V : Type} (mon : lcb_confmon V) (provider : Nat)
    (reason : lcb_error_t) : Option (lcb_confmon V) :=
  if some provider ≠ mon.cur_provider then
    match mon.cur_provider with
    | none => none
    | some _ => some mon
  else
    some (provider_failed_advance mon reason provider)

/-- Embedding of `lcb_confmon_provider_success`, lines 214-219. The provider's `parent`
is the monitor. -/
def lcb_confmon_provider_success {V D : Type} (ops : VBucketOps V D) (mon : lcb_confmon V)
    (_provider : Nat) (config : Nat) : Option (lcb_confmon V) :=
  match do_set_next ops mon config true with
  | none => none
  | some (_, mon1) => some (lcb_confmon_stop mon1)

/-- The provider record behind a slot of `all_providers`. -/
def provider_at {V : Type} (mon : lcb_confmon V) (p : Nat) : Option clconfig_provider :=
  (mon.all_providers.get? p).join

/-- The call `cached_provider->get_cached(cached_provider)` of line 232 for the provider
in slot `p`: the cached ConfigInfo, or a null pointer (`some none`). The hook is called
without a test: there is no result (`none`) when it is null, or when there is no provider
in the slot. -/
def get_cached {V : Type} (mon : lcb_confmon V) (p : Nat) : Option (Option Nat) :=
  match provider_at mon p with
  | none => none
  | some cur => if cur.has_get_cached then some cur.cached else none

/-- The call `mon->cur_provider->refresh(mon->cur_provider)` of line 245 for the provider
in slot `p`. The hook is called without a test: there is no result (`none`) when it is
null, or when there is no provider in the slot. -/
def refresh {V : Type} (mon : lcb_confmon V) (p : Nat) : Option (lcb_confmon V) :=
  match provider_at mon p with
  | none => none
  | some cur =>
    if cur.has_refresh then some { mon with log := mon.log ++ [Call.refresh p] } else none

/-- The provider in slot `p` is there and has the two hooks that `do_next_provider` calls
without a test. -/
def has_hooks {V : Type} (mon : lcb_confmon V) (p : Nat) : Bool :=
  match provider_at mon p with
  | none => false
  | some cur => cur.has_get_cached && cur.has_refresh

/-- The loop of lines 227-241 of `do_next_provider` over the rest of the active list. -/
def do_next_provider_loop {V D : Type} (ops : VBucketOps V D) :
    List Nat → lcb_confmon V → Option (Bool × lcb_confmon V)
  | [], mon => some (false, mon)
  | cached_provider :: rest, mon =>
    let mon1 := { mon with log := mon.log ++ [Call.get_cached cached_provider] }
    match get_cached mon1 cached_provider with
    | none => none
    | some none => do_next_provider_loop ops rest mon1
    | some (some info) =>
      match do_set_next ops mon1 info false with
      | none => none
      | some (true, mon2) => some (true, mon2)
      | some (false, mon2) => do_next_provider_loop ops rest mon2

/-- Embedding of `do_next_provider`, lines 222-247. The state is an `int`; the mask
`~CONFMON_S_ITERGRACE` is taken on 32 bits. The log statement of line 243 reads
`mon->cur_provider->type`: a null cursor gives no result. -/
def do_next_provider {V D : Type} (ops : VBucketOps V D) (mon : lcb_confmon V) :
    Option (Bool × lcb_confmon V) :=
  let mon0 := { mon with state := mon.state &&& (4294967295 ^^^ CONFMON_S_ITERGRACE) }
  match do_next_provider_loop ops mon0.active_providers mon0 with
  | none => none
  | some (true, mon1) => some (true, mon1)
  | some (false, mon1) =>
    match mon1.cur_provider with
    | none => none
    | some cur => (refresh mon1 cur).map (fun mon2 => (false, mon2))

/-- Embedding of `async_start`, lines 249-252. -/
def async_start {V D : Type} (ops : VBucketOps V D) (mon : lcb_confmon V) :
    Option (lcb_confmon V) :=
  (do_next_provider ops mon).map Prod.snd

/-- Modelled from the spec: the firing of a timer of the timer library, here the
start-timer ("Start-timer fire → `do_next_provider()`"): an armed timer fires once and
is no longer armed when its callback runs. No result when the timer is not armed. -/
def as_start_fire {V D : Type} (ops : VBucketOps V D) (mon : lcb_confmon V) :
    Option (lcb_confmon V) :=
  match mon.as_start with
  | none => none
  | some _ => async_start ops { mon with as_start := none }

/-- One round of a provider cycle: the current provider reports a failure, then the
start-timer fires. -/
def fail_then_fire {V D : Type} (ops : VBucketOps V D) (reason : lcb_error_t)
    (mon : lcb_confmon V) : Option (lcb_confmon V) :=
  match mon.cur_provider with
  | none => none
  | some p => (lcb_confmon_provider_failed mon p reason).bind (as_start_fire ops)

/-- The monitor after `k` rounds of `fail_then_fire`, round `i` failing with
`reasons i`. -/
def fail_rounds {V D : Type} (ops : VBucketOps V D) (reasons : Nat → lcb_error_t) :
    Nat → lcb_confmon V → Option (lcb_confmon V)
  | 0, mon => some mon
  | k + 1, mon => (fail_rounds ops reasons k mon).bind (fail_then_fire ops (reasons k))

/-- The monitor `m` agrees with `mon` on everything a provider cycle leaves alone: the
current configuration, the heap, the providers, the active list, the listeners and the
settings. -/
def same_core {V : Type} (m mon : lcb_confmon V) : Prop :=
  m.config = mon.config ∧ m.heap = mon.heap ∧ m.all_providers = mon.all_providers ∧
  m.active_providers = mon.active_providers ∧ m.listeners = mon.listeners ∧
  m.grace_next_provider = mon.grace_next_provider

/-- Whether a logged call is a listener callback. -/
def is_callback {V : Type} : Call V → Bool
  | Call.callback _ _ _ _ _ => true
  | _ => false

/-- The diff `do_set_next` gets from `vbucket_compare` for the current configuration and
`info`; none when there is no current configuration or the comparison gives none. -/
def current_diff {V D : Type} (ops : VBucketOps V D) (mon : lcb_confmon V) (info : Nat) :
    Option D :=
  match mon.config with
  | some cur => ops.vbucket_compare (mon.heap cur).vbc (mon.heap info).vbc
  | none => none

/-- The rejection contract of `do_set_next` in the wording of the specification: when
`info` is rejected nothing of the monitor changes, `GotAnyConfig(info)` goes to every
listener if `notify_miss` is set and no call is made if it is clear. -/
def reject_contract {V D : Type} (ops : VBucketOps V D) (mon : lcb_confmon V) (info : Nat)
    (notify_miss : Bool) : Prop :=
  (do_set_next ops mon info notify_miss).map Prod.fst = some false →
    ∃ mon', do_set_next ops mon info notify_miss = some (false, mon') ∧
      mon'.config = mon.config ∧ mon'.state = mon.state ∧
      mon'.cur_provider = mon.cur_provider ∧ mon'.heap = mon.heap ∧
      (notify_miss = true → mon'.log = mon.log ++ mon.listeners.map (fun lsn =>
        Call.callback lsn clconfig_event_t.CLCONFIG_EVENT_GOT_ANY_CONFIG (some info)
          mon.config mon.state)) ∧
      (notify_miss = false → mon'.log = mon.log)

/-- The contract of `lcb_confmon_provider_failed` on `last_error` in the wording of the
specification: after a failure reported by the current provider `last_error` is the
reason. -/
def last_error_contract {V : Type} (mon : lcb_confmon V) (provider : Nat)
    (reason : lcb_error_t) : Prop :=
  mon.cur_provider = some provider →
    ∃ mon', lcb_confmon_provider_failed mon provider reason = some mon' ∧
      mon'.last_error = reason

/-! ## Starting, the deferred stop, the provider list and the listeners -/

/-- Modelled from the spec: the macro `LCB_NS2US`, which is not in `confmon.c`: a time in
nanoseconds as a time in microseconds. -/
def LCB_NS2US (ns : Nat) : Nat := ns / 1000

/-- Conversion to `lcb_uint32_t`. -/
def toUInt32 (x : Nat) : Nat := x % 4294967296

/-- Subtraction of two `lcb_uint32_t` values: the difference modulo 2^32. -/
def sub32 (a b : Nat) : Nat := (toUInt32 a + 4294967296 - toUInt32 b) % 4294967296

/-- Modelled from the spec: `lcbio_async_cancel` of the timer library ("cancel any
pending stop"). -/
def lcbio_async_cancel (timer : Option Nat) : Option Nat := lcbio_timer_disarm timer

/-- Embedding of `lcb_confmon_start`, lines 254-278. `now_ns` is the value `gethrtime()`
returns; `now_us`, `diff` and `tmonext` are `lcb_uint32_t`. The assertion on the cursor
aborts (`none`). -/
def lcb_confmon_start {V : Type} (mon : lcb_confmon V) (now_ns : Nat) :
    Option (lcb_error_t × lcb_confmon V) :=
  let mon1 := { mon with as_stop := lcbio_async_cancel mon.as_stop }
  if IS_REFRESHING mon1 ≠ 0 then
    some (LCB_SUCCESS, mon1)
  else
    match mon1.cur_provider with
    | none => none
    | some _ =>
      let mon2 := { mon1 with state := CONFMON_S_ACTIVE ||| CONFMON_S_ITERGRACE }
      let now_us := toUInt32 (LCB_NS2US now_ns)
      let diff := sub32 now_us mon2.last_stop_us
      let tmonext :=
        if diff > mon2.grace_next_cycle then 0 else sub32 mon2.grace_next_cycle diff
      some (LCB_SUCCESS, { mon2 with as_start := lcbio_timer_rearm mon2.as_start tmonext })

/-- The loop of lines 285-291 of `async_stop`: the `pause` hook of every active provider
that has one is called. -/
def pause_calls {V : Type} (mon : lcb_confmon V) : List Nat → List (Call V)
  | [] => []
  | p :: rest =>
    match provider_at mon p with
    | some provider =>
      if provider.has_pause then Call.pause p :: pause_calls mon rest
      else pause_calls mon rest
    | none => pause_calls mon rest

/-- Embedding of `async_stop`, lines 280-295. `now_ns` is the value `gethrtime()`
returns. -/
def async_stop {V : Type} (mon : lcb_confmon V) (now_ns : Nat) : lcb_confmon V :=
  let mon1 := { mon with log := mon.log ++ pause_calls mon mon.active_providers }
  let mon2 := { mon1 with last_stop_us := LCB_NS2US now_ns }
  invoke_listeners mon2 clconfig_event_t.CLCONFIG_EVENT_MONITOR_STOPPED none

/-- Modelled from the spec: the firing of the timer of the deferred stop ("The deferred
stop pauses every pauseable provider, stamps `last_stop_ms`, and emits
`MonitorStopped`"): an armed timer fires once and is no longer armed when its callback
runs. No result when the timer is not armed. -/
def as_stop_fire {V : Type} (mon : lcb_confmon V) (now_ns : Nat) : Option (lcb_confmon V) :=
  match mon.as_stop with
  | none => none
  | some _ => some (async_stop { mon with as_stop := none } now_ns)

/-- The loop of lines 86-97 of `lcb_confmon_prepare` from slot `ii` on: the slots of the
enabled providers, in order, and the `pause` calls to the disabled ones. -/
def prepare_scan {V : Type} : List (Option clconfig_provider) → Nat → List Nat × List (Call V)
  | [], _ => ([], [])
  | none :: rest, ii => prepare_scan rest (ii + 1)
  | some cur :: rest, ii =>
    let r : List Nat × List (Call V) := prepare_scan rest (ii + 1)
    if cur.enabled then (ii :: r.1, r.2)
    else if cur.has_pause then (r.1, Call.pause ii :: r.2)
    else r

/-- Embedding of `lcb_confmon_prepare`, lines 79-101. The assertion on the size of the
active list aborts (`none`). -/
def lcb_confmon_prepare {V : Type} (mon : lcb_confmon V) : Option (lcb_confmon V) :=
  let r : List Nat × List (Call V) := prepare_scan mon.all_providers 0
  let mon1 := { mon with active_providers := r.1, log := mon.log ++ r.2 }
  if mon1.active_providers.length = 0 then
    none
  else
    some { mon1 with cur_provider := first_active mon1 }

/-- Embedding of `lcb_confmon_set_provider_active`, lines 404-416. -/
def lcb_confmon_set_provider_active {V : Type} (mon : lcb_confmon V) (type : Nat)
    (enabled : Bool) : Option (lcb_confmon V) :=
  match provider_at mon type with
  | none => none
  | some provider =>
    if provider.enabled = enabled then
      some mon
    else
      lcb_confmon_prepare
        { mon with
          all_providers := mon.all_providers.set type (some { provider with enabled := enabled }) }

/-- Modelled from the spec: the kinds `clconfig_method_t` of `clconfig.h`, which index
`all_providers` ("Providers (FILE, CCCP, HTTP, USER)"): the kind `User` is the fourth. -/
def LCB_CLCONFIG_USER : Nat := 3

/-- Embedding of `lcb_clconfig_create_user`, lines 384-392: the record is zeroed by
`calloc` and gets its type and the `shutdown` hook; the provider is disabled and every
other hook is null. -/
def lcb_clconfig_create_user : clconfig_provider where
  type := LCB_CLCONFIG_USER
  enabled := false
  has_pause := false
  has_config_updated := false
  has_get_cached := false
  has_refresh := false
  cached := none

/-- Embedding of `lcb_confmon_create`, lines 55-77. `providers` holds the records that
the constructors of lines 66-69 give, in the order of the slots: those of the file, CCCP
and HTTP providers, which are not in `confmon.c`, and the one of
`lcb_clconfig_create_user`. Everything else is zeroed by `calloc`, and the two timers are
new. -/
def lcb_confmon_create {V : Type} (providers : List clconfig_provider)
    (grace_next_provider grace_next_cycle : Nat) (heap : Nat → clconfig_info V) :
    lcb_confmon V where
  config := none
  all_providers := providers.map some
  active_providers := []
  cur_provider := none
  state := 0
  last_stop_us := 0
  last_error := 0
  listeners := []
  as_start := none
  as_stop := none
  grace_next_provider := grace_next_provider
  grace_next_cycle := grace_next_cycle
  heap := heap
  freed := []
  log := []

/-- Embedding of `lcb_clconfig_create`, lines 343-354. `allocated` says whether
`calloc` gave memory; the record is zeroed but for the three fields written. -/
def lcb_clconfig_create {V : Type} (allocated : Bool) (config : V) (origin : Nat) :
    Option (clconfig_info V) :=
  if allocated then
    some { vbc := config, cmpclock := 0, refcount := 1, origin := origin }
  else
    none

/-- Modelled from the spec: `lcb_list_append` of the list library, which is not among
the sources ("in registration order"): the item becomes the last one. -/
def lcb_list_append (l : List Nat) (item : Nat) : List Nat := l ++ [item]

/-- Modelled from the spec: `lcb_list_delete` of the list library ("deregistration"):
the item leaves the list it is in, the others keep their order. -/
def lcb_list_delete (l : List Nat) (item : Nat) : List Nat := l.filter (fun x => decide (x ≠ item))

/-- Embedding of `lcb_confmon_add_listener`, lines 356-360. -/
def lcb_confmon_add_listener {V : Type} (mon : lcb_confmon V) (listener : Nat) :
    lcb_confmon V :=
  { mon with listeners := lcb_list_append mon.listeners listener }

/-- Embedding of `lcb_confmon_remove_listener`, lines 362-366. -/
def lcb_confmon_remove_listener {V : Type} (mon : lcb_confmon V) (listener : Nat) :
    lcb_confmon V :=
  { mon with listeners := lcb_list_delete mon.listeners listener }

/-! ## Sequences of operations -/

/-- The operations on a monitor: the calls of the interface and the firing of the two
timers. -/
inductive MonOp where
  | prepare
  | set_provider_active (type : Nat) (enabled : Bool)
  | start (now_ns : Nat)
  | stop
  | provider_success (provider : Nat) (config : Nat)
  | provider_failed (provider : Nat) (reason : lcb_error_t)
  | start_timer
  | stop_timer (now_ns : Nat)
  | add_listener (listener : Nat)
  | remove_listener (listener : Nat)
  deriving DecidableEq, Repr

/-- The monitor after one operation; none when the operation aborts or, for a timer,
when it is not armed. -/
def apply_op {V D : Type} (ops : VBucketOps V D) (op : MonOp) (mon : lcb_confmon V) :
    Option (lcb_confmon V) :=
  match op with
  | MonOp.prepare => lcb_confmon_prepare mon
  | MonOp.set_provider_active type enabled => lcb_confmon_set_provider_active mon type enabled
  | MonOp.start now_ns => (lcb_confmon_start mon now_ns).map Prod.snd
  | MonOp.stop => some (lcb_confmon_stop mon)
  | MonOp.provider_success provider config =>
    lcb_confmon_provider_success ops mon provider config
  | MonOp.provider_failed provider reason => lcb_confmon_provider_failed mon provider reason
  | MonOp.start_timer => as_start_fire ops mon
  | MonOp.stop_timer now_ns => as_stop_fire mon now_ns
  | MonOp.add_listener listener => some (lcb_confmon_add_listener mon listener)
  | MonOp.remove_listener listener => some (lcb_confmon_remove_listener mon listener)

/-- The monitor after a sequence of operations, each of which must be allowed in the
state it is applied to; none when one is not allowed or gives no result. -/
def run_with {V D : Type} (ops : VBucketOps V D) (allow : MonOp → lcb_confmon V → Bool) :
    List MonOp → lcb_confmon V → Option (lcb_confmon V)
  | [], mon => some mon
  | op :: rest, mon =>
    if allow op mon then (apply_op ops op mon).bind (run_with ops allow rest) else none

/-- The monitor after a sequence of operations. -/
def run {V D : Type} (ops : VBucketOps V D) (trace : List MonOp) (mon : lcb_confmon V) :
    Option (lcb_confmon V) :=
  run_with ops (fun _ _ => true) trace mon

/-- Whether an operation arms the start-timer: a start, or a failure reported by the
current provider. -/
def rearms {V : Type} (op : MonOp) (mon : lcb_confmon V) : Bool :=
  match op with
  | MonOp.start _ => true
  | MonOp.provider_failed provider _ => decide (some provider = mon.cur_provider)
  | _ => false

/-- Whether an operation is a start. -/
def is_start : MonOp → Bool
  | MonOp.start _ => true
  | _ => false

/-- Whether a failure report comes while the monitor is Active or from a provider other
than the current one; every other operation passes. -/
def failure_while_active {V : Type} (op : MonOp) (mon : lcb_confmon V) : Bool :=
  match op with
  | MonOp.provider_failed provider _ =>
    decide (IS_REFRESHING mon ≠ 0) || decide (some provider ≠ mon.cur_provider)
  | _ => true

/-- Between `m` and `m'` the state flags and the start-timer are either both kept, or
the monitor became Idle with the start-timer disarmed. -/
def settled {V : Type} (m m' : lcb_confmon V) : Prop :=
  (m'.state = m.state ∧ m'.as_start = m.as_start) ∨
  (m'.state = CONFMON_S_INACTIVE ∧ m'.as_start = none)

/-- What one operation does to the state flags and the start-timer: it keeps them or
stops the monitor; or it is a start that makes the monitor Active and InGrace; or it is
a failure reported by the current provider that sets InGrace and arms the start-timer;
or it is the firing of the start-timer, which leaves the timer disarmed and clears
InGrace or stops the monitor. -/
def op_summary {V : Type} (op : MonOp) (m m' : lcb_confmon V) : Prop :=
  settled m m' ∨
  (is_start op = true ∧ m'.state = CONFMON_S_ACTIVE ||| CONFMON_S_ITERGRACE) ∨
  (rearms op m = true ∧ is_start op = false ∧
    m'.state = m.state ||| CONFMON_S_ITERGRACE) ∨
  (op = MonOp.start_timer ∧ m'.as_start = none ∧
    (m'.state = m.state &&& (4294967295 ^^^ CONFMON_S_ITERGRACE) ∨
      m'.state = CONFMON_S_INACTIVE))

/-- The three states of the specification: Idle, Active, Active with InGrace. -/
def legal_state (s : Nat) : Prop :=
  s = CONFMON_S_INACTIVE ∨ s = CONFMON_S_ACTIVE ∨ s = CONFMON_S_ACTIVE ||| CONFMON_S_ITERGRACE

/-- The contract of `lcb_confmon_stop` in the wording of the specification: in every
state reached from `init`, after the stop the monitor is Idle and the start-timer is
disarmed, and the start-timer cannot fire in any state reached from there by
operations other than a start. -/
def stop_contract {V D : Type} (ops : VBucketOps V D) (init : lcb_confmon V) : Prop :=
  ∀ trace mon, run ops trace init = some mon →
    (lcb_confmon_stop mon).state = CONFMON_S_INACTIVE ∧
    (lcb_confmon_stop mon).as_start = none ∧
    ∀ later mon2, (∀ op ∈ later, is_start op = false) →
      run ops later (lcb_confmon_stop mon) = some mon2 → as_start_fire ops mon2 = none

/-- The state invariant in the wording of the specification: every state reached from
`init` is Idle, Active, or Active with InGrace. -/
def state_contract {V D : Type} (ops : VBucketOps V D) (init : lcb_confmon V) : Prop :=
  ∀ trace mon, run ops trace init = some mon → legal_state mon.state

/-- The contract of `lcb_clconfig_create` on the comparison clock in the wording of the
specification: of two ConfigInfos from successive calls the later one carries the
strictly larger clock. -/
def clock_contract {V : Type} (config1 config2 : V) (origin1 origin2 : Nat) : Prop :=
  ∀ first second, lcb_clconfig_create true config1 origin1 = some first →
    lcb_clconfig_create true config2 origin2 = some second →
    first.cmpclock < second.cmpclock

/-! ## Dispatch with deregistration -/

/-- Modelled from the spec: what the callback of a listener may do to the listener list
while an event is dispatched ("a listener may deregister itself or its successor during
dispatch"). -/
inductive Dereg where
  | nothing
  | self
  | successor
  | self_and_successor
  deriving DecidableEq, Repr

/-- Whether the callback of a listener deregisters its own listener. -/
def removes_self : Dereg → Bool
  | Dereg.self => true
  | Dereg.self_and_successor => true
  | _ => false

/-- Whether the callback of a listener deregisters the successor of its listener. -/
def removes_successor : Dereg → Bool
  | Dereg.successor => true
  | Dereg.self_and_successor => true
  | _ => false

/-- Modelled from the spec: the iteration `LCB_LIST_SAFE_FOR` of the list library, which
is not among the sources ("invoked synchronously, in registration order, with
safe-for-removal iteration (a listener may deregister itself or its successor during
dispatch)"), together with the `lcb_list_delete` calls the callbacks make. The result is
the listeners called, in order, and the listeners of the list that are still registered
at the end. The specification does not say whether a successor that the running callback
deregisters still gets the event: with `late` set it does, as the iteration of
`invoke_listeners` keeps the next node in its second cursor `ll_next` while the callback
runs, and the iteration goes on from it; with `late` clear it does not, as it is no
longer registered when its turn comes. -/
def safe_for (late : Bool) (effect : Nat → Dereg) : List Nat → List Nat × List Nat
  | [] => ([], [])
  | [lsn] => ([lsn], if removes_self (effect lsn) then [] else [lsn])
  | lsn :: nxt :: rest =>
    let r : List Nat × List Nat :=
      if removes_successor (effect lsn) then
        if late then
          ((safe_for late effect (nxt :: rest)).1,
            (safe_for late effect (nxt :: rest)).2.filter (fun x => decide (x ≠ nxt)))
        else safe_for late effect rest
      else safe_for late effect (nxt :: rest)
    (lsn :: r.1, if removes_self (effect lsn) then r.2 else lsn :: r.2)

/-- Embedding of `invoke_listeners`, lines 368-377, for callbacks that deregister
listeners: `effect lsn` is what the callback of `lsn` does to the list. -/
def invoke_listeners_dereg {V : Type} (mon : lcb_confmon V) (event : clconfig_event_t)
    (info : Option Nat) (late : Bool) (effect : Nat → Dereg) : lcb_confmon V :=
  { mon with
    log := mon.log ++ (safe_for late effect mon.listeners).1.map
      (fun lsn => Call.callback lsn event info mon.config mon.state)
    listeners := (safe_for late effect mon.listeners).2 }

/-- The monitor after a sequence of `lcb_confmon_add_listener` (`true`) and
`lcb_confmon_remove_listener` (`false`) calls. -/
def listener_calls {V : Type} : List (Bool × Nat) → lcb_confmon V → lcb_confmon V
  | [], mon => mon
  | (true, lsn) :: rest, mon => listener_calls rest (lcb_confmon_add_listener mon lsn)
  | (false, lsn) :: rest, mon => listener_calls rest (lcb_confmon_remove_listener mon lsn)

/-- The listeners a sequence of calls adds, in the order of the calls. -/
def added : List (Bool × Nat) → List Nat
  | [] => []
  | (true, lsn) :: rest => lsn :: added rest
  | (false, _) :: rest => added rest

/-- The listeners that a sequence of calls adds and does not remove afterwards, in the
order of the calls that add them. -/
def survivors : List (Bool × Nat) → List Nat
  | [] => []
  | (true, lsn) :: rest =>
    if (false, lsn) ∈ rest then survivors rest else lsn :: survivors rest
  | (false, _) :: rest => survivors rest

/-- The registered listeners in the wording of the specification ("each currently
registered listener", "in registration order"): the listeners registered before that no
call of the sequence removes, then the listeners that a call adds and no later call
removes, in the order in which they were added. -/
def registered (before : List Nat) (lops : List (Bool × Nat)) : List Nat :=
  before.filter (fun lsn => decide ((false, lsn) ∉ lops)) ++ survivors lops

/-- Every `lcb_confmon_add_listener` call of the sequence adds a listener that is not
in the list at that time (a list node is in one place of one list). -/
def adds_fresh : List (Bool × Nat) → List Nat → Prop
  | [], _ => True
  | (true, lsn) :: rest, l => lsn ∉ l ∧ adds_fresh rest (lcb_list_append l lsn)
  | (false, lsn) :: rest, l => adds_fresh rest (lcb_list_delete l lsn)

/-! ## The cursor -/

/-- The cursor `cur_provider` is not null and is a member of the active list. -/
def cursor_valid {V : Type} (m : lcb_confmon V) : Prop :=
  ∃ p, m.cur_provider = some p ∧ p ∈ m.active_providers

/-! ## Cached configurations -/

/-- Whether a logged call is one of the calls of an accepting `do_set_next`: the
destructor of the configuration released, a `config_updated` hook, or a `GotNewConfig`
callback. A `get_cached`, `refresh` or `pause` call and a callback with another event
are not. -/
def install_call {V : Type} : Call V → Bool
  | Call.vbucket_config_destroy _ => true
  | Call.config_updated _ _ => true
  | Call.callback _ clconfig_event_t.CLCONFIG_EVENT_GOT_NEW_CONFIG _ _ _ => true
  | _ => false

/-- Every cached configuration of the providers of `l` is rejected by `do_set_next` on
`mon`. -/
def all_rejected {V D : Type} (ops : VBucketOps V D) (mon : lcb_confmon V) (l : List Nat) :
    Prop :=
  ∀ q ∈ l, ∀ info, get_cached mon q = some (some info) →
    (do_set_next ops mon info false).map Prod.fst = some false

/-- The behaviour of `do_next_provider` on cached configurations in the wording of the
specification: when the first active provider that has a cached ConfigInfo has it
rejected, `do_next_provider` returns failure. -/
def first_cached_contract {V D : Type} (ops : VBucketOps V D) (mon : lcb_confmon V) : Prop :=
  ∀ p info,
    mon.active_providers.find? (fun q => (get_cached mon q).join.isSome) = some p →
    get_cached mon p = some (some info) →
    (do_set_next ops mon info false).map Prod.fst = some false →
    (do_next_provider ops mon).map Prod.fst = some false

/-! ## Example inputs -/

/-- A configuration object for the examples: a revision and a server map. -/
structure ExVbc where
  revision : Int
  map : Nat
  deriving DecidableEq, Repr

/-- Operations on `ExVbc`: the diff is 1 when the maps differ and 0 when they agree. -/
def exOps : VBucketOps ExVbc Nat where
  vbucket_config_get_revision := fun v => v.revision
  vbucket_compare := fun a b => some (if a.map = b.map then 0 else 1)
  vbucket_what_changed := fun d => d

/-- Operations on `ExVbc` whose `vbucket_compare` gives a null pointer. -/
def exOpsNoDiff : VBucketOps ExVbc Nat where
  vbucket_config_get_revision := fun v => v.revision
  vbucket_compare := fun _ _ => none
  vbucket_what_changed := fun d => d

/-- A heap in which cell `i` holds a configuration of revision `i` and map `i`, with
comparison clock `i` and one reference. -/
def exHeap : Nat → clconfig_info ExVbc := fun i =>
  { vbc := { revision := i, map := i }, cmpclock := i, refcount := 1, origin := 0 }

/-- Two enabled providers; the second one has the ConfigInfo of cell 1 cached. -/
def exProviders : List (Option clconfig_provider) :=
  [some { type := 0, enabled := true, has_pause := true, has_config_updated := true,
          has_get_cached := true, has_refresh := true, cached := none },
   some { type := 1, enabled := true, has_pause := false, has_config_updated := false,
          has_get_cached := true, has_refresh := true, cached := some 1 }]

/-- An Active monitor that holds the configuration of cell 1, with both providers
active, the cursor at the head and two listeners. -/
def exMon : lcb_confmon ExVbc where
  config := some 1
  all_providers := exProviders
  active_providers := [0, 1]
  cur_provider := some 0
  state := CONFMON_S_ACTIVE
  last_stop_us := 0
  last_error := 7
  listeners := [10, 11]
  as_start := none
  as_stop := none
  grace_next_provider := 5
  grace_next_cycle := 10
  heap := exHeap
  freed := []
  log := []

/-- A monitor as `lcb_confmon_create` gives it: the file and the CCCP provider are
enabled and have nothing cached, the HTTP provider is disabled, and the user provider is
the one of `lcb_clconfig_create_user`. -/
def exInit : lcb_confmon ExVbc :=
  lcb_confmon_create
    [{ type := 0, enabled := true, has_pause := true, has_config_updated := true,
       has_get_cached := true, has_refresh := true, cached := none },
     { type := 1, enabled := true, has_pause := false, has_config_updated := false,
       has_get_cached := true, has_refresh := true, cached := none },
     { type := 2, enabled := false, has_pause := false, has_config_updated := false,
       has_get_cached := true, has_refresh := true, cached := none },
     lcb_clconfig_create_user]
    5 10 exHeap

/-- A heap with three rival configurations: cell 0 has revision 5 and comparison clock
1, cell 1 exposes no revision (`-1`) and has clock 2, cell 2 has revision 3 and clock 3;
the other cells are as in `exHeap`. The maps differ. -/
def exHeapMixed : Nat → clconfig_info ExVbc := fun i =>
  if i = 0 then { vbc := { revision := 5, map := 0 }, cmpclock := 1, refcount := 1, origin := 0 }
  else if i = 1 then
    { vbc := { revision := -1, map := 1 }, cmpclock := 2, refcount := 1, origin := 0 }
  else if i = 2 then
    { vbc := { revision := 3, map := 2 }, cmpclock := 3, refcount := 1, origin := 0 }
  else exHeap i

/-- An Active monitor over `exHeapMixed` that holds the configuration of cell 0. -/
def exMonMixed : lcb_confmon ExVbc :=
  { exMon with config := some 0, heap := exHeapMixed }

/-- An Active monitor that holds the configuration of cell 1 of `exHeap`, whose two
active providers both have a cached ConfigInfo: the first the one of cell 1 (the
configuration held), the second the one of cell 2 (a newer one). -/
def exMonCached : lcb_confmon ExVbc :=
  { exMon with
    all_providers :=
      [some { type := 0, enabled := true, has_pause := true, has_config_updated := true,
              has_get_cached := true, has_refresh := true, cached := some 1 },
       some { type := 1, enabled := true, has_pause := false, has_config_updated := false,
              has_get_cached := true, has_refresh := true, cached := some 2 }] }

/-- Four listeners are added and the first one is removed again. -/
def exLops : List (Bool × Nat) := [(true, 10), (true, 11), (true, 12), (true, 13), (false, 10)]

/-- The callback of listener 11 deregisters its successor, the one of listener 13 its own
listener; the others deregister nothing. -/
def exEffect : Nat → Dereg := fun lsn =>
  if lsn = 11 then Dereg.successor else if lsn = 13 then Dereg.self else Dereg.nothing

end Confmon

/-! # Packets (`mcreq.h`)

`mcreq.h` declares the packet record, its flags and the packet functions; of the
functions it holds only the macros. The functions whose bodies are elsewhere are
modelled from the specification, over a memory of blocks: a block belongs to the buffer
manager of a pipeline, to the user, or to `malloc`, and holds bytes or an IOV array. An
address is the index of a block. A failed allocation gives `nomem`, an access to a block
that is not there gives `fault`.
-/

namespace Mcreq

/-! ## Flags and the packet record -/

/-- The constant `MCREQ_PKT_BASESIZE`, line 123. -/
def MCREQ_PKT_BASESIZE : Nat := 24

/-- The flag `MCREQ_F_KEY_NOCOPY` of `mcreq_flags`, lines 171-217: `1 << 0`. -/
def MCREQ_F_KEY_NOCOPY : Nat := 1

/-- The flag `MCREQ_F_VALUE_NOCOPY`: `1 << 1`. -/
def MCREQ_F_VALUE_NOCOPY : Nat := 2

/-- The flag `MCREQ_F_VALUE_IOV`: `1 << 2`. -/
def MCREQ_F_VALUE_IOV : Nat := 4

/-- The flag `MCREQ_F_HASVALUE`: `1 << 3`. -/
def MCREQ_F_HASVALUE : Nat := 8

/-- The flag `MCREQ_F_REQEXT`: `1 << 4`. -/
def MCREQ_F_REQEXT : Nat := 16

/-- The flag `MCREQ_F_UFWD`: `1 << 5`. -/
def MCREQ_F_UFWD : Nat := 32

/-- The flag `MCREQ_F_FLUSHED`: `1 << 6`. -/
def MCREQ_F_FLUSHED : Nat := 64

/-- The flag `MCREQ_F_INVOKED`: `1 << 7`. -/
def MCREQ_F_INVOKED : Nat := 128

/-- The flag `MCREQ_F_PASSTHROUGH`: `1 << 8`. -/
def MCREQ_F_PASSTHROUGH : Nat := 256

/-- The flag `MCREQ_F_DETACHED`: `1 << 9`. -/
def MCREQ_F_DETACHED : Nat := 512

/-- Conversion to `uint16_t`, the type of `mc_PACKET.flags` and of the 16-bit fields of
the header. -/
def toUInt16 (x : Nat) : Nat := x % 65536

/-- Conversion to `uint8_t`, the type of `mc_PACKET.extlen` and of the `extlen` and
`hdrsize` parameters. -/
def toUInt8 (x : Nat) : Nat := x % 256

/-- Modelled from the spec: the record `nb_SPAN` of the buffer library, which is not
among the sources ("record the span"): the address of the storage and its size. -/
structure nb_SPAN where
  buffer : Nat
  size : Nat
  deriving DecidableEq, Repr

/-- The union `mc_VALUE`, lines 225-231: a single span or a set of IOV buffers
(`lcb_FRAGBUF`: the address of the IOV array, `niov` and `total_length`); `unset` is the
zeroed union of a packet without value. -/
inductive mc_VALUE where
  | unset
  | single (span : nb_SPAN)
  | multi (iov : Nat) (niov : Nat) (total_length : Nat)
  deriving DecidableEq, Repr

/-- The record `mc_PACKET`, lines 250-283, without the list nodes, the user data and the
allocation parent. `opaque_id` is the field `opaque`. -/
structure mc_PACKET where
  kh_span : nb_SPAN
  extlen : Nat
  retries : Nat
  flags : Nat
  opaque_id : Nat
  u_value : mc_VALUE
  deriving DecidableEq, Repr

/-- Embedding of the macro `mcreq_packet_handled`, lines 708-713. The second component
holds the arguments of the `mcreq_packet_done` calls made. -/
def mcreq_packet_handled (pipeline : Nat) (pkt : mc_PACKET) :
    mc_PACKET × List (Nat × mc_PACKET) :=
  let pkt1 := { pkt with flags := toUInt16 (pkt.flags ||| MCREQ_F_INVOKED) }
  if pkt1.flags &&& MCREQ_F_FLUSHED ≠ 0 then
    (pkt1, [(pipeline, pkt1)])
  else
    (pkt1, [])

/-! ## Memory -/

/-- Who a block of storage belongs to: the buffer manager of a pipeline, the user, or
`malloc`. -/
inductive Storage where
  | nbmgr (pipeline : Nat)
  | user
  | malloc
  deriving DecidableEq, Repr

/-- What a block holds: bytes, or an array of IOV elements (base address and length). -/
inductive Content where
  | bytes (data : List Nat)
  | iov (elems : List (Nat × Nat))
  deriving DecidableEq, Repr

/-- A block of storage. -/
structure Block where
  storage : Storage
  content : Content
  deriving DecidableEq, Repr

/-- The memory: the blocks by address (`none`: given back), and the number of
allocations the pipelines' allocators can still serve. -/
structure Memory where
  blocks : List (Option Block)
  room : Nat
  deriving DecidableEq, Repr

/-- The result of a packet function. -/
inductive Outcome (α : Type) where
  | ok (val : α)
  | nomem
  | fault
  deriving DecidableEq, Repr

/-- The block at an address, if it is there. -/
def block_at (mem : Memory) (addr : Nat) : Option Block :=
  (mem.blocks.get? addr).join

/-- The bytes at an address. -/
def bytes_at (mem : Memory) (addr : Nat) : Option (List Nat) :=
  match block_at mem addr with
  | some { storage := _, content := Content.bytes data } => some data
  | _ => none

/-- The IOV array at an address. -/
def iov_at (mem : Memory) (addr : Nat) : Option (List (Nat × Nat)) :=
  match block_at mem addr with
  | some { storage := _, content := Content.iov elems } => some elems
  | _ => none

/-- The bytes of a span: `SPAN_BUFFER(span)` over `span->size` bytes. -/
def span_bytes (mem : Memory) (span : nb_SPAN) : Option (List Nat) :=
  (bytes_at mem span.buffer).map (fun data => data.take span.size)

/-- Modelled from the spec: a reservation in the buffer manager of a pipeline ("carve
bytes in the pipeline's coalescing buffer manager"): a new block of that pipeline, or
nothing when the allocator has no room. -/
def reserve (mem : Memory) (pipeline : Nat) (content : Content) : Option (Nat × Memory) :=
  if mem.room = 0 then
    none
  else
    some (mem.blocks.length,
      { blocks := mem.blocks ++ [some { storage := Storage.nbmgr pipeline, content := content }]
        room := mem.room - 1 })

/-- Modelled from the spec: an allocation by `malloc` ("malloc-owned storage"): a new
block that belongs to no pipeline. -/
def malloc (mem : Memory) (content : Content) : Nat × Memory :=
  (mem.blocks.length,
    { mem with blocks := mem.blocks ++ [some { storage := Storage.malloc, content := content }] })

/-- A block is given back to the owner `storage`; a fault when it is not there or
belongs to someone else. -/
def give_back (mem : Memory) (storage : Storage) (addr : Nat) : Option Memory :=
  match block_at mem addr with
  | some block =>
    if block.storage = storage then some { mem with blocks := mem.blocks.set addr none }
    else none
  | none => none

/-- Bytes are written at the start of the block at an address (`memcpy`); a fault when
the block is not there or too short. -/
def write_bytes (mem : Memory) (addr : Nat) (data : List Nat) : Option Memory :=
  match block_at mem addr with
  | some { storage := storage, content := Content.bytes old } =>
    if data.length ≤ old.length then
      some { mem with
        blocks := mem.blocks.set addr
          (some { storage := storage, content := Content.bytes (data ++ old.drop data.length) }) }
    else none
  | _ => none

/-! ## Packet functions -/

/-- Modelled from the spec: `mcreq_allocate_packet`, whose body is not among the sources
("zeroed skeleton drawn from the per-pipeline packet allocator"); nothing when the
allocator has no room. -/
def mcreq_allocate_packet (mem : Memory) (_pipeline : Nat) : Option (mc_PACKET × Memory) :=
  if mem.room = 0 then
    none
  else
    some ({ kh_span := { buffer := 0, size := 0 }, extlen := 0, retries := 0, flags := 0,
            opaque_id := 0, u_value := mc_VALUE.unset },
          { mem with room := mem.room - 1 })

/-- Modelled from the spec: `mcreq_release_packet`, whose body is not among the sources
("return each packet record to the allocator"; a detached packet "may be ... freed
without" a pipeline): a fault when a packet that is not detached is released with no
pipeline. -/
def mcreq_release_packet (mem : Memory) (pipeline : Option Nat) (pkt : mc_PACKET) :
    Option Memory :=
  if pkt.flags &&& MCREQ_F_DETACHED ≠ 0 then
    some mem
  else
    match pipeline with
    | none => none
    | some _ => some { mem with room := mem.room + 1 }

/-- Modelled from the spec: `mcreq_reserve_header`, whose body is not among the sources
("carve `hdrlen` bytes in the pipeline's coalescing buffer manager for the
header+extras; record the span in `pkt.kh_span`"). `hdrsize` is a `uint8_t`; the extras
length of the packet is what exceeds the 24 bytes of the header. -/
def mcreq_reserve_header (mem : Memory) (pipeline : Nat) (pkt : mc_PACKET) (hdrsize : Nat) :
    Outcome (mc_PACKET × Memory) :=
  match reserve mem pipeline (Content.bytes (List.replicate (toUInt8 hdrsize) 0)) with
  | none => Outcome.nomem
  | some (addr, mem1) =>
    Outcome.ok
      ({ pkt with
         kh_span := { buffer := addr, size := toUInt8 hdrsize }
         extlen := toUInt8 (toUInt8 hdrsize + 256 - MCREQ_PKT_BASESIZE) },
       mem1)

/-- Modelled from the spec: the request header of the wire protocol ("24-byte header
(magic, opcode, key length, extras length, data type, vbucket/status, total body length,
opaque, CAS)"). A field holds the value the header stands for, `header_bytes` gives the
bytes on the wire. -/
structure protocol_binary_request_header where
  magic : Nat
  opcode : Nat
  keylen : Nat
  extlen : Nat
  datatype : Nat
  vbucket : Nat
  bodylen : Nat
  opaque_id : Nat
  cas : Nat
  deriving DecidableEq, Repr

/-- A 16-bit value as two bytes, the high byte first ("headers big-endian"). -/
def be16 (x : Nat) : List Nat := [x / 256 % 256, x % 256]

/-- A 32-bit value as four bytes, the high byte first. -/
def be32 (x : Nat) : List Nat := be16 (x / 65536) ++ be16 x

/-- A 64-bit value as eight bytes, the high byte first. -/
def be64 (x : Nat) : List Nat := be32 (x / 4294967296) ++ be32 x

/-- Modelled from the spec: the 24 bytes of a request header, the fields in the order of
the wire protocol, each big-endian. -/
def header_bytes (h : protocol_binary_request_header) : List Nat :=
  [h.magic % 256, h.opcode % 256] ++ be16 h.keylen ++ [h.extlen % 256, h.datatype % 256] ++
    be16 h.vbucket ++ be32 h.bodylen ++ be32 h.opaque_id ++ be64 h.cas

/-- The value of the two bytes at offset `i`, the high byte first (`ntohs`). -/
def read_be16 (data : List Nat) (i : Nat) : Nat :=
  data.getD i 0 * 256 + data.getD (i + 1) 0

/-- Embedding of the macro `mcreq_write_hdr`, lines 772-773: the bytes of the header are
copied to the start of the key/header span. -/
def mcreq_write_hdr (mem : Memory) (pkt : mc_PACKET) (hdr : protocol_binary_request_header) :
    Option Memory :=
  write_bytes mem pkt.kh_span.buffer (header_bytes hdr)

/-- Modelled from the spec: the configuration object the queue borrows ("it exposes
`key→vbucket` mapping, `vbucket→server-slot` mapping"). A vbucket is a 16-bit number,
as in the header. -/
structure VBConfig where
  vbucket_by_key : List Nat → Fin 65536
  master : Nat → Option Nat

/-- Modelled from the spec: the part of `lcb_CMDBASE` that `mcreq_basic_packet` reads:
the key and the hashkey (empty when the command has none). -/
structure lcb_CMDBASE where
  key : List Nat
  hashkey : List Nat
  deriving DecidableEq, Repr

/-- The record `mc_CMDQUEUE`, lines 349-372: the pipelines are the numbers below
`npipelines`. -/
structure mc_CMDQUEUE where
  npipelines : Nat
  seq : Nat
  config : VBConfig
  nremaining : Nat

/-- The key that decides the vbucket of a command ("the command's hashkey (or key)"). -/
def hash_target (cmd : lcb_CMDBASE) : List Nat :=
  if cmd.hashkey = [] then cmd.key else cmd.hashkey

/-- Modelled from the spec: `mcreq_basic_packet`, whose body is not among the sources
("derive the vbucket via the configuration's key-hash on the command's hashkey (or key),
map vbucket to pipeline via the server-slot table, allocate a packet in that pipeline,
and reserve `BASESIZE (24) + extlen + key.len` bytes; write the vbucket and key length
into `hdr`. Fails with `NoMemory` on allocation failure"). The key bytes come after the
header and the extras; `extlen` is a `uint8_t`, the key length in the header a 16-bit
field. The result is the header, the packet, the pipeline and the memory. -/
def mcreq_basic_packet (mem : Memory) (queue : mc_CMDQUEUE) (cmd : lcb_CMDBASE)
    (req : protocol_binary_request_header) (extlen : Nat) :
    Outcome (protocol_binary_request_header × mc_PACKET × Nat × Memory) :=
  let vb := queue.config.vbucket_by_key (hash_target cmd)
  match queue.config.master vb.val with
  | none => Outcome.fault
  | some srvix =>
    if srvix ≥ queue.npipelines then
      Outcome.fault
    else
      match mcreq_allocate_packet mem srvix with
      | none => Outcome.nomem
      | some (pkt, mem1) =>
        let hdrsize := MCREQ_PKT_BASESIZE + toUInt8 extlen
        match reserve mem1 srvix (Content.bytes (List.replicate hdrsize 0 ++ cmd.key)) with
        | none => Outcome.nomem
        | some (addr, mem2) =>
          Outcome.ok
            ({ req with
               keylen := toUInt16 cmd.key.length
               vbucket := vb.val
               extlen := toUInt8 extlen },
             { pkt with
               kh_span := { buffer := addr, size := hdrsize + cmd.key.length }
               extlen := toUInt8 extlen },
             srvix, mem2)

/-- Modelled from the spec: `mcreq_get_key`, whose body is not among the sources
("`get_key(pkt) = ("Hello", 5)`"): the bytes of the key/header span after the header and
the extras, and their number. -/
def mcreq_get_key (mem : Memory) (pkt : mc_PACKET) : Option (List Nat × Nat) :=
  match span_bytes mem pkt.kh_span with
  | none => none
  | some data =>
    some (data.drop (MCREQ_PKT_BASESIZE + pkt.extlen),
      pkt.kh_span.size - (MCREQ_PKT_BASESIZE + pkt.extlen))

/-- Modelled from the spec: the value a caller hands to `mcreq_reserve_value`
(`lcb_VALBUF`, declared in the public headers): contiguous bytes to copy, contiguous
bytes the caller keeps stable, or an IOV array of `niov` elements, each at an address of
the memory. -/
inductive lcb_VALBUF where
  | copy (bytes : Nat) (nbytes : Nat)
  | contig (bytes : Nat) (nbytes : Nat)
  | iov (iov : Nat) (niov : Nat)
  deriving DecidableEq, Repr

/-- The sum of the lengths of IOV elements. -/
def iov_total : List (Nat × Nat) → Nat
  | [] => 0
  | (_, len) :: rest => len + iov_total rest

/-- Modelled from the spec: `mcreq_reserve_value`, whose body is not among the sources
("contiguous copy → reserve `value.len` bytes in the manager, copy in, set `HasValue`.
contiguous user-owned → record pointer/len, set `HasValue | ValueNoCopy`. scatter/gather
→ copy the IOV array into a pipeline-owned array, compute total length, set
`HasValue | ValueIOV | ValueNoCopy`"). -/
def mcreq_reserve_value (mem : Memory) (pipeline : Nat) (pkt : mc_PACKET)
    (vreq : lcb_VALBUF) : Outcome (mc_PACKET × Memory) :=
  match vreq with
  | lcb_VALBUF.copy bytes nbytes =>
    match bytes_at mem bytes with
    | none => Outcome.fault
    | some data =>
      match reserve mem pipeline (Content.bytes (data.take nbytes)) with
      | none => Outcome.nomem
      | some (addr, mem1) =>
        Outcome.ok
          ({ pkt with
             u_value := mc_VALUE.single { buffer := addr, size := nbytes }
             flags := toUInt16 (pkt.flags ||| MCREQ_F_HASVALUE) },
           mem1)
  | lcb_VALBUF.contig bytes nbytes =>
    Outcome.ok
      ({ pkt with
         u_value := mc_VALUE.single { buffer := bytes, size := nbytes }
         flags := toUInt16 (pkt.flags ||| (MCREQ_F_HASVALUE ||| MCREQ_F_VALUE_NOCOPY)) },
       mem)
  | lcb_VALBUF.iov iov niov =>
    match iov_at mem iov with
    | none => Outcome.fault
    | some elems =>
      match reserve mem pipeline (Content.iov (elems.take niov)) with
      | none => Outcome.nomem
      | some (addr, mem1) =>
        Outcome.ok
          ({ pkt with
             u_value := mc_VALUE.multi addr niov (iov_total (elems.take niov))
             flags := toUInt16 (pkt.flags |||
               (MCREQ_F_HASVALUE ||| MCREQ_F_VALUE_IOV ||| MCREQ_F_VALUE_NOCOPY)) },
           mem1)

/-- The bytes of the fragments of an IOV array, one after the other. -/
def gather (mem : Memory) : List (Nat × Nat) → Option (List Nat)
  | [] => some []
  | (base, len) :: rest =>
    match bytes_at mem base, gather mem rest with
    | some data, some tail => some (data.take len ++ tail)
    | _, _ => none

/-- Modelled from the spec: `mcreq_dup_packet`, whose body is not among the sources
("produces a detached copy whose header+value live in malloc-owned storage (not any
pipeline's manager), with flag `Detached`"). The copy no longer borrows user buffers. -/
def mcreq_dup_packet (mem : Memory) (src : mc_PACKET) : Option (mc_PACKET × Memory) :=
  match span_bytes mem src.kh_span with
  | none => none
  | some kdata =>
    let kh := malloc mem (Content.bytes kdata)
    let dst : mc_PACKET :=
      { src with
        kh_span := { buffer := kh.1, size := src.kh_span.size }
        flags := toUInt16 ((src.flags &&& (65535 ^^^
          (MCREQ_F_KEY_NOCOPY ||| MCREQ_F_VALUE_NOCOPY ||| MCREQ_F_VALUE_IOV))) |||
          MCREQ_F_DETACHED) }
    if src.flags &&& MCREQ_F_HASVALUE = 0 then
      some (dst, kh.2)
    else
      match src.u_value with
      | mc_VALUE.unset => some (dst, kh.2)
      | mc_VALUE.single span =>
        match span_bytes kh.2 span with
        | none => none
        | some vdata =>
          let v := malloc kh.2 (Content.bytes vdata)
          some ({ dst with u_value := mc_VALUE.single { buffer := v.1, size := span.size } },
            v.2)
      | mc_VALUE.multi iov niov _ =>
        match (iov_at kh.2 iov).bind (fun elems => gather kh.2 (elems.take niov)) with
        | none => none
        | some vdata =>
          let v := malloc kh.2 (Content.bytes vdata)
          some ({ dst with u_value := mc_VALUE.single { buffer := v.1, size := vdata.length } },
            v.2)

/-- The owner the buffers of a packet go back to: `malloc` for a detached packet, the
buffer manager of the pipeline otherwise; none when a pipeline is needed and not
given. -/
def buffer_owner (pipeline : Option Nat) (pkt : mc_PACKET) : Option Storage :=
  if pkt.flags &&& MCREQ_F_DETACHED ≠ 0 then some Storage.malloc
  else pipeline.map Storage.nbmgr

/-- Modelled from the spec: `mcreq_wipe_packet`, whose body is not among the sources
("wipe their reserved buffers"; in `mcreq.h`: "Wipe the packet's internal buffers,
releasing them"): the key/header span goes back unless the key is the user's, the value
span unless the value is the user's, and the copied IOV array of a scatter/gather
value. -/
def mcreq_wipe_packet (mem : Memory) (pipeline : Option Nat) (pkt : mc_PACKET) :
    Option Memory :=
  let wiped_key :=
    if pkt.flags &&& MCREQ_F_KEY_NOCOPY ≠ 0 then some mem
    else (buffer_owner pipeline pkt).bind (fun o => give_back mem o pkt.kh_span.buffer)
  match wiped_key with
  | none => none
  | some mem1 =>
    if pkt.flags &&& MCREQ_F_HASVALUE = 0 then
      some mem1
    else
      match pkt.u_value with
      | mc_VALUE.unset => some mem1
      | mc_VALUE.single span =>
        if pkt.flags &&& MCREQ_F_VALUE_NOCOPY ≠ 0 then some mem1
        else (buffer_owner pipeline pkt).bind (fun o => give_back mem1 o span.buffer)
      | mc_VALUE.multi iov _ _ =>
        (buffer_owner pipeline pkt).bind (fun o => give_back mem1 o iov)

/-- Modelled from the spec: `mcreq_pipeline_cleanup`, whose body is not among the
sources ("Cleans up any initialization from pipeline_init"): every block of the buffer
manager of the pipeline is gone. -/
def mcreq_pipeline_cleanup (mem : Memory) (pipeline : Nat) : Memory :=
  { mem with
    blocks := mem.blocks.map (fun b =>
      match b with
      | some block => if block.storage = Storage.nbmgr pipeline then none else some block
      | none => none) }

/-- The round trip of a key in the wording of the specification: after
`mcreq_basic_packet` succeeds for a command with the key `k` and the header is written
into the key/header span, the key-length field is the length of `k`, on the wire as in
the header, the vbucket field is the vbucket of `k`, and `mcreq_get_key` gives `k` and
its length. -/
def key_contract (mem : Memory) (queue : mc_CMDQUEUE) (req : protocol_binary_request_header)
    (k : List Nat) (e : Nat) : Prop :=
  ∀ hdr pkt pipeline mem1,
    mcreq_basic_packet mem queue { key := k, hashkey := [] } req e
      = Outcome.ok (hdr, pkt, pipeline, mem1) →
    ∃ mem2 data, mcreq_write_hdr mem1 pkt hdr = some mem2 ∧
      span_bytes mem2 pkt.kh_span = some data ∧
      hdr.keylen = k.length ∧ read_be16 data 2 = k.length ∧
      hdr.vbucket = (queue.config.vbucket_by_key k).val ∧
      read_be16 data 6 = (queue.config.vbucket_by_key k).val ∧
      mcreq_get_key mem2 pkt = some (k, k.length)

/-- The value of a packet of a pipeline is in the memory as the packet says: a value
span is a block of bytes, which belongs to the pipeline and is not the block of the
header unless the value is the user's (`MCREQ_F_VALUE_NOCOPY`); the IOV array of a
scatter/gather value is a block of the pipeline and its fragments are in the memory. A
packet without `MCREQ_F_HASVALUE` has no value to look at. -/
def value_reserved (mem : Memory) (pipeline : Nat) (pkt : mc_PACKET) : Prop :=
  pkt.flags &&& MCREQ_F_HASVALUE ≠ 0 →
    match pkt.u_value with
    | mc_VALUE.unset => True
    | mc_VALUE.single span =>
      ∃ st vdata,
        block_at mem span.buffer = some { storage := st, content := Content.bytes vdata } ∧
        (pkt.flags &&& MCREQ_F_VALUE_NOCOPY = 0 →
          st = Storage.nbmgr pipeline ∧ span.buffer ≠ pkt.kh_span.buffer)
    | mc_VALUE.multi iov niov _ =>
      ∃ elems vdata,
        block_at mem iov =
          some { storage := Storage.nbmgr pipeline, content := Content.iov elems } ∧
        gather mem (elems.take niov) = some vdata

/-- Every block of `malloc` of `mem` is a block of `mem1`, unchanged. -/
def keeps_malloc (mem mem1 : Memory) : Prop :=
  ∀ addr b, block_at mem addr = some b → b.storage = Storage.malloc →
    block_at mem1 addr = some b

/-- Every block of `mem1` is a block of `mem`, unchanged. -/
def only_drops (mem mem1 : Memory) : Prop :=
  ∀ addr b, block_at mem1 addr = some b → block_at mem addr = some b

/-! ## Example inputs -/

/-- A configuration with 1024 vbuckets on 4 servers: the vbucket of a key is the sum of
its bytes modulo 1024. -/
def exConfig : VBConfig where
  vbucket_by_key := fun key => ⟨key.foldl (fun a b => a + b) 0 % 1024, by omega⟩
  master := fun vb => some (vb % 4)

/-- A queue of 4 pipelines over `exConfig`. -/
def exQueue : mc_CMDQUEUE where
  npipelines := 4
  seq := 0
  config := exConfig
  nremaining := 0

/-- A memory with two blocks of the user: the bytes of "World", and an IOV array of two
elements over them, `("Wor", 3)` and `("ld", 2)` (block 2 holds "ld"). -/
def exMem : Memory where
  blocks :=
    [some { storage := Storage.user, content := Content.bytes [87, 111, 114, 108, 100] },
     some { storage := Storage.user, content := Content.iov [(0, 3), (2, 2)] },
     some { storage := Storage.user, content := Content.bytes [108, 100] }]
  room := 8

/-- A zeroed request header. -/
def exHdr : protocol_binary_request_header where
  magic := 0
  opcode := 0
  keylen := 0
  extlen := 0
  datatype := 0
  vbucket := 0
  bodylen := 0
  opaque_id := 0
  cas := 0

/-- The bytes of "Hello". -/
def exKey : List Nat := [72, 101, 108, 108, 111]

/-- The memory after a packet is allocated in pipeline 0 of `exMem` and a header of 24
bytes is reserved for it: block 3 is the header. -/
def exMemHdr : Memory where
  blocks := exMem.blocks ++
    [some { storage := Storage.nbmgr 0, content := Content.bytes (List.replicate 24 0) }]
  room := 6

/-- The packet with the header reserved in `exMemHdr`. -/
def exSrc : mc_PACKET where
  kh_span := { buffer := 3, size := 24 }
  extlen := 0
  retries := 0
  flags := 0
  opaque_id := 0
  u_value := mc_VALUE.unset

/-- A zeroed packet, as `mcreq_allocate_packet` gives. -/
def exPkt : mc_PACKET where
  kh_span := { buffer := 0, size := 0 }
  extlen := 0
  retries := 0
  flags := 0
  opaque_id := 0
  u_value := mc_VALUE.unset

/-- The memory after the IOV array of the user (block 1) is reserved as value for the
packet of `exSrc`: block 4 is the copy of the array in pipeline 0. -/
def exMemIov : Memory where
  blocks := exMemHdr.blocks ++
    [some { storage := Storage.nbmgr 0, content := Content.iov [(0, 3), (2, 2)] }]
  room := 5

/-- The packet of `exSrc` with the scatter/gather value reserved in `exMemIov`. -/
def exSrcIov : mc_PACKET where
  kh_span := { buffer := 3, size := 24 }
  extlen := 0
  retries := 0
  flags := 14
  opaque_id := 0
  u_value := mc_VALUE.multi 4 2 5

end Mcreq

/-! # Socket context (`ctx.c`)

A shallow embedding of `deps/lcb/src/lcbio/ctx.c`.

* The record `lcbio_CTX` is declared in `ctx.h`, which is not among the sources; the
  model has the fields `ctx.c` reads and writes. The counters are natural numbers: a
  completion is delivered for a posted operation only, so no counter goes below zero.
* The I/O table, the timer, the read buffer and the ring buffer are outside `ctx.c`. What
  they return (the result of `sendv`, `write2`, `read2`, the status of a slurp, `errno`,
  whether an allocation succeeds) is an argument of the function that calls them; the
  requests made to them are appended to a call log.
* A callback of the user (`cb_read`, `cb_err`, `cb_flush_ready`, `cb_flush_done`) is a
  function on the context; in a sequence of events it is a script of interface calls.
* A function gives `none` where the C code fails an `assert`, calls through a null
  pointer, or uses a context that was freed.
-/

namespace Ctx

/-! ## Types and parameters -/

/-- The enum `easy_state`, lines 23-26. -/
inductive easy_state where
  | ES_ACTIVE
  | ES_DETACHED
  deriving DecidableEq, Repr

/-- Modelled from the spec: the status `lcbio_IOSTATUS` of the I/O helpers, declared
outside `ctx.c` ("`0/closed` (synthesize a shutdown error), or other errno (synthesize a
network error)"): two results that are no failure, an I/O error, and a shutdown by the
peer. -/
inductive lcbio_IOSTATUS where
  | LCBIO_COMPLETED
  | LCBIO_PENDING
  | LCBIO_IOERR
  | LCBIO_SHUTDOWN
  deriving DecidableEq, Repr

/-- Modelled from the spec: the macro `LCBIO_IS_OK`, declared outside `ctx.c`: the
status is no failure. -/
def LCBIO_IS_OK : lcbio_IOSTATUS → Bool
  | lcbio_IOSTATUS.LCBIO_COMPLETED => true
  | lcbio_IOSTATUS.LCBIO_PENDING => true
  | _ => false

/-- Modelled from the spec: the flag `LCB_READ_EVENT` of the public header ("the
transport delivers `readable` / `writable` readiness"), one bit of the event mask. -/
def LCB_READ_EVENT : Nat := 2

/-- Modelled from the spec: the flag `LCB_WRITE_EVENT` of the public header, another bit
of the event mask. -/
def LCB_WRITE_EVENT : Nat := 4

/-- The constants and the helper of headers outside `ctx.c` that the code refers to:
the error codes `LCB_NETWORK_ERROR` and `LCB_CLIENT_ENOMEM`, the `errno` values `EINTR`,
`C_EAGAIN` and `EWOULDBLOCK`, and `lcbio_mklcberr` (from an `errno` value to an error
code, for the settings of the socket). -/
structure Env where
  LCB_NETWORK_ERROR : Nat
  LCB_CLIENT_ENOMEM : Nat
  EINTR : Int
  C_EAGAIN : Int
  EWOULDBLOCK : Int
  lcbio_mklcberr : Int → Nat

/-- What `procs.cb_flush_ready` points to: the callback of the user, the destructor
`lcbio_ctx_close_ex` puts there, or nothing. -/
inductive FlushReady where
  | user
  | dtor
  | null
  deriving DecidableEq, Repr

/-- A request to the transport or the timer, or a call of a callback. -/
inductive Call where
  | watch (which : Nat)
  | cancel
  | destroy
  | timer_destroy
  | async_signal
  | closer (reusable : Bool)
  | shutdown
  | sendv
  | write2 (nbytes : Nat)
  | read2
  | write2_ex (nb : Nat)
  | cb_read (nb : Nat)
  | cb_err (err : Nat)
  | cb_flush_ready
  | cb_flush_done (nb : Nat) (nw : Nat)
  | dtor
  | free
  deriving DecidableEq, Repr

/-- Modelled from the spec: the record `lcbio_CTX` of `ctx.h` ("socket, IO mode, pending-op
counter, entered-depth counter, state, error slot, read-want byte target, write-want
flag, output ring buffer (optional), ... async-error timer, and (Event mode only) a
watcher handle"), with the part of the world the context acts on. `is_event` is
`IOT_IS_EVENT(ctx->io)`; `event` and `as_err` say whether the pointers are non-null;
`output` is the number of bytes in the output ring (`none`: no ring); `flush_ready` is
`procs.cb_flush_ready`. Outside the record: `is_reading` is `sd->is_reading`,
`err_armed` says whether the error timer is armed, `watched` is the mask the watcher was
last armed with, `posted_writes`, `posted_reads` and `posted_ex` are the operations in
flight (a `write2` of `C_schedule`, a `read2`, a `write2` of `C_put_ex` with its byte
count), `freed` counts the calls of `free(ctx)`, `log` holds the calls made so far. -/
structure lcbio_CTX where
  is_event : Bool
  state : easy_state
  event : Bool
  as_err : Bool
  evactive : Nat
  wwant : Nat
  entered : Nat
  npending : Nat
  rdwant : Nat
  err : Nat
  output : Option Nat
  flush_ready : FlushReady
  is_reading : Nat
  err_armed : Bool
  watched : Nat
  posted_writes : Nat
  posted_reads : Nat
  posted_ex : List Nat
  freed : Nat
  log : List Call
  deriving DecidableEq, Repr

/-- A callback of the user: what it makes of the context, `none` when it fails. -/
abbrev Callback := lcbio_CTX → Option lcbio_CTX

/-- A call is appended to the log. -/
def log_call (ctx : lcbio_CTX) (c : Call) : lcbio_CTX :=
  { ctx with log := ctx.log ++ [c] }

/-! ## The functions of `ctx.c` -/

/-- Embedding of `err_handler`, lines 28-33. -/
def err_handler (ctx : lcbio_CTX) (cb_err : Callback) : Option lcbio_CTX :=
  cb_err (log_call ctx (Call.cb_err ctx.err))

/-- Embedding of `convert_lcberr`, lines 35-47. `oserr` is `IOT_ERRNO(ctx->sock->io)`. -/
def convert_lcberr (env : Env) (oserr : Int) (status : lcbio_IOSTATUS) : Nat :=
  if status = lcbio_IOSTATUS.LCBIO_SHUTDOWN then
    env.lcbio_mklcberr 0
  else if oserr ≠ 0 then
    env.lcbio_mklcberr oserr
  else
    env.LCB_NETWORK_ERROR

/-- Embedding of `lcbio_ctx_new`, lines 49-77: the record is zeroed by `calloc`, the
state is Active, the error timer is new, and in event mode the watcher is created. -/
def lcbio_ctx_new (is_event : Bool) : lcbio_CTX where
  is_event := is_event
  state := easy_state.ES_ACTIVE
  event := is_event
  as_err := true
  evactive := 0
  wwant := 0
  entered := 0
  npending := 0
  rdwant := 0
  err := 0
  output := none
  flush_ready := FlushReady.user
  is_reading := 0
  err_armed := false
  watched := 0
  posted_writes := 0
  posted_reads := 0
  posted_ex := []
  freed := 0
  log := []

/-- Embedding of `free_ctx`, lines 79-93: the callback left in `procs.cb_flush_ready`, if
any, is called as destructor, and the record is given back to `free`. -/
def free_ctx (ctx : lcbio_CTX) : lcbio_CTX :=
  let ctx1 :=
    match ctx.flush_ready with
    | FlushReady.null => ctx
    | FlushReady.dtor => log_call ctx Call.dtor
    | FlushReady.user => log_call ctx Call.cb_flush_ready
  { ctx1 with freed := ctx1.freed + 1, log := ctx1.log ++ [Call.free] }

/-- Embedding of `deactivate_watcher`, lines 95-103. -/
def deactivate_watcher (ctx : lcbio_CTX) : lcbio_CTX :=
  if ctx.evactive ≠ 0 ∧ ctx.event = true then
    { ctx with log := ctx.log ++ [Call.cancel], evactive := 0, watched := 0 }
  else
    ctx

/-- Modelled from the spec: `lcbio_async_signal` of the timer library on the error timer
("arms a 0-ms async error timer"): the timer is armed to fire at the next loop tick. A
null timer cannot be armed (`none`). -/
def lcbio_async_signal (ctx : lcbio_CTX) : Option lcbio_CTX :=
  if ctx.as_err = true then
    some { ctx with log := ctx.log ++ [Call.async_signal], err_armed := true }
  else
    none

/-- Embedding of `lcbio_ctx_senderr`, lines 545-553. -/
def lcbio_ctx_senderr (ctx : lcbio_CTX) (err : Nat) : Option lcbio_CTX :=
  if ctx.freed ≠ 0 then
    none
  else
    let ctx1 := if ctx.err = 0 then { ctx with err := err } else ctx
    lcbio_async_signal (deactivate_watcher ctx1)

/-- The value of `ctx->output ? ctx->output->rb.nbytes : 0`: the bytes in the output
ring, 0 when there is no ring. -/
def output_bytes (ctx : lcbio_CTX) : Nat :=
  match ctx.output with
  | none => 0
  | some nbytes => nbytes

/-- The value of `reusable` in `lcbio_ctx_close_ex`, lines 128-133. -/
def reusable (ctx : lcbio_CTX) : Bool :=
  decide (ctx.npending = 0) && decide (ctx.err = 0) && decide (ctx.rdwant = 0) &&
    decide (ctx.wwant = 0) && decide (ctx.output = none ∨ output_bytes ctx = 0)

/-- Lines 110-156 of `lcbio_ctx_close_ex`: the context is detached. `cb` is `none` for a
null closer and `some keeps` for a closer that takes a reference on the socket (`keeps`)
or does not; `dtor` says whether a destructor is given. The socket of a context is never
null. -/
def close_ex_detach (ctx : lcbio_CTX) (cb : Option Bool) (dtor : Bool) : lcbio_CTX :=
  let ctx1 := { ctx with state := easy_state.ES_DETACHED }
  let ctx2 :=
    if ctx1.event = true then
      let c := deactivate_watcher ctx1
      { c with log := c.log ++ [Call.destroy], event := false }
    else ctx1
  let ctx3 :=
    if ctx2.as_err = true then
      { ctx2 with log := ctx2.log ++ [Call.timer_destroy], as_err := false,
                  err_armed := false }
    else ctx2
  let ctx4 :=
    match cb with
    | some _ => log_call ctx3 (Call.closer (reusable ctx3))
    | none => ctx3
  let ctx5 :=
    if cb = some true then ctx4 else log_call ctx4 Call.shutdown
  let ctx6 := { ctx5 with output := none }
  { ctx6 with flush_ready := if dtor then FlushReady.dtor else FlushReady.null }

/-- Embedding of `lcbio_ctx_close_ex`, lines 105-161. -/
def lcbio_ctx_close_ex (ctx : lcbio_CTX) (cb : Option Bool) (dtor : Bool) :
    Option lcbio_CTX :=
  if ctx.freed ≠ 0 then
    none
  else
    let ctx7 := close_ex_detach ctx cb dtor
    if ctx7.npending = 0 ∧ ctx7.entered = 0 then
      some (free_ctx ctx7)
    else
      some ctx7

/-- Embedding of `lcbio_ctx_close`, lines 163-167. -/
def lcbio_ctx_close (ctx : lcbio_CTX) (cb : Option Bool) : Option lcbio_CTX :=
  lcbio_ctx_close_ex ctx cb false

/-- Embedding of `lcbio_ctx_put`, lines 169-196. `calloc_ok`, `init_ok` and `ensure_ok`
say whether `calloc`, `ringbuffer_initialize` and `ringbuffer_ensure_capacity`
succeed. -/
def lcbio_ctx_put (env : Env) (ctx : lcbio_CTX) (nbuf : Nat)
    (calloc_ok init_ok ensure_ok : Bool) : Option lcbio_CTX :=
  if ctx.freed ≠ 0 then
    none
  else
    let write (c : lcbio_CTX) (nbytes : Nat) : Option lcbio_CTX :=
      if !ensure_ok then lcbio_ctx_senderr c env.LCB_CLIENT_ENOMEM
      else some { c with output := some (nbytes + nbuf) }
    match ctx.output with
    | some nbytes => write ctx nbytes
    | none =>
      if !calloc_ok then
        lcbio_ctx_senderr ctx env.LCB_CLIENT_ENOMEM
      else
        let ctx1 := { ctx with output := some 0 }
        if !init_ok then lcbio_ctx_senderr ctx1 env.LCB_CLIENT_ENOMEM
        else write ctx1 0

/-- Embedding of `lcbio_ctx_rwant`, lines 198-202. -/
def lcbio_ctx_rwant (ctx : lcbio_CTX) (n : Nat) : Option lcbio_CTX :=
  if ctx.freed ≠ 0 then none else some { ctx with rdwant := n }

/-- Embedding of `E_free_detached`, lines 232-240. -/
def E_free_detached (ctx : lcbio_CTX) : Bool × lcbio_CTX :=
  if ctx.state = easy_state.ES_DETACHED then (true, free_ctx ctx) else (false, ctx)

/-- Embedding of `invoke_read_cb`, lines 242-249. -/
def invoke_read_cb (ctx : lcbio_CTX) (nb : Nat) (cb_read : Callback) : Option lcbio_CTX :=
  let ctx1 := { ctx with rdwant := 0, entered := ctx.entered + 1 }
  match cb_read (log_call ctx1 (Call.cb_read nb)) with
  | none => none
  | some ctx2 =>
    if ctx2.freed ≠ 0 then none else some { ctx2 with entered := ctx2.entered - 1 }

/-- Embedding of `invoke_entered_errcb`, lines 297-304. -/
def invoke_entered_errcb (ctx : lcbio_CTX) (err : Nat) (cb_err : Callback) :
    Option lcbio_CTX :=
  let ctx1 := { ctx with err := err, entered := ctx.entered + 1 }
  match cb_err (log_call ctx1 (Call.cb_err err)) with
  | none => none
  | some ctx2 =>
    if ctx2.freed ≠ 0 then none else some { ctx2 with entered := ctx2.entered - 1 }

/-- What the I/O table returns to `lcbio_ctx_schedule` in completion mode: the results
of `write2` and `read2`, and `errno`. -/
structure SchedResult where
  write2 : Int
  read2 : Int
  oserr : Int
  deriving DecidableEq, Repr

/-- Embedding of `C_schedule`, lines 365-408. The read buffer gives at least one
non-empty IOV (the two assertions hold). -/
def C_schedule (env : Env) (ctx : lcbio_CTX) (o : SchedResult) : Option lcbio_CTX :=
  let read (c : lcbio_CTX) : Option lcbio_CTX :=
    if c.rdwant ≠ 0 ∧ c.is_reading = 0 then
      let c1 := log_call c Call.read2
      if o.read2 ≠ 0 then
        lcbio_ctx_senderr c1 (convert_lcberr env o.oserr lcbio_IOSTATUS.LCBIO_IOERR)
      else
        some { c1 with is_reading := 1, npending := c1.npending + 1,
                       posted_reads := c1.posted_reads + 1 }
    else some c
  if output_bytes ctx ≠ 0 then
    let c1 := log_call ctx (Call.write2 (output_bytes ctx))
    if o.write2 ≠ 0 then
      lcbio_ctx_senderr c1 (convert_lcberr env o.oserr lcbio_IOSTATUS.LCBIO_IOERR)
    else
      read { c1 with output := none, npending := c1.npending + 1,
                     posted_writes := c1.posted_writes + 1 }
  else read ctx

/-- The event mask `which` of `E_schedule`, lines 414-421. -/
def schedule_mask (ctx : lcbio_CTX) : Nat :=
  let which := if ctx.rdwant ≠ 0 then 0 ||| LCB_READ_EVENT else 0
  if ctx.wwant ≠ 0 ∨ output_bytes ctx ≠ 0 then which ||| LCB_WRITE_EVENT else which

/-- Embedding of `E_schedule`, lines 410-430. -/
def E_schedule (ctx : lcbio_CTX) : lcbio_CTX :=
  let which := schedule_mask ctx
  if which = 0 then
    deactivate_watcher ctx
  else
    { ctx with log := ctx.log ++ [Call.watch which], evactive := 1, watched := which }

/-- Embedding of `lcbio_ctx_schedule`, lines 432-444. -/
def lcbio_ctx_schedule (env : Env) (ctx : lcbio_CTX) (o : SchedResult) : Option lcbio_CTX :=
  if ctx.freed ≠ 0 then
    none
  else if ctx.entered ≠ 0 ∨ ctx.err ≠ 0 ∨ ctx.state ≠ easy_state.ES_ACTIVE then
    some ctx
  else if ctx.is_event then
    some (E_schedule ctx)
  else
    C_schedule env ctx o

/-- A callback of the user is called after control was outside `ctx.c`: the code that
follows uses the context, which must not have been freed meanwhile. -/
def still_there (r : Option lcbio_CTX) : Option lcbio_CTX :=
  match r with
  | none => none
  | some ctx => if ctx.freed ≠ 0 then none else some ctx

/-- The call `ctx->procs.cb_flush_ready(ctx)` of lines 279 and 539: the pointer must not
be null. -/
def call_flush_ready (ctx : lcbio_CTX) (cb_flush_ready : Callback) : Option lcbio_CTX :=
  match ctx.flush_ready with
  | FlushReady.null => none
  | FlushReady.dtor => some (log_call ctx Call.dtor)
  | FlushReady.user => cb_flush_ready (log_call ctx Call.cb_flush_ready)

/-- The call `ctx->procs.cb_flush_done(ctx, nb, nw)`. -/
def call_flush_done (ctx : lcbio_CTX) (nb nw : Nat) (cb_flush_done : Callback) :
    Option lcbio_CTX :=
  cb_flush_done (log_call ctx (Call.cb_flush_done nb nw))

/-- Embedding of `E_put_ex`, lines 446-488. `results` holds what the successive
`sendv` calls return, each with the `errno` it leaves; a retry after `EINTR` takes the
next one, and there is no result (`none`) when the list ends before `sendv` gives
something else than `EINTR`. The result is the value returned and the context. -/
def E_put_ex (env : Env) (nb : Nat) (cb_flush_done : Callback) :
    List (Int × Int) → lcbio_CTX → Option (Int × lcbio_CTX)
  | [], _ => none
  | (nw, oserr) :: rest, ctx =>
    let ctx1 := log_call ctx Call.sendv
    if nw > 0 then
      (call_flush_done ctx1 nb nw.toNat cb_flush_done).map (fun c => (1, c))
    else if nw = -1 then
      if oserr = env.EINTR then
        E_put_ex env nb cb_flush_done rest ctx1
      else if oserr = env.C_EAGAIN ∨ oserr = env.EWOULDBLOCK then
        (call_flush_done ctx1 nb 0 cb_flush_done).map (fun c => (0, c))
      else
        match lcbio_ctx_senderr ctx1 (convert_lcberr env oserr lcbio_IOSTATUS.LCBIO_IOERR) with
        | none => none
        | some ctx2 => (call_flush_done ctx2 nb nb cb_flush_done).map (fun c => (0, c))
    else
      match lcbio_ctx_senderr ctx1
          (convert_lcberr env oserr lcbio_IOSTATUS.LCBIO_SHUTDOWN) with
      | none => none
      | some ctx2 => (call_flush_done ctx2 nb nb cb_flush_done).map (fun c => (0, c))

/-- Embedding of `Cw_ex_handler`, lines 490-503. The assertion on the state aborts
(`none`). -/
def Cw_ex_handler (env : Env) (ctx : lcbio_CTX) (nflushed : Nat) (status : Int) (oserr : Int)
    (cb_flush_done : Callback) : Option lcbio_CTX :=
  match still_there (call_flush_done ctx nflushed nflushed cb_flush_done) with
  | none => none
  | some ctx1 =>
    let ctx2 := { ctx1 with npending := ctx1.npending - 1,
                            posted_ex := ctx1.posted_ex.erase nflushed }
    if ctx2.state ≠ easy_state.ES_ACTIVE then
      none
    else if status ≠ 0 then
      lcbio_ctx_senderr ctx2 (convert_lcberr env oserr lcbio_IOSTATUS.LCBIO_IOERR)
    else
      some ctx2

/-- Embedding of `C_put_ex`, lines 505-522. `status` is what `write2` returns and
`saverr` the `errno` it leaves. -/
def C_put_ex (env : Env) (ctx : lcbio_CTX) (nb : Nat) (status : Int) (saverr : Int)
    (cb_flush_done : Callback) : Option (Int × lcbio_CTX) :=
  let ctx1 := log_call ctx (Call.write2_ex nb)
  if status ≠ 0 then
    match still_there (call_flush_done ctx1 nb nb cb_flush_done) with
    | none => none
    | some ctx2 => (lcbio_ctx_senderr ctx2 (env.lcbio_mklcberr saverr)).map (fun c => (0, c))
  else
    some (1, { ctx1 with npending := ctx1.npending + 1, posted_ex := nb :: ctx1.posted_ex })

/-- Embedding of `lcbio_ctx_put_ex`, lines 524-533. -/
def lcbio_ctx_put_ex (env : Env) (ctx : lcbio_CTX) (nb : Nat) (results : List (Int × Int))
    (status : Int) (saverr : Int) (cb_flush_done : Callback) : Option (Int × lcbio_CTX) :=
  if ctx.freed ≠ 0 then
    none
  else if ctx.is_event then
    E_put_ex env nb cb_flush_done results ctx
  else
    C_put_ex env ctx nb status saverr cb_flush_done

/-- Embedding of `lcbio_ctx_wwant`, lines 535-543. -/
def lcbio_ctx_wwant (ctx : lcbio_CTX) (cb_flush_ready : Callback) : Option lcbio_CTX :=
  if ctx.freed ≠ 0 then
    none
  else if !ctx.is_event then
    call_flush_ready ctx cb_flush_ready
  else
    some { ctx with wwant := 1 }

/-- What the transport hands to `E_handler`: the status of the slurp into the read
buffer and the bytes the buffer holds afterwards, the status of the write of the output
ring and the bytes it took from the ring, and `errno`. -/
structure EventResult where
  rd_status : lcbio_IOSTATUS
  nused : Nat
  wr_status : lcbio_IOSTATUS
  nwritten : Nat
  oserr : Int
  deriving DecidableEq, Repr

/-- Lines 258-274 of `E_handler`: the read event. The first component says whether the
handler returns. -/
def E_handler_read (env : Env) (ctx : lcbio_CTX) (which : Nat) (r : EventResult)
    (cb_read : Callback) : Option (Bool × lcbio_CTX) :=
  if which &&& LCB_READ_EVENT ≠ 0 then
    let called : Option (Bool × lcbio_CTX) :=
      if r.nused ≥ ctx.rdwant then (invoke_read_cb ctx r.nused cb_read).map E_free_detached
      else some (false, ctx)
    match called with
    | none => none
    | some (true, c) => some (true, c)
    | some (false, c) =>
      if !LCBIO_IS_OK r.rd_status then
        (lcbio_ctx_senderr c (convert_lcberr env r.oserr r.rd_status)).map (fun x => (true, x))
      else
        some (false, c)
  else
    some (false, ctx)

/-- Lines 276-292 of `E_handler`: the write event. The first component says whether the
handler returns. -/
def E_handler_write (env : Env) (ctx : lcbio_CTX) (which : Nat) (r : EventResult)
    (cb_flush_ready cb_err : Callback) : Option (Bool × lcbio_CTX) :=
  if which &&& LCB_WRITE_EVENT ≠ 0 then
    if ctx.wwant ≠ 0 then
      match still_there (call_flush_ready { ctx with wwant := 0 } cb_flush_ready) with
      | none => none
      | some c => some (decide (c.err ≠ 0), c)
    else
      match ctx.output with
      | none => some (false, ctx)
      | some nbytes =>
        let c1 := { ctx with log := ctx.log ++ [Call.sendv], output := some (nbytes - r.nwritten) }
        if !LCBIO_IS_OK r.wr_status then
          let c2 := deactivate_watcher c1
          let c3 := { c2 with err := convert_lcberr env r.oserr r.wr_status }
          (err_handler c3 cb_err).map (fun x => (true, x))
        else
          some (false, c1)
  else
    some (false, ctx)

/-- Embedding of `E_handler`, lines 251-295. -/
def E_handler (env : Env) (ctx : lcbio_CTX) (which : Nat) (r : EventResult) (o : SchedResult)
    (cb_read cb_flush_ready cb_err : Callback) : Option lcbio_CTX :=
  match E_handler_read env ctx which r cb_read with
  | none => none
  | some (true, c) => some c
  | some (false, c) =>
    match E_handler_write env c which r cb_flush_ready cb_err with
    | none => none
    | some (true, c1) => some c1
    | some (false, c1) => lcbio_ctx_schedule env c1 o

/-- The end of `Cw_handler` and `Cr_handler`, lines 328-330 and 360-362. -/
def free_if_drained (ctx : lcbio_CTX) : lcbio_CTX :=
  if ctx.state ≠ easy_state.ES_ACTIVE ∧ ctx.npending = 0 then free_ctx ctx else ctx

/-- Embedding of `Cw_handler`, lines 306-331. -/
def Cw_handler (env : Env) (ctx : lcbio_CTX) (status : Int) (oserr : Int) (cb_err : Callback) :
    Option lcbio_CTX :=
  let ctx1 := { ctx with npending := ctx.npending - 1, posted_writes := ctx.posted_writes - 1 }
  let ctx2 :=
    match ctx1.output with
    | none => { ctx1 with output := some 0 }
    | some _ => ctx1
  let called : Option lcbio_CTX :=
    if ctx2.state = easy_state.ES_ACTIVE ∧ status ≠ 0 then
      invoke_entered_errcb ctx2 (convert_lcberr env oserr lcbio_IOSTATUS.LCBIO_IOERR) cb_err
    else some ctx2
  called.map free_if_drained

/-- Embedding of `Cr_handler`, lines 335-363. `nr` is the result of the read and
`total` what `rdb_get_nused` gives after `rdb_rdend`. -/
def Cr_handler (env : Env) (ctx : lcbio_CTX) (nr : Int) (total : Nat) (oserr : Int)
    (o : SchedResult) (cb_read cb_err : Callback) : Option lcbio_CTX :=
  let ctx1 := { ctx with is_reading := 0, npending := ctx.npending - 1,
                         posted_reads := ctx.posted_reads - 1 }
  let called : Option lcbio_CTX :=
    if ctx1.state = easy_state.ES_ACTIVE then
      if nr > 0 then
        let read : Option lcbio_CTX :=
          if total ≥ ctx1.rdwant then invoke_read_cb ctx1 total cb_read else some ctx1
        match read with
        | none => none
        | some c => lcbio_ctx_schedule env c o
      else
        let err := convert_lcberr env oserr
          (if nr ≠ 0 then lcbio_IOSTATUS.LCBIO_SHUTDOWN else lcbio_IOSTATUS.LCBIO_IOERR)
        invoke_entered_errcb { ctx1 with rdwant := 0 } err cb_err
    else some ctx1
  called.map free_if_drained

/-! ## Sequences of events -/

/-- A call of the interface by the user, with what the transport returns to it and, for
a call that runs a callback before it returns, the script of that callback. -/
inductive Api where
  | rwant (n : Nat)
  | wwant (flush_ready : List Api)
  | put (nbuf : Nat) (calloc_ok init_ok ensure_ok : Bool)
  | put_ex (nb : Nat) (results : List (Int × Int)) (status saverr : Int)
      (flush_done : List Api)
  | senderr (err : Nat)
  | schedule (o : SchedResult)
  | close_ex (cb : Option Bool) (dtor : Bool)

mutual
/-- The context after a call of the interface. -/
def exec (env : Env) : Api → lcbio_CTX → Option lcbio_CTX
  | Api.rwant n, ctx => lcbio_ctx_rwant ctx n
  | Api.wwant flush_ready, ctx => lcbio_ctx_wwant ctx (fun c => exec_all env flush_ready c)
  | Api.put nbuf calloc_ok init_ok ensure_ok, ctx =>
    lcbio_ctx_put env ctx nbuf calloc_ok init_ok ensure_ok
  | Api.put_ex nb results status saverr flush_done, ctx =>
    (lcbio_ctx_put_ex env ctx nb results status saverr
      (fun c => exec_all env flush_done c)).map Prod.snd
  | Api.senderr err, ctx => lcbio_ctx_senderr ctx err
  | Api.schedule o, ctx => lcbio_ctx_schedule env ctx o
  | Api.close_ex cb dtor, ctx => lcbio_ctx_close_ex ctx cb dtor
/-- The context after a script of calls, as a callback of the user makes them. -/
def exec_all (env : Env) : List Api → lcbio_CTX → Option lcbio_CTX
  | [], ctx => some ctx
  | a :: rest, ctx =>
    match exec env a ctx with
    | none => none
    | some c => exec_all env rest c
end

/-- What happens to a context: a call of the user from outside a callback, or a
delivery by the event loop: readiness of the socket (`E_handler`), the completion of a
write or a read posted by `C_schedule` (`Cw_handler`, `Cr_handler`), the completion of a
write posted by `C_put_ex` (`Cw_ex_handler`), the firing of the error timer
(`err_handler`). A delivery carries what the transport returns and the scripts of the
callbacks it may run. -/
inductive Event where
  | call (a : Api)
  | readiness (which : Nat) (r : EventResult) (o : SchedResult)
      (cb_read cb_flush_ready cb_err : List Api)
  | write_done (status oserr : Int) (cb_err : List Api)
  | read_done (nr : Int) (total : Nat) (oserr : Int) (o : SchedResult)
      (cb_read cb_err : List Api)
  | write_ex_done (nflushed : Nat) (status oserr : Int) (cb_flush_done : List Api)
  | error_timer (cb_err : List Api)

/-- Modelled from the spec: when the event loop can deliver an event ("the transport
delivers `readable` / `writable` readiness for a registered descriptor", "each post
increments `npending`; each completion decrements it"): readiness in event mode for
events the watcher is armed for, a completion for an operation in flight, the timer when
it is armed. A call of the user is always possible. -/
def enabled (ev : Event) (ctx : lcbio_CTX) : Bool :=
  match ev with
  | Event.call _ => true
  | Event.readiness which _ _ _ _ _ =>
    ctx.is_event && decide (ctx.evactive ≠ 0) && decide (which ≠ 0) &&
      decide (which &&& ctx.watched = which)
  | Event.write_done _ _ _ => decide (0 < ctx.posted_writes)
  | Event.read_done _ _ _ _ _ _ => decide (0 < ctx.posted_reads)
  | Event.write_ex_done nflushed _ _ _ => decide (nflushed ∈ ctx.posted_ex)
  | Event.error_timer _ => ctx.err_armed

/-- The context after an event. -/
def deliver (env : Env) (ev : Event) (ctx : lcbio_CTX) : Option lcbio_CTX :=
  if ctx.freed ≠ 0 then none else
  match ev with
  | Event.call a => exec env a ctx
  | Event.readiness which r o cb_read cb_flush_ready cb_err =>
    E_handler env ctx which r o (exec_all env cb_read) (exec_all env cb_flush_ready)
      (exec_all env cb_err)
  | Event.write_done status oserr cb_err =>
    Cw_handler env ctx status oserr (exec_all env cb_err)
  | Event.read_done nr total oserr o cb_read cb_err =>
    Cr_handler env ctx nr total oserr o (exec_all env cb_read) (exec_all env cb_err)
  | Event.write_ex_done nflushed status oserr cb_flush_done =>
    Cw_ex_handler env ctx nflushed status oserr (exec_all env cb_flush_done)
  | Event.error_timer cb_err =>
    err_handler { ctx with err_armed := false } (exec_all env cb_err)

/-- The context after a sequence of events, each of which the event loop can deliver in
the state it comes in; `none` when one cannot be delivered or the code fails. -/
def run (env : Env) : List Event → lcbio_CTX → Option lcbio_CTX
  | [], ctx => some ctx
  | ev :: rest, ctx =>
    if enabled ev ctx then
      match deliver env ev ctx with
      | none => none
      | some c => run env rest c
    else none

/-! ## Predicates on the log -/

/-- Whether a logged call is a call of the closer. -/
def is_closer : Call → Bool
  | Call.closer _ => true
  | _ => false

/-- Whether a logged call is a call of `cb_flush_done`. -/
def is_flush_done : Call → Bool
  | Call.cb_flush_done _ _ => true
  | _ => false

/-! ## The contract of `lcbio_ctx_put_ex` as the specification words it -/

/-- The number of bytes a `sendv` call transferred: its result when positive, otherwise
none. -/
def transferred (result : Int × Int) : Nat :=
  if 0 < result.1 then result.1.toNat else 0

/-- The contract of `put_ex` in event mode in the wording of the specification: for
`sendv` results that end in one that is not `EINTR`, `cb_flush_done` is called once with
the submitted count `nb` and the number of bytes `sendv` transferred. The callback makes
no call of its own. -/
def put_ex_contract (env : Env) (ctx : lcbio_CTX) (nb : Nat) (results : List (Int × Int)) :
    Prop :=
  ∀ pre last, results = pre ++ [last] →
    (∀ x ∈ pre, x.1 = -1 ∧ x.2 = env.EINTR) → ¬ (last.1 = -1 ∧ last.2 = env.EINTR) →
    (lcbio_ctx_put_ex env ctx nb results 0 0 some).map
        (fun r => r.2.log.filter is_flush_done)
      = some (ctx.log.filter is_flush_done ++ [Call.cb_flush_done nb (transferred last)])

/-! ## When a context is freed -/

/-- The fields the lifetime of a context depends on. -/
def core (c : lcbio_CTX) :
    Nat × easy_state × Nat × Nat × Bool × Nat × Nat × List Nat :=
  (c.freed, c.state, c.npending, c.entered, c.is_event, c.posted_writes, c.posted_reads,
    c.posted_ex)

/-- The part of the invariant that holds at every point: the context is freed at most
once, and only when Detached with no operation pending and outside every callback; in
event mode no operation is ever pending; `npending` counts the operations in flight. -/
def Inv0 (c : lcbio_CTX) : Prop :=
  c.freed ≤ 1 ∧
  (c.freed = 1 → c.state = easy_state.ES_DETACHED ∧ c.npending = 0 ∧ c.entered = 0) ∧
  (c.is_event = true → c.npending = 0) ∧
  c.npending = c.posted_writes + c.posted_reads + c.posted_ex.length

/-- A context that is Detached, outside every callback and not freed has an operation
pending. -/
def Drained (c : lcbio_CTX) : Prop :=
  c.freed = 0 → c.state = easy_state.ES_DETACHED → c.entered = 0 → c.npending ≠ 0

/-- The invariant between two events and between two calls of the user. -/
def Inv (c : lcbio_CTX) : Prop := Inv0 c ∧ Drained c

/-- What a call of the interface, or a callback made of such calls, does to the
invariant: it keeps both parts, leaves `entered` and the I/O mode alone, frees nothing
inside a callback, and forgets no write of `C_put_ex` in flight. -/
def Step (c c' : lcbio_CTX) : Prop :=
  (Inv0 c → Inv0 c') ∧ (Inv0 c → Drained c → Drained c') ∧
  c'.entered = c.entered ∧ c'.is_event = c.is_event ∧
  (c.entered ≠ 0 → c'.freed = c.freed) ∧
  (∀ x ∈ c.posted_ex, x ∈ c'.posted_ex)

/-- A callback every run of which is a `Step`. -/
def Good (cb : Callback) : Prop := ∀ c c', cb c = some c' → Step c c'

/-- The invariant of a context between two events: `Inv`, outside every callback. -/
def Settled (c : lcbio_CTX) : Prop := Inv c ∧ c.entered = 0

/-- Whether an event is the completion of a posted operation. -/
def is_completion : Event → Bool
  | Event.write_done _ _ _ => true
  | Event.read_done _ _ _ _ _ _ => true
  | Event.write_ex_done _ _ _ _ => true
  | _ => false

/-- The freeing of a context in the wording of the specification: in every state
reached from `init` in which the context is Detached and not freed, every completion
the event loop can deliver is handled, and if it leaves no operation pending and no
callback entered the context is freed. -/
def free_contract (env : Env) (init : lcbio_CTX) : Prop :=
  ∀ trace ev c, run env trace init = some c → c.state = easy_state.ES_DETACHED →
    c.freed = 0 → is_completion ev = true → enabled ev c = true →
    ∃ c', deliver env ev c = some c' ∧ (c'.npending = 0 ∧ c'.entered = 0 → c'.freed = 1)

/-! ## Example inputs -/

/-- Parameters for the examples: error codes 16 and 26, `errno` values 4 and 11, and an
`lcbio_mklcberr` that gives 43 for 0 and 16 otherwise. -/
def exEnv : Env where
  LCB_NETWORK_ERROR := 16
  LCB_CLIENT_ENOMEM := 26
  EINTR := 4
  C_EAGAIN := 11
  EWOULDBLOCK := 11
  lcbio_mklcberr := fun e => if e = 0 then 43 else 16

/-- A readiness result: the read buffer holds 10 bytes after a slurp without failure,
and the write of the output ring fails with `errno` 104. -/
def exWriteFails : EventResult where
  rd_status := lcbio_IOSTATUS.LCBIO_COMPLETED
  nused := 10
  wr_status := lcbio_IOSTATUS.LCBIO_IOERR
  nwritten := 0
  oserr := 104

/-- A transport result for `lcbio_ctx_schedule` with no failure. -/
def exSched : SchedResult where
  write2 := 0
  read2 := 0
  oserr := 0

end Ctx

namespace Confmon

/-! ## Theorems -/

theorem toInt32_lower (x : Int) : -2147483648 ≤ toInt32 x := by
  unfold toInt32; omega

theorem toInt32_upper (x : Int) : toInt32 x < 2147483648 := by
  unfold toInt32; omega

theorem toInt32_of_range (x : Int) (h1 : -2147483648 ≤ x) (h2 : x < 2147483648) :
    toInt32 x = x := by
  unfold toInt32; omega

theorem revision_sub_exact {V D : Type} (ops : VBucketOps V D) (a b : clconfig_info V)
    (ha : 0 ≤ revision_of ops a) (hb : 0 ≤ revision_of ops b) :
    toInt32 (revision_of ops a - revision_of ops b) = revision_of ops a - revision_of ops b := by
  have h1 := toInt32_upper (ops.vbucket_config_get_revision a.vbc)
  have h2 := toInt32_upper (ops.vbucket_config_get_revision b.vbc)
  unfold revision_of at *
  apply toInt32_of_range <;> omega

/-! ### `lcb_clconfig_compare` -/

theorem compare_of_revisions {V D : Type} (ops : VBucketOps V D) (a b : clconfig_info V)
    (h : 0 ≤ revision_of ops a ∧ 0 ≤ revision_of ops b) :
    lcb_clconfig_compare ops a b = revision_of ops a - revision_of ops b := by
  unfold lcb_clconfig_compare
  simp only [ge_iff_le, h, and_self, if_true]
  exact revision_sub_exact ops a b h.1 h.2

theorem compare_of_clocks {V D : Type} (ops : VBucketOps V D) (a b : clconfig_info V)
    (h : ¬ (0 ≤ revision_of ops a ∧ 0 ≤ revision_of ops b)) :
    lcb_clconfig_compare ops a b =
      if a.cmpclock < b.cmpclock then -1 else if a.cmpclock = b.cmpclock then 0 else 1 := by
  unfold lcb_clconfig_compare
  simp only [ge_iff_le, h, if_false]
  by_cases h1 : a.cmpclock = b.cmpclock
  · simp [h1]
  · by_cases h2 : a.cmpclock < b.cmpclock <;> simp [h1, h2]

/-- C2: when both configurations expose a revision (both `int` revisions are at least
0) `lcb_clconfig_compare a b` is the exact integer difference of the revisions, the `int`
subtraction does not wrap; otherwise it is -1, 0 or 1 according as the comparison clock
of `a` is less than, equal to or greater than that of `b`. -/
theorem lcb_clconfig_compare_spec {V D : Type} (ops : VBucketOps V D)
    (a b : clconfig_info V) :
    ((0 ≤ revision_of ops a ∧ 0 ≤ revision_of ops b) →
      lcb_clconfig_compare ops a b = revision_of ops a - revision_of ops b) ∧
    (¬ (0 ≤ revision_of ops a ∧ 0 ≤ revision_of ops b) →
      lcb_clconfig_compare ops a b =
        if a.cmpclock < b.cmpclock then -1 else if a.cmpclock = b.cmpclock then 0 else 1) :=
  ⟨compare_of_revisions ops a b, compare_of_clocks ops a b⟩

/-- C3: `lcb_clconfig_compare a a = 0`, and `lcb_clconfig_compare a b > 0` exactly when
`lcb_clconfig_compare b a < 0`, for all ConfigInfos with or without revisions. -/
theorem lcb_clconfig_compare_refl_antisymm {V D : Type} (ops : VBucketOps V D)
    (a b : clconfig_info V) :
    lcb_clconfig_compare ops a a = 0 ∧
    (lcb_clconfig_compare ops a b > 0 ↔ lcb_clconfig_compare ops b a < 0) := by
  constructor
  · by_cases h : 0 ≤ revision_of ops a
    · rw [compare_of_revisions ops a a ⟨h, h⟩]; omega
    · rw [compare_of_clocks ops a a (fun hh => h hh.1)]; simp
  · by_cases h : 0 ≤ revision_of ops a ∧ 0 ≤ revision_of ops b
    · rw [compare_of_revisions ops a b h, compare_of_revisions ops b a ⟨h.2, h.1⟩]
      omega
    · rw [compare_of_clocks ops a b h, compare_of_clocks ops b a (fun hh => h ⟨hh.2, hh.1⟩)]
      rcases Nat.lt_trichotomy a.cmpclock b.cmpclock with h1 | h1 | h1
      · have h2 : ¬ b.cmpclock < a.cmpclock := by omega
        have h3 : b.cmpclock ≠ a.cmpclock := by omega
        simp [h1, h2, h3]
      · simp [h1]
      · have h2 : ¬ a.cmpclock < b.cmpclock := by omega
        have h3 : a.cmpclock ≠ b.cmpclock := by omega
        simp [h1, h2, h3]

theorem compare_clocks_le {V D : Type} (ops : VBucketOps V D) (a b : clconfig_info V)
    (h : ¬ (0 ≤ revision_of ops a ∧ 0 ≤ revision_of ops b)) :
    lcb_clconfig_compare ops a b ≤ 0 ↔ a.cmpclock ≤ b.cmpclock := by
  rw [compare_of_clocks ops a b h]
  rcases Nat.lt_trichotomy a.cmpclock b.cmpclock with h1 | h1 | h1
  · simp [h1]; omega
  · simp [h1]
  · have h2 : ¬ a.cmpclock < b.cmpclock := by omega
    have h3 : a.cmpclock ≠ b.cmpclock := by omega
    simp [h2, h3]; omega

theorem compare_clocks_lt {V D : Type} (ops : VBucketOps V D) (a b : clconfig_info V)
    (h : ¬ (0 ≤ revision_of ops a ∧ 0 ≤ revision_of ops b)) :
    lcb_clconfig_compare ops a b < 0 ↔ a.cmpclock < b.cmpclock := by
  rw [compare_of_clocks ops a b h]
  rcases Nat.lt_trichotomy a.cmpclock b.cmpclock with h1 | h1 | h1
  · simp [h1]
  · simp [h1]
  · have h2 : ¬ a.cmpclock < b.cmpclock := by omega
    have h3 : a.cmpclock ≠ b.cmpclock := by omega
    simp [h2, h3]

/-- C4: on three ConfigInfos that all expose a revision, or none of which exposes one,
`lcb_clconfig_compare` is transitive, for `≤ 0` and for `< 0`. -/
theorem lcb_clconfig_compare_trans {V D : Type} (ops : VBucketOps V D)
    (a b c : clconfig_info V)
    (hsame : (0 ≤ revision_of ops a ∧ 0 ≤ revision_of ops b ∧ 0 ≤ revision_of ops c) ∨
      (revision_of ops a < 0 ∧ revision_of ops b < 0 ∧ revision_of ops c < 0)) :
    (lcb_clconfig_compare ops a b ≤ 0 → lcb_clconfig_compare ops b c ≤ 0 →
      lcb_clconfig_compare ops a c ≤ 0) ∧
    (lcb_clconfig_compare ops a b < 0 → lcb_clconfig_compare ops b c < 0 →
      lcb_clconfig_compare ops a c < 0) := by
  rcases hsame with ⟨ha, hb, hc⟩ | ⟨ha, hb, hc⟩
  · rw [compare_of_revisions ops a b ⟨ha, hb⟩, compare_of_revisions ops b c ⟨hb, hc⟩,
      compare_of_revisions ops a c ⟨ha, hc⟩]
    constructor <;> intro h1 h2 <;> omega
  · have hab : ¬ (0 ≤ revision_of ops a ∧ 0 ≤ revision_of ops b) := fun h => by omega
    have hbc : ¬ (0 ≤ revision_of ops b ∧ 0 ≤ revision_of ops c) := fun h => by omega
    have hac : ¬ (0 ≤ revision_of ops a ∧ 0 ≤ revision_of ops c) := fun h => by omega
    rw [compare_clocks_le ops a b hab, compare_clocks_le ops b c hbc,
      compare_clocks_le ops a c hac, compare_clocks_lt ops a b hab,
      compare_clocks_lt ops b c hbc, compare_clocks_lt ops a c hac]
    constructor <;> intro h1 h2 <;> omega

theorem lcb_clconfig_compare_trans_witness :
    ((0 ≤ revision_of exOps (exHeap 1) ∧ 0 ≤ revision_of exOps (exHeap 2) ∧
        0 ≤ revision_of exOps (exHeap 3)) ∨
      (revision_of exOps (exHeap 1) < 0 ∧ revision_of exOps (exHeap 2) < 0 ∧
        revision_of exOps (exHeap 3) < 0)) ∧
    ((lcb_clconfig_compare exOps (exHeap 1) (exHeap 2) ≤ 0 →
      lcb_clconfig_compare exOps (exHeap 2) (exHeap 3) ≤ 0 →
      lcb_clconfig_compare exOps (exHeap 1) (exHeap 3) ≤ 0) ∧
    (lcb_clconfig_compare exOps (exHeap 1) (exHeap 2) < 0 →
      lcb_clconfig_compare exOps (exHeap 2) (exHeap 3) < 0 →
      lcb_clconfig_compare exOps (exHeap 1) (exHeap 3) < 0)) :=
  ⟨Or.inl (by decide),
    lcb_clconfig_compare_trans exOps (exHeap 1) (exHeap 2) (exHeap 3) (Or.inl (by decide))⟩

/-! ### State flags and `lcb_confmon_stop` -/

theorem lor_itergrace_and_active (s : Nat) :
    (s ||| CONFMON_S_ITERGRACE) &&& CONFMON_S_ACTIVE = s &&& CONFMON_S_ACTIVE := by
  unfold CONFMON_S_ITERGRACE CONFMON_S_ACTIVE
  apply Nat.eq_of_testBit_eq
  intro i
  simp only [Nat.testBit_and, Nat.testBit_or]
  cases i with
  | zero => simp
  | succ j => simp [Nat.testBit_succ]

theorem lor_itergrace_set (s : Nat) :
    (s ||| CONFMON_S_ITERGRACE) &&& CONFMON_S_ITERGRACE ≠ 0 := by
  unfold CONFMON_S_ITERGRACE
  intro h
  have h1 := congrArg (fun x => Nat.testBit x 1) h
  have h2 : Nat.testBit 2 1 = true := by decide
  simp [Nat.testBit_and, Nat.testBit_or, h2] at h1

theorem clear_itergrace_and_active (s : Nat) :
    (s &&& (4294967295 ^^^ CONFMON_S_ITERGRACE)) &&& CONFMON_S_ACTIVE
      = s &&& CONFMON_S_ACTIVE := by
  rw [Nat.and_assoc]
  rfl

theorem active_ne_zero (s : Nat) (h : s &&& CONFMON_S_ACTIVE ≠ 0) : s ≠ 0 := by
  rintro rfl
  simp at h

theorem not_is_refreshing_iff {V : Type} (mon : lcb_confmon V) :
    NOT_IS_REFRESHING mon ≠ 0 ↔ mon.state = 0 := by
  unfold NOT_IS_REFRESHING lnot CONFMON_S_ACTIVE
  by_cases h : mon.state = 0 <;> simp [h]

theorem stop_of_idle {V : Type} (mon : lcb_confmon V) (h : mon.state = 0) :
    lcb_confmon_stop mon = mon := by
  unfold lcb_confmon_stop
  rw [if_pos ((not_is_refreshing_iff mon).2 h)]

theorem stop_of_busy {V : Type} (mon : lcb_confmon V) (h : mon.state ≠ 0) :
    lcb_confmon_stop mon =
      { mon with
        as_start := none
        as_stop := some 0
        state := CONFMON_S_INACTIVE } := by
  unfold lcb_confmon_stop
  rw [if_neg (fun hh => h ((not_is_refreshing_iff mon).1 hh))]
  rfl

theorem stop_state {V : Type} (mon : lcb_confmon V) :
    (lcb_confmon_stop mon).state = CONFMON_S_INACTIVE := by
  by_cases h : mon.state = 0
  · rw [stop_of_idle mon h, h]; rfl
  · rw [stop_of_busy mon h]

theorem stop_frame {V : Type} (mon : lcb_confmon V) :
    (lcb_confmon_stop mon).config = mon.config ∧
    (lcb_confmon_stop mon).cur_provider = mon.cur_provider ∧
    (lcb_confmon_stop mon).last_error = mon.last_error ∧
    (lcb_confmon_stop mon).listeners = mon.listeners ∧
    (lcb_confmon_stop mon).heap = mon.heap ∧
    (lcb_confmon_stop mon).log = mon.log := by
  by_cases h : mon.state = 0
  · rw [stop_of_idle mon h]; simp
  · rw [stop_of_busy mon h]; simp

/-! ### `do_set_next` -/

theorem config_updated_calls_no_callback {V : Type} (vbc : V)
    (ps : List (Option clconfig_provider)) (ii : Nat) :
    ∀ c ∈ config_updated_calls vbc ps ii, is_callback c = false := by
  induction ps generalizing ii with
  | nil => intro c hc; simp [config_updated_calls] at hc
  | cons hd tl ih =>
    intro c hc
    cases hd with
    | none => exact ih (ii + 1) c (by simpa [config_updated_calls] using hc)
    | some cur =>
      unfold config_updated_calls at hc
      split at hc
      · rcases List.mem_cons.1 hc with h | h
        · rw [h]; rfl
        · exact ih (ii + 1) c h
      · exact ih (ii + 1) c hc

theorem invoke_after_stop {V : Type} (X : lcb_confmon V) (event : clconfig_event_t)
    (info : Option Nat) :
    (invoke_listeners (lcb_confmon_stop X) event info).config = X.config ∧
    (invoke_listeners (lcb_confmon_stop X) event info).state = CONFMON_S_INACTIVE ∧
    (invoke_listeners (lcb_confmon_stop X) event info).cur_provider = X.cur_provider ∧
    (invoke_listeners (lcb_confmon_stop X) event info).last_error = X.last_error ∧
    (invoke_listeners (lcb_confmon_stop X) event info).listeners = X.listeners ∧
    (invoke_listeners (lcb_confmon_stop X) event info).heap = X.heap ∧
    (X.state ≠ 0 → (invoke_listeners (lcb_confmon_stop X) event info).as_stop = some 0 ∧
      (invoke_listeners (lcb_confmon_stop X) event info).as_start = none) ∧
    (invoke_listeners (lcb_confmon_stop X) event info).log = X.log ++
      X.listeners.map (fun lsn => Call.callback lsn event info X.config CONFMON_S_INACTIVE) := by
  by_cases hs : X.state = 0
  · rw [stop_of_idle X hs]
    simp [invoke_listeners, hs, CONFMON_S_INACTIVE]
  · rw [stop_of_busy X hs]
    simp [invoke_listeners, hs]

/-- The effect of lines 169-180 of `do_set_next`. -/
theorem install_effect {V : Type} (mon : lcb_confmon V) (info : Nat) :
    (do_set_next_install mon info).config = some info ∧
    (do_set_next_install mon info).state = CONFMON_S_INACTIVE ∧
    (do_set_next_install mon info).cur_provider = mon.cur_provider ∧
    (do_set_next_install mon info).last_error = mon.last_error ∧
    (do_set_next_install mon info).listeners = mon.listeners ∧
    (do_set_next_install mon info).heap = Function.update mon.heap info
      { mon.heap info with refcount := (mon.heap info).refcount + 1 } ∧
    (mon.state ≠ 0 → (do_set_next_install mon info).as_stop = some 0 ∧
      (do_set_next_install mon info).as_start = none) ∧
    (do_set_next_install mon info).log =
      mon.log ++ config_updated_calls (mon.heap info).vbc mon.all_providers 0 ++
        mon.listeners.map (fun lsn => Call.callback lsn
          clconfig_event_t.CLCONFIG_EVENT_GOT_NEW_CONFIG (some info) (some info)
          CONFMON_S_INACTIVE) :=
  invoke_after_stop
    { lcb_clconfig_incref
        { mon with
          log := mon.log ++ config_updated_calls (mon.heap info).vbc mon.all_providers 0 }
        info with config := some info }
    clconfig_event_t.CLCONFIG_EVENT_GOT_NEW_CONFIG (some info)

/-- The effect of `lcb_clconfig_decref` on a cell whose count is not zero. -/
theorem decref_effect {V : Type} (mon : lcb_confmon V) (cur : Nat)
    (hpos : 0 < (mon.heap cur).refcount) :
    ∃ mon1 calls, lcb_clconfig_decref mon cur = some mon1 ∧
      mon1.config = mon.config ∧ mon1.state = mon.state ∧
      mon1.cur_provider = mon.cur_provider ∧ mon1.last_error = mon.last_error ∧
      mon1.listeners = mon.listeners ∧
      mon1.heap = Function.update mon.heap cur
        { mon.heap cur with refcount := (mon.heap cur).refcount - 1 } ∧
      (∀ c ∈ calls, is_callback c = false) ∧
      mon1.log = mon.log ++ calls := by
  have hne : (mon.heap cur).refcount ≠ 0 := by omega
  unfold lcb_clconfig_decref
  simp only [hne, if_false]
  by_cases h1 : (mon.heap cur).refcount - 1 ≠ 0
  · simp only [h1, ne_eq, not_false_eq_true, if_true]
    exact ⟨_, [], rfl, rfl, rfl, rfl, rfl, rfl, rfl, by simp, by simp⟩
  · simp only [h1, if_false]
    refine ⟨_, [Call.vbucket_config_destroy (mon.heap cur).vbc], rfl, rfl, rfl, rfl, rfl,
      rfl, rfl, ?_, rfl⟩
    intro c hc
    rw [List.mem_singleton.1 hc]
    rfl

/-- The effect of the accepting part of `do_set_next` when there is no current
configuration. -/
theorem accept_of_no_config {V : Type} (mon : lcb_confmon V) (info : Nat)
    (h : mon.config = none) :
    do_set_next_accept mon info = some (true, do_set_next_install mon info) := by
  unfold do_set_next_accept
  simp only [h]

/-- The effect of the accepting part of `do_set_next` when a configuration is held
whose reference count is not zero. -/
theorem accept_of_config {V : Type} (mon : lcb_confmon V) (info cur : Nat)
    (h : mon.config = some cur) (hpos : 0 < (mon.heap cur).refcount) :
    ∃ mon' calls, do_set_next_accept mon info = some (true, mon') ∧
      mon'.config = some info ∧ mon'.state = CONFMON_S_INACTIVE ∧
      mon'.cur_provider = mon.cur_provider ∧ mon'.last_error = mon.last_error ∧
      mon'.listeners = mon.listeners ∧
      (cur ≠ info → (mon'.heap info).refcount = (mon.heap info).refcount + 1 ∧
        (mon'.heap cur).refcount + 1 = (mon.heap cur).refcount) ∧
      (∀ i, i ≠ cur → i ≠ info → mon'.heap i = mon.heap i) ∧
      (mon.state ≠ 0 → mon'.as_stop = some 0 ∧ mon'.as_start = none) ∧
      (∀ c ∈ calls, is_callback c = false) ∧
      mon'.log = mon.log ++ calls ++
        mon.listeners.map (fun lsn => Call.callback lsn
          clconfig_event_t.CLCONFIG_EVENT_GOT_NEW_CONFIG (some info) (some info)
          CONFMON_S_INACTIVE) := by
  obtain ⟨mon1, calls, hdec, hcfg, hst, hcp, hle, hls, hheap, hcalls, hlog⟩ :=
    decref_effect mon cur hpos
  obtain ⟨i1, i2, i3, i4, i5, i6, i7, i8⟩ := install_effect mon1 info
  refine ⟨do_set_next_install mon1 info,
    calls ++ config_updated_calls (mon1.heap info).vbc mon1.all_providers 0, ?_, i1, i2,
    i3.trans hcp, i4.trans hle, i5.trans hls, ?_, ?_, ?_, ?_, ?_⟩
  · unfold do_set_next_accept
    simp only [h, hdec]
  · intro hci
    rw [i6, hheap]
    have h2 : info ≠ cur := fun hh => hci hh.symm
    simp [Function.update, hci, h2]
    omega
  · intro i hi1 hi2
    rw [i6, hheap]
    simp [Function.update, hi1, hi2]
  · intro hs
    exact i7 (by rw [hst]; exact hs)
  · intro c hc
    rcases List.mem_append.1 hc with hc | hc
    · exact hcalls c hc
    · exact config_updated_calls_no_callback _ _ _ c hc
  · rw [i8, hlog, hls]
    simp [List.append_assoc]

theorem compare_self {V D : Type} (ops : VBucketOps V D) (a : clconfig_info V) :
    lcb_clconfig_compare ops a a = 0 := by
  by_cases h : 0 ≤ revision_of ops a
  · rw [compare_of_revisions ops a a ⟨h, h⟩]; omega
  · rw [compare_of_clocks ops a a (fun hh => h hh.1)]; simp

/-- The branches of `do_set_next` when a configuration is held. -/
theorem do_set_next_of_config {V D : Type} (ops : VBucketOps V D) (mon : lcb_confmon V)
    (info : Nat) (notify_miss : Bool) (cur : Nat) (h : mon.config = some cur) :
    (ops.vbucket_compare (mon.heap cur).vbc (mon.heap info).vbc = none →
      do_set_next ops mon info notify_miss = some (false, mon)) ∧
    (∀ diff, ops.vbucket_compare (mon.heap cur).vbc (mon.heap info).vbc = some diff →
      (ops.vbucket_what_changed diff = 0 ∨
        lcb_clconfig_compare ops (mon.heap cur) (mon.heap info) ≥ 0) →
      do_set_next ops mon info notify_miss = some (false,
        if notify_miss then
          invoke_listeners mon clconfig_event_t.CLCONFIG_EVENT_GOT_ANY_CONFIG (some info)
        else mon)) ∧
    (∀ diff, ops.vbucket_compare (mon.heap cur).vbc (mon.heap info).vbc = some diff →
      ¬ (ops.vbucket_what_changed diff = 0 ∨
        lcb_clconfig_compare ops (mon.heap cur) (mon.heap info) ≥ 0) →
      do_set_next ops mon info notify_miss = do_set_next_accept mon info) := by
  refine ⟨?_, ?_, ?_⟩
  · intro hd
    unfold do_set_next
    simp only [h, hd]
  · intro diff hd hc
    unfold do_set_next
    simp only [h, hd, hc, if_true]
    cases notify_miss <;> simp
  · intro diff hd hc
    unfold do_set_next
    simp only [h, hd, hc, if_false]

theorem do_set_next_of_no_config {V D : Type} (ops : VBucketOps V D) (mon : lcb_confmon V)
    (info : Nat) (notify_miss : Bool) (h : mon.config = none) :
    do_set_next ops mon info notify_miss = some (true, do_set_next_install mon info) := by
  unfold do_set_next
  simp only [h]
  exact accept_of_no_config mon info h

theorem accept_fst {V : Type} (mon : lcb_confmon V) (info : Nat) :
    (do_set_next_accept mon info).map Prod.fst ≠ some false := by
  unfold do_set_next_accept
  cases hr : (match mon.config with
    | some cur => lcb_clconfig_decref mon cur
    | none => some mon) with
  | none => simp
  | some m => simp

theorem decref_none_of_zero {V : Type} (mon : lcb_confmon V) (cur : Nat)
    (h : (mon.heap cur).refcount = 0) : lcb_clconfig_decref mon cur = none := by
  unfold lcb_clconfig_decref
  simp [h]

/-- `do_set_next` returns when the held configuration has a reference count that is not
zero. -/
theorem do_set_next_returns_aux {V D : Type} (ops : VBucketOps V D) (mon : lcb_confmon V)
    (info : Nat) (notify_miss : Bool)
    (hwf : ∀ cur, mon.config = some cur → 0 < (mon.heap cur).refcount) :
    ∃ r mon', do_set_next ops mon info notify_miss = some (r, mon') ∧
      (r = false → mon'.config = mon.config) := by
  cases hc : mon.config with
  | none =>
    exact ⟨true, _, do_set_next_of_no_config ops mon info notify_miss hc, by simp⟩
  | some cur =>
    obtain ⟨b1, b2, b3⟩ := do_set_next_of_config ops mon info notify_miss cur hc
    cases hd : ops.vbucket_compare (mon.heap cur).vbc (mon.heap info).vbc with
    | none => exact ⟨false, _, b1 hd, fun _ => hc⟩
    | some diff =>
      by_cases hrej : ops.vbucket_what_changed diff = 0 ∨
          lcb_clconfig_compare ops (mon.heap cur) (mon.heap info) ≥ 0
      · refine ⟨false, _, b2 diff hd hrej, fun _ => ?_⟩
        cases notify_miss <;> exact hc
      · obtain ⟨mon', calls, hacc, _⟩ := accept_of_config mon info cur hc (hwf cur hc)
        exact ⟨true, mon', (b3 diff hd hrej).trans hacc, by simp⟩

/-- C1: `do_set_next` returns, and it returns true exactly when the monitor holds no
current configuration, or `vbucket_compare` gives a diff on which `vbucket_what_changed`
is not zero and `lcb_clconfig_compare(current, info) < 0`; otherwise it returns false.
The held configuration has a reference count that is not zero. -/
theorem do_set_next_returns {V D : Type} (ops : VBucketOps V D) (mon : lcb_confmon V)
    (info : Nat) (notify_miss : Bool)
    (hwf : ∀ cur, mon.config = some cur → 0 < (mon.heap cur).refcount) :
    ∃ r mon', do_set_next ops mon info notify_miss = some (r, mon') ∧
      (r = true ↔ (mon.config = none ∨ ∃ cur diff, mon.config = some cur ∧
        ops.vbucket_compare (mon.heap cur).vbc (mon.heap info).vbc = some diff ∧
        ops.vbucket_what_changed diff ≠ 0 ∧
        lcb_clconfig_compare ops (mon.heap cur) (mon.heap info) < 0)) := by
  cases hc : mon.config with
  | none =>
    exact ⟨true, _, do_set_next_of_no_config ops mon info notify_miss hc, by simp⟩
  | some cur =>
    obtain ⟨b1, b2, b3⟩ := do_set_next_of_config ops mon info notify_miss cur hc
    cases hd : ops.vbucket_compare (mon.heap cur).vbc (mon.heap info).vbc with
    | none =>
      refine ⟨false, _, b1 hd, ?_⟩
      simp [hd]
    | some diff =>
      by_cases hrej : ops.vbucket_what_changed diff = 0 ∨
          lcb_clconfig_compare ops (mon.heap cur) (mon.heap info) ≥ 0
      · refine ⟨false, _, b2 diff hd hrej, ?_⟩
        simp only [Bool.false_eq_true, false_iff, not_or, not_exists, not_and]
        refine ⟨by simp, ?_⟩
        intro cur' diff' hcur' hd' hne hlt
        have e1 : cur' = cur := (Option.some.inj hcur').symm
        subst e1
        have e2 : diff' = diff := Option.some.inj (hd'.symm.trans hd)
        subst e2
        rcases hrej with hz | hge
        · exact hne hz
        · omega
      · obtain ⟨mon', calls, hacc, _⟩ := accept_of_config mon info cur hc (hwf cur hc)
        refine ⟨true, mon', (b3 diff hd hrej).trans hacc, ?_⟩
        simp only [true_iff]
        right
        refine ⟨cur, diff, rfl, hd, ?_, ?_⟩
        · exact fun hz => hrej (Or.inl hz)
        · have : ¬ lcb_clconfig_compare ops (mon.heap cur) (mon.heap info) ≥ 0 :=
            fun hge => hrej (Or.inr hge)
          omega

theorem do_set_next_returns_witness :
    (∀ cur, exMon.config = some cur → 0 < (exMon.heap cur).refcount) ∧
    ∃ r mon', do_set_next exOps exMon 2 true = some (r, mon') ∧
      (r = true ↔ (exMon.config = none ∨ ∃ cur diff, exMon.config = some cur ∧
        exOps.vbucket_compare (exMon.heap cur).vbc (exMon.heap 2).vbc = some diff ∧
        exOps.vbucket_what_changed diff ≠ 0 ∧
        lcb_clconfig_compare exOps (exMon.heap cur) (exMon.heap 2) < 0)) :=
  ⟨fun _ _ => Nat.one_pos,
    do_set_next_returns exOps exMon 2 true (fun _ _ => Nat.one_pos)⟩

theorem is_refreshing_of_inactive {V : Type} (mon : lcb_confmon V)
    (h : mon.state = CONFMON_S_INACTIVE) : IS_REFRESHING mon = 0 := by
  unfold IS_REFRESHING
  rw [h]
  rfl

theorem state_ne_zero_of_refreshing {V : Type} (mon : lcb_confmon V)
    (h : IS_REFRESHING mon ≠ 0) : mon.state ≠ 0 :=
  active_ne_zero mon.state h

/-- C5: when `do_set_next` accepts `info`, on return `info` is the current
configuration, its reference count is one higher and the count of the previous
configuration (if there was one) one lower, the monitor is not Active, the deferred stop
is signalled and the start-timer disarmed if it was Active, and after the calls to
provider hooks every listener, in list order, got exactly one `GotNewConfig(info)`
callback, made when `info` was already the current configuration. -/
theorem do_set_next_accept_effect {V D : Type} (ops : VBucketOps V D)
    (mon : lcb_confmon V) (info : Nat) (notify_miss : Bool)
    (hacc : (do_set_next ops mon info notify_miss).map Prod.fst = some true) :
    ∃ mon' calls, do_set_next ops mon info notify_miss = some (true, mon') ∧
      mon'.config = some info ∧
      (mon'.heap info).refcount = (mon.heap info).refcount + 1 ∧
      (∀ cur, mon.config = some cur →
        (mon'.heap cur).refcount + 1 = (mon.heap cur).refcount) ∧
      IS_REFRESHING mon' = 0 ∧
      (IS_REFRESHING mon ≠ 0 → mon'.as_stop = some 0 ∧ mon'.as_start = none) ∧
      mon'.listeners = mon.listeners ∧
      (∀ c ∈ calls, is_callback c = false) ∧
      mon'.log = mon.log ++ calls ++
        mon.listeners.map (fun lsn => Call.callback lsn
          clconfig_event_t.CLCONFIG_EVENT_GOT_NEW_CONFIG (some info) (some info)
          CONFMON_S_INACTIVE) := by
  cases hc : mon.config with
  | none =>
    obtain ⟨i1, i2, i3, i4, i5, i6, i7, i8⟩ := install_effect mon info
    refine ⟨do_set_next_install mon info,
      config_updated_calls (mon.heap info).vbc mon.all_providers 0,
      do_set_next_of_no_config ops mon info notify_miss hc, i1, ?_, ?_,
      is_refreshing_of_inactive _ i2, ?_, i5, config_updated_calls_no_callback _ _ _, i8⟩
    · rw [i6]; simp
    · intro cur hcur; cases hcur
    · exact fun hr => i7 (state_ne_zero_of_refreshing mon hr)
  | some cur =>
    obtain ⟨b1, b2, b3⟩ := do_set_next_of_config ops mon info notify_miss cur hc
    cases hd : ops.vbucket_compare (mon.heap cur).vbc (mon.heap info).vbc with
    | none => rw [b1 hd] at hacc; simp at hacc
    | some diff =>
      by_cases hrej : ops.vbucket_what_changed diff = 0 ∨
          lcb_clconfig_compare ops (mon.heap cur) (mon.heap info) ≥ 0
      · rw [b2 diff hd hrej] at hacc; simp at hacc
      · have hpos : 0 < (mon.heap cur).refcount := by
          rcases Nat.eq_zero_or_pos (mon.heap cur).refcount with hz | hp
          · rw [b3 diff hd hrej] at hacc
            unfold do_set_next_accept at hacc
            simp [hc, decref_none_of_zero mon cur hz] at hacc
          · exact hp
        have hne : cur ≠ info := by
          intro he
          apply hrej
          right
          rw [he, compare_self]
        obtain ⟨mon', calls, hres, a1, a2, _, _, a5, a6, _, a8, a9, a10⟩ :=
          accept_of_config mon info cur hc hpos
        refine ⟨mon', calls, (b3 diff hd hrej).trans hres, a1, (a6 hne).1, ?_,
          is_refreshing_of_inactive _ a2, ?_, a5, a9, a10⟩
        · intro cur' hcur'
          have e1 : cur' = cur := (Option.some.inj hcur').symm
          subst e1
          exact (a6 hne).2
        · exact fun hr => a8 (state_ne_zero_of_refreshing mon hr)

theorem do_set_next_accept_effect_witness :
    (do_set_next exOps exMon 2 true).map Prod.fst = some true ∧
    ∃ mon' calls, do_set_next exOps exMon 2 true = some (true, mon') ∧
      mon'.config = some 2 ∧
      (mon'.heap 2).refcount = (exMon.heap 2).refcount + 1 ∧
      (∀ cur, exMon.config = some cur →
        (mon'.heap cur).refcount + 1 = (exMon.heap cur).refcount) ∧
      IS_REFRESHING mon' = 0 ∧
      (IS_REFRESHING exMon ≠ 0 → mon'.as_stop = some 0 ∧ mon'.as_start = none) ∧
      mon'.listeners = exMon.listeners ∧
      (∀ c ∈ calls, is_callback c = false) ∧
      mon'.log = exMon.log ++ calls ++
        exMon.listeners.map (fun lsn => Call.callback lsn
          clconfig_event_t.CLCONFIG_EVENT_GOT_NEW_CONFIG (some 2) (some 2)
          CONFMON_S_INACTIVE) :=
  ⟨by decide, do_set_next_accept_effect exOps exMon 2 true (by decide)⟩

/-- The accepting part of `do_set_next` never reports a rejection, so a rejection comes
from one of the two rejecting branches. -/
theorem reject_branches {V D : Type} (ops : VBucketOps V D) (mon : lcb_confmon V)
    (info : Nat) (notify_miss : Bool)
    (hrej : (do_set_next ops mon info notify_miss).map Prod.fst = some false) :
    (current_diff ops mon info = none ∧
      do_set_next ops mon info notify_miss = some (false, mon)) ∨
    (current_diff ops mon info ≠ none ∧
      do_set_next ops mon info notify_miss = some (false,
        if notify_miss then
          invoke_listeners mon clconfig_event_t.CLCONFIG_EVENT_GOT_ANY_CONFIG (some info)
        else mon)) := by
  cases hc : mon.config with
  | none =>
    rw [do_set_next_of_no_config ops mon info notify_miss hc] at hrej
    simp at hrej
  | some cur =>
    obtain ⟨b1, b2, b3⟩ := do_set_next_of_config ops mon info notify_miss cur hc
    cases hd : ops.vbucket_compare (mon.heap cur).vbc (mon.heap info).vbc with
    | none =>
      left
      exact ⟨by simp [current_diff, hc, hd], b1 hd⟩
    | some diff =>
      by_cases hr : ops.vbucket_what_changed diff = 0 ∨
          lcb_clconfig_compare ops (mon.heap cur) (mon.heap info) ≥ 0
      · right
        exact ⟨by simp [current_diff, hc, hd], b2 diff hd hr⟩
      · rw [b3 diff hd hr] at hrej
        exact absurd hrej (accept_fst mon info)

/-- C6, amended: when `do_set_next` rejects `info`, the current configuration, the state
flags, the cursor and the whole heap (so every reference count) are unchanged and no
`GotNewConfig` callback is made; `GotAnyConfig(info)` goes to every listener, in list
order, if `notify_miss` is set and `vbucket_compare` gave a diff; no call at all is made
if `notify_miss` is clear or `vbucket_compare` gave no diff. -/
theorem do_set_next_reject_effect {V D : Type} (ops : VBucketOps V D)
    (mon : lcb_confmon V) (info : Nat) (notify_miss : Bool)
    (hrej : (do_set_next ops mon info notify_miss).map Prod.fst = some false) :
    ∃ mon', do_set_next ops mon info notify_miss = some (false, mon') ∧
      mon'.config = mon.config ∧ mon'.state = mon.state ∧
      mon'.cur_provider = mon.cur_provider ∧ mon'.heap = mon.heap ∧
      (notify_miss = true ∧ current_diff ops mon info ≠ none →
        mon'.log = mon.log ++ mon.listeners.map (fun lsn =>
          Call.callback lsn clconfig_event_t.CLCONFIG_EVENT_GOT_ANY_CONFIG (some info)
            mon.config mon.state)) ∧
      (notify_miss = false ∨ current_diff ops mon info = none → mon'.log = mon.log) ∧
      (∀ lsn i c st, Call.callback lsn clconfig_event_t.CLCONFIG_EVENT_GOT_NEW_CONFIG
        i c st ∈ mon'.log → Call.callback lsn
          clconfig_event_t.CLCONFIG_EVENT_GOT_NEW_CONFIG i c st ∈ mon.log) := by
  rcases reject_branches ops mon info notify_miss hrej with ⟨hd, hres⟩ | ⟨hd, hres⟩
  · refine ⟨mon, hres, rfl, rfl, rfl, rfl, ?_, fun _ => rfl, fun _ _ _ _ h => h⟩
    intro h
    exact absurd hd h.2
  · cases notify_miss with
    | false =>
      refine ⟨mon, by simpa using hres, rfl, rfl, rfl, rfl, ?_, fun _ => rfl,
        fun _ _ _ _ h => h⟩
      intro h
      exact absurd h.1 (by simp)
    | true =>
      refine ⟨invoke_listeners mon clconfig_event_t.CLCONFIG_EVENT_GOT_ANY_CONFIG
        (some info), by simpa using hres, rfl, rfl, rfl, rfl, fun _ => rfl, ?_, ?_⟩
      · intro h
        rcases h with h | h
        · exact absurd h (by simp)
        · exact absurd h hd
      · intro lsn i c st hmem
        simp only [invoke_listeners, List.mem_append, List.mem_map] at hmem
        rcases hmem with h | ⟨l, _, hl⟩
        · exact h
        · cases hl

theorem do_set_next_reject_effect_witness :
    (do_set_next exOps exMon 1 true).map Prod.fst = some false ∧
    ∃ mon', do_set_next exOps exMon 1 true = some (false, mon') ∧
      mon'.config = exMon.config ∧ mon'.state = exMon.state ∧
      mon'.cur_provider = exMon.cur_provider ∧ mon'.heap = exMon.heap ∧
      (true = true ∧ current_diff exOps exMon 1 ≠ none →
        mon'.log = exMon.log ++ exMon.listeners.map (fun lsn =>
          Call.callback lsn clconfig_event_t.CLCONFIG_EVENT_GOT_ANY_CONFIG (some 1)
            exMon.config exMon.state)) ∧
      (true = false ∨ current_diff exOps exMon 1 = none → mon'.log = exMon.log) ∧
      (∀ lsn i c st, Call.callback lsn clconfig_event_t.CLCONFIG_EVENT_GOT_NEW_CONFIG
        i c st ∈ mon'.log → Call.callback lsn
          clconfig_event_t.CLCONFIG_EVENT_GOT_NEW_CONFIG i c st ∈ exMon.log) :=
  ⟨by decide, do_set_next_reject_effect exOps exMon 1 true (by decide)⟩

/-- C6 as the specification words it fails when `vbucket_compare` gives no diff:
`do_set_next` then rejects without any callback although `notify_miss` is set and two
listeners are registered. -/
theorem reject_contract_fails : ¬ reject_contract exOpsNoDiff exMon 2 true := by
  intro h
  obtain ⟨mon', hres, _, _, _, _, hlog, _⟩ := h (by decide)
  have e : mon' = exMon := by
    have h2 : do_set_next exOpsNoDiff exMon 2 true = some (false, exMon) := rfl
    rw [h2] at hres
    exact (Prod.mk.inj (Option.some.inj hres)).2.symm
  have h3 := hlog rfl
  rw [e] at h3
  simp [exMon] at h3

/-! ### `lcb_confmon_provider_success` and `lcb_confmon_provider_failed` -/

/-- `do_set_next` writes neither the cursor nor `last_error`. -/
theorem do_set_next_frame {V D : Type} (ops : VBucketOps V D) (mon : lcb_confmon V)
    (info : Nat) (notify_miss : Bool) (r : Bool) (mon' : lcb_confmon V)
    (h : do_set_next ops mon info notify_miss = some (r, mon')) :
    mon'.cur_provider = mon.cur_provider ∧ mon'.last_error = mon.last_error := by
  cases hc : mon.config with
  | none =>
    rw [do_set_next_of_no_config ops mon info notify_miss hc] at h
    obtain ⟨_, _, i3, i4, _⟩ := install_effect mon info
    have e := (Prod.mk.inj (Option.some.inj h)).2
    rw [← e]
    exact ⟨i3, i4⟩
  | some cur =>
    obtain ⟨b1, b2, b3⟩ := do_set_next_of_config ops mon info notify_miss cur hc
    cases hd : ops.vbucket_compare (mon.heap cur).vbc (mon.heap info).vbc with
    | none =>
      rw [b1 hd] at h
      have e := (Prod.mk.inj (Option.some.inj h)).2
      rw [← e]
      exact ⟨rfl, rfl⟩
    | some diff =>
      by_cases hrej : ops.vbucket_what_changed diff = 0 ∨
          lcb_clconfig_compare ops (mon.heap cur) (mon.heap info) ≥ 0
      · rw [b2 diff hd hrej] at h
        have e := (Prod.mk.inj (Option.some.inj h)).2
        rw [← e]
        cases notify_miss <;> exact ⟨rfl, rfl⟩
      · rw [b3 diff hd hrej] at h
        rcases Nat.eq_zero_or_pos (mon.heap cur).refcount with hz | hp
        · unfold do_set_next_accept at h
          simp [hc, decref_none_of_zero mon cur hz] at h
        · obtain ⟨m, _, hres, _, _, a3, a4, _⟩ := accept_of_config mon info cur hc hp
          rw [hres] at h
          have e := (Prod.mk.inj (Option.some.inj h)).2
          rw [← e]
          exact ⟨a3, a4⟩

/-- C8: for every provider and every `info`, `lcb_confmon_provider_success` returns
(the held configuration has a reference count that is not zero); afterwards the monitor
is not Active, the cursor and `last_error` are unchanged, and if no configuration was
held then `info` is the current one and every listener got `GotNewConfig(info)`. -/
theorem provider_success_effect {V D : Type} (ops : VBucketOps V D) (mon : lcb_confmon V)
    (provider info : Nat)
    (hwf : ∀ cur, mon.config = some cur → 0 < (mon.heap cur).refcount) :
    ∃ mon', lcb_confmon_provider_success ops mon provider info = some mon' ∧
      IS_REFRESHING mon' = 0 ∧
      mon'.cur_provider = mon.cur_provider ∧
      mon'.last_error = mon.last_error ∧
      (mon.config = none → mon'.config = some info ∧
        ∃ calls, (∀ c ∈ calls, is_callback c = false) ∧
          mon'.log = mon.log ++ calls ++
            mon.listeners.map (fun lsn => Call.callback lsn
              clconfig_event_t.CLCONFIG_EVENT_GOT_NEW_CONFIG (some info) (some info)
              CONFMON_S_INACTIVE)) := by
  obtain ⟨r, m1, hres, _⟩ := do_set_next_returns_aux ops mon info true hwf
  obtain ⟨f1, f2⟩ := do_set_next_frame ops mon info true r m1 hres
  obtain ⟨s1, s2, s3, _, _, s6⟩ := stop_frame m1
  refine ⟨lcb_confmon_stop m1, ?_, is_refreshing_of_inactive _ (stop_state m1),
    s2.trans f1, s3.trans f2, ?_⟩
  · unfold lcb_confmon_provider_success
    simp only [hres]
  · intro hc
    rw [do_set_next_of_no_config ops mon info true hc] at hres
    have e := (Prod.mk.inj (Option.some.inj hres)).2
    obtain ⟨i1, _, _, _, _, _, _, i8⟩ := install_effect mon info
    rw [s1, s6, ← e]
    exact ⟨i1, config_updated_calls (mon.heap info).vbc mon.all_providers 0,
      config_updated_calls_no_callback _ _ _, i8⟩

theorem provider_success_effect_witness :
    (∀ cur, ({ exMon with config := none } : lcb_confmon ExVbc).config = some cur →
      0 < (({ exMon with config := none } : lcb_confmon ExVbc).heap cur).refcount) ∧
    ∃ mon', lcb_confmon_provider_success exOps { exMon with config := none } 1 2
        = some mon' ∧
      IS_REFRESHING mon' = 0 ∧
      mon'.cur_provider = some 0 ∧
      mon'.last_error = 7 ∧
      ((none : Option Nat) = none → mon'.config = some 2 ∧
        ∃ calls, (∀ c ∈ calls, is_callback c = false) ∧
          mon'.log = [] ++ calls ++
            [10, 11].map (fun lsn => Call.callback lsn
              clconfig_event_t.CLCONFIG_EVENT_GOT_NEW_CONFIG (some 2) (some 2)
              CONFMON_S_INACTIVE)) :=
  ⟨fun _ _ => Nat.one_pos,
    provider_success_effect exOps { exMon with config := none } 1 2
      (fun _ _ => Nat.one_pos)⟩

theorem next_active_congr {V : Type} (m mon : lcb_confmon V) (p : Nat)
    (h : m.active_providers = mon.active_providers) :
    next_active m p = next_active mon p := by
  unfold next_active
  rw [h]

/-- The two branches of `lcb_confmon_provider_failed` when the current provider
reports the failure. -/
theorem provider_failed_current {V : Type} (mon : lcb_confmon V) (provider : Nat)
    (reason : lcb_error_t) (hcur : mon.cur_provider = some provider) :
    (next_active mon provider = none →
      lcb_confmon_provider_failed mon provider reason = some (lcb_confmon_stop
        { invoke_listeners
            { mon with
              last_error := if reason ≠ LCB_SUCCESS then reason else mon.last_error
              cur_provider := none }
            clconfig_event_t.CLCONFIG_EVENT_PROVIDERS_CYCLED none with
          cur_provider := first_active mon })) ∧
    (∀ nxt, next_active mon provider = some nxt →
      lcb_confmon_provider_failed mon provider reason = some
        { mon with
          last_error := if reason ≠ LCB_SUCCESS then reason else mon.last_error
          cur_provider := some nxt
          state := mon.state ||| CONFMON_S_ITERGRACE
          as_start := some mon.grace_next_provider }) := by
  have e : next_active
      { mon with last_error := if reason ≠ LCB_SUCCESS then reason else mon.last_error }
      provider = next_active mon provider := next_active_congr _ mon provider rfl
  have h0 : ¬ (some provider ≠ mon.cur_provider) := by rw [hcur]; simp
  unfold lcb_confmon_provider_failed
  rw [if_neg h0]
  unfold provider_failed_advance
  constructor
  · intro hn
    simp only [e, hn]
    rfl
  · intro nxt hn
    simp only [e, hn]
    rfl

/-- The failure of the last active provider of an active monitor ends the cycle. -/
theorem provider_failed_cycled {V : Type} (mon : lcb_confmon V) (provider : Nat)
    (reason : lcb_error_t) (hcur : mon.cur_provider = some provider)
    (hnone : next_active mon provider = none) (hs : mon.state ≠ 0) :
    ∃ mon', lcb_confmon_provider_failed mon provider reason = some mon' ∧
      mon'.log = mon.log ++ mon.listeners.map (fun lsn => Call.callback lsn
        clconfig_event_t.CLCONFIG_EVENT_PROVIDERS_CYCLED none mon.config mon.state) ∧
      mon'.cur_provider = first_active mon ∧
      mon'.state = CONFMON_S_INACTIVE ∧ mon'.as_stop = some 0 ∧ mon'.as_start = none := by
  have hX := stop_of_busy
    { invoke_listeners
        { mon with
          last_error := if reason ≠ LCB_SUCCESS then reason else mon.last_error
          cur_provider := none }
        clconfig_event_t.CLCONFIG_EVENT_PROVIDERS_CYCLED none with
      cur_provider := first_active mon } hs
  refine ⟨_, (provider_failed_current mon provider reason hcur).1 hnone, ?_⟩
  rw [hX]
  exact ⟨rfl, rfl, rfl, rfl, rfl⟩

/-- C9, amended: after `lcb_confmon_provider_failed` is called by the current provider,
`last_error` is the reason when the reason is not `LCB_SUCCESS`, and is unchanged when
the reason is `LCB_SUCCESS`. -/
theorem provider_failed_last_error {V : Type} (mon : lcb_confmon V) (provider : Nat)
    (reason : lcb_error_t) (hcur : mon.cur_provider = some provider) :
    ∃ mon', lcb_confmon_provider_failed mon provider reason = some mon' ∧
      mon'.last_error = if reason ≠ LCB_SUCCESS then reason else mon.last_error := by
  obtain ⟨b1, b2⟩ := provider_failed_current mon provider reason hcur
  cases hn : next_active mon provider with
  | none => exact ⟨_, b1 hn, (stop_frame _).2.2.1⟩
  | some nxt => exact ⟨_, b2 nxt hn, rfl⟩

theorem provider_failed_last_error_witness :
    exMon.cur_provider = some 0 ∧
    ∃ mon', lcb_confmon_provider_failed exMon 0 3 = some mon' ∧
      mon'.last_error = if (3 : lcb_error_t) ≠ LCB_SUCCESS then 3 else exMon.last_error :=
  ⟨rfl, provider_failed_last_error exMon 0 3 rfl⟩

/-- C9 as the specification words it fails for the reason `LCB_SUCCESS`: the monitor
keeps the `last_error` it had, here 7. -/
theorem last_error_contract_fails : ¬ last_error_contract exMon 0 LCB_SUCCESS := by
  intro h
  obtain ⟨mon', hres, hle⟩ := h rfl
  have h2 : (lcb_confmon_provider_failed exMon 0 LCB_SUCCESS).map (fun m => m.last_error)
      = some 7 := by decide
  rw [hres] at h2
  simp only [Option.map_some'] at h2
  rw [hle] at h2
  exact absurd (Option.some.inj h2) (by decide)

/-- C10: a failure reported by a provider other than the current one is ignored: the
call returns the monitor as it was, so state flags, cursor, `last_error`, current
configuration, timers and call log are all unchanged. -/
theorem provider_failed_ignored {V : Type} (mon : lcb_confmon V) (provider cur : Nat)
    (reason : lcb_error_t) (hcur : mon.cur_provider = some cur) (hne : provider ≠ cur) :
    lcb_confmon_provider_failed mon provider reason = some mon := by
  have h1 : some provider ≠ mon.cur_provider := by
    rw [hcur]
    exact fun h => hne (Option.some.inj h)
  unfold lcb_confmon_provider_failed
  rw [if_pos h1, hcur]

theorem provider_failed_ignored_witness :
    exMon.cur_provider = some 0 ∧ (1 : Nat) ≠ 0 ∧
    lcb_confmon_provider_failed exMon 1 3 = some exMon :=
  ⟨rfl, by decide, provider_failed_ignored exMon 1 0 3 rfl (by decide)⟩

/-! ### A full provider cycle -/

theorem list_next_get (l : List Nat) (hnd : l.Nodup) (k p : Nat)
    (hk : l.get? k = some p) : list_next l p = l.get? (k + 1) := by
  induction l generalizing k with
  | nil => simp at hk
  | cons a t ih =>
    cases k with
    | zero =>
      have e : a = p := by simpa using hk
      subst e
      unfold list_next
      cases t with
      | nil => simp [List.dropWhile]
      | cons b t' => simp [List.dropWhile]
    | succ k' =>
      have hk' : t.get? k' = some p := by simpa using hk
      have hmem : p ∈ t := List.get?_mem hk'
      have hne : a ≠ p := by
        intro e
        subst e
        exact (List.nodup_cons.1 hnd).1 hmem
      have hstep : list_next (a :: t) p = list_next t p := by
        unfold list_next
        simp [List.dropWhile, hne]
      rw [hstep, ih (List.nodup_cons.1 hnd).2 k' hk']
      simp

/-- A rejection with `notify_miss` clear leaves the monitor as it was. -/
theorem reject_silent {V D : Type} (ops : VBucketOps V D) (mon : lcb_confmon V)
    (info : Nat) (hrej : (do_set_next ops mon info false).map Prod.fst = some false) :
    do_set_next ops mon info false = some (false, mon) := by
  rcases reject_branches ops mon info false hrej with ⟨_, h⟩ | ⟨_, h⟩
  · exact h
  · simpa using h

/-- Whether `do_set_next` accepts depends on the current configuration and the heap
only. -/
theorem do_set_next_fst_congr {V D : Type} (ops : VBucketOps V D) (m mon : lcb_confmon V)
    (info : Nat) (notify_miss : Bool) (hc : m.config = mon.config) (hh : m.heap = mon.heap) :
    (do_set_next ops m info notify_miss).map Prod.fst =
      (do_set_next ops mon info notify_miss).map Prod.fst := by
  cases hcfg : mon.config with
  | none =>
    rw [do_set_next_of_no_config ops mon info notify_miss hcfg,
      do_set_next_of_no_config ops m info notify_miss (hc.trans hcfg)]
    rfl
  | some cur =>
    obtain ⟨b1, b2, b3⟩ := do_set_next_of_config ops mon info notify_miss cur hcfg
    obtain ⟨c1, c2, c3⟩ := do_set_next_of_config ops m info notify_miss cur (hc.trans hcfg)
    rw [hh] at c1 c2 c3
    cases hd : ops.vbucket_compare (mon.heap cur).vbc (mon.heap info).vbc with
    | none => rw [b1 hd, c1 hd]; rfl
    | some diff =>
      by_cases hrej : ops.vbucket_what_changed diff = 0 ∨
          lcb_clconfig_compare ops (mon.heap cur) (mon.heap info) ≥ 0
      · rw [b2 diff hd hrej, c2 diff hd hrej]; rfl
      · rw [b3 diff hd hrej, c3 diff hd hrej]
        rcases Nat.eq_zero_or_pos (mon.heap cur).refcount with hz | hp
        · have hz' : (m.heap cur).refcount = 0 := by rw [hh]; exact hz
          unfold do_set_next_accept
          simp [hcfg, hc.trans hcfg, decref_none_of_zero mon cur hz,
            decref_none_of_zero m cur hz']
        · have hp' : 0 < (m.heap cur).refcount := by rw [hh]; exact hp
          obtain ⟨x, _, hx, _⟩ := accept_of_config mon info cur hcfg hp
          obtain ⟨y, _, hy, _⟩ := accept_of_config m info cur (hc.trans hcfg) hp'
          rw [hx, hy]
          rfl

theorem get_cached_congr {V : Type} (m mon : lcb_confmon V) (p : Nat)
    (h : m.all_providers = mon.all_providers) : get_cached m p = get_cached mon p := by
  unfold get_cached provider_at
  rw [h]

/-- A provider that has the two hooks can be asked for its cached configuration and
can be refreshed. -/
theorem hooks_calls {V : Type} (m : lcb_confmon V) (p : Nat) (h : has_hooks m p = true) :
    (∃ c, get_cached m p = some c) ∧
      refresh m p = some { m with log := m.log ++ [Call.refresh p] } := by
  unfold has_hooks at h
  unfold get_cached refresh
  cases hp : provider_at m p with
  | none =>
    rw [hp] at h
    cases h
  | some cur =>
    rw [hp] at h
    simp only [Bool.and_eq_true] at h
    simp only [h.1, h.2, if_true]
    exact ⟨⟨cur.cached, rfl⟩, trivial⟩

theorem has_hooks_congr {V : Type} (m mon : lcb_confmon V) (p : Nat)
    (h : m.all_providers = mon.all_providers) : has_hooks m p = has_hooks mon p := by
  unfold has_hooks provider_at
  rw [h]

theorem loop_cons_fault {V D : Type} (ops : VBucketOps V D) (p : Nat) (rest : List Nat)
    (m : lcb_confmon V) (h : get_cached m p = none) :
    do_next_provider_loop ops (p :: rest) m = none := by
  have h' : get_cached { m with log := m.log ++ [Call.get_cached p] } p = none := h
  rw [do_next_provider_loop]
  simp only [h']

theorem loop_cons_none {V D : Type} (ops : VBucketOps V D) (p : Nat) (rest : List Nat)
    (m : lcb_confmon V) (h : get_cached m p = some none) :
    do_next_provider_loop ops (p :: rest) m =
      do_next_provider_loop ops rest { m with log := m.log ++ [Call.get_cached p] } := by
  have h' : get_cached { m with log := m.log ++ [Call.get_cached p] } p = some none := h
  rw [do_next_provider_loop]
  simp only [h']

theorem loop_cons_reject {V D : Type} (ops : VBucketOps V D) (p : Nat) (rest : List Nat)
    (m : lcb_confmon V) (info : Nat) (h : get_cached m p = some (some info))
    (hr : do_set_next ops { m with log := m.log ++ [Call.get_cached p] } info false =
      some (false, { m with log := m.log ++ [Call.get_cached p] })) :
    do_next_provider_loop ops (p :: rest) m =
      do_next_provider_loop ops rest { m with log := m.log ++ [Call.get_cached p] } := by
  have h' : get_cached { m with log := m.log ++ [Call.get_cached p] } p = some (some info) :=
    h
  rw [do_next_provider_loop]
  simp only [h', hr]

/-- When no active provider has an acceptable cached configuration the loop of
`do_next_provider` asks every provider and changes nothing else. -/
theorem loop_without_cached {V D : Type} (ops : VBucketOps V D) (mon : lcb_confmon V)
    (hhooks : ∀ p ∈ mon.active_providers, has_hooks mon p = true)
    (hcached : ∀ p ∈ mon.active_providers, ∀ info, get_cached mon p = some (some info) →
      (do_set_next ops mon info false).map Prod.fst = some false)
    (l : List Nat) (hl : ∀ p ∈ l, p ∈ mon.active_providers) (m : lcb_confmon V)
    (hc : m.config = mon.config) (hh : m.heap = mon.heap)
    (hp : m.all_providers = mon.all_providers) :
    do_next_provider_loop ops l m =
      some (false, { m with log := m.log ++ l.map Call.get_cached }) := by
  induction l generalizing m with
  | nil => simp [do_next_provider_loop]
  | cons p rest ih =>
    have hrest : ∀ q ∈ rest, q ∈ mon.active_providers :=
      fun q hq => hl q (List.mem_cons_of_mem p hq)
    have hstep := ih hrest { m with log := m.log ++ [Call.get_cached p] } hc hh hp
    have hlog : ({ m with log := (m.log ++ [Call.get_cached p]) ++ rest.map Call.get_cached }
        : lcb_confmon V) = { m with log := m.log ++ (p :: rest).map Call.get_cached } := by
      simp [List.append_assoc]
    have hg : get_cached m p = get_cached mon p := get_cached_congr m mon p hp
    obtain ⟨c, hgc⟩ := (hooks_calls mon p (hhooks p (hl p (List.mem_cons_self p rest)))).1
    cases c with
    | none =>
      rw [loop_cons_none ops p rest m (hg.trans hgc), hstep]
      exact congrArg (fun x => some (false, x)) hlog
    | some info =>
      have hrej := hcached p (hl p (List.mem_cons_self p rest)) info hgc
      have hrej' : (do_set_next ops { m with log := m.log ++ [Call.get_cached p] }
          info false).map Prod.fst = some false :=
        (do_set_next_fst_congr ops { m with log := m.log ++ [Call.get_cached p] } mon info
          false hc hh).trans hrej
      rw [loop_cons_reject ops p rest m info (hg.trans hgc) (reject_silent ops _ info hrej'),
        hstep]
      exact congrArg (fun x => some (false, x)) hlog

theorem do_next_provider_refresh {V D : Type} (ops : VBucketOps V D) (m m1 : lcb_confmon V)
    (cur : Nat)
    (hloop : do_next_provider_loop ops m.active_providers
      { m with state := m.state &&& (4294967295 ^^^ CONFMON_S_ITERGRACE) } = some (false, m1))
    (hcur : m1.cur_provider = some cur) :
    do_next_provider ops m = (refresh m1 cur).map (fun m2 => (false, m2)) := by
  have hloop' : do_next_provider_loop ops
      ({ m with state := m.state &&& (4294967295 ^^^ CONFMON_S_ITERGRACE) }
        : lcb_confmon V).active_providers
      { m with state := m.state &&& (4294967295 ^^^ CONFMON_S_ITERGRACE) }
      = some (false, m1) := hloop
  unfold do_next_provider
  simp only [hloop', hcur]

/-- The firing of the start-timer when no active provider has an acceptable cached
configuration: the grace flag is cleared, every provider is asked for its cached
configuration and the current provider is refreshed. -/
theorem fire_without_cached {V D : Type} (ops : VBucketOps V D) (mon : lcb_confmon V)
    (hhooks : ∀ p ∈ mon.active_providers, has_hooks mon p = true)
    (hcached : ∀ p ∈ mon.active_providers, ∀ info, get_cached mon p = some (some info) →
      (do_set_next ops mon info false).map Prod.fst = some false)
    (m : lcb_confmon V) (hcore : same_core m mon) (d cur : Nat)
    (htimer : m.as_start = some d) (hcur : m.cur_provider = some cur)
    (hmem : cur ∈ mon.active_providers) :
    as_start_fire ops m = some
      { m with
        as_start := none
        state := m.state &&& (4294967295 ^^^ CONFMON_S_ITERGRACE)
        log := m.log ++ mon.active_providers.map Call.get_cached ++ [Call.refresh cur] } := by
  obtain ⟨hc, hh, hp, ha, _, _⟩ := hcore
  have hl : ∀ p ∈ m.active_providers, p ∈ mon.active_providers := by
    rw [ha]; exact fun _ h => h
  have hloop := loop_without_cached ops mon hhooks hcached m.active_providers hl
    { m with
      as_start := none
      state := m.state &&& (4294967295 ^^^ CONFMON_S_ITERGRACE) } hc hh hp
  have hnext := do_next_provider_refresh ops { m with as_start := none } _ cur hloop hcur
  have href := (hooks_calls
    { m with
      as_start := none
      state := m.state &&& (4294967295 ^^^ CONFMON_S_ITERGRACE)
      log := m.log ++ m.active_providers.map Call.get_cached } cur
    ((has_hooks_congr _ mon cur hp).trans (hhooks cur hmem))).2
  unfold as_start_fire
  rw [htimer]
  simp only []
  unfold async_start
  rw [hnext, href, ← ha]
  rfl

theorem first_active_eq_get {V : Type} (mon : lcb_confmon V) :
    first_active mon = mon.active_providers.get? 0 := by
  unfold first_active
  cases mon.active_providers <;> rfl

theorem get_of_lt (l : List Nat) (k : Nat) (hk : k < l.length) : ∃ p, l.get? k = some p := by
  cases h : l.get? k with
  | none =>
    have := List.get?_eq_none.1 h
    omega
  | some p => exact ⟨p, rfl⟩

/-- After `k` rounds of a provider cycle, `k` less than the number of active providers,
the monitor is still Active, its cursor is at the `k`-th active provider and nothing but
cursor, flags, timers, `last_error` and the call log has changed. -/
theorem rounds_invariant {V D : Type} (ops : VBucketOps V D) (mon : lcb_confmon V)
    (reasons : Nat → lcb_error_t)
    (hactive : IS_REFRESHING mon ≠ 0)
    (hnodup : mon.active_providers.Nodup)
    (hhead : mon.cur_provider = first_active mon)
    (hhooks : ∀ p ∈ mon.active_providers, has_hooks mon p = true)
    (hcached : ∀ p ∈ mon.active_providers, ∀ info, get_cached mon p = some (some info) →
      (do_set_next ops mon info false).map Prod.fst = some false)
    (k : Nat) (hk : k < mon.active_providers.length) :
    ∃ mk, fail_rounds ops reasons k mon = some mk ∧ same_core mk mon ∧
      mk.cur_provider = mon.active_providers.get? k ∧ IS_REFRESHING mk ≠ 0 := by
  induction k with
  | zero =>
    exact ⟨mon, rfl, ⟨rfl, rfl, rfl, rfl, rfl, rfl⟩,
      hhead.trans (first_active_eq_get mon), hactive⟩
  | succ k ih =>
    obtain ⟨mk, hrounds, hcore, hcur, hact⟩ := ih (by omega)
    obtain ⟨p, hp⟩ := get_of_lt mon.active_providers k (by omega)
    obtain ⟨q, hq⟩ := get_of_lt mon.active_providers (k + 1) hk
    rw [hp] at hcur
    have hnext : next_active mk p = some q := by
      rw [next_active_congr mk mon p hcore.2.2.2.1]
      unfold next_active
      rw [list_next_get mon.active_providers hnodup k p hp, hq]
    have hfail := (provider_failed_current mk p (reasons k) hcur).2 q hnext
    obtain ⟨c1, c2, c3, c4, c5, c6⟩ := hcore
    have hfire := fire_without_cached ops mon hhooks hcached
      { mk with
        last_error := if reasons k ≠ LCB_SUCCESS then reasons k else mk.last_error
        cur_provider := some q
        state := mk.state ||| CONFMON_S_ITERGRACE
        as_start := some mk.grace_next_provider }
      ⟨c1, c2, c3, c4, c5, c6⟩ mk.grace_next_provider q rfl rfl (List.get?_mem hq)
    refine ⟨{ mk with
        last_error := if reasons k ≠ LCB_SUCCESS then reasons k else mk.last_error
        cur_provider := some q
        state := (mk.state ||| CONFMON_S_ITERGRACE) &&& (4294967295 ^^^ CONFMON_S_ITERGRACE)
        as_start := none
        log := mk.log ++ mon.active_providers.map Call.get_cached ++ [Call.refresh q] },
      ?_, ⟨c1, c2, c3, c4, c5, c6⟩, hq.symm, ?_⟩
    · rw [fail_rounds, hrounds]
      simp only [Option.bind_eq_bind, Option.some_bind]
      unfold fail_then_fire
      rw [hcur]
      simp only []
      rw [hfail]
      simp only [Option.some_bind]
      exact hfire
    · unfold IS_REFRESHING
      simp only []
      rw [clear_itergrace_and_active, lor_itergrace_and_active]
      exact hact

/-- C7: on an Active monitor with `n ≥ 1` active providers, each with the `get_cached`
and `refresh` hooks that the firing of the start-timer calls, the cursor at the head and
no acceptable cached configuration, `n` successive failures, each reported by the
then-current provider with the start-timer firing in between, walk the cursor through
the active list in order: before the call number `k` the cursor is at the `k`-th active
provider; each call but the last makes no call to a listener, sets the grace flag, keeps
the monitor Active, moves the cursor to the next provider and arms the start-timer for
`grace_next_provider`; the last call gives `ProvidersCycled` to every listener exactly
once, puts the cursor back to the head, leaves the monitor Idle, disarms the start-timer
and signals the deferred stop. -/
theorem provider_cycle {V D : Type} (ops : VBucketOps V D) (mon : lcb_confmon V)
    (reasons : Nat → lcb_error_t)
    (hactive : IS_REFRESHING mon ≠ 0)
    (hnodup : mon.active_providers.Nodup)
    (hhead : mon.cur_provider = first_active mon)
    (hhooks : ∀ p ∈ mon.active_providers, has_hooks mon p = true)
    (hcached : ∀ p ∈ mon.active_providers, ∀ info, get_cached mon p = some (some info) →
      (do_set_next ops mon info false).map Prod.fst = some false)
    (k : Nat) (hk : k < mon.active_providers.length) :
    ∃ p mk mk', mon.active_providers.get? k = some p ∧
      fail_rounds ops reasons k mon = some mk ∧ mk.cur_provider = some p ∧
      lcb_confmon_provider_failed mk p (reasons k) = some mk' ∧
      (k + 1 < mon.active_providers.length →
        mk'.cur_provider = mon.active_providers.get? (k + 1) ∧
        mk'.log = mk.log ∧
        mk'.state &&& CONFMON_S_ITERGRACE ≠ 0 ∧ IS_REFRESHING mk' ≠ 0 ∧
        mk'.as_start = some mon.grace_next_provider) ∧
      (k + 1 = mon.active_providers.length →
        mk'.log = mk.log ++ mon.listeners.map (fun lsn => Call.callback lsn
          clconfig_event_t.CLCONFIG_EVENT_PROVIDERS_CYCLED none mon.config mk.state) ∧
        mk'.cur_provider = first_active mon ∧
        mk'.state = CONFMON_S_INACTIVE ∧ mk'.as_stop = some 0 ∧ mk'.as_start = none) := by
  obtain ⟨mk, hrounds, hcore, hcur, hact⟩ :=
    rounds_invariant ops mon reasons hactive hnodup hhead hhooks hcached k hk
  obtain ⟨p, hp⟩ := get_of_lt mon.active_providers k hk
  rw [hp] at hcur
  obtain ⟨c1, c2, c3, c4, c5, c6⟩ := hcore
  have hnext : next_active mk p = mon.active_providers.get? (k + 1) := by
    rw [next_active_congr mk mon p c4]
    unfold next_active
    exact list_next_get mon.active_providers hnodup k p hp
  obtain ⟨b1, b2⟩ := provider_failed_current mk p (reasons k) hcur
  by_cases hlast : k + 1 < mon.active_providers.length
  · obtain ⟨q, hq⟩ := get_of_lt mon.active_providers (k + 1) hlast
    refine ⟨p, mk, _, hp, hrounds, hcur, b2 q (hnext.trans hq), ?_, ?_⟩
    · intro _
      refine ⟨hq.symm, rfl, lor_itergrace_set mk.state, ?_, congrArg some c6⟩
      unfold IS_REFRESHING
      simp only []
      rw [lor_itergrace_and_active]
      exact hact
    · intro h; omega
  · have hnone : next_active mk p = none := by
      rw [hnext]
      exact List.get?_eq_none.2 (by omega)
    have hs : mk.state ≠ 0 := state_ne_zero_of_refreshing mk hact
    obtain ⟨mk', hres, e1, e2, e3, e4, e5⟩ :=
      provider_failed_cycled mk p (reasons k) hcur hnone hs
    refine ⟨p, mk, mk', hp, hrounds, hcur, hres, ?_, ?_⟩
    · intro h; omega
    · intro _
      refine ⟨?_, ?_, e3, e4, e5⟩
      · rw [e1, c5, c1]
      · rw [e2]
        exact (first_active_eq_get mk).trans
          ((congrArg (fun l => l.get? 0) c4).trans (first_active_eq_get mon).symm)

theorem provider_cycle_witness :
    (IS_REFRESHING exMon ≠ 0 ∧ exMon.active_providers.Nodup ∧
      exMon.cur_provider = first_active exMon ∧
      (∀ p ∈ exMon.active_providers, has_hooks exMon p = true) ∧
      (∀ p ∈ exMon.active_providers, ∀ info, get_cached exMon p = some (some info) →
        (do_set_next exOps exMon info false).map Prod.fst = some false) ∧
      1 < exMon.active_providers.length) ∧
    ∃ p mk mk', exMon.active_providers.get? 1 = some p ∧
      fail_rounds exOps (fun _ => 3) 1 exMon = some mk ∧ mk.cur_provider = some p ∧
      lcb_confmon_provider_failed mk p 3 = some mk' ∧
      (1 + 1 < exMon.active_providers.length →
        mk'.cur_provider = exMon.active_providers.get? (1 + 1) ∧
        mk'.log = mk.log ∧
        mk'.state &&& CONFMON_S_ITERGRACE ≠ 0 ∧ IS_REFRESHING mk' ≠ 0 ∧
        mk'.as_start = some exMon.grace_next_provider) ∧
      (1 + 1 = exMon.active_providers.length →
        mk'.log = mk.log ++ exMon.listeners.map (fun lsn => Call.callback lsn
          clconfig_event_t.CLCONFIG_EVENT_PROVIDERS_CYCLED none exMon.config mk.state) ∧
        mk'.cur_provider = first_active exMon ∧
        mk'.state = CONFMON_S_INACTIVE ∧ mk'.as_stop = some 0 ∧ mk'.as_start = none) := by
  have hhooks : ∀ p ∈ exMon.active_providers, has_hooks exMon p = true := by decide
  have hcached : ∀ p ∈ exMon.active_providers, ∀ info,
      get_cached exMon p = some (some info) →
      (do_set_next exOps exMon info false).map Prod.fst = some false := by
    intro p hp info hinfo
    have hp' : p = 0 ∨ p = 1 := by simpa [exMon] using hp
    rcases hp' with rfl | rfl
    · have hnone : get_cached exMon 0 = some none := rfl
      rw [hnone] at hinfo
      cases Option.some.inj hinfo
    · have hone : get_cached exMon 1 = some (some 1) := rfl
      rw [hone] at hinfo
      have e : info = 1 := (Option.some.inj (Option.some.inj hinfo)).symm
      subst e
      decide
  exact ⟨⟨by decide, by decide, rfl, hhooks, hcached, by decide⟩,
    provider_cycle exOps exMon (fun _ => 3) (by decide) (by decide) rfl hhooks hcached 1
      (by decide)⟩

/-- The user provider of `lcb_clconfig_create_user` has neither hook: once it is enabled
with `lcb_confmon_set_provider_active`, the firing of the start-timer calls
`get_cached` through a null pointer and reaches no state. -/
theorem user_provider_faults :
    (run exOps [MonOp.prepare, MonOp.set_provider_active LCB_CLCONFIG_USER true,
      MonOp.start 0] exInit).isSome = true ∧
    (run exOps [MonOp.prepare, MonOp.set_provider_active LCB_CLCONFIG_USER true,
      MonOp.start 0, MonOp.start_timer] exInit).isSome = false := by
  decide

/-! ### `lcb_confmon_start` -/

theorem sub32_spec (a b : Nat) :
    ((sub32 a b : Nat) : Int) = ((a : Int) - (b : Int)) % 4294967296 := by
  unfold sub32 toUInt32
  omega

theorem sub32_of_le (a b : Nat) (ha : a < 4294967296) (hb : b ≤ a) : sub32 a b = a - b := by
  unfold sub32 toUInt32
  omega

theorem active_or_itergrace_refreshing :
    (CONFMON_S_ACTIVE ||| CONFMON_S_ITERGRACE) &&& CONFMON_S_ACTIVE ≠ 0 := by decide

theorem active_or_itergrace_in_grace :
    (CONFMON_S_ACTIVE ||| CONFMON_S_ITERGRACE) &&& CONFMON_S_ITERGRACE ≠ 0 := by decide

/-- `lcb_confmon_start` aborts on a monitor that is not Active and has no cursor. -/
theorem start_of_null {V : Type} (mon : lcb_confmon V) (now_ns : Nat)
    (hidle : IS_REFRESHING mon = 0) (hcur : mon.cur_provider = none) :
    lcb_confmon_start mon now_ns = none := by
  have h1 : ¬ (IS_REFRESHING { mon with as_stop := lcbio_async_cancel mon.as_stop } ≠ 0) := by
    intro h
    exact h hidle
  unfold lcb_confmon_start
  simp only [h1, if_false]
  split
  · rfl
  · rename_i c hsome
    rw [hcur] at hsome
    cases hsome

/-- The result of `lcb_confmon_start` on a monitor that is not Active and has a
cursor. -/
theorem start_of_idle {V : Type} (mon : lcb_confmon V) (now_ns : Nat)
    (hidle : IS_REFRESHING mon = 0) (cur : Nat) (hcur : mon.cur_provider = some cur) :
    lcb_confmon_start mon now_ns = some (LCB_SUCCESS,
      { mon with
        as_stop := none
        state := CONFMON_S_ACTIVE ||| CONFMON_S_ITERGRACE
        as_start := some
          (if sub32 (toUInt32 (LCB_NS2US now_ns)) mon.last_stop_us > mon.grace_next_cycle
            then 0
            else sub32 mon.grace_next_cycle
              (sub32 (toUInt32 (LCB_NS2US now_ns)) mon.last_stop_us)) }) := by
  have h1 : ¬ (IS_REFRESHING { mon with as_stop := lcbio_async_cancel mon.as_stop } ≠ 0) := by
    intro h
    exact h hidle
  unfold lcb_confmon_start
  simp only [h1, if_false]
  split
  · rename_i hnone
    rw [hcur] at hnone
    cases hnone
  · rfl

/-- The result of `lcb_confmon_start` on an Active monitor. -/
theorem start_of_active {V : Type} (mon : lcb_confmon V) (now_ns : Nat)
    (hact : IS_REFRESHING mon ≠ 0) :
    lcb_confmon_start mon now_ns = some (LCB_SUCCESS, { mon with as_stop := none }) := by
  have h1 : IS_REFRESHING { mon with as_stop := lcbio_async_cancel mon.as_stop } ≠ 0 := hact
  unfold lcb_confmon_start
  simp only [h1, ne_eq, not_false_eq_true, if_true]
  rfl

/-- C11: `lcb_confmon_start` on a monitor that is not Active (and has a cursor) succeeds,
sets the state to Active and InGrace and arms the start-timer with a delay `d` such
that, `elapsed` being `now - last_stop` modulo 2^32 in microseconds, `d` is
`grace_next_cycle - elapsed` when `elapsed ≤ grace_next_cycle` and 0 otherwise; so `d`
is `max 0 (grace_next_cycle - elapsed)` and `d ≤ grace_next_cycle`. -/
theorem lcb_confmon_start_delay {V : Type} (mon : lcb_confmon V) (now_ns : Nat)
    (hidle : IS_REFRESHING mon = 0) (hcur : mon.cur_provider ≠ none)
    (hgrace : mon.grace_next_cycle < 4294967296) :
    ∃ (mon' : lcb_confmon V) (d elapsed : Nat),
      lcb_confmon_start mon now_ns = some (LCB_SUCCESS, mon') ∧
      mon'.state = CONFMON_S_ACTIVE ||| CONFMON_S_ITERGRACE ∧
      IS_REFRESHING mon' ≠ 0 ∧ mon'.state &&& CONFMON_S_ITERGRACE ≠ 0 ∧
      mon'.as_start = some d ∧
      (elapsed : Int) =
        ((LCB_NS2US now_ns : Int) - (mon.last_stop_us : Int)) % 4294967296 ∧
      d = (if elapsed ≤ mon.grace_next_cycle then mon.grace_next_cycle - elapsed else 0) ∧
      (d : Int) = max 0 ((mon.grace_next_cycle : Int) - (elapsed : Int)) ∧
      d ≤ mon.grace_next_cycle := by
  cases hc : mon.cur_provider with
  | none => exact absurd hc hcur
  | some cur =>
    have helapsed : ((sub32 (toUInt32 (LCB_NS2US now_ns)) mon.last_stop_us : Nat) : Int) =
        ((LCB_NS2US now_ns : Int) - (mon.last_stop_us : Int)) % 4294967296 := by
      unfold sub32 toUInt32
      omega
    refine ⟨_, _, sub32 (toUInt32 (LCB_NS2US now_ns)) mon.last_stop_us,
      start_of_idle mon now_ns hidle cur hc, rfl, active_or_itergrace_refreshing,
      active_or_itergrace_in_grace, rfl, helapsed, ?_, ?_, ?_⟩
    · by_cases h : sub32 (toUInt32 (LCB_NS2US now_ns)) mon.last_stop_us
          > mon.grace_next_cycle
      · have h' : ¬ sub32 (toUInt32 (LCB_NS2US now_ns)) mon.last_stop_us
            ≤ mon.grace_next_cycle := by omega
        simp only [h, h', if_true, if_false]
      · have h' : sub32 (toUInt32 (LCB_NS2US now_ns)) mon.last_stop_us
            ≤ mon.grace_next_cycle := by omega
        simp only [h, h', if_true, if_false]
        exact sub32_of_le _ _ hgrace h'
    · by_cases h : sub32 (toUInt32 (LCB_NS2US now_ns)) mon.last_stop_us
          > mon.grace_next_cycle
      · simp only [h, if_true]
        omega
      · simp only [h, if_false]
        rw [sub32_of_le _ _ hgrace (by omega)]
        omega
    · by_cases h : sub32 (toUInt32 (LCB_NS2US now_ns)) mon.last_stop_us
          > mon.grace_next_cycle
      · simp only [h, if_true]
        omega
      · simp only [h, if_false]
        rw [sub32_of_le _ _ hgrace (by omega)]
        omega

theorem lcb_confmon_start_delay_witness :
    (IS_REFRESHING ({ exMon with state := 0, last_stop_us := 4294967290 }
        : lcb_confmon ExVbc) = 0 ∧
      ({ exMon with state := 0, last_stop_us := 4294967290 }
        : lcb_confmon ExVbc).cur_provider ≠ none ∧
      ({ exMon with state := 0, last_stop_us := 4294967290 }
        : lcb_confmon ExVbc).grace_next_cycle < 4294967296) ∧
    ∃ (mon' : lcb_confmon ExVbc) (d elapsed : Nat),
      lcb_confmon_start { exMon with state := 0, last_stop_us := 4294967290 } 10000
        = some (LCB_SUCCESS, mon') ∧
      mon'.state = CONFMON_S_ACTIVE ||| CONFMON_S_ITERGRACE ∧
      IS_REFRESHING mon' ≠ 0 ∧ mon'.state &&& CONFMON_S_ITERGRACE ≠ 0 ∧
      mon'.as_start = some d ∧
      (elapsed : Int) = ((LCB_NS2US 10000 : Int) - (4294967290 : Int)) % 4294967296 ∧
      d = (if elapsed ≤ 10 then 10 - elapsed else 0) ∧
      (d : Int) = max 0 ((10 : Int) - (elapsed : Int)) ∧
      d ≤ 10 :=
  ⟨⟨by decide, by decide, by decide⟩,
    lcb_confmon_start_delay { exMon with state := 0, last_stop_us := 4294967290 } 10000
      (by decide) (by decide) (by decide)⟩

/-- C12: `lcb_confmon_start` on an Active monitor returns success and leaves the state
flags, the cursor, the current configuration, `last_error` and the start-timer as they
are; and after any call of `lcb_confmon_start` that returns, a second call returns
success and leaves them as the first call left them. -/
theorem lcb_confmon_start_idempotent {V : Type} (mon : lcb_confmon V) (now1 now2 : Nat) :
    (IS_REFRESHING mon ≠ 0 →
      ∃ mon', lcb_confmon_start mon now1 = some (LCB_SUCCESS, mon') ∧
        mon'.state = mon.state ∧ mon'.cur_provider = mon.cur_provider ∧
        mon'.config = mon.config ∧ mon'.last_error = mon.last_error ∧
        mon'.as_start = mon.as_start) ∧
    (∀ r mon1, lcb_confmon_start mon now1 = some (r, mon1) →
      IS_REFRESHING mon1 ≠ 0 ∧
      ∃ mon2, lcb_confmon_start mon1 now2 = some (LCB_SUCCESS, mon2) ∧
        mon2.state = mon1.state ∧ mon2.cur_provider = mon1.cur_provider ∧
        mon2.config = mon1.config ∧ mon2.last_error = mon1.last_error ∧
        mon2.as_start = mon1.as_start) := by
  constructor
  · intro hact
    exact ⟨_, start_of_active mon now1 hact, rfl, rfl, rfl, rfl, rfl⟩
  · intro r mon1 h1
    have hact1 : IS_REFRESHING mon1 ≠ 0 := by
      by_cases hact : IS_REFRESHING mon ≠ 0
      · rw [start_of_active mon now1 hact] at h1
        have e := (Prod.mk.inj (Option.some.inj h1)).2
        rw [← e]
        exact hact
      · have hidle : IS_REFRESHING mon = 0 := by
          by_contra hne
          exact hact hne
        cases hc : mon.cur_provider with
        | none =>
          rw [start_of_null mon now1 hidle hc] at h1
          cases h1
        | some cur =>
          rw [start_of_idle mon now1 hidle cur hc] at h1
          have e := (Prod.mk.inj (Option.some.inj h1)).2
          rw [← e]
          exact active_or_itergrace_refreshing
    exact ⟨hact1, _, start_of_active mon1 now2 hact1, rfl, rfl, rfl, rfl, rfl⟩

theorem lcb_confmon_start_idempotent_witness :
    IS_REFRESHING exMon ≠ 0 ∧
    ∃ mon', lcb_confmon_start exMon 5000 = some (LCB_SUCCESS, mon') ∧
      mon'.state = exMon.state ∧ mon'.cur_provider = exMon.cur_provider ∧
      mon'.config = exMon.config ∧ mon'.last_error = exMon.last_error ∧
      mon'.as_start = exMon.as_start :=
  ⟨by decide, (lcb_confmon_start_idempotent exMon 5000 6000).1 (by decide)⟩

/-! ### Sequences of operations: the state flags and the start-timer -/

theorem settled_refl {V : Type} (m m' : lcb_confmon V) (hs : m'.state = m.state)
    (ht : m'.as_start = m.as_start) : settled m m' := Or.inl ⟨hs, ht⟩

theorem settled_trans {V : Type} (a b c : lcb_confmon V) (h1 : settled a b)
    (h2 : settled b c) : settled a c := by
  rcases h2 with ⟨hs, ht⟩ | ⟨hs, ht⟩
  · rcases h1 with ⟨hs1, ht1⟩ | ⟨hs1, ht1⟩
    · exact Or.inl ⟨hs.trans hs1, ht.trans ht1⟩
    · exact Or.inr ⟨hs.trans hs1, ht.trans ht1⟩
  · exact Or.inr ⟨hs, ht⟩

theorem stop_settled {V : Type} (m : lcb_confmon V) : settled m (lcb_confmon_stop m) := by
  by_cases h : m.state = 0
  · rw [stop_of_idle m h]
    exact Or.inl ⟨rfl, rfl⟩
  · rw [stop_of_busy m h]
    exact Or.inr ⟨rfl, rfl⟩

theorem settled_of_stop {V : Type} (m X : lcb_confmon V) (hs : X.state = m.state)
    (ht : X.as_start = m.as_start) : settled m (lcb_confmon_stop X) :=
  settled_trans m X _ (settled_refl m X hs ht) (stop_settled X)

theorem install_settled {V : Type} (m : lcb_confmon V) (info : Nat) :
    settled m (do_set_next_install m info) := by
  have h := stop_settled
    { lcb_clconfig_incref
        { m with
          log := m.log ++ config_updated_calls (m.heap info).vbc m.all_providers 0 }
        info with config := some info }
  rcases h with ⟨hs, ht⟩ | ⟨hs, ht⟩
  · exact Or.inl ⟨hs, ht⟩
  · exact Or.inr ⟨hs, ht⟩

theorem decref_timers {V : Type} (m m1 : lcb_confmon V) (cur : Nat)
    (h : lcb_clconfig_decref m cur = some m1) :
    m1.state = m.state ∧ m1.as_start = m.as_start := by
  unfold lcb_clconfig_decref at h
  by_cases h0 : (m.heap cur).refcount = 0
  · simp [h0] at h
  · simp only [h0, if_false] at h
    by_cases h1 : (m.heap cur).refcount - 1 ≠ 0
    · simp only [h1, ne_eq, not_false_eq_true, if_true] at h
      have e := Option.some.inj h
      rw [← e]
      exact ⟨rfl, rfl⟩
    · simp only [h1, if_false] at h
      have e := Option.some.inj h
      rw [← e]
      exact ⟨rfl, rfl⟩

theorem accept_settled {V : Type} (m m' : lcb_confmon V) (info : Nat) (r : Bool)
    (h : do_set_next_accept m info = some (r, m')) : settled m m' := by
  unfold do_set_next_accept at h
  cases hc : m.config with
  | none =>
    simp only [hc] at h
    have e := (Prod.mk.inj (Option.some.inj h)).2
    rw [← e]
    exact install_settled m info
  | some cur =>
    simp only [hc] at h
    cases hd : lcb_clconfig_decref m cur with
    | none => simp [hd] at h
    | some m1 =>
      simp only [hd] at h
      have e := (Prod.mk.inj (Option.some.inj h)).2
      rw [← e]
      obtain ⟨hs, ht⟩ := decref_timers m m1 cur hd
      exact settled_trans m m1 _ (settled_refl m m1 hs ht) (install_settled m1 info)

theorem do_set_next_settled {V D : Type} (ops : VBucketOps V D) (m m' : lcb_confmon V)
    (info : Nat) (notify_miss r : Bool)
    (h : do_set_next ops m info notify_miss = some (r, m')) : settled m m' := by
  cases hc : m.config with
  | none =>
    rw [do_set_next_of_no_config ops m info notify_miss hc] at h
    have e := (Prod.mk.inj (Option.some.inj h)).2
    rw [← e]
    exact install_settled m info
  | some cur =>
    obtain ⟨b1, b2, b3⟩ := do_set_next_of_config ops m info notify_miss cur hc
    cases hd : ops.vbucket_compare (m.heap cur).vbc (m.heap info).vbc with
    | none =>
      rw [b1 hd] at h
      have e := (Prod.mk.inj (Option.some.inj h)).2
      rw [← e]
      exact Or.inl ⟨rfl, rfl⟩
    | some diff =>
      by_cases hrej : ops.vbucket_what_changed diff = 0 ∨
          lcb_clconfig_compare ops (m.heap cur) (m.heap info) ≥ 0
      · rw [b2 diff hd hrej] at h
        have e := (Prod.mk.inj (Option.some.inj h)).2
        rw [← e]
        cases notify_miss <;> exact Or.inl ⟨rfl, rfl⟩
      · rw [b3 diff hd hrej] at h
        exact accept_settled m m' info r h

theorem refresh_frame {V : Type} (m m' : lcb_confmon V) (p : Nat)
    (h : refresh m p = some m') : m' = { m with log := m.log ++ [Call.refresh p] } := by
  unfold refresh at h
  split at h
  · cases h
  · split at h
    · exact (Option.some.inj h).symm
    · cases h

theorem loop_settled {V D : Type} (ops : VBucketOps V D) (l : List Nat)
    (m m' : lcb_confmon V) (r : Bool)
    (h : do_next_provider_loop ops l m = some (r, m')) : settled m m' := by
  induction l generalizing m with
  | nil =>
    simp only [do_next_provider_loop] at h
    have e := (Prod.mk.inj (Option.some.inj h)).2
    rw [← e]
    exact Or.inl ⟨rfl, rfl⟩
  | cons p rest ih =>
    have hlog : settled m { m with log := m.log ++ [Call.get_cached p] } :=
      Or.inl ⟨rfl, rfl⟩
    rw [do_next_provider_loop] at h
    cases hg : get_cached { m with log := m.log ++ [Call.get_cached p] } p with
    | none => simp [hg] at h
    | some c =>
    cases c with
    | none =>
      simp only [hg] at h
      exact settled_trans _ _ _ hlog (ih _ h)
    | some info =>
      simp only [hg] at h
      cases hd : do_set_next ops { m with log := m.log ++ [Call.get_cached p] } info false with
      | none => simp [hd] at h
      | some res =>
        obtain ⟨b, m2⟩ := res
        have hset : settled { m with log := m.log ++ [Call.get_cached p] } m2 :=
          do_set_next_settled ops _ m2 info false b hd
        cases b with
        | true =>
          simp only [hd] at h
          have e := (Prod.mk.inj (Option.some.inj h)).2
          rw [← e]
          exact settled_trans _ _ _ hlog hset
        | false =>
          simp only [hd] at h
          exact settled_trans _ _ _ (settled_trans _ _ _ hlog hset) (ih _ h)

theorem prepare_frame {V : Type} (m m' : lcb_confmon V)
    (h : lcb_confmon_prepare m = some m') :
    m'.state = m.state ∧ m'.as_start = m.as_start := by
  unfold lcb_confmon_prepare at h
  simp only [] at h
  split at h
  · cases h
  · have e := Option.some.inj h
    rw [← e]
    exact ⟨rfl, rfl⟩

theorem set_provider_active_frame {V : Type} (m m' : lcb_confmon V) (type : Nat)
    (enabled : Bool) (h : lcb_confmon_set_provider_active m type enabled = some m') :
    m'.state = m.state ∧ m'.as_start = m.as_start := by
  unfold lcb_confmon_set_provider_active at h
  cases hp : provider_at m type with
  | none => simp [hp] at h
  | some provider =>
    simp only [hp] at h
    split at h
    · have e := Option.some.inj h
      rw [← e]
      exact ⟨rfl, rfl⟩
    · exact prepare_frame
        { m with
          all_providers :=
            m.all_providers.set type (some { provider with enabled := enabled }) }
        m' h

theorem start_summary {V : Type} (m m' : lcb_confmon V) (now_ns : Nat) (r : lcb_error_t)
    (h : lcb_confmon_start m now_ns = some (r, m')) :
    (m'.state = m.state ∧ m'.as_start = m.as_start) ∨
    m'.state = CONFMON_S_ACTIVE ||| CONFMON_S_ITERGRACE := by
  by_cases hact : IS_REFRESHING m ≠ 0
  · rw [start_of_active m now_ns hact] at h
    have e := (Prod.mk.inj (Option.some.inj h)).2
    rw [← e]
    exact Or.inl ⟨rfl, rfl⟩
  · have hidle : IS_REFRESHING m = 0 := by
      by_contra hne
      exact hact hne
    cases hc : m.cur_provider with
    | none =>
      rw [start_of_null m now_ns hidle hc] at h
      cases h
    | some cur =>
      rw [start_of_idle m now_ns hidle cur hc] at h
      have e := (Prod.mk.inj (Option.some.inj h)).2
      rw [← e]
      exact Or.inr rfl

theorem provider_success_settled {V D : Type} (ops : VBucketOps V D) (m m' : lcb_confmon V)
    (provider config : Nat) (h : lcb_confmon_provider_success ops m provider config = some m') :
    settled m m' := by
  unfold lcb_confmon_provider_success at h
  cases hd : do_set_next ops m config true with
  | none => simp [hd] at h
  | some res =>
    obtain ⟨b, m1⟩ := res
    simp only [hd] at h
    have e := Option.some.inj h
    rw [← e]
    exact settled_trans m m1 _ (do_set_next_settled ops m m1 config true b hd)
      (stop_settled m1)

theorem provider_failed_summary {V : Type} (m m' : lcb_confmon V) (provider : Nat)
    (reason : lcb_error_t) (h : lcb_confmon_provider_failed m provider reason = some m') :
    settled m m' ∨
    (some provider = m.cur_provider ∧ m'.state = m.state ||| CONFMON_S_ITERGRACE) := by
  by_cases hcur : m.cur_provider = some provider
  · obtain ⟨b1, b2⟩ := provider_failed_current m provider reason hcur
    cases hn : next_active m provider with
    | none =>
      rw [b1 hn] at h
      have e := Option.some.inj h
      rw [← e]
      left
      exact settled_of_stop m _ rfl rfl
    | some nxt =>
      rw [b2 nxt hn] at h
      have e := Option.some.inj h
      rw [← e]
      right
      exact ⟨hcur.symm, rfl⟩
  · have hne : some provider ≠ m.cur_provider := fun e => hcur e.symm
    unfold lcb_confmon_provider_failed at h
    rw [if_pos hne] at h
    cases hc : m.cur_provider with
    | none => simp [hc] at h
    | some c =>
      simp only [hc] at h
      have e := Option.some.inj h
      rw [← e]
      exact Or.inl (Or.inl ⟨rfl, rfl⟩)

theorem do_next_provider_summary {V D : Type} (ops : VBucketOps V D) (m m' : lcb_confmon V)
    (r : Bool) (h : do_next_provider ops m = some (r, m')) :
    (m'.state = m.state &&& (4294967295 ^^^ CONFMON_S_ITERGRACE) ∧ m'.as_start = m.as_start) ∨
    (m'.state = CONFMON_S_INACTIVE ∧ m'.as_start = none) := by
  unfold do_next_provider at h
  simp only [] at h
  cases hl : do_next_provider_loop ops m.active_providers
      { m with state := m.state &&& (4294967295 ^^^ CONFMON_S_ITERGRACE) } with
  | none => simp [hl] at h
  | some res =>
    obtain ⟨b, m1⟩ := res
    have hset : settled { m with state := m.state &&& (4294967295 ^^^ CONFMON_S_ITERGRACE) }
        m1 := loop_settled ops _ _ m1 b hl
    cases b with
    | true =>
      simp only [hl] at h
      have e := (Prod.mk.inj (Option.some.inj h)).2
      rw [← e]
      exact hset
    | false =>
      simp only [hl] at h
      cases hc : m1.cur_provider with
      | none => simp [hc] at h
      | some cur =>
        simp only [hc] at h
        obtain ⟨m2, hm2, e⟩ := Option.map_eq_some'.mp h
        rw [← (Prod.mk.inj e).2, refresh_frame m1 m2 cur hm2]
        exact hset

theorem as_start_fire_summary {V D : Type} (ops : VBucketOps V D) (m m' : lcb_confmon V)
    (h : as_start_fire ops m = some m') :
    m.as_start ≠ none ∧ m'.as_start = none ∧
    (m'.state = m.state &&& (4294967295 ^^^ CONFMON_S_ITERGRACE) ∨
      m'.state = CONFMON_S_INACTIVE) := by
  unfold as_start_fire at h
  cases ht : m.as_start with
  | none => simp [ht] at h
  | some d =>
    simp only [ht] at h
    unfold async_start at h
    cases hd : do_next_provider ops { m with as_start := none } with
    | none => simp [hd] at h
    | some res =>
      obtain ⟨b, m1⟩ := res
      simp only [hd, Option.map_some'] at h
      have e := Option.some.inj h
      rw [← e]
      refine ⟨by simp, ?_⟩
      rcases do_next_provider_summary ops _ m1 b hd with ⟨hs, ha⟩ | ⟨hs, ha⟩
      · exact ⟨ha, Or.inl hs⟩
      · exact ⟨ha, Or.inr hs⟩

theorem as_stop_fire_frame {V : Type} (m m' : lcb_confmon V) (now_ns : Nat)
    (h : as_stop_fire m now_ns = some m') :
    m'.state = m.state ∧ m'.as_start = m.as_start := by
  unfold as_stop_fire at h
  cases ht : m.as_stop with
  | none => simp [ht] at h
  | some d =>
    simp only [ht] at h
    have e := Option.some.inj h
    rw [← e]
    exact ⟨rfl, rfl⟩

/-- What each operation does to the state flags and the start-timer. -/
theorem op_effect {V D : Type} (ops : VBucketOps V D) (op : MonOp) (m m' : lcb_confmon V)
    (h : apply_op ops op m = some m') : op_summary op m m' := by
  cases op with
  | prepare =>
    obtain ⟨hs, ht⟩ := prepare_frame m m' h
    exact Or.inl (Or.inl ⟨hs, ht⟩)
  | set_provider_active type enabled =>
    obtain ⟨hs, ht⟩ := set_provider_active_frame m m' type enabled h
    exact Or.inl (Or.inl ⟨hs, ht⟩)
  | start now_ns =>
    simp only [apply_op] at h
    cases hr : lcb_confmon_start m now_ns with
    | none => simp [hr] at h
    | some res =>
      obtain ⟨r, m1⟩ := res
      simp only [hr, Option.map_some'] at h
      have e := Option.some.inj h
      rw [← e]
      rcases start_summary m m1 now_ns r hr with hsame | hnew
      · exact Or.inl (Or.inl hsame)
      · exact Or.inr (Or.inl ⟨rfl, hnew⟩)
  | stop =>
    simp only [apply_op] at h
    have e := Option.some.inj h
    rw [← e]
    exact Or.inl (stop_settled m)
  | provider_success provider config =>
    exact Or.inl (provider_success_settled ops m m' provider config h)
  | provider_failed provider reason =>
    rcases provider_failed_summary m m' provider reason h with hset | ⟨hcur, hs⟩
    · exact Or.inl hset
    · refine Or.inr (Or.inr (Or.inl ⟨?_, rfl, hs⟩))
      simp [rearms, hcur]
  | start_timer =>
    obtain ⟨_, ht, hs⟩ := as_start_fire_summary ops m m' h
    exact Or.inr (Or.inr (Or.inr ⟨rfl, ht, hs⟩))
  | stop_timer now_ns =>
    obtain ⟨hs, ht⟩ := as_stop_fire_frame m m' now_ns h
    exact Or.inl (Or.inl ⟨hs, ht⟩)
  | add_listener listener =>
    simp only [apply_op] at h
    have e := Option.some.inj h
    rw [← e]
    exact Or.inl (Or.inl ⟨rfl, rfl⟩)
  | remove_listener listener =>
    simp only [apply_op] at h
    have e := Option.some.inj h
    rw [← e]
    exact Or.inl (Or.inl ⟨rfl, rfl⟩)

/-- A property that every allowed operation keeps holds after a sequence of allowed
operations. -/
theorem run_with_invariant {V D : Type} (ops : VBucketOps V D)
    (allow : MonOp → lcb_confmon V → Bool) (inv : lcb_confmon V → Prop)
    (hstep : ∀ op m m', inv m → allow op m = true → apply_op ops op m = some m' → inv m')
    (trace : List MonOp) (init mon : lcb_confmon V) (hinit : inv init)
    (hrun : run_with ops allow trace init = some mon) : inv mon := by
  induction trace generalizing init with
  | nil =>
    simp only [run_with] at hrun
    rw [← Option.some.inj hrun]
    exact hinit
  | cons op rest ih =>
    rw [run_with] at hrun
    by_cases ha : allow op init = true
    · rw [if_pos ha] at hrun
      cases hop : apply_op ops op init with
      | none => simp [hop] at hrun
      | some m1 =>
        simp only [hop, Option.some_bind] at hrun
        exact ih m1 (hstep op init m1 hinit ha hop) hrun
    · rw [if_neg ha] at hrun
      cases hrun

theorem fire_of_disarmed {V D : Type} (ops : VBucketOps V D) (m : lcb_confmon V)
    (h : m.as_start = none) : as_start_fire ops m = none := by
  unfold as_start_fire
  rw [h]

/-- An armed start-timer belongs to a monitor whose state is not Idle: every operation
keeps this. -/
theorem armed_step {V D : Type} (ops : VBucketOps V D) (op : MonOp) (m m' : lcb_confmon V)
    (hinv : m.as_start ≠ none → m.state ≠ 0) (h : apply_op ops op m = some m') :
    m'.as_start ≠ none → m'.state ≠ 0 := by
  rcases op_effect ops op m m' h with hset | ⟨_, hs⟩ | ⟨_, _, hs⟩ | ⟨_, ht, _⟩
  · rcases hset with ⟨hs, ht⟩ | ⟨_, ht⟩
    · rw [hs, ht]
      exact hinv
    · intro hne
      exact absurd ht hne
  · intro _
    rw [hs]
    decide
  · intro _
    rw [hs]
    intro h0
    exact lor_itergrace_set m.state (by rw [h0]; rfl)
  · intro hne
    exact absurd ht hne

/-- Without a start and without a failure reported by the current provider a disarmed
start-timer stays disarmed. -/
theorem disarmed_step {V D : Type} (ops : VBucketOps V D) (op : MonOp)
    (m m' : lcb_confmon V) (hinv : m.as_start = none)
    (hallow : (!rearms op m) = true) (h : apply_op ops op m = some m') :
    m'.as_start = none := by
  have hre : rearms op m = false := by
    cases hb : rearms op m with
    | false => rfl
    | true => rw [hb] at hallow; cases hallow
  rcases op_effect ops op m m' h with hset | ⟨hst, _⟩ | ⟨hr, _, _⟩ | ⟨_, ht, _⟩
  · rcases hset with ⟨_, ht⟩ | ⟨_, ht⟩
    · rw [ht]
      exact hinv
    · exact ht
  · cases op <;> simp [is_start] at hst
    simp [rearms] at hre
  · rw [hre] at hr
    cases hr
  · exact ht

/-- C13, amended: in every state reached from creation through prepare, start, stop,
`provider_success`, `provider_failed`, the firing of the two timers and the other
interface calls, after `lcb_confmon_stop` the monitor is Idle and the start-timer is
disarmed, so the start-timer cannot fire and `do_next_provider` cannot run; the
start-timer stays disarmed through every later operation that is neither a start nor a
failure reported by the current provider. -/
theorem stop_disarms {V D : Type} (ops : VBucketOps V D) (providers : List clconfig_provider)
    (grace_next_provider grace_next_cycle : Nat) (heap : Nat → clconfig_info V)
    (trace : List MonOp) (mon : lcb_confmon V)
    (hrun : run ops trace
      (lcb_confmon_create providers grace_next_provider grace_next_cycle heap) = some mon) :
    (lcb_confmon_stop mon).state = CONFMON_S_INACTIVE ∧
    (lcb_confmon_stop mon).as_start = none ∧
    as_start_fire ops (lcb_confmon_stop mon) = none ∧
    ∀ later mon2,
      run_with ops (fun op m => !rearms op m) later (lcb_confmon_stop mon) = some mon2 →
      mon2.as_start = none ∧ as_start_fire ops mon2 = none := by
  have harmed : mon.as_start ≠ none → mon.state ≠ 0 :=
    run_with_invariant ops (fun _ _ => true) (fun m => m.as_start ≠ none → m.state ≠ 0)
      (fun op m m' hinv _ h => armed_step ops op m m' hinv h) trace _ mon
      (fun h => absurd rfl h) hrun
  have hdis : (lcb_confmon_stop mon).as_start = none := by
    by_cases h0 : mon.state = 0
    · rw [stop_of_idle mon h0]
      by_contra hne
      exact harmed hne h0
    · rw [stop_of_busy mon h0]
  refine ⟨stop_state mon, hdis, fire_of_disarmed ops _ hdis, ?_⟩
  intro later mon2 hlater
  have h2 : mon2.as_start = none :=
    run_with_invariant ops (fun op m => !rearms op m) (fun m => m.as_start = none)
      (fun op m m' hinv ha h => disarmed_step ops op m m' hinv ha h) later _ mon2 hdis hlater
  exact ⟨h2, fire_of_disarmed ops mon2 h2⟩

theorem stop_disarms_witness :
    (run exOps [MonOp.prepare, MonOp.start 0, MonOp.start_timer] exInit).isSome = true ∧
    ∀ mon, run exOps [MonOp.prepare, MonOp.start 0, MonOp.start_timer] exInit = some mon →
      (lcb_confmon_stop mon).state = CONFMON_S_INACTIVE ∧
      (lcb_confmon_stop mon).as_start = none ∧
      as_start_fire exOps (lcb_confmon_stop mon) = none ∧
      ∀ later mon2,
        run_with exOps (fun op m => !rearms op m) later (lcb_confmon_stop mon) = some mon2 →
        mon2.as_start = none ∧ as_start_fire exOps mon2 = none :=
  ⟨by decide, fun mon h => stop_disarms exOps _ 5 10 exHeap _ mon h⟩

theorem some_getD_of_isSome {α : Type} (o : Option α) (d : α) (h : o.isSome = true) :
    o = some (o.getD d) := by
  cases o with
  | none => cases h
  | some x => rfl

/-- C13 as the specification words it fails: after a stop, a failure reported by the
current provider arms the start-timer again, and `do_next_provider` runs when it fires
although the monitor was not started again. -/
theorem stop_contract_fails : ¬ stop_contract exOps exInit := by
  intro h
  have h1 := some_getD_of_isSome
    (run exOps [MonOp.prepare, MonOp.start 0, MonOp.start_timer] exInit) exInit (by decide)
  have h2 := some_getD_of_isSome
    (run exOps [MonOp.provider_failed 0 3] (lcb_confmon_stop
      ((run exOps [MonOp.prepare, MonOp.start 0, MonOp.start_timer] exInit).getD exInit)))
    exInit (by decide)
  have h3 := (h _ _ h1).2.2 [MonOp.provider_failed 0 3] _ (by decide) h2
  have h4 : (as_start_fire exOps ((run exOps [MonOp.provider_failed 0 3] (lcb_confmon_stop
      ((run exOps [MonOp.prepare, MonOp.start 0, MonOp.start_timer] exInit).getD
        exInit))).getD exInit)).isSome = true := by decide
  rw [h3] at h4
  cases h4

theorem legal_state_masked (s : Nat) (h : legal_state s) :
    legal_state (s &&& (4294967295 ^^^ CONFMON_S_ITERGRACE)) := by
  rcases h with h | h | h <;> rw [h]
  · exact Or.inl (by decide)
  · exact Or.inr (Or.inl (by decide))
  · exact Or.inr (Or.inl (by decide))

/-- Every operation keeps the state among Idle, Active and Active with InGrace, when a
failure is reported by the current provider only while the monitor is Active. -/
theorem legal_step {V D : Type} (ops : VBucketOps V D) (op : MonOp) (m m' : lcb_confmon V)
    (hinv : legal_state m.state) (hallow : failure_while_active op m = true)
    (h : apply_op ops op m = some m') : legal_state m'.state := by
  rcases op_effect ops op m m' h with hset | ⟨_, hs⟩ | ⟨hr, hst, hs⟩ | ⟨_, _, hs⟩
  · rcases hset with ⟨hs, _⟩ | ⟨hs, _⟩
    · rw [hs]
      exact hinv
    · exact Or.inl hs
  · exact Or.inr (Or.inr hs)
  · have hact : IS_REFRESHING m ≠ 0 := by
      cases op <;> simp [rearms, is_start] at hr hst
      simp only [failure_while_active, Bool.or_eq_true, decide_eq_true_eq] at hallow
      rcases hallow with ha | ha
      · exact ha
      · exact absurd hr ha
    rw [hs]
    rcases hinv with h0 | h0 | h0
    · unfold IS_REFRESHING at hact
      rw [h0] at hact
      exact absurd rfl hact
    · rw [h0]
      exact Or.inr (Or.inr rfl)
    · rw [h0]
      exact Or.inr (Or.inr (by decide))
  · rcases hs with hs | hs
    · rw [hs]
      exact legal_state_masked m.state hinv
    · exact Or.inl hs

/-- C14, amended: in every state reached from creation through prepare, start, stop,
`provider_success`, the firing of the start-timer, the deferred stop, the other
interface calls, and `provider_failed` called while the monitor is Active or by a
provider other than the current one, the state is Idle, Active, or Active with InGrace:
InGrace is never set while Active is clear. -/
theorem state_legal {V D : Type} (ops : VBucketOps V D) (providers : List clconfig_provider)
    (grace_next_provider grace_next_cycle : Nat) (heap : Nat → clconfig_info V)
    (trace : List MonOp) (mon : lcb_confmon V)
    (hrun : run_with ops failure_while_active trace
      (lcb_confmon_create providers grace_next_provider grace_next_cycle heap) = some mon) :
    legal_state mon.state ∧
    (mon.state &&& CONFMON_S_ITERGRACE ≠ 0 → IS_REFRESHING mon ≠ 0) := by
  have hlegal : legal_state mon.state :=
    run_with_invariant ops failure_while_active (fun m => legal_state m.state)
      (fun op m m' hinv ha h => legal_step ops op m m' hinv ha h) trace _ mon
      (Or.inl rfl) hrun
  refine ⟨hlegal, ?_⟩
  unfold IS_REFRESHING
  rcases hlegal with h | h | h <;> rw [h] <;> decide

theorem state_legal_witness :
    (run_with exOps failure_while_active
      [MonOp.prepare, MonOp.start 0, MonOp.start_timer, MonOp.provider_failed 0 3]
      exInit).isSome = true ∧
    ∀ mon, run_with exOps failure_while_active
        [MonOp.prepare, MonOp.start 0, MonOp.start_timer, MonOp.provider_failed 0 3]
        exInit = some mon →
      legal_state mon.state ∧
      (mon.state &&& CONFMON_S_ITERGRACE ≠ 0 → IS_REFRESHING mon ≠ 0) :=
  ⟨by decide, fun mon h => state_legal exOps _ 5 10 exHeap _ mon h⟩

/-- C14 as the specification words it fails: after a stop, a failure reported by the
current provider sets InGrace on a monitor that is not Active. -/
theorem state_contract_fails : ¬ state_contract exOps exInit := by
  intro h
  have h1 := some_getD_of_isSome
    (run exOps [MonOp.prepare, MonOp.start 0, MonOp.start_timer, MonOp.stop,
      MonOp.provider_failed 0 3] exInit) exInit (by decide)
  have h2 := h _ _ h1
  have h3 : ((run exOps [MonOp.prepare, MonOp.start 0, MonOp.start_timer, MonOp.stop,
      MonOp.provider_failed 0 3] exInit).getD exInit).state = CONFMON_S_ITERGRACE := by
    decide
  rw [h3] at h2
  rcases h2 with h2 | h2 | h2 <;> exact absurd h2 (by decide)

/-! ### `lcb_clconfig_create` -/

/-- C15, amended: `lcb_clconfig_create` does not stamp the comparison clock: every
ConfigInfo it returns carries the clock 0 (with one reference, the configuration and
the origin given), so two ConfigInfos from successive calls carry equal clocks, and
`lcb_clconfig_compare` gives 0 for them as soon as one of them exposes no revision. -/
theorem lcb_clconfig_create_clock {V D : Type} (ops : VBucketOps V D) (config1 config2 : V)
    (origin1 origin2 : Nat) :
    ∃ first second, lcb_clconfig_create true config1 origin1 = some first ∧
      lcb_clconfig_create true config2 origin2 = some second ∧
      first.cmpclock = 0 ∧ second.cmpclock = 0 ∧
      first.refcount = 1 ∧ first.vbc = config1 ∧ first.origin = origin1 ∧
      second.refcount = 1 ∧ second.vbc = config2 ∧ second.origin = origin2 ∧
      (¬ (0 ≤ revision_of ops first ∧ 0 ≤ revision_of ops second) →
        lcb_clconfig_compare ops first second = 0) := by
  refine ⟨_, _, rfl, rfl, rfl, rfl, rfl, rfl, rfl, rfl, rfl, rfl, ?_⟩
  intro h
  rw [compare_of_clocks ops _ _ h]
  simp

/-- C15 as the specification words it fails: two ConfigInfos from successive calls of
`lcb_clconfig_create` both carry the clock 0. -/
theorem clock_contract_fails :
    ¬ clock_contract ({ revision := -1, map := 1 } : ExVbc) { revision := -1, map := 2 } 0 0 := by
  intro h
  have h1 := h _ _ rfl rfl
  exact absurd h1 (by decide)

/-! ### Listeners -/

theorem safe_for_cons_fst (late : Bool) (effect : Nat → Dereg) (a b : Nat) (t : List Nat) :
    (safe_for late effect (a :: b :: t)).1 =
      a :: (if removes_successor (effect a) = true ∧ late = false
        then (safe_for late effect t).1 else (safe_for late effect (b :: t)).1) := by
  rw [safe_for]
  cases removes_successor (effect a) <;> cases late <;> rfl

theorem safe_for_cons_snd (late : Bool) (effect : Nat → Dereg) (a b : Nat) (t : List Nat) :
    (safe_for late effect (a :: b :: t)).2 =
      (if removes_self (effect a) = true then [] else [a]) ++
        (if removes_successor (effect a) = true then
          (if late = true then
            (safe_for late effect (b :: t)).2.filter (fun x => decide (x ≠ b))
          else (safe_for late effect t).2)
        else (safe_for late effect (b :: t)).2) := by
  rw [safe_for]
  cases removes_successor (effect a) <;> cases late <;> cases removes_self (effect a) <;> rfl

theorem safe_for_nothing (late : Bool) (l : List Nat) :
    safe_for late (fun _ => Dereg.nothing) l = (l, l) := by
  induction l with
  | nil => rfl
  | cons a t ih =>
    cases t with
    | nil => rfl
    | cons b t' =>
      rw [safe_for]
      simp only [ih]
      rfl

/-- When no callback deregisters a listener the dispatch is `invoke_listeners`. -/
theorem invoke_listeners_dereg_nothing {V : Type} (mon : lcb_confmon V)
    (event : clconfig_event_t) (info : Option Nat) (late : Bool) :
    invoke_listeners_dereg mon event info late (fun _ => Dereg.nothing) =
      invoke_listeners mon event info := by
  unfold invoke_listeners_dereg invoke_listeners
  rw [safe_for_nothing]

/-- The listeners called by a dispatch are listeners of the list, in list order; the
listeners that remain registered are among the listeners called, in the same order. -/
theorem safe_for_sublist (late : Bool) (effect : Nat → Dereg) (n : Nat) :
    ∀ l : List Nat, l.length ≤ n →
      (safe_for late effect l).1.Sublist l ∧
        (safe_for late effect l).2.Sublist (safe_for late effect l).1 := by
  induction n with
  | zero =>
    intro l hl
    cases l with
    | nil => exact ⟨List.Sublist.refl _, List.Sublist.refl _⟩
    | cons a t => simp at hl
  | succ n ih =>
    intro l hl
    cases l with
    | nil => exact ⟨List.Sublist.refl _, List.Sublist.refl _⟩
    | cons a t =>
      cases t with
      | nil =>
        rw [safe_for]
        refine ⟨List.Sublist.refl _, ?_⟩
        split
        · exact List.nil_sublist _
        · exact List.Sublist.refl _
      | cons b t' =>
        have h1 := ih (b :: t') (by simp at hl ⊢; omega)
        have h2 := ih t' (by simp at hl ⊢; omega)
        rw [safe_for_cons_fst, safe_for_cons_snd]
        have hfst : (if removes_successor (effect a) = true ∧ late = false
            then (safe_for late effect t').1 else (safe_for late effect (b :: t')).1).Sublist
            (b :: t') := by
          split
          · exact h2.1.cons b
          · exact h1.1
        have hsnd : (if removes_successor (effect a) = true then
              (if late = true then
                (safe_for late effect (b :: t')).2.filter (fun x => decide (x ≠ b))
              else (safe_for late effect t').2)
            else (safe_for late effect (b :: t')).2).Sublist
            (if removes_successor (effect a) = true ∧ late = false
              then (safe_for late effect t').1 else (safe_for late effect (b :: t')).1) := by
          cases removes_successor (effect a) <;> cases late
          · simpa using h1.2
          · simpa using h1.2
          · simpa using h2.2
          · simpa using (List.filter_sublist _).trans h1.2
        refine ⟨hfst.cons₂ a, ?_⟩
        split
        · exact hsnd.cons a
        · exact hsnd.cons₂ a

/-- With `late` set every listener of the list is called. -/
theorem safe_for_late (effect : Nat → Dereg) (l : List Nat) :
    (safe_for true effect l).1 = l := by
  induction l with
  | nil => rfl
  | cons a t ih =>
    cases t with
    | nil => rfl
    | cons b t' =>
      rw [safe_for_cons_fst, if_neg (fun h => Bool.noConfusion h.2), ih]

theorem listener_calls_frame {V : Type} (lops : List (Bool × Nat)) (mon : lcb_confmon V) :
    (listener_calls lops mon).log = mon.log ∧ (listener_calls lops mon).config = mon.config ∧
    (listener_calls lops mon).state = mon.state := by
  induction lops generalizing mon with
  | nil => exact ⟨rfl, rfl, rfl⟩
  | cons op rest ih =>
    obtain ⟨b, lsn⟩ := op
    cases b with
    | true => exact ih (lcb_confmon_add_listener mon lsn)
    | false => exact ih (lcb_confmon_remove_listener mon lsn)

theorem listener_calls_sublist {V : Type} (lops : List (Bool × Nat)) (mon : lcb_confmon V) :
    (listener_calls lops mon).listeners.Sublist (mon.listeners ++ added lops) := by
  induction lops generalizing mon with
  | nil => simp [listener_calls, added]
  | cons op rest ih =>
    obtain ⟨b, lsn⟩ := op
    cases b with
    | true =>
      have h := ih (lcb_confmon_add_listener mon lsn)
      simpa [listener_calls, added, lcb_confmon_add_listener, lcb_list_append,
        List.append_assoc] using h
    | false =>
      have h := ih (lcb_confmon_remove_listener mon lsn)
      have h2 : (lcb_list_delete mon.listeners lsn ++ added rest).Sublist
          (mon.listeners ++ added rest) :=
        List.Sublist.append (List.filter_sublist _) (List.Sublist.refl _)
      exact h.trans h2

theorem listener_calls_nodup {V : Type} (lops : List (Bool × Nat)) (mon : lcb_confmon V)
    (hnodup : mon.listeners.Nodup) (hfresh : adds_fresh lops mon.listeners) :
    (listener_calls lops mon).listeners.Nodup := by
  induction lops generalizing mon with
  | nil => exact hnodup
  | cons op rest ih =>
    obtain ⟨b, lsn⟩ := op
    cases b with
    | true =>
      obtain ⟨hnew, hrest⟩ := hfresh
      apply ih (lcb_confmon_add_listener mon lsn) _ hrest
      show (mon.listeners ++ [lsn]).Nodup
      rw [List.nodup_append]
      refine ⟨hnodup, List.nodup_singleton lsn, ?_⟩
      intro x hx hx'
      rw [List.mem_singleton.1 hx'] at hx
      exact hnew hx
    | false =>
      exact ih (lcb_confmon_remove_listener mon lsn) (hnodup.filter _) hfresh

theorem listener_calls_registered {V : Type} (lops : List (Bool × Nat)) (mon : lcb_confmon V) :
    (listener_calls lops mon).listeners = registered mon.listeners lops := by
  induction lops generalizing mon with
  | nil =>
    unfold registered
    simp [listener_calls, survivors]
  | cons op rest ih =>
    obtain ⟨b, lsn⟩ := op
    cases b with
    | true =>
      rw [listener_calls, ih]
      unfold registered
      show (mon.listeners ++ [lsn]).filter _ ++ survivors rest = _
      rw [List.filter_append, survivors]
      have hf : mon.listeners.filter (fun x => decide ((false, x) ∉ (true, lsn) :: rest)) =
          mon.listeners.filter (fun x => decide ((false, x) ∉ rest)) := by
        congr 1
        funext x
        simp
      rw [hf, List.append_assoc]
      congr 1
      by_cases hm : (false, lsn) ∈ rest
      · simp [hm]
      · simp [hm]
    | false =>
      rw [listener_calls, ih]
      unfold registered
      show (mon.listeners.filter _).filter _ ++ survivors rest = _
      rw [List.filter_filter, survivors]
      congr 1
      apply List.filter_congr
      intro x _
      by_cases hx : x = lsn
      · simp [hx]
      · simp [hx]


theorem dec_cons (a : Nat) (l : List Nat) (x : Nat) (P : Nat → Prop) :
    (∀ pre p post, a :: l = pre ++ p :: x :: post → P p) ↔
      ((∀ post, l = x :: post → P a) ∧ (∀ pre p post, l = pre ++ p :: x :: post → P p)) := by
  constructor
  · intro h
    exact ⟨fun post e => h [] a post (by rw [e]; rfl),
      fun pre p post e => h (a :: pre) p post (by rw [e]; rfl)⟩
  · intro h pre p post e
    cases pre with
    | nil =>
      obtain ⟨e1, e2⟩ := List.cons.inj e
      rw [← e1]
      exact h.1 post e2
    | cons a' pre' =>
      obtain ⟨_, e2⟩ := List.cons.inj e
      exact h.2 pre' p post e2

theorem dec_mem (l : List Nat) (pre : List Nat) (p x : Nat) (post : List Nat)
    (h : l = pre ++ p :: x :: post) : p ∈ l ∧ x ∈ l := by
  rw [h]
  simp

/-- The dispatch with deregistration, said without the iteration: the first listener is
called; a listener with a predecessor is called (always with `late` set, and with `late`
clear) unless the predecessor was called and its callback deregistered the successor;
the listeners that remain registered are the listeners called that neither deregistered
themselves nor were deregistered by a predecessor that was called. -/
theorem safe_for_spec (late : Bool) (effect : Nat → Dereg) (n : Nat) :
    ∀ l : List Nat, l.length ≤ n → l.Nodup →
      (∀ x, l.head? = some x → x ∈ (safe_for late effect l).1) ∧
      (∀ pre p x post, l = pre ++ p :: x :: post →
        (x ∈ (safe_for late effect l).1 ↔
          (late = true ∨
            ¬ (p ∈ (safe_for late effect l).1 ∧ removes_successor (effect p) = true)))) ∧
      (∀ x, x ∈ (safe_for late effect l).2 ↔
        (x ∈ (safe_for late effect l).1 ∧ removes_self (effect x) = false ∧
          ∀ pre p post, l = pre ++ p :: x :: post →
            ¬ (p ∈ (safe_for late effect l).1 ∧ removes_successor (effect p) = true))) := by
  induction n with
  | zero =>
    intro l hl _
    cases l with
    | nil =>
      refine ⟨fun x hx => (by cases hx), fun pre p x post h => ?_, fun x => ?_⟩
      · cases pre <;> cases h
      · constructor
        · intro h
          cases h
        · intro h
          cases h.1
    | cons a t => simp at hl
  | succ n ih =>
    intro l hl hnd
    cases l with
    | nil =>
      refine ⟨fun x hx => (by cases hx), fun pre p x post h => ?_, fun x => ?_⟩
      · cases pre <;> cases h
      · constructor
        · intro h
          cases h
        · intro h
          cases h.1
    | cons a t =>
      cases t with
      | nil =>
        have hfst : (safe_for late effect [a]).1 = [a] := by rw [safe_for]
        have hsnd : (safe_for late effect [a]).2 =
            if removes_self (effect a) = true then [] else [a] := by rw [safe_for]
        rw [hfst, hsnd]
        refine ⟨?_, ?_, ?_⟩
        · intro x hx
          rw [← Option.some.inj hx]
          exact List.mem_singleton.2 rfl
        · intro pre p x post h
          have hlen := congrArg List.length h
          simp at hlen
          omega
        · intro x
          have hdec : ∀ pre p post, [a] = pre ++ p :: x :: post →
              ¬ (p ∈ [a] ∧ removes_successor (effect p) = true) := by
            intro pre p post h
            have hlen := congrArg List.length h
            simp at hlen
            omega
          by_cases hs : removes_self (effect a) = true
          · rw [if_pos hs]
            constructor
            · intro h
              cases h
            · intro h
              rw [List.mem_singleton.1 h.1, hs] at h
              cases h.2.1
          · rw [if_neg hs]
            constructor
            · intro h
              refine ⟨h, ?_, hdec⟩
              rw [List.mem_singleton.1 h]
              cases hb : removes_self (effect a) with
              | true => exact absurd hb hs
              | false => rfl
            · intro h
              exact h.1
      | cons b t' =>
        obtain ⟨hna, hndt⟩ := List.nodup_cons.1 hnd
        obtain ⟨hnb, hndt'⟩ := List.nodup_cons.1 hndt
        have hlen1 : (b :: t').length ≤ n := by simp at hl ⊢; omega
        have hlen2 : t'.length ≤ n := by simp at hl ⊢; omega
        obtain ⟨h1, p1, r1⟩ := ih (b :: t') hlen1 hndt
        obtain ⟨h2, p2, r2⟩ := ih t' hlen2 hndt'
        have s1 := safe_for_sublist late effect n (b :: t') hlen1
        have s2 := safe_for_sublist late effect n t' hlen2
        have hab : a ≠ b := fun e => hna (e ▸ List.mem_cons_self _ _)
        have hself : ∀ (C R : List Nat), a ∉ R →
            (∀ pre p post, a :: b :: t' = pre ++ p :: a :: post →
              ¬ (p ∈ a :: C ∧ removes_successor (effect p) = true)) ∧
            (a ∈ (if removes_self (effect a) = true then [] else [a]) ++ R ↔
              removes_self (effect a) = false) := by
          intro C R haR
          constructor
          · intro pre p post h
            cases pre with
            | nil =>
              obtain ⟨_, e2⟩ := List.cons.inj h
              exact absurd (List.cons.inj e2).1.symm hab
            | cons a' pre' =>
              obtain ⟨_, e2⟩ := List.cons.inj h
              exact absurd (e2 ▸ (dec_mem _ pre' p a post rfl).2) hna
          · cases hrs : removes_self (effect a) with
            | true =>
              rw [if_pos rfl, List.nil_append]
              constructor
              · intro h
                exact absurd h haR
              · intro h
                cases h
            | false =>
              rw [if_neg Bool.false_ne_true]
              constructor
              · intro _
                rfl
              · intro _
                exact List.mem_append_left _ (List.mem_singleton.2 rfl)
        have hother : ∀ (x : Nat) (R : List Nat), x ≠ a →
            (x ∈ (if removes_self (effect a) = true then [] else [a]) ++ R ↔ x ∈ R) := by
          intro x R hxa
          split <;> simp [hxa]
        rw [safe_for_cons_fst, safe_for_cons_snd]
        by_cases hskip : removes_successor (effect a) = true ∧ late = false
        · -- the successor is deregistered and skipped
          obtain ⟨hs, hl0⟩ := hskip
          subst hl0
          rw [if_pos ⟨hs, rfl⟩, if_pos hs, if_neg Bool.false_ne_true]
          have hsubC : ∀ y, y ∈ (safe_for false effect t').1 → y ∈ t' :=
            fun y hy => s2.1.subset hy
          have hbC : b ∉ a :: (safe_for false effect t').1 := by
            intro hb
            rcases List.mem_cons.1 hb with e | hb'
            · exact hab e.symm
            · exact hnb (hsubC b hb')
          have hmemC : ∀ y, y ∈ t' → (y ∈ a :: (safe_for false effect t').1 ↔
              y ∈ (safe_for false effect t').1) := by
            intro y hy
            have hya : y ≠ a := fun e => hna (e ▸ List.mem_cons_of_mem _ hy)
            simp only [List.mem_cons, hya, false_or]
          refine ⟨fun x hx => ?_, ?_, ?_⟩
          · rw [← Option.some.inj hx]
            exact List.mem_cons_self _ _
          · intro pre p x post h
            cases pre with
            | nil =>
              obtain ⟨e1, e2⟩ := List.cons.inj h
              obtain ⟨e3, _⟩ := List.cons.inj e2
              rw [← e1, ← e3]
              constructor
              · intro hc
                exact absurd hc hbC
              · intro hc
                rcases hc with hc | hc
                · cases hc
                · exact absurd ⟨List.mem_cons_self _ _, hs⟩ hc
            | cons a' pre' =>
              obtain ⟨_, e2⟩ := List.cons.inj h
              cases pre' with
              | nil =>
                obtain ⟨e3, e4⟩ := List.cons.inj e2
                have hx' : x ∈ t' := by rw [e4]; exact List.mem_cons_self _ _
                rw [← e3, hmemC x hx']
                constructor
                · intro _
                  right
                  intro hc
                  exact hbC hc.1
                · intro _
                  exact h2 x (by rw [e4]; rfl)
              | cons b' pre'' =>
                obtain ⟨_, e4⟩ := List.cons.inj e2
                obtain ⟨hp', hx'⟩ := dec_mem t' pre'' p x post e4
                rw [hmemC x hx', hmemC p hp']
                exact p2 pre'' p x post e4
          · intro x
            by_cases hxa : x = a
            · rw [hxa]
              have haR : a ∉ (safe_for false effect t').2 :=
                fun h => hna (List.mem_cons_of_mem _ (hsubC a (s2.2.subset h)))
              obtain ⟨hdec, hiff⟩ := hself (safe_for false effect t').1 _ haR
              rw [hiff]
              constructor
              · intro h
                exact ⟨List.mem_cons_self _ _, h, hdec⟩
              · intro h
                exact h.2.1
            · rw [hother x _ hxa, r2 x, dec_cons a (b :: t') x, dec_cons b t' x]
              constructor
              · rintro ⟨hc, hrs, hd⟩
                have hxt : x ∈ t' := hsubC x hc
                have hxb : x ≠ b := fun e => hnb (e ▸ hxt)
                refine ⟨List.mem_cons_of_mem _ hc, hrs, ?_, ?_, ?_⟩
                · intro post e
                  exact absurd (List.cons.inj e).1.symm hxb
                · intro post _ hcb
                  exact hbC hcb.1
                · intro pre p post e hcp
                  have hp' := (dec_mem t' pre p x post e).1
                  exact hd pre p post e ⟨(hmemC p hp').1 hcp.1, hcp.2⟩
              · rintro ⟨hc, hrs, _, _, hd⟩
                have hc' : x ∈ (safe_for false effect t').1 := by
                  rcases List.mem_cons.1 hc with e | hc'
                  · exact absurd e hxa
                  · exact hc'
                refine ⟨hc', hrs, ?_⟩
                intro pre p post e hcp
                exact hd pre p post e ⟨List.mem_cons_of_mem _ hcp.1, hcp.2⟩
        · -- the successor is visited
          rw [if_neg hskip]
          have hsubC : ∀ y, y ∈ (safe_for late effect (b :: t')).1 → y ∈ b :: t' :=
            fun y hy => s1.1.subset hy
          have hmemC : ∀ y, y ∈ b :: t' → (y ∈ a :: (safe_for late effect (b :: t')).1 ↔
              y ∈ (safe_for late effect (b :: t')).1) := by
            intro y hy
            have hya : y ≠ a := fun e => hna (e ▸ hy)
            simp only [List.mem_cons, hya, false_or]
          have hbc : b ∈ (safe_for late effect (b :: t')).1 := h1 b rfl
          have hcases : late = true ∨ removes_successor (effect a) = false := by
            cases hl1 : late with
            | true => exact Or.inl rfl
            | false =>
              right
              cases hs : removes_successor (effect a) with
              | false => rfl
              | true => exact absurd ⟨hs, hl1⟩ hskip
          refine ⟨fun x hx => ?_, ?_, ?_⟩
          · rw [← Option.some.inj hx]
            exact List.mem_cons_self _ _
          · intro pre p x post h
            cases pre with
            | nil =>
              obtain ⟨e1, e2⟩ := List.cons.inj h
              obtain ⟨e3, _⟩ := List.cons.inj e2
              rw [← e1, ← e3]
              constructor
              · intro _
                rcases hcases with hl1 | hs
                · exact Or.inl hl1
                · right
                  intro hc
                  rw [hs] at hc
                  cases hc.2
              · intro _
                exact List.mem_cons_of_mem _ hbc
            | cons a' pre' =>
              obtain ⟨_, e2⟩ := List.cons.inj h
              obtain ⟨hp', hx'⟩ := dec_mem (b :: t') pre' p x post e2
              rw [hmemC x hx', hmemC p hp']
              exact p1 pre' p x post e2
          · intro x
            have hD : (∀ pre p post, b :: t' = pre ++ p :: x :: post →
                ¬ (p ∈ a :: (safe_for late effect (b :: t')).1 ∧
                  removes_successor (effect p) = true)) ↔
                (∀ pre p post, b :: t' = pre ++ p :: x :: post →
                ¬ (p ∈ (safe_for late effect (b :: t')).1 ∧
                  removes_successor (effect p) = true)) := by
              constructor
              · intro hd pre p post e hcp
                exact hd pre p post e ⟨List.mem_cons_of_mem _ hcp.1, hcp.2⟩
              · intro hd pre p post e hcp
                have hp' := (dec_mem (b :: t') pre p x post e).1
                exact hd pre p post e ⟨(hmemC p hp').1 hcp.1, hcp.2⟩
            by_cases hxa : x = a
            · rw [hxa]
              have haR : a ∉ (if removes_successor (effect a) = true then
                    (if late = true then
                      (safe_for late effect (b :: t')).2.filter (fun x => decide (x ≠ b))
                    else (safe_for late effect t').2)
                  else (safe_for late effect (b :: t')).2) := by
                intro h
                have h' : a ∈ b :: t' := by
                  split at h
                  · split at h
                    · exact hsubC a (s1.2.subset (List.mem_of_mem_filter h))
                    · exact List.mem_cons_of_mem _ (s2.1.subset (s2.2.subset h))
                  · exact hsubC a (s1.2.subset h)
                exact hna h'
              obtain ⟨hdec, hiff⟩ := hself (safe_for late effect (b :: t')).1 _ haR
              rw [hiff]
              constructor
              · intro h
                exact ⟨List.mem_cons_self _ _, h, hdec⟩
              · intro h
                exact h.2.1
            · rw [hother x _ hxa, dec_cons a (b :: t') x, hD]
              have hxC : x ∈ a :: (safe_for late effect (b :: t')).1 ↔
                  x ∈ (safe_for late effect (b :: t')).1 := by
                simp only [List.mem_cons, hxa, false_or]
              rw [hxC]
              cases hs : removes_successor (effect a) with
              | false =>
                rw [if_neg Bool.false_ne_true, r1 x]
                constructor
                · rintro ⟨hc, hrs, hd⟩
                  exact ⟨hc, hrs, fun post _ hc' => Bool.false_ne_true hc'.2, hd⟩
                · rintro ⟨hc, hrs, _, hd⟩
                  exact ⟨hc, hrs, hd⟩
              | true =>
                have hl1 : late = true := by
                  rcases hcases with h | h
                  · exact h
                  · rw [hs] at h
                    cases h
                rw [if_pos rfl, if_pos hl1, List.mem_filter, r1 x]
                constructor
                · rintro ⟨⟨hc, hrs, hd⟩, hxb⟩
                  refine ⟨hc, hrs, ?_, hd⟩
                  intro post e
                  exact absurd (List.cons.inj e).1.symm (of_decide_eq_true hxb)
                · rintro ⟨hc, hrs, hfirst, hd⟩
                  refine ⟨⟨hc, hrs, hd⟩, ?_⟩
                  apply decide_eq_true
                  intro hxb
                  exact hfirst t' (by rw [hxb]) ⟨List.mem_cons_self _ _, rfl⟩

/-- C16: after every sequence of `lcb_confmon_add_listener` and
`lcb_confmon_remove_listener` calls (each listener added while it is not in the list),
the listeners registered are exactly the listeners that were added and not removed
afterwards, each once, in the order in which they were added; `invoke_listeners` calls
each of them exactly once, in that order, before it returns, and leaves the list as it
is. When callbacks deregister their own listener or its successor during the dispatch,
whether or not a deregistered successor still gets the event (`late`), the listeners
called are listeners of the list, each called once and in list order: the first one, and
every other one, except that with `late` clear the one whose predecessor was called and
deregistered it is left out; the listeners that remain registered are exactly the
listeners called that did not deregister themselves and that no called predecessor
deregistered, so each of them got the event exactly once, in registration order. -/
theorem listeners_dispatch {V : Type} (mon : lcb_confmon V) (lops : List (Bool × Nat))
    (event : clconfig_event_t) (info : Option Nat) (late : Bool) (effect : Nat → Dereg)
    (hnodup : mon.listeners.Nodup) (hfresh : adds_fresh lops mon.listeners) :
    (listener_calls lops mon).listeners = registered mon.listeners lops ∧
    (registered mon.listeners lops).Nodup ∧
    (invoke_listeners (listener_calls lops mon) event info).log =
      mon.log ++ (registered mon.listeners lops).map
        (fun lsn => Call.callback lsn event info mon.config mon.state) ∧
    (invoke_listeners (listener_calls lops mon) event info).listeners =
      registered mon.listeners lops ∧
    ∃ called remaining : List Nat,
      (invoke_listeners_dereg (listener_calls lops mon) event info late effect).log =
        mon.log ++ called.map
          (fun lsn => Call.callback lsn event info mon.config mon.state) ∧
      (invoke_listeners_dereg (listener_calls lops mon) event info late effect).listeners =
        remaining ∧
      called.Sublist (registered mon.listeners lops) ∧ called.Nodup ∧
      remaining.Sublist called ∧
      (∀ x, (registered mon.listeners lops).head? = some x → x ∈ called) ∧
      (∀ pre p x post, registered mon.listeners lops = pre ++ p :: x :: post →
        (x ∈ called ↔
          (late = true ∨ ¬ (p ∈ called ∧ removes_successor (effect p) = true)))) ∧
      (∀ x, x ∈ remaining ↔
        (x ∈ called ∧ removes_self (effect x) = false ∧
          ∀ pre p post, registered mon.listeners lops = pre ++ p :: x :: post →
            ¬ (p ∈ called ∧ removes_successor (effect p) = true))) := by
  obtain ⟨f1, f2, f3⟩ := listener_calls_frame lops mon
  have hreg := listener_calls_registered lops mon
  have hnd : (registered mon.listeners lops).Nodup := by
    rw [← hreg]
    exact listener_calls_nodup lops mon hnodup hfresh
  have hsub := safe_for_sublist late effect (registered mon.listeners lops).length
    (registered mon.listeners lops) (Nat.le_refl _)
  obtain ⟨s1, s2, s3⟩ := safe_for_spec late effect (registered mon.listeners lops).length
    (registered mon.listeners lops) (Nat.le_refl _) hnd
  refine ⟨hreg, hnd, ?_, hreg, (safe_for late effect (registered mon.listeners lops)).1,
    (safe_for late effect (registered mon.listeners lops)).2, ?_, ?_,
    hsub.1, hsub.1.nodup hnd, hsub.2, s1, s2, s3⟩
  · unfold invoke_listeners
    simp only [f1, f2, f3, hreg]
  · unfold invoke_listeners_dereg
    simp only [f1, f2, f3, hreg]
  · unfold invoke_listeners_dereg
    simp only [hreg]

/-- On `exInit`, after the calls of `exLops` the listeners 11, 12 and 13 are registered,
in this order. In a dispatch the callback of 11 deregisters its successor and the
callback of 13 its own listener: with `late` clear 11 and 13 are called, with `late` set
11, 12 and 13 are; either way 11 alone remains registered. -/
theorem listeners_dispatch_witness :
    (exInit.listeners.Nodup ∧ adds_fresh exLops exInit.listeners) ∧
    (listener_calls exLops exInit).listeners = [11, 12, 13] ∧
    (invoke_listeners (listener_calls exLops exInit)
      clconfig_event_t.CLCONFIG_EVENT_MONITOR_STOPPED none).log =
        [Call.callback 11 clconfig_event_t.CLCONFIG_EVENT_MONITOR_STOPPED none none 0,
         Call.callback 12 clconfig_event_t.CLCONFIG_EVENT_MONITOR_STOPPED none none 0,
         Call.callback 13 clconfig_event_t.CLCONFIG_EVENT_MONITOR_STOPPED none none 0] ∧
    (invoke_listeners_dereg (listener_calls exLops exInit)
      clconfig_event_t.CLCONFIG_EVENT_MONITOR_STOPPED none false exEffect).log =
        [Call.callback 11 clconfig_event_t.CLCONFIG_EVENT_MONITOR_STOPPED none none 0,
         Call.callback 13 clconfig_event_t.CLCONFIG_EVENT_MONITOR_STOPPED none none 0] ∧
    (invoke_listeners_dereg (listener_calls exLops exInit)
      clconfig_event_t.CLCONFIG_EVENT_MONITOR_STOPPED none false exEffect).listeners = [11] ∧
    (invoke_listeners_dereg (listener_calls exLops exInit)
      clconfig_event_t.CLCONFIG_EVENT_MONITOR_STOPPED none true exEffect).log =
        [Call.callback 11 clconfig_event_t.CLCONFIG_EVENT_MONITOR_STOPPED none none 0,
         Call.callback 12 clconfig_event_t.CLCONFIG_EVENT_MONITOR_STOPPED none none 0,
         Call.callback 13 clconfig_event_t.CLCONFIG_EVENT_MONITOR_STOPPED none none 0] ∧
    (invoke_listeners_dereg (listener_calls exLops exInit)
      clconfig_event_t.CLCONFIG_EVENT_MONITOR_STOPPED none true exEffect).listeners = [11] := by
  have h1 : exInit.listeners.Nodup := List.nodup_nil
  have h2 : adds_fresh exLops exInit.listeners := by
    simp [adds_fresh, exLops, exInit, lcb_confmon_create, lcb_list_append, lcb_list_delete]
  obtain ⟨r1, _, r3, _, _⟩ := listeners_dispatch exInit exLops
    clconfig_event_t.CLCONFIG_EVENT_MONITOR_STOPPED none false exEffect h1 h2
  have hreg : registered exInit.listeners exLops = [11, 12, 13] := by decide
  refine ⟨⟨h1, h2⟩, r1.trans hreg, ?_, by decide, by decide, by decide, by decide⟩
  rw [r3, hreg]
  rfl

/-! ### Configurations with and without a revision -/

/-- Claim C29: `lcb_clconfig_compare` is not transitive over configurations with and
without a revision: for the ConfigInfos `a`, `b`, `c` of cells 0, 1, 2 of `exHeapMixed`
(`a` and `c` expose a revision, `b` exposes none) `compare a b < 0` and
`compare b c < 0` but `compare a c > 0`; and what the monitor ends up with depends on the
order of the offers: holding `a`, it rejects `c`, but offered `b` and then `c` it ends
with `c`, and offered `c` and then `b` it ends with `b`. -/
theorem lcb_clconfig_compare_not_transitive :
    ∃ a b c : clconfig_info ExVbc,
      a = exHeapMixed 0 ∧ b = exHeapMixed 1 ∧ c = exHeapMixed 2 ∧
      0 ≤ revision_of exOps a ∧ revision_of exOps b < 0 ∧ 0 ≤ revision_of exOps c ∧
      lcb_clconfig_compare exOps a b < 0 ∧
      lcb_clconfig_compare exOps b c < 0 ∧
      lcb_clconfig_compare exOps a c > 0 ∧
      (run exOps [MonOp.provider_success 0 2] exMonMixed).map (fun m => m.config)
        = some (some 0) ∧
      (run exOps [MonOp.provider_success 0 1, MonOp.provider_success 0 2] exMonMixed).map
        (fun m => m.config) = some (some 2) ∧
      (run exOps [MonOp.provider_success 0 2, MonOp.provider_success 0 1] exMonMixed).map
        (fun m => m.config) = some (some 1) := by
  refine ⟨_, _, _, rfl, rfl, rfl, ?_, ?_, ?_, ?_, ?_, ?_, ?_, ?_, ?_⟩ <;> decide

/-! ### The cursor -/

theorem stop_providers {V : Type} (m : lcb_confmon V) :
    (lcb_confmon_stop m).cur_provider = m.cur_provider ∧
    (lcb_confmon_stop m).active_providers = m.active_providers ∧
    (lcb_confmon_stop m).all_providers = m.all_providers := by
  by_cases h : m.state = 0
  · rw [stop_of_idle m h]; simp
  · rw [stop_of_busy m h]; simp

theorem decref_providers {V : Type} (m m1 : lcb_confmon V) (cur : Nat)
    (h : lcb_clconfig_decref m cur = some m1) :
    m1.cur_provider = m.cur_provider ∧ m1.active_providers = m.active_providers ∧
    m1.all_providers = m.all_providers := by
  unfold lcb_clconfig_decref at h
  simp only [] at h
  split at h
  · cases h
  · split at h
    · rw [← Option.some.inj h]
      exact ⟨rfl, rfl, rfl⟩
    · rw [← Option.some.inj h]
      exact ⟨rfl, rfl, rfl⟩

theorem install_providers {V : Type} (m : lcb_confmon V) (info : Nat) :
    (do_set_next_install m info).cur_provider = m.cur_provider ∧
    (do_set_next_install m info).active_providers = m.active_providers ∧
    (do_set_next_install m info).all_providers = m.all_providers := by
  unfold do_set_next_install invoke_listeners
  simp only []
  obtain ⟨h1, h2, h3⟩ := stop_providers
    { lcb_clconfig_incref
        { m with
          log := m.log ++ config_updated_calls (m.heap info).vbc m.all_providers 0 }
        info with config := some info }
  exact ⟨h1, h2, h3⟩

theorem accept_providers {V : Type} (m m' : lcb_confmon V) (info : Nat) (r : Bool)
    (h : do_set_next_accept m info = some (r, m')) :
    m'.cur_provider = m.cur_provider ∧ m'.active_providers = m.active_providers ∧
    m'.all_providers = m.all_providers := by
  unfold do_set_next_accept at h
  cases hc : m.config with
  | none =>
    simp only [hc] at h
    rw [← (Prod.mk.inj (Option.some.inj h)).2]
    exact install_providers m info
  | some cur =>
    simp only [hc] at h
    cases hd : lcb_clconfig_decref m cur with
    | none => simp [hd] at h
    | some m1 =>
      simp only [hd] at h
      rw [← (Prod.mk.inj (Option.some.inj h)).2]
      obtain ⟨d1, d2, d3⟩ := decref_providers m m1 cur hd
      obtain ⟨i1, i2, i3⟩ := install_providers m1 info
      exact ⟨i1.trans d1, i2.trans d2, i3.trans d3⟩

theorem do_set_next_providers {V D : Type} (ops : VBucketOps V D) (m m' : lcb_confmon V)
    (info : Nat) (notify_miss r : Bool) (h : do_set_next ops m info notify_miss = some (r, m')) :
    m'.cur_provider = m.cur_provider ∧ m'.active_providers = m.active_providers ∧
    m'.all_providers = m.all_providers := by
  cases hc : m.config with
  | none =>
    rw [do_set_next_of_no_config ops m info notify_miss hc] at h
    rw [← (Prod.mk.inj (Option.some.inj h)).2]
    exact install_providers m info
  | some cur =>
    obtain ⟨b1, b2, b3⟩ := do_set_next_of_config ops m info notify_miss cur hc
    cases hd : ops.vbucket_compare (m.heap cur).vbc (m.heap info).vbc with
    | none =>
      rw [b1 hd] at h
      rw [← (Prod.mk.inj (Option.some.inj h)).2]
      exact ⟨rfl, rfl, rfl⟩
    | some diff =>
      by_cases hrej : ops.vbucket_what_changed diff = 0 ∨
          lcb_clconfig_compare ops (m.heap cur) (m.heap info) ≥ 0
      · rw [b2 diff hd hrej] at h
        rw [← (Prod.mk.inj (Option.some.inj h)).2]
        cases notify_miss <;> exact ⟨rfl, rfl, rfl⟩
      · rw [b3 diff hd hrej] at h
        exact accept_providers m m' info r h

theorem loop_providers {V D : Type} (ops : VBucketOps V D) (l : List Nat)
    (m m' : lcb_confmon V) (r : Bool)
    (h : do_next_provider_loop ops l m = some (r, m')) :
    m'.cur_provider = m.cur_provider ∧ m'.active_providers = m.active_providers ∧
    m'.all_providers = m.all_providers := by
  induction l generalizing m with
  | nil =>
    simp only [do_next_provider_loop] at h
    rw [← (Prod.mk.inj (Option.some.inj h)).2]
    exact ⟨rfl, rfl, rfl⟩
  | cons p rest ih =>
    rw [do_next_provider_loop] at h
    cases hg : get_cached { m with log := m.log ++ [Call.get_cached p] } p with
    | none => simp [hg] at h
    | some c =>
    cases c with
    | none =>
      simp only [hg] at h
      exact ih { m with log := m.log ++ [Call.get_cached p] } h
    | some info =>
      simp only [hg] at h
      cases hd : do_set_next ops { m with log := m.log ++ [Call.get_cached p] } info false with
      | none => simp [hd] at h
      | some res =>
        obtain ⟨b, m2⟩ := res
        obtain ⟨s1, s2, s3⟩ := do_set_next_providers ops
          { m with log := m.log ++ [Call.get_cached p] } m2 info false b hd
        cases b with
        | true =>
          simp only [hd] at h
          rw [← (Prod.mk.inj (Option.some.inj h)).2]
          exact ⟨s1, s2, s3⟩
        | false =>
          simp only [hd] at h
          obtain ⟨t1, t2, t3⟩ := ih m2 h
          exact ⟨t1.trans s1, t2.trans s2, t3.trans s3⟩

theorem list_next_mem (l : List Nat) (cur nxt : Nat) (h : list_next l cur = some nxt) :
    nxt ∈ l := by
  unfold list_next at h
  split at h
  · rename_i a b t hd
    have e : b = nxt := Option.some.inj h
    have hsub : ∀ x ∈ l.dropWhile (fun p => decide (p ≠ cur)), x ∈ l :=
      fun x hx => (List.dropWhile_sublist _).subset hx
    apply hsub
    rw [hd, ← e]
    simp
  · cases h

theorem prepare_cursor {V : Type} (m m' : lcb_confmon V)
    (h : lcb_confmon_prepare m = some m') : cursor_valid m' := by
  unfold lcb_confmon_prepare at h
  simp only [] at h
  split at h
  · cases h
  · rename_i hlen
    rw [← Option.some.inj h]
    unfold cursor_valid first_active
    simp only []
    cases hl : (prepare_scan m.all_providers 0 : List Nat × List (Call V)).1 with
    | nil => rw [hl] at hlen; simp at hlen
    | cons p rest => exact ⟨p, rfl, List.mem_cons_self p rest⟩

theorem prepare_scan_enabled {V : Type} (l : List (Option clconfig_provider)) (ii i : Nat)
    (p : clconfig_provider) (hget : l.get? i = some (some p)) (hen : p.enabled = true) :
    (prepare_scan l ii : List Nat × List (Call V)).1 ≠ [] := by
  induction l generalizing ii i with
  | nil => simp at hget
  | cons hd tl ih =>
    cases i with
    | zero =>
      have e : hd = some p := by simpa using hget
      rw [e]
      simp [prepare_scan, hen]
    | succ j =>
      have hget' : tl.get? j = some (some p) := by simpa using hget
      have hrec := ih (ii + 1) j hget'
      cases hd with
      | none => simpa [prepare_scan] using hrec
      | some cur =>
        unfold prepare_scan
        simp only []
        split
        · simp
        · split
          · exact hrec
          · exact hrec

theorem prepare_returns {V : Type} (m : lcb_confmon V) (i : Nat) (p : clconfig_provider)
    (hget : m.all_providers.get? i = some (some p)) (hen : p.enabled = true) :
    ∃ m', lcb_confmon_prepare m = some m' := by
  have hne := prepare_scan_enabled (V := V) m.all_providers 0 i p hget hen
  unfold lcb_confmon_prepare
  simp only []
  rw [if_neg]
  · exact ⟨_, rfl⟩
  · intro hlen
    exact hne (List.length_eq_zero.1 hlen)

theorem provider_failed_cursor {V : Type} (m m' : lcb_confmon V) (provider : Nat)
    (reason : lcb_error_t) (hinv : cursor_valid m)
    (h : lcb_confmon_provider_failed m provider reason = some m') : cursor_valid m' := by
  obtain ⟨c, hc, hmem⟩ := hinv
  by_cases hcur : m.cur_provider = some provider
  · obtain ⟨b1, b2⟩ := provider_failed_current m provider reason hcur
    cases hn : next_active m provider with
    | none =>
      rw [b1 hn] at h
      rw [← Option.some.inj h]
      obtain ⟨s1, s2, _⟩ := stop_providers
        { invoke_listeners
            { m with
              last_error := if reason ≠ LCB_SUCCESS then reason else m.last_error
              cur_provider := none }
            clconfig_event_t.CLCONFIG_EVENT_PROVIDERS_CYCLED none with
          cur_provider := first_active m }
      obtain ⟨q, rest, hl⟩ : ∃ q rest, m.active_providers = q :: rest := by
        cases hl : m.active_providers with
        | nil => rw [hl] at hmem; cases hmem
        | cons q rest => exact ⟨q, rest, rfl⟩
      have hfirst : first_active m = some q := by
        unfold first_active
        rw [hl]
      have hq : q ∈ m.active_providers := by
        rw [hl]
        exact List.mem_cons_self q rest
      unfold cursor_valid
      rw [s1, s2]
      exact ⟨q, hfirst, hq⟩
    | some nxt =>
      rw [b2 nxt hn] at h
      rw [← Option.some.inj h]
      exact ⟨nxt, rfl, list_next_mem m.active_providers provider nxt hn⟩
  · have hne : some provider ≠ m.cur_provider := fun e => hcur e.symm
    unfold lcb_confmon_provider_failed at h
    rw [if_pos hne, hc] at h
    rw [← Option.some.inj h]
    exact ⟨c, hc, hmem⟩

theorem start_providers {V : Type} (m m' : lcb_confmon V) (now_ns : Nat) (r : lcb_error_t)
    (h : lcb_confmon_start m now_ns = some (r, m')) :
    m'.cur_provider = m.cur_provider ∧ m'.active_providers = m.active_providers := by
  by_cases hact : IS_REFRESHING m ≠ 0
  · rw [start_of_active m now_ns hact] at h
    rw [← (Prod.mk.inj (Option.some.inj h)).2]
    exact ⟨rfl, rfl⟩
  · have hidle : IS_REFRESHING m = 0 := by
      by_contra hne
      exact hact hne
    cases hc : m.cur_provider with
    | none =>
      rw [start_of_null m now_ns hidle hc] at h
      cases h
    | some cur =>
      rw [start_of_idle m now_ns hidle cur hc] at h
      rw [← (Prod.mk.inj (Option.some.inj h)).2]
      exact ⟨hc, rfl⟩

theorem start_returns {V : Type} (m : lcb_confmon V) (now_ns : Nat) (hinv : cursor_valid m) :
    ∃ r m', lcb_confmon_start m now_ns = some (r, m') := by
  obtain ⟨c, hc, _⟩ := hinv
  by_cases hact : IS_REFRESHING m ≠ 0
  · exact ⟨_, _, start_of_active m now_ns hact⟩
  · have hidle : IS_REFRESHING m = 0 := by
      by_contra hne
      exact hact hne
    exact ⟨_, _, start_of_idle m now_ns hidle c hc⟩

theorem provider_failed_returns {V : Type} (m : lcb_confmon V) (provider : Nat)
    (reason : lcb_error_t) (hinv : cursor_valid m) :
    ∃ m', lcb_confmon_provider_failed m provider reason = some m' := by
  obtain ⟨c, hc, _⟩ := hinv
  unfold lcb_confmon_provider_failed
  split
  · rw [hc]
    exact ⟨m, rfl⟩
  · exact ⟨_, rfl⟩

theorem do_next_provider_providers {V D : Type} (ops : VBucketOps V D) (m m' : lcb_confmon V)
    (r : Bool) (h : do_next_provider ops m = some (r, m')) :
    m'.cur_provider = m.cur_provider ∧ m'.active_providers = m.active_providers := by
  unfold do_next_provider at h
  simp only [] at h
  cases hl : do_next_provider_loop ops m.active_providers
      { m with state := m.state &&& (4294967295 ^^^ CONFMON_S_ITERGRACE) } with
  | none => simp [hl] at h
  | some res =>
    obtain ⟨b, m1⟩ := res
    obtain ⟨l1, l2, _⟩ := loop_providers ops m.active_providers
      { m with state := m.state &&& (4294967295 ^^^ CONFMON_S_ITERGRACE) } m1 b hl
    cases b with
    | true =>
      simp only [hl] at h
      rw [← (Prod.mk.inj (Option.some.inj h)).2]
      exact ⟨l1, l2⟩
    | false =>
      simp only [hl] at h
      cases hc : m1.cur_provider with
      | none => simp [hc] at h
      | some cur =>
        simp only [hc] at h
        obtain ⟨m2, hm2, e⟩ := Option.map_eq_some'.mp h
        rw [← (Prod.mk.inj e).2, refresh_frame m1 m2 cur hm2]
        exact ⟨l1, l2⟩

/-- With a valid cursor `do_next_provider` finds its cursor whenever its loop returns
without an accepted configuration. -/
theorem do_next_provider_cursor {V D : Type} (ops : VBucketOps V D) (m m1 : lcb_confmon V)
    (hinv : cursor_valid m)
    (hloop : do_next_provider_loop ops m.active_providers
      { m with state := m.state &&& (4294967295 ^^^ CONFMON_S_ITERGRACE) } = some (false, m1)) :
    ∃ cur, m.cur_provider = some cur ∧
      do_next_provider ops m = (refresh m1 cur).map (fun m2 => (false, m2)) ∧
      (has_hooks m cur = true →
        do_next_provider ops m
          = some (false, { m1 with log := m1.log ++ [Call.refresh cur] })) := by
  obtain ⟨c, hc, _⟩ := hinv
  obtain ⟨l1, _, l3⟩ := loop_providers ops m.active_providers
    { m with state := m.state &&& (4294967295 ^^^ CONFMON_S_ITERGRACE) } m1 false hloop
  have hc1 : m1.cur_provider = some c := l1.trans hc
  have href := do_next_provider_refresh ops m m1 c hloop hc1
  refine ⟨c, hc, href, fun hh => ?_⟩
  rw [href, (hooks_calls m1 c ((has_hooks_congr m1 m c l3).trans hh)).2]
  rfl

/-- Every operation keeps the cursor valid. -/
theorem cursor_step {V D : Type} (ops : VBucketOps V D) (op : MonOp) (m m' : lcb_confmon V)
    (hinv : cursor_valid m) (h : apply_op ops op m = some m') : cursor_valid m' := by
  have keep : m'.cur_provider = m.cur_provider → m'.active_providers = m.active_providers →
      cursor_valid m' := by
    intro h1 h2
    obtain ⟨c, hc, hmem⟩ := hinv
    exact ⟨c, h1.trans hc, by rw [h2]; exact hmem⟩
  cases op with
  | prepare => exact prepare_cursor m m' h
  | set_provider_active type enabled =>
    simp only [apply_op] at h
    unfold lcb_confmon_set_provider_active at h
    cases hp : provider_at m type with
    | none => simp [hp] at h
    | some provider =>
      simp only [hp] at h
      split at h
      · rw [← Option.some.inj h]
        exact hinv
      · exact prepare_cursor
          { m with
            all_providers :=
              m.all_providers.set type (some { provider with enabled := enabled }) }
          m' h
  | start now_ns =>
    simp only [apply_op] at h
    cases hr : lcb_confmon_start m now_ns with
    | none => simp [hr] at h
    | some res =>
      obtain ⟨r, m1⟩ := res
      simp only [hr, Option.map_some'] at h
      rw [← Option.some.inj h]
      obtain ⟨s1, s2⟩ := start_providers m m1 now_ns r hr
      obtain ⟨c, hc, hmem⟩ := hinv
      exact ⟨c, s1.trans hc, by rw [s2]; exact hmem⟩
  | stop =>
    simp only [apply_op] at h
    obtain ⟨s1, s2, _⟩ := stop_providers m
    rw [← Option.some.inj h] at keep
    rw [← Option.some.inj h]
    exact keep s1 s2
  | provider_success provider config =>
    simp only [apply_op] at h
    unfold lcb_confmon_provider_success at h
    cases hd : do_set_next ops m config true with
    | none => simp [hd] at h
    | some res =>
      obtain ⟨b, m1⟩ := res
      simp only [hd] at h
      obtain ⟨d1, d2, _⟩ := do_set_next_providers ops m m1 config true b hd
      obtain ⟨s1, s2, _⟩ := stop_providers m1
      rw [← Option.some.inj h] at keep
      rw [← Option.some.inj h]
      exact keep (s1.trans d1) (s2.trans d2)
  | provider_failed provider reason =>
    exact provider_failed_cursor m m' provider reason hinv h
  | start_timer =>
    simp only [apply_op] at h
    unfold as_start_fire at h
    cases ht : m.as_start with
    | none => simp [ht] at h
    | some d =>
      simp only [ht] at h
      unfold async_start at h
      cases hd : do_next_provider ops { m with as_start := none } with
      | none => simp [hd] at h
      | some res =>
        obtain ⟨b, m1⟩ := res
        simp only [hd, Option.map_some'] at h
        obtain ⟨d1, d2⟩ := do_next_provider_providers ops { m with as_start := none } m1 b hd
        rw [← Option.some.inj h] at keep
        rw [← Option.some.inj h]
        exact keep d1 d2
  | stop_timer now_ns =>
    simp only [apply_op] at h
    unfold as_stop_fire at h
    cases ht : m.as_stop with
    | none => simp [ht] at h
    | some d =>
      simp only [ht] at h
      rw [← Option.some.inj h] at keep
      rw [← Option.some.inj h]
      exact keep rfl rfl
  | add_listener listener =>
    simp only [apply_op] at h
    rw [← Option.some.inj h] at keep
    rw [← Option.some.inj h]
    exact keep rfl rfl
  | remove_listener listener =>
    simp only [apply_op] at h
    rw [← Option.some.inj h] at keep
    rw [← Option.some.inj h]
    exact keep rfl rfl

/-- Claim C28: when at least one provider is enabled `lcb_confmon_prepare` returns, and
in every state reached afterwards through start, stop, `provider_failed`,
`provider_success`, `lcb_confmon_set_provider_active`, the firing of the two timers and
the other interface calls (a call that disables the last enabled provider aborts in
`lcb_confmon_prepare` and reaches no state), the cursor is not null and is a member of
the active list; so `lcb_confmon_start` passes its assertion and returns,
`lcb_confmon_provider_failed` returns for every provider, and `do_next_provider` finds a
cursor whenever its loop ends without an accepted configuration: what it returns is what
the call of the `refresh` hook of that provider gives, which is the refresh logged and
failure returned when the provider has its hooks. -/
theorem cursor_never_null {V D : Type} (ops : VBucketOps V D) (init : lcb_confmon V)
    (i : Nat) (p : clconfig_provider)
    (hget : init.all_providers.get? i = some (some p)) (hen : p.enabled = true) :
    ∃ m0, lcb_confmon_prepare init = some m0 ∧
      ∀ trace m, run ops trace m0 = some m →
        cursor_valid m ∧
        (∀ now_ns, ∃ r m', lcb_confmon_start m now_ns = some (r, m')) ∧
        (∀ provider reason, ∃ m', lcb_confmon_provider_failed m provider reason = some m') ∧
        (∀ m1, do_next_provider_loop ops m.active_providers
            { m with state := m.state &&& (4294967295 ^^^ CONFMON_S_ITERGRACE) }
            = some (false, m1) →
          ∃ cur, m.cur_provider = some cur ∧
            do_next_provider ops m = (refresh m1 cur).map (fun m2 => (false, m2)) ∧
            (has_hooks m cur = true →
              do_next_provider ops m
                = some (false, { m1 with log := m1.log ++ [Call.refresh cur] }))) := by
  obtain ⟨m0, hprep⟩ := prepare_returns init i p hget hen
  refine ⟨m0, hprep, ?_⟩
  intro trace m hrun
  have hinv : cursor_valid m :=
    run_with_invariant ops (fun _ _ => true) cursor_valid
      (fun op a b ha _ h => cursor_step ops op a b ha h) trace m0 m
      (prepare_cursor init m0 hprep) hrun
  exact ⟨hinv, fun now_ns => start_returns m now_ns hinv,
    fun provider reason => provider_failed_returns m provider reason hinv,
    fun m1 hloop => do_next_provider_cursor ops m m1 hinv hloop⟩

/-- The monitor `exInit` has an enabled provider in slot 0; a sequence of operations
after `lcb_confmon_prepare` that fails both providers in turn and disables one of them
reaches a state, and the cursor is valid in every state reached. -/
theorem cursor_never_null_witness :
    (run exOps [MonOp.prepare, MonOp.start 0, MonOp.start_timer, MonOp.provider_failed 0 3,
      MonOp.start_timer, MonOp.provider_failed 1 3, MonOp.set_provider_active 0 false,
      MonOp.start 0, MonOp.start_timer, MonOp.provider_failed 1 3] exInit).isSome = true ∧
    ∃ m0, lcb_confmon_prepare exInit = some m0 ∧
      ∀ trace m, run exOps trace m0 = some m →
        cursor_valid m ∧
        (∀ now_ns, ∃ r m', lcb_confmon_start m now_ns = some (r, m')) ∧
        (∀ provider reason, ∃ m', lcb_confmon_provider_failed m provider reason = some m') ∧
        (∀ m1, do_next_provider_loop exOps m.active_providers
            { m with state := m.state &&& (4294967295 ^^^ CONFMON_S_ITERGRACE) }
            = some (false, m1) →
          ∃ cur, m.cur_provider = some cur ∧
            do_next_provider exOps m = (refresh m1 cur).map (fun m2 => (false, m2)) ∧
            (has_hooks m cur = true →
              do_next_provider exOps m
                = some (false, { m1 with log := m1.log ++ [Call.refresh cur] }))) :=
  ⟨by decide,
    cursor_never_null exOps exInit 0
      { type := 0, enabled := true, has_pause := true, has_config_updated := true,
        has_get_cached := true, has_refresh := true, cached := none } rfl rfl⟩

/-! ### `do_next_provider` and the cached configurations -/

theorem config_updated_calls_install {V : Type} (vbc : V)
    (ps : List (Option clconfig_provider)) (ii : Nat) :
    ∀ c ∈ config_updated_calls vbc ps ii, install_call c = true := by
  induction ps generalizing ii with
  | nil => intro c hc; simp [config_updated_calls] at hc
  | cons hd tl ih =>
    intro c hc
    cases hd with
    | none => exact ih (ii + 1) c (by simpa [config_updated_calls] using hc)
    | some cur =>
      unfold config_updated_calls at hc
      split at hc
      · rcases List.mem_cons.1 hc with h | h
        · rw [h]; rfl
        · exact ih (ii + 1) c h
      · exact ih (ii + 1) c hc

theorem decref_log {V : Type} (m m1 : lcb_confmon V) (cur : Nat)
    (h : lcb_clconfig_decref m cur = some m1) :
    ∃ calls, m1.log = m.log ++ calls ∧ ∀ c ∈ calls, install_call c = true := by
  unfold lcb_clconfig_decref at h
  simp only [] at h
  split at h
  · cases h
  · split at h
    · rw [← Option.some.inj h]
      exact ⟨[], by simp, by simp⟩
    · rw [← Option.some.inj h]
      refine ⟨[Call.vbucket_config_destroy (m.heap cur).vbc], rfl, ?_⟩
      intro c hc
      rw [List.mem_singleton.1 hc]
      rfl

theorem install_log {V : Type} (m : lcb_confmon V) (info : Nat) :
    ∃ calls, (do_set_next_install m info).log = m.log ++ calls ∧
      ∀ c ∈ calls, install_call c = true := by
  obtain ⟨_, _, _, _, _, _, _, hlog⟩ := install_effect m info
  refine ⟨config_updated_calls (m.heap info).vbc m.all_providers 0 ++
    m.listeners.map (fun lsn => Call.callback lsn
      clconfig_event_t.CLCONFIG_EVENT_GOT_NEW_CONFIG (some info) (some info)
      CONFMON_S_INACTIVE), ?_, ?_⟩
  · rw [hlog, List.append_assoc]
  · intro c hc
    rcases List.mem_append.1 hc with hc | hc
    · exact config_updated_calls_install _ _ _ c hc
    · obtain ⟨lsn, _, e⟩ := List.mem_map.1 hc
      rw [← e]
      rfl

theorem accept_log {V : Type} (m m' : lcb_confmon V) (info : Nat) (r : Bool)
    (h : do_set_next_accept m info = some (r, m')) :
    m'.state = CONFMON_S_INACTIVE ∧ m'.config = some info ∧
    ∃ calls, m'.log = m.log ++ calls ∧ ∀ c ∈ calls, install_call c = true := by
  unfold do_set_next_accept at h
  cases hc : m.config with
  | none =>
    simp only [hc] at h
    rw [← (Prod.mk.inj (Option.some.inj h)).2]
    obtain ⟨i1, i2, _⟩ := install_effect m info
    exact ⟨i2, i1, install_log m info⟩
  | some cur =>
    simp only [hc] at h
    cases hd : lcb_clconfig_decref m cur with
    | none => simp [hd] at h
    | some m1 =>
      simp only [hd] at h
      rw [← (Prod.mk.inj (Option.some.inj h)).2]
      obtain ⟨i1, i2, _⟩ := install_effect m1 info
      obtain ⟨c1, hl1, hq1⟩ := decref_log m m1 cur hd
      obtain ⟨c2, hl2, hq2⟩ := install_log m1 info
      refine ⟨i2, i1, c1 ++ c2, ?_, ?_⟩
      · rw [hl2, hl1, List.append_assoc]
      · intro c hc
        rcases List.mem_append.1 hc with hc | hc
        · exact hq1 c hc
        · exact hq2 c hc

/-- What an accepting `do_set_next` leaves: the monitor is Idle, holds `info`, and the
calls made are calls of the install: no provider is asked or refreshed. -/
theorem do_set_next_true_log {V D : Type} (ops : VBucketOps V D) (m m' : lcb_confmon V)
    (info : Nat) (notify_miss : Bool)
    (h : do_set_next ops m info notify_miss = some (true, m')) :
    m'.state = CONFMON_S_INACTIVE ∧ m'.config = some info ∧
    ∃ calls, m'.log = m.log ++ calls ∧ ∀ c ∈ calls, install_call c = true := by
  cases hc : m.config with
  | none =>
    rw [do_set_next_of_no_config ops m info notify_miss hc] at h
    rw [← (Prod.mk.inj (Option.some.inj h)).2]
    obtain ⟨i1, i2, _⟩ := install_effect m info
    exact ⟨i2, i1, install_log m info⟩
  | some cur =>
    obtain ⟨b1, b2, b3⟩ := do_set_next_of_config ops m info notify_miss cur hc
    cases hd : ops.vbucket_compare (m.heap cur).vbc (m.heap info).vbc with
    | none =>
      rw [b1 hd] at h
      exact absurd (Prod.mk.inj (Option.some.inj h)).1 (by simp)
    | some diff =>
      by_cases hrej : ops.vbucket_what_changed diff = 0 ∨
          lcb_clconfig_compare ops (m.heap cur) (m.heap info) ≥ 0
      · rw [b2 diff hd hrej] at h
        exact absurd (Prod.mk.inj (Option.some.inj h)).1 (by simp)
      · rw [b3 diff hd hrej] at h
        exact accept_log m m' info true h

theorem loop_cons_accept {V D : Type} (ops : VBucketOps V D) (p : Nat) (rest : List Nat)
    (m m2 : lcb_confmon V) (info : Nat) (h : get_cached m p = some (some info))
    (hr : do_set_next ops { m with log := m.log ++ [Call.get_cached p] } info false =
      some (true, m2)) :
    do_next_provider_loop ops (p :: rest) m = some (true, m2) := by
  have h' : get_cached { m with log := m.log ++ [Call.get_cached p] } p = some (some info) :=
    h
  rw [do_next_provider_loop]
  simp only [h', hr]

/-- The loop of `do_next_provider`: either every cached configuration is rejected and
every provider was asked, or the providers were asked up to the first one whose cached
configuration is accepted. -/
theorem loop_split {V D : Type} (ops : VBucketOps V D) (mon : lcb_confmon V) (l : List Nat)
    (m m' : lcb_confmon V) (r : Bool)
    (hc : m.config = mon.config) (hh : m.heap = mon.heap)
    (hp : m.all_providers = mon.all_providers)
    (h : do_next_provider_loop ops l m = some (r, m')) :
    (r = false ∧ all_rejected ops mon l ∧
      m' = { m with log := m.log ++ l.map Call.get_cached }) ∨
    (r = true ∧ ∃ asked p info later, l = asked ++ p :: later ∧
      all_rejected ops mon asked ∧ get_cached mon p = some (some info) ∧
      (do_set_next ops mon info false).map Prod.fst = some true ∧
      do_set_next ops { m with log := m.log ++ (asked ++ [p]).map Call.get_cached } info false
        = some (true, m')) := by
  induction l generalizing m with
  | nil =>
    simp only [do_next_provider_loop] at h
    obtain ⟨e1, e2⟩ := Prod.mk.inj (Option.some.inj h)
    left
    refine ⟨e1.symm, ?_, ?_⟩
    · intro q hq
      cases hq
    · rw [← e2]
      simp
  | cons p rest ih =>
    have hg : get_cached m p = get_cached mon p := get_cached_congr m mon p hp
    have hlog : ({ m with log := (m.log ++ [Call.get_cached p]) ++ rest.map Call.get_cached }
        : lcb_confmon V) = { m with log := m.log ++ (p :: rest).map Call.get_cached } := by
      simp [List.append_assoc]
    have hlog2 : ∀ (asked : List Nat) (p' : Nat),
        ({ m with log := (m.log ++ [Call.get_cached p]) ++
            (asked ++ [p']).map Call.get_cached } : lcb_confmon V) =
          { m with log := m.log ++ ((p :: asked) ++ [p']).map Call.get_cached } := by
      intro asked p'
      simp [List.append_assoc]
    have hrest : ∀ (hrejp : ∀ info, get_cached mon p = some (some info) →
          (do_set_next ops mon info false).map Prod.fst = some false)
        (hloop : do_next_provider_loop ops rest
          { m with log := m.log ++ [Call.get_cached p] } = some (r, m')),
        (r = false ∧ all_rejected ops mon (p :: rest) ∧
          m' = { m with log := m.log ++ (p :: rest).map Call.get_cached }) ∨
        (r = true ∧ ∃ asked p' info later, p :: rest = asked ++ p' :: later ∧
          all_rejected ops mon asked ∧ get_cached mon p' = some (some info) ∧
          (do_set_next ops mon info false).map Prod.fst = some true ∧
          do_set_next ops { m with log := m.log ++ (asked ++ [p']).map Call.get_cached }
            info false = some (true, m')) := by
      intro hrejp hloop
      rcases ih { m with log := m.log ++ [Call.get_cached p] } hc hh hp hloop with
        ⟨hr, hrej, hm⟩ | ⟨hr, asked, p', info, later, hl, hrej, hgp, hv, hds⟩
      · left
        refine ⟨hr, ?_, hm.trans hlog⟩
        intro q hq info hqi
        rcases List.mem_cons.1 hq with e | hq'
        · rw [e] at hqi
          exact hrejp info hqi
        · exact hrej q hq' info hqi
      · right
        refine ⟨hr, p :: asked, p', info, later, ?_, ?_, hgp, hv, ?_⟩
        · rw [hl]
          rfl
        · intro q hq i hqi
          rcases List.mem_cons.1 hq with e | hq'
          · rw [e] at hqi
            exact hrejp i hqi
          · exact hrej q hq' i hqi
        · rw [← hlog2 asked p']
          exact hds
    cases hgc : get_cached mon p with
    | none =>
      rw [loop_cons_fault ops p rest m (hg.trans hgc)] at h
      cases h
    | some c =>
    cases c with
    | none =>
      rw [loop_cons_none ops p rest m (hg.trans hgc)] at h
      exact hrest (fun info hi => by rw [hgc] at hi; cases Option.some.inj hi) h
    | some info =>
      have hcongr := do_set_next_fst_congr ops { m with log := m.log ++ [Call.get_cached p] }
        mon info false hc hh
      cases hd : do_set_next ops { m with log := m.log ++ [Call.get_cached p] } info false with
      | none =>
        have h' : get_cached { m with log := m.log ++ [Call.get_cached p] } p =
            some (some info) := hg.trans hgc
        rw [do_next_provider_loop] at h
        simp only [h', hd] at h
        cases h
      | some res =>
        obtain ⟨b, m2⟩ := res
        rw [hd] at hcongr
        cases b with
        | true =>
          rw [loop_cons_accept ops p rest m m2 info (hg.trans hgc) hd] at h
          obtain ⟨e1, e2⟩ := Prod.mk.inj (Option.some.inj h)
          right
          refine ⟨e1.symm, [], p, info, rest, rfl, ?_, hgc, hcongr.symm, ?_⟩
          · intro q hq
            cases hq
          · rw [← e2]
            exact hd
        | false =>
          have hsil := reject_silent ops { m with log := m.log ++ [Call.get_cached p] } info
            (by rw [hd]; rfl)
          rw [loop_cons_reject ops p rest m info (hg.trans hgc) hsil] at h
          refine hrest ?_ h
          intro i hi
          rw [hgc] at hi
          rw [← Option.some.inj (Option.some.inj hi)]
          exact hcongr.symm

/-- The loop of `do_next_provider` returns when every provider asked has the
`get_cached` hook and the held configuration has a reference count that is not zero. -/
theorem loop_returns {V D : Type} (ops : VBucketOps V D) (mon : lcb_confmon V)
    (hhooks : ∀ p ∈ mon.active_providers, has_hooks mon p = true)
    (hwf : ∀ cur, mon.config = some cur → 0 < (mon.heap cur).refcount)
    (l : List Nat) (hl : ∀ p ∈ l, p ∈ mon.active_providers) (m : lcb_confmon V)
    (hc : m.config = mon.config) (hh : m.heap = mon.heap)
    (hp : m.all_providers = mon.all_providers) :
    ∃ r m', do_next_provider_loop ops l m = some (r, m') := by
  induction l generalizing m with
  | nil => exact ⟨false, m, by simp [do_next_provider_loop]⟩
  | cons p rest ih =>
    have hrest : ∀ q ∈ rest, q ∈ mon.active_providers :=
      fun q hq => hl q (List.mem_cons_of_mem p hq)
    have hstep := ih hrest { m with log := m.log ++ [Call.get_cached p] } hc hh hp
    have hg : get_cached m p = get_cached mon p := get_cached_congr m mon p hp
    obtain ⟨c, hgc⟩ := (hooks_calls mon p (hhooks p (hl p (List.mem_cons_self p rest)))).1
    cases c with
    | none =>
      rw [loop_cons_none ops p rest m (hg.trans hgc)]
      exact hstep
    | some info =>
      have hwf' : ∀ cur, ({ m with log := m.log ++ [Call.get_cached p] }
          : lcb_confmon V).config = some cur →
          0 < (({ m with log := m.log ++ [Call.get_cached p] }
            : lcb_confmon V).heap cur).refcount := by
        intro cur hcur
        have h1 : m.config = some cur := hcur
        show 0 < (m.heap cur).refcount
        rw [hh]
        exact hwf cur (hc.symm.trans h1)
      obtain ⟨b, m2, hd, _⟩ := do_set_next_returns_aux ops
        { m with log := m.log ++ [Call.get_cached p] } info false hwf'
      cases b with
      | true => exact ⟨true, m2, loop_cons_accept ops p rest m m2 info (hg.trans hgc) hd⟩
      | false =>
        have hsil := reject_silent ops { m with log := m.log ++ [Call.get_cached p] } info
          (by rw [hd]; rfl)
        rw [loop_cons_reject ops p rest m info (hg.trans hgc) hsil]
        exact hstep

theorem cleared_itergrace (s : Nat) :
    (s &&& (4294967295 ^^^ CONFMON_S_ITERGRACE)) &&& CONFMON_S_ITERGRACE = 0 := by
  rw [Nat.and_assoc]
  have h : (4294967295 ^^^ CONFMON_S_ITERGRACE) &&& CONFMON_S_ITERGRACE = 0 := by decide
  rw [h]
  exact Nat.and_zero s

/-- Claim C27, as amended: on a monitor whose active providers have the `get_cached` and
`refresh` hooks, whose cursor is valid and whose held configuration has a reference count
that is not zero, `do_next_provider` returns; it clears InGrace and asks the active
providers for their cached ConfigInfo in the order of the active list, attempting an
install with `notify_miss` clear for each provider that returns one until an install
accepts. If one accepts (provider `p`, after the providers `asked` whose cached
configurations, if any, were rejected without a call) it returns success: `info` is the
configuration held, the monitor is the one that the accepting `do_set_next` gives after
the `get_cached` calls to `asked` and to `p`, and the log is the one before, these
`get_cached` calls, and calls of the install only: the providers after `p` are not asked, no
`refresh` is called and no `GotAnyConfig` callback is made. If none accepts it returns
failure: every active provider was asked, nothing but the flag and the log has changed,
and the one call after the `get_cached` calls is `refresh` on the current provider. -/
theorem do_next_provider_cached {V D : Type} (ops : VBucketOps V D) (mon : lcb_confmon V)
    (hhooks : ∀ p ∈ mon.active_providers, has_hooks mon p = true)
    (hcursor : cursor_valid mon)
    (hwf : ∀ cur, mon.config = some cur → 0 < (mon.heap cur).refcount) :
    ∃ r m', do_next_provider ops mon = some (r, m') ∧
    m'.state &&& CONFMON_S_ITERGRACE = 0 ∧
    ((r = true ∧ ∃ asked p info later calls,
        mon.active_providers = asked ++ p :: later ∧
        all_rejected ops mon asked ∧ get_cached mon p = some (some info) ∧
        (do_set_next ops mon info false).map Prod.fst = some true ∧
        m'.config = some info ∧
        do_set_next ops
          { mon with
            state := mon.state &&& (4294967295 ^^^ CONFMON_S_ITERGRACE)
            log := mon.log ++ (asked ++ [p]).map Call.get_cached } info false
          = some (true, m') ∧
        m'.log = mon.log ++ (asked ++ [p]).map Call.get_cached ++ calls ∧
        ∀ c ∈ calls, install_call c = true) ∨
     (r = false ∧ all_rejected ops mon mon.active_providers ∧
        ∃ cur, mon.cur_provider = some cur ∧
          m' = { mon with
                 state := mon.state &&& (4294967295 ^^^ CONFMON_S_ITERGRACE)
                 log := mon.log ++ mon.active_providers.map Call.get_cached ++
                   [Call.refresh cur] })) := by
  obtain ⟨cur, hcur, hmem⟩ := hcursor
  obtain ⟨b, m1, hl⟩ := loop_returns ops mon hhooks hwf mon.active_providers
    (fun _ h => h) { mon with state := mon.state &&& (4294967295 ^^^ CONFMON_S_ITERGRACE) }
    rfl rfl rfl
  rcases loop_split ops mon mon.active_providers
      { mon with state := mon.state &&& (4294967295 ^^^ CONFMON_S_ITERGRACE) } m1 b
      rfl rfl rfl hl with
    ⟨hb, hrej, hm⟩ | ⟨hb, asked, p, info, later, hsplit, hrej, hgp, hv, hds⟩
  · subst hb
    have hc1 : m1.cur_provider = some cur := by
      rw [hm]
      exact hcur
    have href := (hooks_calls m1 cur
      ((has_hooks_congr m1 mon cur (by rw [hm])).trans (hhooks cur hmem))).2
    refine ⟨false, { m1 with log := m1.log ++ [Call.refresh cur] }, ?_, ?_,
      Or.inr ⟨rfl, hrej, cur, hcur, ?_⟩⟩
    · rw [do_next_provider_refresh ops mon m1 cur hl hc1, href]
      rfl
    · show m1.state &&& CONFMON_S_ITERGRACE = 0
      rw [hm]
      exact cleared_itergrace mon.state
    · rw [hm]
  · subst hb
    obtain ⟨hs, hcfg, calls, hlog, hq⟩ := do_set_next_true_log ops _ m1 info false hds
    refine ⟨true, m1, ?_, ?_, Or.inl ⟨rfl, asked, p, info, later, calls, hsplit, hrej, hgp,
      hv, hcfg, hds, hlog, hq⟩⟩
    · unfold do_next_provider
      simp only []
      have hl' : do_next_provider_loop ops
          ({ mon with state := mon.state &&& (4294967295 ^^^ CONFMON_S_ITERGRACE) }
            : lcb_confmon V).active_providers
          { mon with state := mon.state &&& (4294967295 ^^^ CONFMON_S_ITERGRACE) }
          = some (true, m1) := hl
      rw [hl']
    · rw [hs]
      rfl

/-- On `exMonCached` the cached configuration of the first provider is rejected and the
one of the second provider is accepted: `do_next_provider` returns success with the
configuration of cell 2, and the log holds the two `get_cached` calls, the destructor of
the configuration released, the `config_updated` call to the first provider and the
`GotNewConfig` callbacks. -/
theorem do_next_provider_cached_witness :
    (do_next_provider exOps exMonCached).map (fun x => (x.1, x.2.config, x.2.log)) =
      some (true, some 2,
        [Call.get_cached 0, Call.get_cached 1,
         Call.vbucket_config_destroy { revision := 1, map := 1 },
         Call.config_updated 0 { revision := 2, map := 2 },
         Call.callback 10 clconfig_event_t.CLCONFIG_EVENT_GOT_NEW_CONFIG (some 2) (some 2) 0,
         Call.callback 11 clconfig_event_t.CLCONFIG_EVENT_GOT_NEW_CONFIG (some 2) (some 2) 0]) ∧
    ∃ r m', do_next_provider exOps exMonCached = some (r, m') ∧
      m'.state &&& CONFMON_S_ITERGRACE = 0 ∧
      ((r = true ∧ ∃ asked p info later calls,
          exMonCached.active_providers = asked ++ p :: later ∧
          all_rejected exOps exMonCached asked ∧
          get_cached exMonCached p = some (some info) ∧
          (do_set_next exOps exMonCached info false).map Prod.fst = some true ∧
          m'.config = some info ∧
          do_set_next exOps
            { exMonCached with
              state := exMonCached.state &&& (4294967295 ^^^ CONFMON_S_ITERGRACE)
              log := exMonCached.log ++ (asked ++ [p]).map Call.get_cached } info false
            = some (true, m') ∧
          m'.log = exMonCached.log ++ (asked ++ [p]).map Call.get_cached ++ calls ∧
          ∀ c ∈ calls, install_call c = true) ∨
       (r = false ∧ all_rejected exOps exMonCached exMonCached.active_providers ∧
          ∃ cur, exMonCached.cur_provider = some cur ∧
            m' = { exMonCached with
                   state := exMonCached.state &&& (4294967295 ^^^ CONFMON_S_ITERGRACE)
                   log := exMonCached.log ++
                     exMonCached.active_providers.map Call.get_cached ++
                     [Call.refresh cur] })) :=
  ⟨by decide,
    do_next_provider_cached exOps exMonCached (by decide) ⟨0, rfl, by decide⟩
      (fun cur h => by
        have e : cur = 1 := (Option.some.inj h).symm
        rw [e]
        decide)⟩

/-- Claim C27, as worded, fails: on `exMonCached` the first provider that has a cached
ConfigInfo has it rejected, yet `do_next_provider` goes on to the second provider,
installs its cached configuration and returns success. -/
theorem first_cached_contract_fails : ¬ first_cached_contract exOps exMonCached := by
  intro h
  exact absurd (h 0 1 (by decide) (by decide) (by decide)) (by decide)

end Confmon

namespace Mcreq

/-! ## Theorems on packets -/

/-! ### `mcreq_packet_handled` -/

theorem flag_set_iff (x k : Nat) : x &&& 2 ^ k ≠ 0 ↔ x.testBit k = true := by
  rw [Nat.and_two_pow]
  cases x.testBit k
  · simp
  · simp

theorem handled_flags_bit (flags i : Nat) (hi : i < 16) :
    (toUInt16 (flags ||| MCREQ_F_INVOKED)).testBit i = (flags.testBit i || decide (i = 7)) := by
  have h128 : MCREQ_F_INVOKED = 2 ^ 7 := rfl
  have h16 : (65536 : Nat) = 2 ^ 16 := rfl
  unfold toUInt16
  rw [h128, h16, Nat.testBit_mod_two_pow, Nat.testBit_or, Nat.testBit_two_pow]
  have e : decide (7 = i) = decide (i = 7) := by
    by_cases h : i = 7
    · simp [h]
    · have h' : ¬ 7 = i := fun e => h e.symm
      simp [h, h']
  simp [hi, e]

/-- C20: `mcreq_packet_handled` sets the `Invoked` flag, leaves every other flag of the
16-bit flag word and every other field of the packet as they are, and calls
`mcreq_packet_done` (once, on this packet and pipeline) exactly when the `Flushed` flag
was already set; every packet it passes to `mcreq_packet_done` has both `Flushed` and
`Invoked` set. -/
theorem mcreq_packet_handled_spec (pipeline : Nat) (pkt : mc_PACKET) :
    (mcreq_packet_handled pipeline pkt).1.flags &&& MCREQ_F_INVOKED ≠ 0 ∧
    (∀ i, i < 16 → i ≠ 7 →
      (mcreq_packet_handled pipeline pkt).1.flags.testBit i = pkt.flags.testBit i) ∧
    (mcreq_packet_handled pipeline pkt).1 =
      { pkt with flags := (mcreq_packet_handled pipeline pkt).1.flags } ∧
    (pkt.flags &&& MCREQ_F_FLUSHED ≠ 0 →
      (mcreq_packet_handled pipeline pkt).2 =
        [(pipeline, (mcreq_packet_handled pipeline pkt).1)]) ∧
    (pkt.flags &&& MCREQ_F_FLUSHED = 0 → (mcreq_packet_handled pipeline pkt).2 = []) ∧
    (∀ call ∈ (mcreq_packet_handled pipeline pkt).2,
      call.2.flags &&& MCREQ_F_FLUSHED ≠ 0 ∧ call.2.flags &&& MCREQ_F_INVOKED ≠ 0) := by
  have hflags : (mcreq_packet_handled pipeline pkt).1.flags
      = toUInt16 (pkt.flags ||| MCREQ_F_INVOKED) := by
    unfold mcreq_packet_handled
    simp only []
    split <;> rfl
  have hpkt : (mcreq_packet_handled pipeline pkt).1
      = { pkt with flags := toUInt16 (pkt.flags ||| MCREQ_F_INVOKED) } := by
    unfold mcreq_packet_handled
    simp only []
    split <;> rfl
  have h64 : MCREQ_F_FLUSHED = 2 ^ 6 := rfl
  have h128 : MCREQ_F_INVOKED = 2 ^ 7 := rfl
  have hinv : toUInt16 (pkt.flags ||| MCREQ_F_INVOKED) &&& MCREQ_F_INVOKED ≠ 0 := by
    rw [h128, flag_set_iff, ← h128, handled_flags_bit pkt.flags 7 (by decide)]
    simp
  have hfl : toUInt16 (pkt.flags ||| MCREQ_F_INVOKED) &&& MCREQ_F_FLUSHED ≠ 0 ↔
      pkt.flags &&& MCREQ_F_FLUSHED ≠ 0 := by
    rw [h64, flag_set_iff, flag_set_iff, handled_flags_bit pkt.flags 6 (by decide)]
    simp
  have hcalls : (mcreq_packet_handled pipeline pkt).2 =
      if pkt.flags &&& MCREQ_F_FLUSHED ≠ 0 then
        [(pipeline, { pkt with flags := toUInt16 (pkt.flags ||| MCREQ_F_INVOKED) })]
      else [] := by
    unfold mcreq_packet_handled
    simp only []
    by_cases h : pkt.flags &&& MCREQ_F_FLUSHED ≠ 0
    · rw [if_pos (hfl.2 h), if_pos h]
    · rw [if_neg (fun hh => h (hfl.1 hh)), if_neg h]
  refine ⟨by rw [hflags]; exact hinv, ?_, ?_, ?_, ?_, ?_⟩
  · intro i hi hne
    rw [hflags, handled_flags_bit pkt.flags i hi]
    simp [hne]
  · rw [hpkt]
  · intro h
    rw [hcalls, if_pos h, hpkt]
  · intro h
    have h' : ¬ (pkt.flags &&& MCREQ_F_FLUSHED ≠ 0) := fun hh => hh h
    rw [hcalls, if_neg h']
  · intro call hcall
    rw [hcalls] at hcall
    by_cases h : pkt.flags &&& MCREQ_F_FLUSHED ≠ 0
    · rw [if_pos h] at hcall
      rw [List.mem_singleton.1 hcall]
      exact ⟨hfl.2 h, hinv⟩
    · rw [if_neg h] at hcall
      cases hcall

/-! ### The memory -/

theorem blocks_get_last (l : List (Option Block)) (x : Option Block) :
    (l ++ [x]).get? l.length = some x := by
  simp

theorem blocks_set_last (l : List (Option Block)) (x y : Option Block) :
    (l ++ [x]).set l.length y = l ++ [y] := by
  induction l with
  | nil => rfl
  | cons a t ih => simp [ih]

theorem block_at_last (blocks : List (Option Block)) (b : Block) (room : Nat) :
    block_at { blocks := blocks ++ [some b], room := room } blocks.length = some b := by
  unfold block_at
  simp only [blocks_get_last]
  rfl

theorem bytes_at_last (blocks : List (Option Block)) (st : Storage) (data : List Nat)
    (room : Nat) :
    bytes_at { blocks := blocks ++ [some { storage := st, content := Content.bytes data }],
               room := room } blocks.length = some data := by
  unfold bytes_at
  rw [block_at_last]

theorem header_bytes_length (h : protocol_binary_request_header) :
    (header_bytes h).length = 24 := by
  simp [header_bytes, be16, be32, be64]

theorem header_bytes_keylen (h : protocol_binary_request_header) (rest : List Nat)
    (hk : h.keylen < 65536) : read_be16 (header_bytes h ++ rest) 2 = h.keylen := by
  simp [header_bytes, be16, be32, be64, read_be16]
  omega

theorem header_bytes_vbucket (h : protocol_binary_request_header) (rest : List Nat)
    (hv : h.vbucket < 65536) : read_be16 (header_bytes h ++ rest) 6 = h.vbucket := by
  simp [header_bytes, be16, be32, be64, read_be16]
  omega

/-! ### `mcreq_basic_packet` and `mcreq_get_key` -/

/-- What a successful `mcreq_basic_packet` returns. -/
theorem basic_packet_inv (mem : Memory) (queue : mc_CMDQUEUE) (cmd : lcb_CMDBASE)
    (req hdr : protocol_binary_request_header) (e : Nat) (pkt : mc_PACKET) (pipeline : Nat)
    (mem1 : Memory)
    (h : mcreq_basic_packet mem queue cmd req e = Outcome.ok (hdr, pkt, pipeline, mem1)) :
    hdr = { req with
            keylen := toUInt16 cmd.key.length
            vbucket := (queue.config.vbucket_by_key (hash_target cmd)).val
            extlen := toUInt8 e } ∧
    pkt = { kh_span := { buffer := mem.blocks.length,
                         size := MCREQ_PKT_BASESIZE + toUInt8 e + cmd.key.length },
            extlen := toUInt8 e, retries := 0, flags := 0, opaque_id := 0,
            u_value := mc_VALUE.unset } ∧
    queue.config.master (queue.config.vbucket_by_key (hash_target cmd)).val = some pipeline ∧
    pipeline < queue.npipelines ∧
    mem1 = { blocks := mem.blocks ++
               [some { storage := Storage.nbmgr pipeline,
                       content := Content.bytes
                         (List.replicate (MCREQ_PKT_BASESIZE + toUInt8 e) 0 ++ cmd.key) }],
             room := mem.room - 1 - 1 } := by
  unfold mcreq_basic_packet at h
  simp only [] at h
  cases hm : queue.config.master (queue.config.vbucket_by_key (hash_target cmd)).val with
  | none => simp [hm] at h
  | some srvix =>
    simp only [hm] at h
    by_cases hs : srvix ≥ queue.npipelines
    · simp [hs] at h
    · simp only [hs, if_false] at h
      unfold mcreq_allocate_packet at h
      by_cases hr : mem.room = 0
      · simp [hr] at h
      · simp only [hr, if_false] at h
        unfold reserve at h
        by_cases hr1 : mem.room - 1 = 0
        · simp [hr1] at h
        · simp only [hr1, if_false] at h
          have e1 := Outcome.ok.inj h
          have e2 := Prod.mk.inj e1
          have e3 := Prod.mk.inj e2.2
          have e4 := Prod.mk.inj e3.2
          have e5 := e4.1
          subst e5
          exact ⟨e2.1.symm, e3.1.symm, rfl, by omega, e4.2.symm⟩

/-- `mcreq_basic_packet` succeeds when the vbucket of the key has a server among the
pipelines and the allocators can serve two allocations. -/
theorem basic_packet_ok (mem : Memory) (queue : mc_CMDQUEUE) (cmd : lcb_CMDBASE)
    (req : protocol_binary_request_header) (e : Nat) (srvix : Nat)
    (hm : queue.config.master (queue.config.vbucket_by_key (hash_target cmd)).val = some srvix)
    (hs : srvix < queue.npipelines) (hr : 2 ≤ mem.room) :
    ∃ hdr pkt mem1,
      mcreq_basic_packet mem queue cmd req e = Outcome.ok (hdr, pkt, srvix, mem1) := by
  have hs' : ¬ srvix ≥ queue.npipelines := by omega
  have hr0 : ¬ mem.room = 0 := by omega
  have hr1 : ¬ mem.room - 1 = 0 := by omega
  unfold mcreq_basic_packet
  simp only [hm, hs', if_false]
  unfold mcreq_allocate_packet
  simp only [hr0, if_false]
  unfold reserve
  simp only [hr1, if_false]
  exact ⟨_, _, _, rfl⟩

/-- The common part of the key round trip: the header written into the span, the
vbucket field and the key that `mcreq_get_key` gives, for a key of any length. -/
theorem key_round_trip (mem : Memory) (queue : mc_CMDQUEUE) (cmd : lcb_CMDBASE)
    (req hdr : protocol_binary_request_header) (e : Nat) (pkt : mc_PACKET) (pipeline : Nat)
    (mem1 : Memory)
    (h : mcreq_basic_packet mem queue cmd req e = Outcome.ok (hdr, pkt, pipeline, mem1)) :
    ∃ mem2, mcreq_write_hdr mem1 pkt hdr = some mem2 ∧
      span_bytes mem2 pkt.kh_span =
        some (header_bytes hdr ++ (List.replicate (toUInt8 e) 0 ++ cmd.key)) ∧
      hdr.keylen = toUInt16 cmd.key.length ∧
      hdr.vbucket = (queue.config.vbucket_by_key (hash_target cmd)).val ∧
      mcreq_get_key mem2 pkt = some (cmd.key, cmd.key.length) := by
  obtain ⟨e1, e2, _, _, e5⟩ := basic_packet_inv mem queue cmd req hdr e pkt pipeline mem1 h
  have hlen := header_bytes_length hdr
  have hblock : block_at mem1 mem.blocks.length =
      some { storage := Storage.nbmgr pipeline,
             content := Content.bytes
               (List.replicate (MCREQ_PKT_BASESIZE + toUInt8 e) 0 ++ cmd.key) } := by
    rw [e5]
    exact block_at_last _ _ _
  have hdrop : (List.replicate (MCREQ_PKT_BASESIZE + toUInt8 e) 0 ++ cmd.key).drop
      (header_bytes hdr).length = List.replicate (toUInt8 e) 0 ++ cmd.key := by
    rw [hlen]
    have : MCREQ_PKT_BASESIZE + toUInt8 e = 24 + toUInt8 e := rfl
    rw [this, List.replicate_add, List.append_assoc]
    simp
  have hwrite : mcreq_write_hdr mem1 pkt hdr = some
      { blocks := mem.blocks ++
          [some { storage := Storage.nbmgr pipeline,
                  content := Content.bytes
                    (header_bytes hdr ++ (List.replicate (toUInt8 e) 0 ++ cmd.key)) }],
        room := mem.room - 1 - 1 } := by
    unfold mcreq_write_hdr write_bytes
    rw [e2]
    simp only [hblock]
    have hle : (header_bytes hdr).length ≤
        (List.replicate (MCREQ_PKT_BASESIZE + toUInt8 e) 0 ++ cmd.key).length := by
      rw [hlen]
      simp [MCREQ_PKT_BASESIZE]
      omega
    rw [if_pos hle, hdrop, e5]
    simp only [blocks_set_last]
  have hspan : span_bytes
      { blocks := mem.blocks ++
          [some { storage := Storage.nbmgr pipeline,
                  content := Content.bytes
                    (header_bytes hdr ++ (List.replicate (toUInt8 e) 0 ++ cmd.key)) }],
        room := mem.room - 1 - 1 } pkt.kh_span =
      some (header_bytes hdr ++ (List.replicate (toUInt8 e) 0 ++ cmd.key)) := by
    rw [e2]
    unfold span_bytes
    simp only [bytes_at_last, Option.map_some']
    congr 1
    apply List.take_of_length_le
    simp [hlen, MCREQ_PKT_BASESIZE]
    omega
  refine ⟨_, hwrite, hspan, ?_, ?_, ?_⟩
  · rw [e1]
  · rw [e1]
  · unfold mcreq_get_key
    rw [hspan]
    simp only []
    rw [e2]
    simp only []
    congr 1
    have h1 : (header_bytes hdr ++ (List.replicate (toUInt8 e) 0 ++ cmd.key)).drop
        (MCREQ_PKT_BASESIZE + toUInt8 e) = cmd.key := by
      rw [← List.append_assoc]
      apply List.drop_left'
      simp [hlen, MCREQ_PKT_BASESIZE]
    rw [h1]
    congr 1
    omega

/-- With a key of 65536 bytes `mcreq_basic_packet` succeeds on the example queue, and
the key-length field is 0. -/
theorem key_contract_of_long (k : List Nat) (hk : k.length = 65536) :
    ¬ key_contract exMem exQueue exHdr k 0 := by
  intro hc
  have hm : ∀ x, exQueue.config.master x = some (x % 4) := fun _ => rfl
  have hn : ∀ x, x % 4 < exQueue.npipelines := fun x => Nat.mod_lt x (by decide)
  obtain ⟨hdr, pkt, mem1, hok⟩ :=
    basic_packet_ok exMem exQueue { key := k, hashkey := [] } exHdr 0
      _ (hm _) (hn _) (by decide)
  obtain ⟨_, _, _, _, hkl, _⟩ := hc hdr pkt _ mem1 hok
  obtain ⟨e1, _⟩ := basic_packet_inv _ _ _ _ _ _ _ _ _ hok
  have hlen : hdr.keylen = toUInt16 k.length := by
    rw [e1]
  rw [hlen, hk] at hkl
  exact absurd hkl (by decide)

/-- Claim C17, as amended: for every command whose key is shorter than 65536 bytes and
every extras length, after `mcreq_basic_packet` succeeds the returned header can be
written into the key/header span of the packet; then the key-length field, in the header
and big-endian on the wire, is the length of the key, the vbucket field is the vbucket the
configuration maps the hashkey, or the key when there is no hashkey, to, and
`mcreq_get_key` gives exactly the bytes and the length of the key. -/
theorem mcreq_basic_packet_key (mem : Memory) (queue : mc_CMDQUEUE) (cmd : lcb_CMDBASE)
    (req hdr : protocol_binary_request_header) (e : Nat) (pkt : mc_PACKET) (pipeline : Nat)
    (mem1 : Memory) (hk : cmd.key.length < 65536)
    (h : mcreq_basic_packet mem queue cmd req e = Outcome.ok (hdr, pkt, pipeline, mem1)) :
    ∃ mem2 data, mcreq_write_hdr mem1 pkt hdr = some mem2 ∧
      span_bytes mem2 pkt.kh_span = some data ∧
      hdr.keylen = cmd.key.length ∧ read_be16 data 2 = cmd.key.length ∧
      hdr.vbucket = (queue.config.vbucket_by_key (hash_target cmd)).val ∧
      read_be16 data 6 = (queue.config.vbucket_by_key (hash_target cmd)).val ∧
      mcreq_get_key mem2 pkt = some (cmd.key, cmd.key.length) := by
  obtain ⟨mem2, hw, hs, hkl, hvb, hg⟩ :=
    key_round_trip mem queue cmd req hdr e pkt pipeline mem1 h
  have hkl' : hdr.keylen = cmd.key.length := by
    rw [hkl]
    exact Nat.mod_eq_of_lt hk
  have hvlt : hdr.vbucket < 65536 := by
    rw [hvb]
    exact (queue.config.vbucket_by_key (hash_target cmd)).isLt
  refine ⟨mem2, _, hw, hs, hkl', ?_, hvb, ?_, hg⟩
  · rw [header_bytes_keylen hdr _ (by omega), hkl']
  · rw [header_bytes_vbucket hdr _ hvlt, hvb]

/-- The round trip at the key "Hello" with 4 bytes of extras: `mcreq_basic_packet`
succeeds, and the round trip holds. -/
theorem mcreq_basic_packet_key_witness :
    ∃ hdr pkt pipeline mem1,
      mcreq_basic_packet exMem exQueue { key := exKey, hashkey := [] } exHdr 4
        = Outcome.ok (hdr, pkt, pipeline, mem1) ∧
      ∃ mem2 data, mcreq_write_hdr mem1 pkt hdr = some mem2 ∧
        span_bytes mem2 pkt.kh_span = some data ∧
        hdr.keylen = 5 ∧ read_be16 data 2 = 5 ∧
        hdr.vbucket = (exConfig.vbucket_by_key exKey).val ∧
        read_be16 data 6 = (exConfig.vbucket_by_key exKey).val ∧
        mcreq_get_key mem2 pkt = some (exKey, 5) :=
  ⟨_, _, _, _, rfl,
    mcreq_basic_packet_key exMem exQueue { key := exKey, hashkey := [] } exHdr _ 4 _ _ _
      (by decide) rfl⟩

/-- Claim C17, as worded, fails: for a key of 65536 bytes `mcreq_basic_packet` succeeds
and the 16-bit key-length field of the header is 0, not the length of the key. -/
theorem key_contract_fails :
    ¬ key_contract exMem exQueue exHdr (List.replicate 65536 0) 0 :=
  key_contract_of_long (List.replicate 65536 0) (List.length_replicate 65536 0)

/-! ### `mcreq_reserve_value` -/

theorem block_at_lt (mem : Memory) (addr : Nat) (b : Block)
    (h : block_at mem addr = some b) : addr < mem.blocks.length := by
  unfold block_at at h
  by_contra hge
  have hnone : mem.blocks.get? addr = none := List.get?_eq_none.mpr (by omega)
  rw [hnone] at h
  cases h

theorem block_at_append (mem : Memory) (addr : Nat) (b : Block) (x : Option Block) (room : Nat)
    (h : block_at mem addr = some b) :
    block_at { blocks := mem.blocks ++ [x], room := room } addr = some b := by
  have hlt := block_at_lt mem addr b h
  unfold block_at at h ⊢
  simp only [List.get?_eq_getElem?] at h ⊢
  rw [List.getElem?_append_left hlt]
  exact h

theorem bytes_at_block (mem : Memory) (addr : Nat) (data : List Nat)
    (h : bytes_at mem addr = some data) :
    ∃ st, block_at mem addr = some { storage := st, content := Content.bytes data } := by
  unfold bytes_at at h
  split at h
  · rename_i st d hb
    cases h
    exact ⟨st, hb⟩
  · cases h

theorem iov_at_block (mem : Memory) (addr : Nat) (elems : List (Nat × Nat))
    (h : iov_at mem addr = some elems) :
    ∃ st, block_at mem addr = some { storage := st, content := Content.iov elems } := by
  unfold iov_at at h
  split at h
  · rename_i st d hb
    cases h
    exact ⟨st, hb⟩
  · cases h

theorem bytes_at_of_block (mem : Memory) (addr : Nat) (st : Storage) (data : List Nat)
    (h : block_at mem addr = some { storage := st, content := Content.bytes data }) :
    bytes_at mem addr = some data := by
  unfold bytes_at
  rw [h]

theorem iov_at_of_block (mem : Memory) (addr : Nat) (st : Storage) (elems : List (Nat × Nat))
    (h : block_at mem addr = some { storage := st, content := Content.iov elems }) :
    iov_at mem addr = some elems := by
  unfold iov_at
  rw [h]

theorem bytes_at_append (mem : Memory) (addr : Nat) (data : List Nat) (x : Option Block)
    (room : Nat) (h : bytes_at mem addr = some data) :
    bytes_at { blocks := mem.blocks ++ [x], room := room } addr = some data := by
  obtain ⟨st, hb⟩ := bytes_at_block mem addr data h
  exact bytes_at_of_block _ _ st _ (block_at_append mem addr _ x room hb)

theorem iov_at_append (mem : Memory) (addr : Nat) (elems : List (Nat × Nat))
    (x : Option Block) (room : Nat) (h : iov_at mem addr = some elems) :
    iov_at { blocks := mem.blocks ++ [x], room := room } addr = some elems := by
  obtain ⟨st, hb⟩ := iov_at_block mem addr elems h
  exact iov_at_of_block _ _ st _ (block_at_append mem addr _ x room hb)

theorem reserve_ok (mem : Memory) (pipeline : Nat) (content : Content) (h : 0 < mem.room) :
    reserve mem pipeline content = some (mem.blocks.length,
      { blocks := mem.blocks ++ [some { storage := Storage.nbmgr pipeline, content := content }]
        room := mem.room - 1 }) := by
  unfold reserve
  rw [if_neg (by omega)]

/-- Claim C18: on a packet whose flags are all clear, with the caller's bytes and IOV
array in memory and room in the allocator, `mcreq_reserve_value` succeeds; for a copied
contiguous value the flags are exactly `HASVALUE`, and the value span lies in a block of
the pipeline at another address than the caller's and holds the caller's bytes, which are
still where they were; for a contiguous value of the user the flags are exactly
`HASVALUE | VALUE_NOCOPY`, the value span is the caller's buffer and nothing is
allocated; for a scatter/gather value the flags are exactly
`HASVALUE | VALUE_IOV | VALUE_NOCOPY`, `niov` is kept, `total_length` is the sum of the
lengths of the elements, and the IOV array is a copy in a block of the pipeline at
another address than the caller's. -/
theorem mcreq_reserve_value_flags (mem : Memory) (pipeline : Nat) (pkt : mc_PACKET)
    (bytes nbytes iov niov : Nat) (data : List Nat) (elems : List (Nat × Nat))
    (hfresh : pkt.flags = 0) (hroom : 0 < mem.room)
    (hdata : bytes_at mem bytes = some data) (hiov : iov_at mem iov = some elems) :
    (∃ pkt1 mem1 span,
      mcreq_reserve_value mem pipeline pkt (lcb_VALBUF.copy bytes nbytes)
        = Outcome.ok (pkt1, mem1) ∧
      pkt1.flags = MCREQ_F_HASVALUE ∧ pkt1.u_value = mc_VALUE.single span ∧
      span.size = nbytes ∧ span.buffer ≠ bytes ∧
      block_at mem1 span.buffer = some { storage := Storage.nbmgr pipeline,
                                         content := Content.bytes (data.take nbytes) } ∧
      span_bytes mem1 span = some (data.take nbytes) ∧
      span_bytes mem1 { buffer := bytes, size := nbytes } = some (data.take nbytes)) ∧
    (∃ pkt1,
      mcreq_reserve_value mem pipeline pkt (lcb_VALBUF.contig bytes nbytes)
        = Outcome.ok (pkt1, mem) ∧
      pkt1.flags = MCREQ_F_HASVALUE ||| MCREQ_F_VALUE_NOCOPY ∧
      pkt1.u_value = mc_VALUE.single { buffer := bytes, size := nbytes }) ∧
    (∃ pkt1 mem1 addr,
      mcreq_reserve_value mem pipeline pkt (lcb_VALBUF.iov iov niov)
        = Outcome.ok (pkt1, mem1) ∧
      pkt1.flags = MCREQ_F_HASVALUE ||| MCREQ_F_VALUE_IOV ||| MCREQ_F_VALUE_NOCOPY ∧
      pkt1.u_value = mc_VALUE.multi addr niov (iov_total (elems.take niov)) ∧
      addr ≠ iov ∧
      block_at mem1 addr = some { storage := Storage.nbmgr pipeline,
                                  content := Content.iov (elems.take niov) } ∧
      iov_at mem1 addr = some (elems.take niov) ∧
      iov_at mem1 iov = some elems) := by
  obtain ⟨st1, hb1⟩ := bytes_at_block mem bytes data hdata
  obtain ⟨st2, hb2⟩ := iov_at_block mem iov elems hiov
  have hlt1 := block_at_lt mem bytes _ hb1
  have hlt2 := block_at_lt mem iov _ hb2
  refine ⟨?_, ?_, ?_⟩
  · refine ⟨{ pkt with
              u_value := mc_VALUE.single { buffer := mem.blocks.length, size := nbytes }
              flags := toUInt16 (pkt.flags ||| MCREQ_F_HASVALUE) },
      { blocks := mem.blocks ++ [some { storage := Storage.nbmgr pipeline,
                                        content := Content.bytes (data.take nbytes) }]
        room := mem.room - 1 },
      { buffer := mem.blocks.length, size := nbytes }, ?_, ?_, rfl, rfl, ?_, ?_, ?_, ?_⟩
    · unfold mcreq_reserve_value
      simp only [hdata, reserve_ok mem pipeline _ hroom]
    · show toUInt16 (pkt.flags ||| MCREQ_F_HASVALUE) = MCREQ_F_HASVALUE
      rw [hfresh]
      rfl
    · show mem.blocks.length ≠ bytes
      omega
    · exact block_at_last _ _ _
    · unfold span_bytes
      simp only [bytes_at_last, Option.map_some']
      congr 1
      apply List.take_of_length_le
      simp
    · unfold span_bytes
      rw [bytes_at_append mem bytes data _ _ hdata]
      rfl
  · refine ⟨{ pkt with
              u_value := mc_VALUE.single { buffer := bytes, size := nbytes }
              flags := toUInt16 (pkt.flags ||| (MCREQ_F_HASVALUE ||| MCREQ_F_VALUE_NOCOPY)) },
      rfl, ?_, rfl⟩
    show toUInt16 (pkt.flags ||| (MCREQ_F_HASVALUE ||| MCREQ_F_VALUE_NOCOPY)) = _
    rw [hfresh]
    rfl
  · refine ⟨{ pkt with
              u_value := mc_VALUE.multi mem.blocks.length niov (iov_total (elems.take niov))
              flags := toUInt16 (pkt.flags |||
                (MCREQ_F_HASVALUE ||| MCREQ_F_VALUE_IOV ||| MCREQ_F_VALUE_NOCOPY)) },
      { blocks := mem.blocks ++ [some { storage := Storage.nbmgr pipeline,
                                        content := Content.iov (elems.take niov) }]
        room := mem.room - 1 },
      mem.blocks.length, ?_, ?_, rfl, ?_, ?_, ?_, ?_⟩
    · unfold mcreq_reserve_value
      simp only [hiov, reserve_ok mem pipeline _ hroom]
    · show toUInt16 (pkt.flags |||
        (MCREQ_F_HASVALUE ||| MCREQ_F_VALUE_IOV ||| MCREQ_F_VALUE_NOCOPY)) = _
      rw [hfresh]
      rfl
    · omega
    · exact block_at_last _ _ _
    · exact iov_at_of_block _ _ _ _ (block_at_last _ _ _)
    · exact iov_at_append mem iov elems _ _ hiov

/-- The three kinds of value on the example memory: "World" copied, "World" of the user,
and the IOV array of "Wor" and "ld". -/
theorem mcreq_reserve_value_flags_witness :
    (∃ pkt1 mem1 span,
      mcreq_reserve_value exMem 0 exPkt (lcb_VALBUF.copy 0 5) = Outcome.ok (pkt1, mem1) ∧
      pkt1.flags = 8 ∧ pkt1.u_value = mc_VALUE.single span ∧
      span.size = 5 ∧ span.buffer ≠ 0 ∧
      block_at mem1 span.buffer = some { storage := Storage.nbmgr 0,
                                         content := Content.bytes [87, 111, 114, 108, 100] } ∧
      span_bytes mem1 span = some [87, 111, 114, 108, 100] ∧
      span_bytes mem1 { buffer := 0, size := 5 } = some [87, 111, 114, 108, 100]) ∧
    (∃ pkt1,
      mcreq_reserve_value exMem 0 exPkt (lcb_VALBUF.contig 0 5) = Outcome.ok (pkt1, exMem) ∧
      pkt1.flags = 10 ∧ pkt1.u_value = mc_VALUE.single { buffer := 0, size := 5 }) ∧
    (∃ pkt1 mem1 addr,
      mcreq_reserve_value exMem 0 exPkt (lcb_VALBUF.iov 1 2) = Outcome.ok (pkt1, mem1) ∧
      pkt1.flags = 14 ∧ pkt1.u_value = mc_VALUE.multi addr 2 5 ∧ addr ≠ 1 ∧
      block_at mem1 addr = some { storage := Storage.nbmgr 0,
                                  content := Content.iov [(0, 3), (2, 2)] } ∧
      iov_at mem1 addr = some [(0, 3), (2, 2)] ∧
      iov_at mem1 1 = some [(0, 3), (2, 2)]) :=
  mcreq_reserve_value_flags exMem 0 exPkt 0 5 1 2 [87, 111, 114, 108, 100] [(0, 3), (2, 2)]
    rfl (by decide) rfl rfl

/-! ### `mcreq_dup_packet` -/

theorem block_at_get (mem : Memory) (addr : Nat) (b : Block)
    (h : block_at mem addr = some b) : mem.blocks.get? addr = some (some b) := by
  unfold block_at at h
  cases hg : mem.blocks.get? addr with
  | none => rw [hg] at h; cases h
  | some x =>
    rw [hg] at h
    cases x with
    | none => cases h
    | some b1 =>
      have : b1 = b := Option.some.inj h
      rw [this]

theorem block_at_of_blocks (mem mem1 : Memory) (addr : Nat)
    (h : mem1.blocks = mem.blocks) : block_at mem1 addr = block_at mem addr := by
  unfold block_at
  rw [h]

theorem block_at_set_ne (mem : Memory) (addr a : Nat) (x : Option Block) (room : Nat)
    (h : a ≠ addr) :
    block_at { blocks := mem.blocks.set a x, room := room } addr = block_at mem addr := by
  unfold block_at
  simp [List.get?_eq_getElem?, List.getElem?_set_ne h]

theorem block_at_set_eq (mem : Memory) (addr : Nat) (x : Option Block) (room : Nat)
    (h : addr < mem.blocks.length) :
    block_at { blocks := mem.blocks.set addr x, room := room } addr = x := by
  unfold block_at
  simp [List.get?_eq_getElem?, h]

theorem block_at_cleanup (mem : Memory) (pipeline addr : Nat) (b : Block)
    (h : block_at mem addr = some b) (hs : b.storage ≠ Storage.nbmgr pipeline) :
    block_at (mcreq_pipeline_cleanup mem pipeline) addr = some b := by
  have hg := block_at_get mem addr b h
  rw [List.get?_eq_getElem?] at hg
  unfold block_at mcreq_pipeline_cleanup
  simp only [List.get?_eq_getElem?, List.getElem?_map, hg, Option.map_some', if_neg hs]
  rfl

theorem give_back_ok (mem : Memory) (st : Storage) (addr : Nat) (content : Content)
    (h : block_at mem addr = some { storage := st, content := content }) :
    give_back mem st addr = some { mem with blocks := mem.blocks.set addr none } := by
  unfold give_back
  rw [h]
  simp

theorem write_bytes_ok (mem : Memory) (addr : Nat) (st : Storage) (old w : List Nat)
    (h : block_at mem addr = some { storage := st, content := Content.bytes old })
    (hl : w.length ≤ old.length) :
    write_bytes mem addr w = some { mem with
      blocks := mem.blocks.set addr
        (some { storage := st, content := Content.bytes (w ++ old.drop w.length) }) } := by
  unfold write_bytes
  rw [h]
  simp only [if_pos hl]

theorem span_bytes_of_block (mem : Memory) (span : nb_SPAN) (st : Storage) (data : List Nat)
    (h : block_at mem span.buffer = some { storage := st, content := Content.bytes data }) :
    span_bytes mem span = some (data.take span.size) := by
  unfold span_bytes
  rw [bytes_at_of_block mem span.buffer st data h]
  rfl

/-- A packet that is allocated and given a header by `mcreq_reserve_header` has no flags,
and its key/header span is a block of the pipeline of `hdrsize` bytes. -/
theorem reserve_header_reserved (mem0 mem1 mem : Memory) (pipeline hdrsize : Nat)
    (pkt0 src : mc_PACKET) (ha : mcreq_allocate_packet mem0 pipeline = some (pkt0, mem1))
    (hr : mcreq_reserve_header mem1 pipeline pkt0 hdrsize = Outcome.ok (src, mem)) :
    src.flags = 0 ∧ src.kh_span.size = toUInt8 hdrsize ∧
    block_at mem src.kh_span.buffer =
      some { storage := Storage.nbmgr pipeline,
             content := Content.bytes (List.replicate (toUInt8 hdrsize) 0) } := by
  unfold mcreq_allocate_packet at ha
  split at ha
  · cases ha
  · have e1 := Prod.mk.inj (Option.some.inj ha)
    unfold mcreq_reserve_header reserve at hr
    split at hr
    · cases hr
    · rename_i addr mem2 hres
      split at hres
      · cases hres
      · have e2 := Prod.mk.inj (Option.some.inj hres)
        have e3 := Prod.mk.inj (Outcome.ok.inj hr)
        rw [← e3.1, ← e3.2, ← e2.1, ← e2.2, ← e1.1]
        exact ⟨rfl, rfl, block_at_last _ _ _⟩

theorem give_back_nbmgr (mem mem1 : Memory) (pipeline addr : Nat)
    (h : give_back mem (Storage.nbmgr pipeline) addr = some mem1) :
    keeps_malloc mem mem1 ∧ only_drops mem mem1 := by
  unfold give_back at h
  split at h
  · rename_i block hb
    split at h
    · rename_i hst
      have hlt := block_at_lt mem addr block hb
      rw [← Option.some.inj h]
      constructor
      · intro a b hab hm
        by_cases e : a = addr
        · rw [e, hb] at hab
          rw [← Option.some.inj hab, hst] at hm
          cases hm
        · rw [block_at_set_ne mem a addr none mem.room (fun x => e x.symm)]
          exact hab
      · intro a b hab
        by_cases e : a = addr
        · rw [e, block_at_set_eq mem addr none mem.room hlt] at hab
          cases hab
        · rw [block_at_set_ne mem a addr none mem.room (fun x => e x.symm)] at hab
          exact hab
    · cases h
  · cases h

theorem keeps_malloc_refl (mem : Memory) : keeps_malloc mem mem := fun _ _ h _ => h

theorem only_drops_refl (mem : Memory) : only_drops mem mem := fun _ _ h => h

theorem keeps_malloc_trans (a b c : Memory) (h1 : keeps_malloc a b) (h2 : keeps_malloc b c) :
    keeps_malloc a c := fun addr x hx hm => h2 addr x (h1 addr x hx hm) hm

theorem only_drops_trans (a b c : Memory) (h1 : only_drops a b) (h2 : only_drops b c) :
    only_drops a c := fun addr x hx => h1 addr x (h2 addr x hx)

theorem owner_of_pipeline (pipeline : Nat) (pkt : mc_PACKET)
    (hnd : pkt.flags &&& MCREQ_F_DETACHED = 0) :
    buffer_owner (some pipeline) pkt = some (Storage.nbmgr pipeline) := by
  unfold buffer_owner
  rw [if_neg (by rw [hnd]; exact fun h => h rfl)]
  rfl

/-- A packet of a pipeline is wiped without touching a block of `malloc`, and a wipe
only gives blocks back. -/
theorem wipe_nbmgr (mem mem1 : Memory) (pipeline : Nat) (pkt : mc_PACKET)
    (hnd : pkt.flags &&& MCREQ_F_DETACHED = 0)
    (h : mcreq_wipe_packet mem (some pipeline) pkt = some mem1) :
    keeps_malloc mem mem1 ∧ only_drops mem mem1 := by
  unfold mcreq_wipe_packet at h
  rw [owner_of_pipeline pipeline pkt hnd] at h
  simp only [Option.some_bind] at h
  have hkey : ∀ m, (if pkt.flags &&& MCREQ_F_KEY_NOCOPY ≠ 0 then some mem
      else give_back mem (Storage.nbmgr pipeline) pkt.kh_span.buffer) = some m →
      keeps_malloc mem m ∧ only_drops mem m := by
    intro m hm
    split at hm
    · rw [← Option.some.inj hm]
      exact ⟨keeps_malloc_refl mem, only_drops_refl mem⟩
    · exact give_back_nbmgr mem m pipeline _ hm
  split at h
  · cases h
  · rename_i m hm
    obtain ⟨k1, d1⟩ := hkey m hm
    split at h
    · rw [← Option.some.inj h]
      exact ⟨k1, d1⟩
    · split at h
      · rw [← Option.some.inj h]
        exact ⟨k1, d1⟩
      · split at h
        · rw [← Option.some.inj h]
          exact ⟨k1, d1⟩
        · obtain ⟨k2, d2⟩ := give_back_nbmgr m mem1 pipeline _ h
          exact ⟨keeps_malloc_trans _ _ _ k1 k2, only_drops_trans _ _ _ d1 d2⟩
      · obtain ⟨k2, d2⟩ := give_back_nbmgr m mem1 pipeline _ h
        exact ⟨keeps_malloc_trans _ _ _ k1 k2, only_drops_trans _ _ _ d1 d2⟩

theorem bytes_at_ext (mem mem1 : Memory)
    (hext : ∀ addr b, block_at mem addr = some b → block_at mem1 addr = some b)
    (addr : Nat) (data : List Nat) (h : bytes_at mem addr = some data) :
    bytes_at mem1 addr = some data := by
  obtain ⟨st, hb⟩ := bytes_at_block mem addr data h
  exact bytes_at_of_block mem1 addr st data (hext addr _ hb)

theorem gather_ext (mem mem1 : Memory)
    (hext : ∀ addr b, block_at mem addr = some b → block_at mem1 addr = some b)
    (l : List (Nat × Nat)) (v : List Nat) (h : gather mem l = some v) :
    gather mem1 l = some v := by
  induction l generalizing v with
  | nil => exact h
  | cons x rest ih =>
    obtain ⟨base, len⟩ := x
    rw [gather] at h ⊢
    cases hb : bytes_at mem base with
    | none => simp [hb] at h
    | some d =>
      cases hg : gather mem rest with
      | none => simp [hb, hg] at h
      | some tail =>
        rw [hb, hg] at h
        rw [bytes_at_ext mem mem1 hext base d hb, ih tail hg]
        exact h

theorem value_reserved_ext (mem mem1 : Memory) (pipeline : Nat) (pkt : mc_PACKET)
    (hext : ∀ addr b, block_at mem addr = some b → block_at mem1 addr = some b)
    (h : value_reserved mem pipeline pkt) : value_reserved mem1 pipeline pkt := by
  unfold value_reserved at h ⊢
  intro hv
  have h' := h hv
  cases hu : pkt.u_value with
  | unset => trivial
  | single span =>
    rw [hu] at h'
    obtain ⟨st, vdata, hb, hr⟩ := h'
    exact ⟨st, vdata, hext _ _ hb, hr⟩
  | multi iov niov total =>
    rw [hu] at h'
    obtain ⟨elems, vdata, hb, hg⟩ := h'
    exact ⟨elems, vdata, hext _ _ hb, gather_ext mem mem1 hext _ _ hg⟩

/-- A packet of a pipeline whose header and value are in the memory as it says can be
wiped in its pipeline. -/
theorem wipe_reserved (mem : Memory) (pipeline : Nat) (pkt : mc_PACKET) (data : List Nat)
    (hnd : pkt.flags &&& MCREQ_F_DETACHED = 0)
    (hhdr : block_at mem pkt.kh_span.buffer =
      some { storage := Storage.nbmgr pipeline, content := Content.bytes data })
    (hval : value_reserved mem pipeline pkt) :
    ∃ mem1, mcreq_wipe_packet mem (some pipeline) pkt = some mem1 := by
  have hkey : ∃ m, (if pkt.flags &&& MCREQ_F_KEY_NOCOPY ≠ 0 then some mem
      else give_back mem (Storage.nbmgr pipeline) pkt.kh_span.buffer) = some m ∧
      ∀ addr b, addr ≠ pkt.kh_span.buffer → block_at mem addr = some b →
        block_at m addr = some b := by
    by_cases hk : pkt.flags &&& MCREQ_F_KEY_NOCOPY ≠ 0
    · rw [if_pos hk]
      exact ⟨mem, rfl, fun _ _ _ h => h⟩
    · rw [if_neg hk, give_back_ok mem _ _ _ hhdr]
      refine ⟨_, rfl, ?_⟩
      intro addr b hne hb
      rw [block_at_set_ne mem addr _ none mem.room (fun e => hne e.symm)]
      exact hb
  obtain ⟨m, hm, hkeep⟩ := hkey
  unfold mcreq_wipe_packet
  rw [owner_of_pipeline pipeline pkt hnd]
  simp only [Option.some_bind]
  rw [hm]
  simp only []
  by_cases hv : pkt.flags &&& MCREQ_F_HASVALUE = 0
  · rw [if_pos hv]
    exact ⟨m, rfl⟩
  · rw [if_neg hv]
    have hval' := hval hv
    cases hu : pkt.u_value with
    | unset => exact ⟨m, rfl⟩
    | single span =>
      rw [hu] at hval'
      obtain ⟨st, vdata, hb, hr⟩ := hval'
      simp only []
      by_cases hn : pkt.flags &&& MCREQ_F_VALUE_NOCOPY ≠ 0
      · rw [if_pos hn]
        exact ⟨m, rfl⟩
      · rw [if_neg hn]
        obtain ⟨hst, hne⟩ := hr (by_contra hn)
        rw [hst] at hb
        exact ⟨_, give_back_ok m _ _ _ (hkeep _ _ hne hb)⟩
    | multi iov niov total =>
      rw [hu] at hval'
      obtain ⟨elems, vdata, hb, _⟩ := hval'
      simp only []
      have hne : iov ≠ pkt.kh_span.buffer := by
        intro e
        rw [e, hhdr] at hb
        cases hb
      exact ⟨_, give_back_ok m _ _ _ (hkeep _ _ hne hb)⟩

theorem dup_flags_bit (flags i : Nat) (hi : i < 16) :
    (toUInt16 ((flags &&& (65535 ^^^
      (MCREQ_F_KEY_NOCOPY ||| MCREQ_F_VALUE_NOCOPY ||| MCREQ_F_VALUE_IOV))) |||
      MCREQ_F_DETACHED)).testBit i =
      ((flags.testBit i && (65528 : Nat).testBit i) || (512 : Nat).testBit i) := by
  have hmask : (65535 ^^^ (MCREQ_F_KEY_NOCOPY ||| MCREQ_F_VALUE_NOCOPY ||| MCREQ_F_VALUE_IOV))
      = 65528 := by decide
  have hdet : MCREQ_F_DETACHED = 512 := rfl
  have h16 : (65536 : Nat) = 2 ^ 16 := rfl
  unfold toUInt16
  rw [hmask, hdet, h16, Nat.testBit_mod_two_pow, Nat.testBit_or, Nat.testBit_and]
  simp [hi]

/-- The flags of the copy that `mcreq_dup_packet` makes: `DETACHED` is set, the flags
that say the key or the value is borrowed are clear, and `HASVALUE` is set only when
the source has it. -/
theorem dup_flags (flags : Nat) :
    toUInt16 ((flags &&& (65535 ^^^
      (MCREQ_F_KEY_NOCOPY ||| MCREQ_F_VALUE_NOCOPY ||| MCREQ_F_VALUE_IOV))) |||
      MCREQ_F_DETACHED) &&& MCREQ_F_DETACHED ≠ 0 ∧
    toUInt16 ((flags &&& (65535 ^^^
      (MCREQ_F_KEY_NOCOPY ||| MCREQ_F_VALUE_NOCOPY ||| MCREQ_F_VALUE_IOV))) |||
      MCREQ_F_DETACHED) &&& MCREQ_F_KEY_NOCOPY = 0 ∧
    toUInt16 ((flags &&& (65535 ^^^
      (MCREQ_F_KEY_NOCOPY ||| MCREQ_F_VALUE_NOCOPY ||| MCREQ_F_VALUE_IOV))) |||
      MCREQ_F_DETACHED) &&& MCREQ_F_VALUE_NOCOPY = 0 ∧
    (toUInt16 ((flags &&& (65535 ^^^
      (MCREQ_F_KEY_NOCOPY ||| MCREQ_F_VALUE_NOCOPY ||| MCREQ_F_VALUE_IOV))) |||
      MCREQ_F_DETACHED) &&& MCREQ_F_HASVALUE ≠ 0 → flags &&& MCREQ_F_HASVALUE ≠ 0) := by
  have b9 := dup_flags_bit flags 9 (by decide)
  have b0 := dup_flags_bit flags 0 (by decide)
  have b1 := dup_flags_bit flags 1 (by decide)
  have b3 := dup_flags_bit flags 3 (by decide)
  have t9 : (512 : Nat).testBit 9 = true := by decide
  have t0 : (512 : Nat).testBit 0 = false := by decide
  have t1 : (512 : Nat).testBit 1 = false := by decide
  have t3 : (512 : Nat).testBit 3 = false := by decide
  have m0 : (65528 : Nat).testBit 0 = false := by decide
  have m1 : (65528 : Nat).testBit 1 = false := by decide
  have m3 : (65528 : Nat).testBit 3 = true := by decide
  rw [t9, Bool.or_true] at b9
  rw [t0, m0, Bool.and_false, Bool.or_false] at b0
  rw [t1, m1, Bool.and_false, Bool.or_false] at b1
  rw [t3, m3, Bool.and_true, Bool.or_false] at b3
  refine ⟨(flag_set_iff _ 9).mpr b9, ?_, ?_, ?_⟩
  · by_contra hne
    have h := (flag_set_iff _ 0).mp hne
    rw [b0] at h
    cases h
  · by_contra hne
    have h := (flag_set_iff _ 1).mp hne
    rw [b1] at h
    cases h
  · intro h
    have h' := (flag_set_iff _ 3).mp h
    rw [b3] at h'
    exact (flag_set_iff _ 3).mpr h'

/-- What `mcreq_dup_packet` gives for a packet whose header and value are in the memory
as it says: the copy has the flags of `dup_flags`, its key/header span is a new block of
`malloc` with the bytes of the span of the source, its value, if any, the next new block
of `malloc`, and every block of the memory is still there. -/
theorem dup_packet_spec (mem : Memory) (src : mc_PACKET) (pipeline : Nat) (data : List Nat)
    (hhdr : block_at mem src.kh_span.buffer =
      some { storage := Storage.nbmgr pipeline, content := Content.bytes data })
    (hval : value_reserved mem pipeline src) :
    ∃ dst mem1, mcreq_dup_packet mem src = some (dst, mem1) ∧
      dst.flags = toUInt16 ((src.flags &&& (65535 ^^^
        (MCREQ_F_KEY_NOCOPY ||| MCREQ_F_VALUE_NOCOPY ||| MCREQ_F_VALUE_IOV))) |||
        MCREQ_F_DETACHED) ∧
      dst.kh_span = { buffer := mem.blocks.length, size := src.kh_span.size } ∧
      (∀ addr b, block_at mem addr = some b → block_at mem1 addr = some b) ∧
      block_at mem1 mem.blocks.length =
        some { storage := Storage.malloc,
               content := Content.bytes (data.take src.kh_span.size) } ∧
      (src.flags &&& MCREQ_F_HASVALUE ≠ 0 → dst.u_value = mc_VALUE.unset ∨
        ∃ n vdata,
          dst.u_value = mc_VALUE.single { buffer := mem.blocks.length + 1, size := n } ∧
          block_at mem1 (mem.blocks.length + 1) =
            some { storage := Storage.malloc, content := Content.bytes vdata }) := by
  have hsp := span_bytes_of_block mem src.kh_span _ data hhdr
  obtain ⟨memk, hmemk⟩ : ∃ m : Memory, m =
      { blocks := mem.blocks ++
          [some { storage := Storage.malloc,
                  content := Content.bytes (data.take src.kh_span.size) }],
        room := mem.room } := ⟨_, rfl⟩
  have hext1 : ∀ addr b, block_at mem addr = some b → block_at memk addr = some b := by
    intro addr b h
    rw [hmemk]
    exact block_at_append mem addr b _ mem.room h
  have hk1 : block_at memk mem.blocks.length =
      some { storage := Storage.malloc,
             content := Content.bytes (data.take src.kh_span.size) } := by
    rw [hmemk]
    exact block_at_last _ _ _
  have hlenk : memk.blocks.length = mem.blocks.length + 1 := by
    rw [hmemk]
    simp
  have hmk : (malloc mem (Content.bytes (data.take src.kh_span.size))).2 = memk := by
    rw [hmemk]
    rfl
  have hsecond : ∀ vdata : List Nat,
      (∀ addr b, block_at mem addr = some b →
        block_at (malloc memk (Content.bytes vdata)).2 addr = some b) ∧
      block_at (malloc memk (Content.bytes vdata)).2 mem.blocks.length =
        some { storage := Storage.malloc,
               content := Content.bytes (data.take src.kh_span.size) } ∧
      block_at (malloc memk (Content.bytes vdata)).2 (mem.blocks.length + 1) =
        some { storage := Storage.malloc, content := Content.bytes vdata } ∧
      (malloc memk (Content.bytes vdata)).1 = mem.blocks.length + 1 := by
    intro vdata
    refine ⟨fun addr b h => block_at_append memk addr b _ memk.room (hext1 addr b h),
      block_at_append memk _ _ _ memk.room hk1, ?_, hlenk⟩
    rw [← hlenk]
    exact block_at_last _ _ _
  unfold mcreq_dup_packet
  rw [hsp]
  simp only [hmk]
  by_cases hv : src.flags &&& MCREQ_F_HASVALUE = 0
  · rw [if_pos hv]
    exact ⟨_, _, rfl, rfl, rfl, hext1, hk1, fun h => absurd hv h⟩
  · rw [if_neg hv]
    have hval' := hval hv
    cases hu : src.u_value with
    | unset => exact ⟨_, _, rfl, rfl, rfl, hext1, hk1, fun _ => Or.inl rfl⟩
    | single span =>
      rw [hu] at hval'
      obtain ⟨st, vdata, hb, _⟩ := hval'
      have hvsp := span_bytes_of_block memk span st vdata (hext1 _ _ hb)
      simp only [hvsp]
      obtain ⟨x1, x2, x3, x4⟩ := hsecond (vdata.take span.size)
      exact ⟨_, _, rfl, rfl, rfl, x1, x2,
        fun _ => Or.inr ⟨span.size, vdata.take span.size, by rw [x4], x3⟩⟩
    | multi iov niov total =>
      rw [hu] at hval'
      obtain ⟨elems, vdata, hb, hg⟩ := hval'
      have hiov := iov_at_of_block memk iov _ elems (hext1 _ _ hb)
      have hg' := gather_ext mem memk hext1 _ _ hg
      simp only [hiov, Option.some_bind, hg']
      obtain ⟨x1, x2, x3, x4⟩ := hsecond vdata
      exact ⟨_, _, rfl, rfl, rfl, x1, x2,
        fun _ => Or.inr ⟨vdata.length, vdata, by rw [x4], x3⟩⟩

/-- A detached copy whose key/header span and value are blocks of `malloc` can be wiped
and released with no pipeline. -/
theorem wipe_copy (mem : Memory) (dst : mc_PACKET) (len : Nat) (c : Content)
    (hdet : dst.flags &&& MCREQ_F_DETACHED ≠ 0) (hkey : dst.flags &&& MCREQ_F_KEY_NOCOPY = 0)
    (hnc : dst.flags &&& MCREQ_F_VALUE_NOCOPY = 0) (hkh : dst.kh_span.buffer = len)
    (hb : block_at mem len = some { storage := Storage.malloc, content := c })
    (hv : dst.flags &&& MCREQ_F_HASVALUE ≠ 0 → dst.u_value = mc_VALUE.unset ∨
      ∃ n vdata, dst.u_value = mc_VALUE.single { buffer := len + 1, size := n } ∧
        block_at mem (len + 1) =
          some { storage := Storage.malloc, content := Content.bytes vdata }) :
    ∃ mem5 mem6, mcreq_wipe_packet mem none dst = some mem5 ∧
      mcreq_release_packet mem5 none dst = some mem6 := by
  have hrel : ∀ m, mcreq_release_packet m none dst = some m := by
    intro m
    unfold mcreq_release_packet
    rw [if_pos hdet]
  have howner : buffer_owner none dst = some Storage.malloc := by
    unfold buffer_owner
    rw [if_pos hdet]
  unfold mcreq_wipe_packet
  rw [howner, if_neg (by rw [hkey]; exact fun h => h rfl)]
  simp only [Option.some_bind]
  rw [hkh, give_back_ok mem Storage.malloc len c hb]
  simp only []
  by_cases hhas : dst.flags &&& MCREQ_F_HASVALUE = 0
  · rw [if_pos hhas]
    exact ⟨_, _, rfl, hrel _⟩
  · rw [if_neg hhas]
    rcases hv hhas with hu | ⟨n, vdata, hu, hvb⟩
    · rw [hu]
      exact ⟨_, _, rfl, hrel _⟩
    · rw [hu]
      simp only []
      rw [if_neg (by rw [hnc]; exact fun h => h rfl)]
      have hvb' : block_at { mem with blocks := mem.blocks.set len none } (len + 1) =
          some { storage := Storage.malloc, content := Content.bytes vdata } := by
        rw [block_at_set_ne mem (len + 1) len none mem.room (by omega)]
        exact hvb
      rw [give_back_ok _ Storage.malloc (len + 1) _ hvb']
      exact ⟨_, _, rfl, hrel _⟩

theorem block_at_cleanup_gone (mem : Memory) (pipeline addr : Nat)
    (h : ∀ b, block_at mem addr = some b → b.storage = Storage.nbmgr pipeline) :
    block_at (mcreq_pipeline_cleanup mem pipeline) addr = none := by
  unfold block_at mcreq_pipeline_cleanup
  simp only [List.get?_eq_getElem?, List.getElem?_map]
  cases hg : mem.blocks[addr]? with
  | none => rfl
  | some x =>
    cases x with
    | none => rfl
    | some b =>
      have hb : block_at mem addr = some b := by
        unfold block_at
        rw [List.get?_eq_getElem?, hg]
        rfl
      simp only [Option.map_some', if_pos (h b hb)]
      rfl

/-- Claim C19: for every packet `src` of a pipeline (not itself detached) whose header is
reserved in a block of the pipeline, with the key/header span inside the block, whatever
its other flags, and whose value, if it has one, is in the memory as the packet says
(`value_reserved`), `mcreq_dup_packet` succeeds; the copy has the flag `DETACHED`, its
key/header span has the length and the bytes of the span of `src` and lies in a block of
`malloc`, of no pipeline; `src` can be wiped and released in its pipeline, and after the
pipeline is cleaned up the header of `src` is gone, the bytes of the copy are unchanged
and can be overwritten over the whole span; the copy can be wiped and released with no
pipeline, before and after it is overwritten. -/
theorem mcreq_dup_packet_detached (mem : Memory) (src : mc_PACKET) (pipeline : Nat)
    (data : List Nat) (hpipe : src.flags &&& MCREQ_F_DETACHED = 0)
    (hhdr : block_at mem src.kh_span.buffer =
      some { storage := Storage.nbmgr pipeline, content := Content.bytes data })
    (hsize : src.kh_span.size ≤ data.length)
    (hval : value_reserved mem pipeline src) :
    ∃ dst mem1, mcreq_dup_packet mem src = some (dst, mem1) ∧
      dst.flags &&& MCREQ_F_DETACHED ≠ 0 ∧
      dst.kh_span.size = src.kh_span.size ∧
      span_bytes mem src.kh_span = some (data.take src.kh_span.size) ∧
      span_bytes mem1 dst.kh_span = some (data.take src.kh_span.size) ∧
      block_at mem1 dst.kh_span.buffer =
        some { storage := Storage.malloc,
               content := Content.bytes (data.take src.kh_span.size) } ∧
      ∃ mem2 mem3, mcreq_wipe_packet mem1 (some pipeline) src = some mem2 ∧
        mcreq_release_packet mem2 (some pipeline) src = some mem3 ∧
        block_at (mcreq_pipeline_cleanup mem3 pipeline) src.kh_span.buffer = none ∧
        span_bytes (mcreq_pipeline_cleanup mem3 pipeline) dst.kh_span
          = some (data.take src.kh_span.size) ∧
        (∀ w : List Nat, w.length = src.kh_span.size →
          ∃ mem4, write_bytes (mcreq_pipeline_cleanup mem3 pipeline) dst.kh_span.buffer w
              = some mem4 ∧
            span_bytes mem4 dst.kh_span = some w ∧
            ∃ mem5 mem6, mcreq_wipe_packet mem4 none dst = some mem5 ∧
              mcreq_release_packet mem5 none dst = some mem6) ∧
        ∃ mem5 mem6,
          mcreq_wipe_packet (mcreq_pipeline_cleanup mem3 pipeline) none dst = some mem5 ∧
          mcreq_release_packet mem5 none dst = some mem6 := by
  obtain ⟨dst, mem1, hdup, hflags, hkh, hext, hk1, hvalue⟩ :=
    dup_packet_spec mem src pipeline data hhdr hval
  obtain ⟨f1, f2, f3, f4⟩ := dup_flags src.flags
  rw [← hflags] at f1 f2 f3 f4
  have hdbuf : dst.kh_span.buffer = mem.blocks.length := by rw [hkh]
  have hdsize : dst.kh_span.size = src.kh_span.size := by rw [hkh]
  have hklen : (data.take src.kh_span.size).length = src.kh_span.size := by
    rw [List.length_take]
    omega
  have htake : (data.take src.kh_span.size).take dst.kh_span.size =
      data.take src.kh_span.size := by
    apply List.take_of_length_le
    rw [hklen, hdsize]
  have hhdr1 := hext _ _ hhdr
  obtain ⟨mem2, hwipe⟩ := wipe_reserved mem1 pipeline src data hpipe hhdr1
    (value_reserved_ext mem mem1 pipeline src hext hval)
  obtain ⟨hkeep, hdrop⟩ := wipe_nbmgr mem1 mem2 pipeline src hpipe hwipe
  obtain ⟨mem3, hmem3⟩ : ∃ m : Memory, m = { mem2 with room := mem2.room + 1 } := ⟨_, rfl⟩
  have hrel : mcreq_release_packet mem2 (some pipeline) src = some mem3 := by
    unfold mcreq_release_packet
    rw [if_neg (by rw [hpipe]; exact fun h => h rfl), hmem3]
  have hb3 : ∀ addr, block_at mem3 addr = block_at mem2 addr := by
    intro addr
    rw [hmem3]
    exact block_at_of_blocks mem2 _ addr rfl
  have hmalloc : ∀ addr b, block_at mem1 addr = some b → b.storage = Storage.malloc →
      block_at (mcreq_pipeline_cleanup mem3 pipeline) addr = some b := by
    intro addr b hb hm
    apply block_at_cleanup mem3 pipeline addr b
    · rw [hb3]
      exact hkeep addr b hb hm
    · rw [hm]
      exact fun h => Storage.noConfusion h
  have hc1 := hmalloc _ _ hk1 rfl
  have hcv : dst.flags &&& MCREQ_F_HASVALUE ≠ 0 → dst.u_value = mc_VALUE.unset ∨
      ∃ n vdata,
        dst.u_value = mc_VALUE.single { buffer := mem.blocks.length + 1, size := n } ∧
        block_at (mcreq_pipeline_cleanup mem3 pipeline) (mem.blocks.length + 1) =
          some { storage := Storage.malloc, content := Content.bytes vdata } := by
    intro h
    rcases hvalue (f4 h) with hu | ⟨n, vdata, hu, hvb⟩
    · exact Or.inl hu
    · exact Or.inr ⟨n, vdata, hu, hmalloc _ _ hvb rfl⟩
  have hgone : block_at (mcreq_pipeline_cleanup mem3 pipeline) src.kh_span.buffer = none := by
    apply block_at_cleanup_gone
    intro b hb
    rw [hb3] at hb
    have hb1 := hdrop _ _ hb
    rw [hhdr1] at hb1
    rw [← Option.some.inj hb1]
  have hclt := block_at_lt _ _ _ hc1
  refine ⟨dst, mem1, hdup, f1, hdsize, span_bytes_of_block mem src.kh_span _ _ hhdr, ?_,
    by rw [hdbuf]; exact hk1, mem2, mem3, hwipe, hrel, hgone, ?_, ?_,
    wipe_copy _ dst mem.blocks.length _ f1 f2 f3 hdbuf hc1 hcv⟩
  · rw [span_bytes_of_block mem1 dst.kh_span Storage.malloc (data.take src.kh_span.size)
      (by rw [hdbuf]; exact hk1), htake]
  · rw [span_bytes_of_block _ dst.kh_span Storage.malloc (data.take src.kh_span.size)
      (by rw [hdbuf]; exact hc1), htake]
  · intro w hw
    have hdrop' : (data.take src.kh_span.size).drop w.length = [] := by
      apply List.drop_eq_nil_of_le
      rw [hklen, hw]
    have hwr := write_bytes_ok (mcreq_pipeline_cleanup mem3 pipeline) mem.blocks.length
      Storage.malloc (data.take src.kh_span.size) w hc1 (by rw [hklen, hw])
    rw [hdrop', List.append_nil] at hwr
    have hb4 := block_at_set_eq (mcreq_pipeline_cleanup mem3 pipeline) mem.blocks.length
      (some { storage := Storage.malloc, content := Content.bytes w })
      (mcreq_pipeline_cleanup mem3 pipeline).room hclt
    refine ⟨_, by rw [hdbuf]; exact hwr, ?_, ?_⟩
    · rw [span_bytes_of_block _ dst.kh_span Storage.malloc w (by rw [hdbuf]; exact hb4)]
      congr 1
      apply List.take_of_length_le
      rw [hdsize, hw]
    · apply wipe_copy _ dst mem.blocks.length _ f1 f2 f3 hdbuf hb4
      intro h
      rcases hcv h with hu | ⟨n, vdata, hu, hvb⟩
      · exact Or.inl hu
      · refine Or.inr ⟨n, vdata, hu, ?_⟩
        rw [block_at_set_ne (mcreq_pipeline_cleanup mem3 pipeline) (mem.blocks.length + 1)
          mem.blocks.length _ _ (by omega)]
        exact hvb

/-- The packet `exSrcIov` is what `mcreq_allocate_packet`, `mcreq_reserve_header` with 24
bytes and `mcreq_reserve_value` with the IOV array of the user give in pipeline 0 of the
example memory: it has the flags `HASVALUE`, `VALUE_IOV` and `VALUE_NOCOPY`. Its copy is
detached, has `HASVALUE` only besides, holds the 24 bytes of the header and the five
bytes of the value in blocks of `malloc`, and outlives the pipeline. -/
theorem mcreq_dup_packet_detached_witness :
    (∃ mem0, mcreq_allocate_packet exMem 0 = some (exPkt, mem0) ∧
      mcreq_reserve_header mem0 0 exPkt 24 = Outcome.ok (exSrc, exMemHdr) ∧
      mcreq_reserve_value exMemHdr 0 exSrc (lcb_VALBUF.iov 1 2)
        = Outcome.ok (exSrcIov, exMemIov)) ∧
    (mcreq_dup_packet exMemIov exSrcIov).map
        (fun r => (r.1.flags, r.1.u_value, block_at r.2 6)) =
      some (520, mc_VALUE.single { buffer := 6, size := 5 },
        some { storage := Storage.malloc,
               content := Content.bytes [87, 111, 114, 108, 100] }) ∧
    ∃ dst mem1, mcreq_dup_packet exMemIov exSrcIov = some (dst, mem1) ∧
      dst.flags &&& MCREQ_F_DETACHED ≠ 0 ∧
      dst.kh_span.size = 24 ∧
      span_bytes exMemIov exSrcIov.kh_span = some (List.replicate 24 0) ∧
      span_bytes mem1 dst.kh_span = some (List.replicate 24 0) ∧
      block_at mem1 dst.kh_span.buffer =
        some { storage := Storage.malloc, content := Content.bytes (List.replicate 24 0) } ∧
      ∃ mem2 mem3, mcreq_wipe_packet mem1 (some 0) exSrcIov = some mem2 ∧
        mcreq_release_packet mem2 (some 0) exSrcIov = some mem3 ∧
        block_at (mcreq_pipeline_cleanup mem3 0) 3 = none ∧
        span_bytes (mcreq_pipeline_cleanup mem3 0) dst.kh_span = some (List.replicate 24 0) ∧
        (∀ w : List Nat, w.length = 24 →
          ∃ mem4, write_bytes (mcreq_pipeline_cleanup mem3 0) dst.kh_span.buffer w
              = some mem4 ∧
            span_bytes mem4 dst.kh_span = some w ∧
            ∃ mem5 mem6, mcreq_wipe_packet mem4 none dst = some mem5 ∧
              mcreq_release_packet mem5 none dst = some mem6) ∧
        ∃ mem5 mem6,
          mcreq_wipe_packet (mcreq_pipeline_cleanup mem3 0) none dst = some mem5 ∧
          mcreq_release_packet mem5 none dst = some mem6 :=
  ⟨⟨_, rfl, rfl, rfl⟩, by decide,
    mcreq_dup_packet_detached exMemIov exSrcIov 0 (List.replicate 24 0) (by decide) rfl
      (by decide)
      (fun _ => ⟨[(0, 3), (2, 2)], [87, 111, 114, 108, 100], rfl, rfl⟩)⟩

end Mcreq

namespace Ctx

/-! ## Theorems on the socket context -/

/-! ### `lcbio_ctx_schedule` -/

/-- Claim C24: on a context that was not freed, `lcbio_ctx_schedule` is a no-op
whenever `entered` is not zero, or an error is latched, or the context is Detached: it
returns the context as it was, every field and the call log included, so nothing is
asked of the transport. -/
theorem lcbio_ctx_schedule_suppressed (env : Env) (ctx : lcbio_CTX) (o : SchedResult)
    (hfreed : ctx.freed = 0)
    (h : ctx.entered ≠ 0 ∨ ctx.err ≠ 0 ∨ ctx.state = easy_state.ES_DETACHED) :
    lcbio_ctx_schedule env ctx o = some ctx := by
  have h' : ctx.entered ≠ 0 ∨ ctx.err ≠ 0 ∨ ctx.state ≠ easy_state.ES_ACTIVE := by
    rcases h with h | h | h
    · exact Or.inl h
    · exact Or.inr (Or.inl h)
    · exact Or.inr (Or.inr (by rw [h]; decide))
  unfold lcbio_ctx_schedule
  rw [if_neg (by rw [hfreed]; decide), if_pos h']

/-- A context inside a callback, one with a latched error and a Detached one: each is
left as it was. -/
theorem lcbio_ctx_schedule_suppressed_witness :
    lcbio_ctx_schedule exEnv { lcbio_ctx_new true with entered := 1, rdwant := 4 } exSched
      = some { lcbio_ctx_new true with entered := 1, rdwant := 4 } ∧
    lcbio_ctx_schedule exEnv { lcbio_ctx_new false with err := 16, rdwant := 4 } exSched
      = some { lcbio_ctx_new false with err := 16, rdwant := 4 } ∧
    lcbio_ctx_schedule exEnv
        { lcbio_ctx_new false with state := easy_state.ES_DETACHED, npending := 1 } exSched
      = some { lcbio_ctx_new false with state := easy_state.ES_DETACHED, npending := 1 } :=
  ⟨lcbio_ctx_schedule_suppressed exEnv _ exSched rfl (Or.inl (by decide)),
   lcbio_ctx_schedule_suppressed exEnv _ exSched rfl (Or.inr (Or.inl (by decide))),
   lcbio_ctx_schedule_suppressed exEnv _ exSched rfl (Or.inr (Or.inr rfl))⟩

theorem schedule_mask_cases (ctx : lcbio_CTX) :
    (ctx.rdwant ≠ 0 ∧ (ctx.wwant ≠ 0 ∨ output_bytes ctx ≠ 0) ∧ schedule_mask ctx = 6) ∨
    (ctx.rdwant ≠ 0 ∧ ¬ (ctx.wwant ≠ 0 ∨ output_bytes ctx ≠ 0) ∧ schedule_mask ctx = 2) ∨
    (ctx.rdwant = 0 ∧ (ctx.wwant ≠ 0 ∨ output_bytes ctx ≠ 0) ∧ schedule_mask ctx = 4) ∨
    (ctx.rdwant = 0 ∧ ¬ (ctx.wwant ≠ 0 ∨ output_bytes ctx ≠ 0) ∧ schedule_mask ctx = 0) := by
  unfold schedule_mask
  simp only []
  by_cases hr : ctx.rdwant ≠ 0
  · by_cases hw : ctx.wwant ≠ 0 ∨ output_bytes ctx ≠ 0
    · rw [if_pos hr, if_pos hw]
      exact Or.inl ⟨hr, hw, rfl⟩
    · rw [if_pos hr, if_neg hw]
      exact Or.inr (Or.inl ⟨hr, hw, rfl⟩)
  · have hr0 : ctx.rdwant = 0 := by_contra hr
    by_cases hw : ctx.wwant ≠ 0 ∨ output_bytes ctx ≠ 0
    · rw [if_neg hr, if_pos hw]
      exact Or.inr (Or.inr (Or.inl ⟨hr0, hw, rfl⟩))
    · rw [if_neg hr, if_neg hw]
      exact Or.inr (Or.inr (Or.inr ⟨hr0, hw, rfl⟩))

theorem schedule_mask_zero (ctx : lcbio_CTX) :
    schedule_mask ctx = 0 ↔ ctx.rdwant = 0 ∧ ctx.wwant = 0 ∧ output_bytes ctx = 0 := by
  have hsplit : ¬ (ctx.wwant ≠ 0 ∨ output_bytes ctx ≠ 0) ↔
      (ctx.wwant = 0 ∧ output_bytes ctx = 0) := by
    constructor
    · intro h
      exact ⟨by_contra (fun h1 => h (Or.inl h1)), by_contra (fun h1 => h (Or.inr h1))⟩
    · intro h hw
      rcases hw with hw | hw
      · exact hw h.1
      · exact hw h.2
  rcases schedule_mask_cases ctx with ⟨hr, _, hm⟩ | ⟨hr, _, hm⟩ | ⟨_, hw, hm⟩ | ⟨hr, hw, hm⟩
  · rw [hm]
    exact ⟨fun h => absurd h (by decide), fun h => absurd h.1 hr⟩
  · rw [hm]
    exact ⟨fun h => absurd h (by decide), fun h => absurd h.1 hr⟩
  · rw [hm]
    exact ⟨fun h => absurd h (by decide), fun h => absurd (hsplit.2 h.2) (not_not.2 hw)⟩
  · rw [hm]
    exact ⟨fun _ => ⟨hr, hsplit.1 hw⟩, fun _ => rfl⟩

theorem schedule_mask_bits (ctx : lcbio_CTX) :
    (schedule_mask ctx &&& LCB_READ_EVENT ≠ 0 ↔ ctx.rdwant ≠ 0) ∧
    (schedule_mask ctx &&& LCB_WRITE_EVENT ≠ 0 ↔ (ctx.wwant ≠ 0 ∨ output_bytes ctx ≠ 0)) ∧
    schedule_mask ctx ||| (LCB_READ_EVENT ||| LCB_WRITE_EVENT)
      = LCB_READ_EVENT ||| LCB_WRITE_EVENT := by
  rcases schedule_mask_cases ctx with ⟨hr, hw, hm⟩ | ⟨hr, hw, hm⟩ | ⟨hr, hw, hm⟩ | ⟨hr, hw, hm⟩
  · rw [hm]
    exact ⟨⟨fun _ => hr, fun _ => by decide⟩, ⟨fun _ => hw, fun _ => by decide⟩, by decide⟩
  · rw [hm]
    exact ⟨⟨fun _ => hr, fun _ => by decide⟩,
      ⟨fun h => absurd rfl h, fun h => absurd h hw⟩, by decide⟩
  · rw [hm]
    exact ⟨⟨fun h => absurd rfl h, fun h => absurd hr h⟩,
      ⟨fun _ => hw, fun _ => by decide⟩, by decide⟩
  · rw [hm]
    exact ⟨⟨fun h => absurd rfl h, fun h => absurd hr h⟩,
      ⟨fun h => absurd rfl h, fun h => absurd h hw⟩, by decide⟩

/-- Claim C25: in event mode, on a context that is Active, not inside a callback and
without a latched error (`lcbio_ctx_schedule` is not suppressed; the watcher exists),
either there is no intent (`rdwant` is 0, `wwant` is clear and the output ring holds no
byte): then the watcher is cancelled if it was active, `evactive` is 0 afterwards and no
`watch` request is made; or the watcher is armed by one `watch` request whose mask has
READ iff `rdwant` is not 0, WRITE iff `wwant` is set or the output ring holds a byte, and
no other bit, and `evactive` is 1. Nothing else changes. -/
theorem lcbio_ctx_schedule_event (env : Env) (ctx : lcbio_CTX) (o : SchedResult)
    (hfreed : ctx.freed = 0) (hev : ctx.is_event = true) (hevent : ctx.event = true)
    (hent : ctx.entered = 0) (herr : ctx.err = 0) (hst : ctx.state = easy_state.ES_ACTIVE) :
    (ctx.rdwant = 0 ∧ ctx.wwant = 0 ∧ output_bytes ctx = 0 →
      lcbio_ctx_schedule env ctx o = some
        (if ctx.evactive ≠ 0 then
          { ctx with log := ctx.log ++ [Call.cancel], evactive := 0, watched := 0 }
        else ctx)) ∧
    (¬ (ctx.rdwant = 0 ∧ ctx.wwant = 0 ∧ output_bytes ctx = 0) →
      ∃ which,
        lcbio_ctx_schedule env ctx o = some
          { ctx with log := ctx.log ++ [Call.watch which], evactive := 1, watched := which } ∧
        (which &&& LCB_READ_EVENT ≠ 0 ↔ ctx.rdwant ≠ 0) ∧
        (which &&& LCB_WRITE_EVENT ≠ 0 ↔ (ctx.wwant ≠ 0 ∨ output_bytes ctx ≠ 0)) ∧
        which ||| (LCB_READ_EVENT ||| LCB_WRITE_EVENT)
          = LCB_READ_EVENT ||| LCB_WRITE_EVENT) := by
  have hsched : lcbio_ctx_schedule env ctx o = some (E_schedule ctx) := by
    unfold lcbio_ctx_schedule
    rw [if_neg (by rw [hfreed]; decide), if_neg (by rw [hent, herr, hst]; decide), if_pos hev]
  refine ⟨?_, ?_⟩
  · intro hnone
    rw [hsched]
    unfold E_schedule
    simp only []
    rw [if_pos ((schedule_mask_zero ctx).2 hnone)]
    unfold deactivate_watcher
    by_cases ha : ctx.evactive ≠ 0
    · rw [if_pos ⟨ha, hevent⟩, if_pos ha]
    · rw [if_neg (fun h => ha h.1), if_neg ha]
  · intro hsome
    obtain ⟨b1, b2, b3⟩ := schedule_mask_bits ctx
    refine ⟨schedule_mask ctx, ?_, b1, b2, b3⟩
    rw [hsched]
    unfold E_schedule
    simp only []
    rw [if_neg (fun h => hsome ((schedule_mask_zero ctx).1 h))]

/-- A context in event mode with an active watcher and no intent is cancelled; the
same context with a read wanted and 5 bytes in the output ring (a direct evaluation) is
armed for READ and WRITE. -/
theorem lcbio_ctx_schedule_event_witness :
    lcbio_ctx_schedule exEnv { lcbio_ctx_new true with evactive := 1, watched := 2 } exSched
      = some { lcbio_ctx_new true with log := [Call.cancel], evactive := 0, watched := 0 } ∧
    lcbio_ctx_schedule exEnv { lcbio_ctx_new true with rdwant := 1, output := some 5 } exSched
      = some { lcbio_ctx_new true with
               rdwant := 1, output := some 5, log := [Call.watch 6], evactive := 1,
               watched := 6 } :=
  ⟨(lcbio_ctx_schedule_event exEnv { lcbio_ctx_new true with evactive := 1, watched := 2 }
      exSched rfl rfl rfl rfl rfl rfl).1 ⟨rfl, rfl, rfl⟩,
   by decide⟩

/-! ### `lcbio_ctx_close_ex` -/

theorem reusable_iff (ctx : lcbio_CTX) :
    reusable ctx = true ↔
      ctx.npending = 0 ∧ ctx.err = 0 ∧ ctx.rdwant = 0 ∧ ctx.wwant = 0 ∧
        (ctx.output = none ∨ output_bytes ctx = 0) := by
  unfold reusable
  simp [Bool.and_eq_true, and_assoc]

theorem close_ex_closer_calls (ctx : lcbio_CTX) (keeps dtor : Bool) (hfreed : ctx.freed = 0) :
    ∃ ctx', lcbio_ctx_close_ex ctx (some keeps) dtor = some ctx' ∧
      ctx'.log.filter is_closer = ctx.log.filter is_closer ++ [Call.closer (reusable ctx)] := by
  unfold lcbio_ctx_close_ex close_ex_detach
  rw [if_neg (by rw [hfreed]; decide)]
  by_cases he : ctx.event = true <;> by_cases ha : ctx.evactive ≠ 0 <;>
    by_cases hs : ctx.as_err = true <;> cases keeps <;> cases dtor <;>
    by_cases hf : ctx.npending = 0 ∧ ctx.entered = 0 <;>
    simp [deactivate_watcher, free_ctx, log_call, reusable, output_bytes, is_closer, he, ha,
      hs, hf, List.filter_append]

/-- Claim C23: `lcbio_ctx_close_ex` with a closer, on a context that was not freed,
returns and calls the closer exactly once (the closer calls of the log are the ones
before, followed by one more), with `reusable` true exactly when, in the context as it
is when `lcbio_ctx_close_ex` is called, `npending` is 0, the error slot is `LCB_SUCCESS`,
`rdwant` is 0, `wwant` is 0 and the output ring is absent or holds no byte. -/
theorem lcbio_ctx_close_ex_closer (ctx : lcbio_CTX) (keeps dtor : Bool)
    (hfreed : ctx.freed = 0) :
    ∃ ctx' r, lcbio_ctx_close_ex ctx (some keeps) dtor = some ctx' ∧
      ctx'.log.filter is_closer = ctx.log.filter is_closer ++ [Call.closer r] ∧
      (r = true ↔
        ctx.npending = 0 ∧ ctx.err = 0 ∧ ctx.rdwant = 0 ∧ ctx.wwant = 0 ∧
          (ctx.output = none ∨ output_bytes ctx = 0)) := by
  obtain ⟨ctx', h1, h2⟩ := close_ex_closer_calls ctx keeps dtor hfreed
  exact ⟨ctx', reusable ctx, h1, h2, reusable_iff ctx⟩

/-- A fresh context in event mode is reusable; one that still wants 3 bytes is not. -/
theorem lcbio_ctx_close_ex_closer_witness :
    (lcbio_ctx_close_ex (lcbio_ctx_new true) (some false) false).map
        (fun c => c.log.filter is_closer) = some [Call.closer true] ∧
    (lcbio_ctx_close_ex { lcbio_ctx_new true with rdwant := 3 } (some false) false).map
        (fun c => c.log.filter is_closer) = some [Call.closer false] ∧
    ∃ ctx' r, lcbio_ctx_close_ex { lcbio_ctx_new true with rdwant := 3 } (some false) false
        = some ctx' ∧
      ctx'.log.filter is_closer =
        ({ lcbio_ctx_new true with rdwant := 3 } : lcbio_CTX).log.filter is_closer
          ++ [Call.closer r] ∧
      (r = true ↔
        ({ lcbio_ctx_new true with rdwant := 3 } : lcbio_CTX).npending = 0 ∧
        ({ lcbio_ctx_new true with rdwant := 3 } : lcbio_CTX).err = 0 ∧
        ({ lcbio_ctx_new true with rdwant := 3 } : lcbio_CTX).rdwant = 0 ∧
        ({ lcbio_ctx_new true with rdwant := 3 } : lcbio_CTX).wwant = 0 ∧
        (({ lcbio_ctx_new true with rdwant := 3 } : lcbio_CTX).output = none ∨
          output_bytes { lcbio_ctx_new true with rdwant := 3 } = 0)) :=
  ⟨by decide, by decide,
    lcbio_ctx_close_ex_closer { lcbio_ctx_new true with rdwant := 3 } false false rfl⟩

/-! ### `lcbio_ctx_put_ex` in event mode -/

theorem deactivate_watcher_frame (c : lcbio_CTX) :
    (deactivate_watcher c).err = c.err ∧ (deactivate_watcher c).freed = c.freed ∧
    (deactivate_watcher c).as_err = c.as_err ∧
    (deactivate_watcher c).err_armed = c.err_armed ∧
    ∃ calls, (deactivate_watcher c).log = c.log ++ calls ∧
      (calls = [] ∨ calls = [Call.cancel]) := by
  unfold deactivate_watcher
  split
  · exact ⟨rfl, rfl, rfl, rfl, [Call.cancel], rfl, Or.inr rfl⟩
  · exact ⟨rfl, rfl, rfl, rfl, [], by simp, Or.inl rfl⟩

theorem senderr_effect (ctx : lcbio_CTX) (err : Nat) (hfreed : ctx.freed = 0)
    (htimer : ctx.as_err = true) :
    ∃ ctx1 calls, lcbio_ctx_senderr ctx err = some ctx1 ∧
      ctx1.err = (if ctx.err = 0 then err else ctx.err) ∧
      ctx1.err_armed = true ∧
      ctx1.log = ctx.log ++ calls ++ [Call.async_signal] ∧
      (calls = [] ∨ calls = [Call.cancel]) ∧ ctx1.freed = 0 ∧ ctx1.as_err = true := by
  obtain ⟨c1, hc1, e1, e2, e3, e4⟩ : ∃ c1 : lcbio_CTX,
      c1 = (if ctx.err = 0 then { ctx with err := err } else ctx) ∧
      c1.err = (if ctx.err = 0 then err else ctx.err) ∧ c1.freed = ctx.freed ∧
      c1.as_err = ctx.as_err ∧ c1.log = ctx.log := by
    refine ⟨_, rfl, ?_, ?_, ?_, ?_⟩ <;> split <;> rfl
  obtain ⟨d1, d2, d3, _, calls, d5, d6⟩ := deactivate_watcher_frame c1
  have hsig : (deactivate_watcher c1).as_err = true := by rw [d3, e3, htimer]
  refine ⟨{ deactivate_watcher c1 with
            log := (deactivate_watcher c1).log ++ [Call.async_signal], err_armed := true },
    calls, ?_, ?_, rfl, ?_, d6, ?_, hsig⟩
  · unfold lcbio_ctx_senderr
    rw [if_neg (by rw [hfreed]; decide)]
    simp only []
    rw [← hc1]
    unfold lcbio_async_signal
    rw [if_pos hsig]
  · show (deactivate_watcher c1).err = _
    rw [d1, e1]
  · show (deactivate_watcher c1).log ++ [Call.async_signal] = _
    rw [d5, e4]
  · show (deactivate_watcher c1).freed = 0
    rw [d2, e2, hfreed]

theorem E_put_ex_retry (env : Env) (nb : Nat) (cb : Callback) (pre : List (Int × Int))
    (hpre : ∀ x ∈ pre, x.1 = -1 ∧ x.2 = env.EINTR) (rest : List (Int × Int))
    (ctx : lcbio_CTX) :
    E_put_ex env nb cb (pre ++ rest) ctx =
      E_put_ex env nb cb rest
        { ctx with log := ctx.log ++ List.replicate pre.length Call.sendv } := by
  induction pre generalizing ctx with
  | nil => simp
  | cons x pre' ih =>
    obtain ⟨nw, oserr⟩ := x
    obtain ⟨h1, h2⟩ := hpre (nw, oserr) (List.mem_cons_self _ _)
    have h1' : nw = -1 := h1
    have h2' : oserr = env.EINTR := h2
    subst h1' h2'
    have hrest : ∀ x ∈ pre', x.1 = -1 ∧ x.2 = env.EINTR :=
      fun x hx => hpre x (List.mem_cons_of_mem _ hx)
    rw [List.cons_append, E_put_ex]
    simp only [if_true]
    rw [ih hrest (log_call ctx Call.sendv)]
    simp [log_call, List.replicate_succ, List.append_assoc]

/-- The last `sendv` of `E_put_ex`, one whose result is not `EINTR`. -/
theorem E_put_ex_last (env : Env) (nb : Nat) (cb : Callback) (last : Int × Int)
    (ctx : lcbio_CTX) (hlast : ¬ (last.1 = -1 ∧ last.2 = env.EINTR)) :
    (0 < last.1 →
      E_put_ex env nb cb [last] ctx =
        (call_flush_done (log_call ctx Call.sendv) nb last.1.toNat cb).map
          (fun c => (1, c))) ∧
    (last.1 = -1 → (last.2 = env.C_EAGAIN ∨ last.2 = env.EWOULDBLOCK) →
      E_put_ex env nb cb [last] ctx =
        (call_flush_done (log_call ctx Call.sendv) nb 0 cb).map (fun c => (0, c))) ∧
    (last.1 = -1 → ¬ (last.2 = env.C_EAGAIN ∨ last.2 = env.EWOULDBLOCK) →
      ∀ ctx1, lcbio_ctx_senderr (log_call ctx Call.sendv)
          (convert_lcberr env last.2 lcbio_IOSTATUS.LCBIO_IOERR) = some ctx1 →
        E_put_ex env nb cb [last] ctx =
          (call_flush_done ctx1 nb nb cb).map (fun c => (0, c))) ∧
    (last.1 ≤ 0 → last.1 ≠ -1 →
      ∀ ctx1, lcbio_ctx_senderr (log_call ctx Call.sendv)
          (convert_lcberr env last.2 lcbio_IOSTATUS.LCBIO_SHUTDOWN) = some ctx1 →
        E_put_ex env nb cb [last] ctx =
          (call_flush_done ctx1 nb nb cb).map (fun c => (0, c))) := by
  obtain ⟨nw, oserr⟩ := last
  refine ⟨?_, ?_, ?_, ?_⟩
  · intro hpos
    have hpos' : nw > 0 := hpos
    rw [E_put_ex]
    simp only []
    rw [if_pos hpos']
  · intro h1 h2
    have h1' : nw = -1 := h1
    subst h1'
    have hne : ¬ (oserr = env.EINTR) := fun e => hlast ⟨rfl, e⟩
    have h2' : oserr = env.C_EAGAIN ∨ oserr = env.EWOULDBLOCK := h2
    rw [E_put_ex]
    simp only [if_true]
    rw [if_neg hne, if_pos h2', if_neg (by decide)]
  · intro h1 h2 ctx1 hs
    have h1' : nw = -1 := h1
    subst h1'
    have hne : ¬ (oserr = env.EINTR) := fun e => hlast ⟨rfl, e⟩
    have h2' : ¬ (oserr = env.C_EAGAIN ∨ oserr = env.EWOULDBLOCK) := h2
    have hs' : lcbio_ctx_senderr (log_call ctx Call.sendv)
        (convert_lcberr env oserr lcbio_IOSTATUS.LCBIO_IOERR) = some ctx1 := hs
    rw [E_put_ex]
    simp only [if_true]
    rw [if_neg hne, if_neg h2']
    simp only [hs']
    rw [if_neg (by decide)]
  · intro h1 h2 ctx1 hs
    have hle : ¬ (0 < nw) := by
      have : nw ≤ 0 := h1
      omega
    have hne : ¬ (nw = -1) := h2
    have hs' : lcbio_ctx_senderr (log_call ctx Call.sendv)
        (convert_lcberr env oserr lcbio_IOSTATUS.LCBIO_SHUTDOWN) = some ctx1 := hs
    rw [E_put_ex]
    rw [if_neg hle, if_neg hne]
    simp only [hs']

theorem filter_sendv (n : Nat) :
    (List.replicate n Call.sendv).filter is_flush_done = [] := by
  induction n with
  | zero => rfl
  | succ k ih =>
    rw [List.replicate_succ, List.filter_cons]
    simp [is_flush_done, ih]

/-- Claim C26, as amended: in event mode, on a context that was not freed or closed, for
every sequence of `sendv` results that ends in one that is not `EINTR`,
`lcbio_ctx_put_ex` retries on `EINTR` (one `sendv` call for each result) and then calls
`cb_flush_done` once, with `nb` as submitted count; the transferred count is what
`sendv` transferred when that is positive, 0 on `EAGAIN`/`EWOULDBLOCK` (the context is
as before but for the `sendv` calls: no error is latched), and `nb` when the connection
was closed or `sendv` failed with another `errno`: then `lcbio_ctx_senderr` has run
first, with the shutdown or the network error, which is in the error slot if the slot
was free. It returns 1 exactly when `sendv` transferred a positive number of bytes, and
0 otherwise. The result is the one of the callback on the context `ctx1` described. -/
theorem lcbio_ctx_put_ex_event (env : Env) (ctx : lcbio_CTX) (nb : Nat)
    (pre : List (Int × Int)) (last : Int × Int) (status saverr : Int) (cb : Callback)
    (hev : ctx.is_event = true) (hfreed : ctx.freed = 0) (htimer : ctx.as_err = true)
    (hpre : ∀ x ∈ pre, x.1 = -1 ∧ x.2 = env.EINTR)
    (hlast : ¬ (last.1 = -1 ∧ last.2 = env.EINTR)) :
    ∃ ctx1 nw ret,
      lcbio_ctx_put_ex env ctx nb (pre ++ [last]) status saverr cb
        = (call_flush_done ctx1 nb nw cb).map (fun c => (ret, c)) ∧
      ctx1.log.filter is_flush_done = ctx.log.filter is_flush_done ∧
      (ret = 1 ↔ 0 < last.1) ∧ (ret = 0 ↔ last.1 ≤ 0) ∧
      (0 < last.1 → nw = last.1.toNat ∧
        ctx1 = { ctx with log := ctx.log ++ List.replicate (pre.length + 1) Call.sendv }) ∧
      (last.1 = -1 ∧ (last.2 = env.C_EAGAIN ∨ last.2 = env.EWOULDBLOCK) → nw = 0 ∧
        ctx1 = { ctx with log := ctx.log ++ List.replicate (pre.length + 1) Call.sendv }) ∧
      (last.1 ≤ 0 ∧ ¬ (last.1 = -1 ∧ (last.2 = env.C_EAGAIN ∨ last.2 = env.EWOULDBLOCK)) →
        nw = nb ∧
        lcbio_ctx_senderr
          { ctx with log := ctx.log ++ List.replicate (pre.length + 1) Call.sendv }
          (convert_lcberr env last.2
            (if last.1 = -1 then lcbio_IOSTATUS.LCBIO_IOERR
             else lcbio_IOSTATUS.LCBIO_SHUTDOWN)) = some ctx1 ∧
        ctx1.err = (if ctx.err = 0 then
            convert_lcberr env last.2
              (if last.1 = -1 then lcbio_IOSTATUS.LCBIO_IOERR
               else lcbio_IOSTATUS.LCBIO_SHUTDOWN)
          else ctx.err) ∧
        ctx1.err_armed = true) := by
  have hsent : log_call { ctx with log := ctx.log ++ List.replicate pre.length Call.sendv }
      Call.sendv =
      { ctx with log := ctx.log ++ List.replicate (pre.length + 1) Call.sendv } := by
    simp [log_call, List.replicate_succ', List.append_assoc]
  have hfilter : ({ ctx with log := ctx.log ++ List.replicate (pre.length + 1) Call.sendv }
      : lcbio_CTX).log.filter is_flush_done = ctx.log.filter is_flush_done := by
    show (ctx.log ++ List.replicate (pre.length + 1) Call.sendv).filter is_flush_done = _
    rw [List.filter_append, filter_sendv, List.append_nil]
  have hput : lcbio_ctx_put_ex env ctx nb (pre ++ [last]) status saverr cb =
      E_put_ex env nb cb [last]
        { ctx with log := ctx.log ++ List.replicate pre.length Call.sendv } := by
    unfold lcbio_ctx_put_ex
    rw [if_neg (by rw [hfreed]; decide), if_pos hev, E_put_ex_retry env nb cb pre hpre]
  obtain ⟨l1, l2, l3, l4⟩ := E_put_ex_last env nb cb last
    { ctx with log := ctx.log ++ List.replicate pre.length Call.sendv } hlast
  rw [hsent] at l1 l2 l3 l4
  have herr : ∀ e, ∃ ctx1,
      lcbio_ctx_senderr
        { ctx with log := ctx.log ++ List.replicate (pre.length + 1) Call.sendv } e
        = some ctx1 ∧
      ctx1.err = (if ctx.err = 0 then e else ctx.err) ∧ ctx1.err_armed = true ∧
      ctx1.log.filter is_flush_done = ctx.log.filter is_flush_done := by
    intro e
    obtain ⟨ctx1, calls, s1, s2, s3, s4, s5, _, _⟩ := senderr_effect
      { ctx with log := ctx.log ++ List.replicate (pre.length + 1) Call.sendv } e hfreed htimer
    refine ⟨ctx1, s1, s2, s3, ?_⟩
    rw [s4, List.filter_append, List.filter_append, hfilter]
    rcases s5 with hc | hc <;> rw [hc] <;> simp [is_flush_done]
  by_cases hpos : 0 < last.1
  · refine ⟨_, last.1.toNat, 1, hput.trans (l1 hpos), hfilter, ?_, ?_, ?_, ?_, ?_⟩
    · exact ⟨fun _ => hpos, fun _ => rfl⟩
    · exact ⟨fun h => absurd h (by decide), fun h => by omega⟩
    · exact fun _ => ⟨rfl, rfl⟩
    · intro h
      omega
    · intro h
      omega
  · by_cases hm : last.1 = -1
    · by_cases hag : last.2 = env.C_EAGAIN ∨ last.2 = env.EWOULDBLOCK
      · refine ⟨_, 0, 0, hput.trans (l2 hm hag), hfilter, ?_, ?_, ?_, ?_, ?_⟩
        · exact ⟨fun h => absurd h (by decide), fun h => absurd h hpos⟩
        · exact ⟨fun _ => by omega, fun _ => rfl⟩
        · exact fun h => absurd h hpos
        · exact fun _ => ⟨rfl, rfl⟩
        · intro h
          exact absurd ⟨hm, hag⟩ h.2
      · obtain ⟨ctx1, s1, s2, s3, s4⟩ :=
          herr (convert_lcberr env last.2 lcbio_IOSTATUS.LCBIO_IOERR)
        refine ⟨ctx1, nb, 0, hput.trans (l3 hm hag ctx1 s1), s4, ?_, ?_, ?_, ?_, ?_⟩
        · exact ⟨fun h => absurd h (by decide), fun h => absurd h hpos⟩
        · exact ⟨fun _ => by omega, fun _ => rfl⟩
        · exact fun h => absurd h hpos
        · intro h
          exact absurd h.2 hag
        · intro _
          rw [if_pos hm]
          exact ⟨rfl, s1, s2, s3⟩
    · obtain ⟨ctx1, s1, s2, s3, s4⟩ :=
        herr (convert_lcberr env last.2 lcbio_IOSTATUS.LCBIO_SHUTDOWN)
      have hle : last.1 ≤ 0 := by omega
      refine ⟨ctx1, nb, 0, hput.trans (l4 hle hm ctx1 s1), s4, ?_, ?_, ?_, ?_, ?_⟩
      · exact ⟨fun h => absurd h (by decide), fun h => absurd h hpos⟩
      · exact ⟨fun _ => hle, fun _ => rfl⟩
      · exact fun h => absurd h hpos
      · intro h
        exact absurd h.1 hm
      · intro _
        rw [if_neg hm]
        exact ⟨rfl, s1, s2, s3⟩

/-- Two `EINTR` results and then a closed connection, on a fresh context in event mode
with `nb = 8`: `lcbio_ctx_put_ex` returns 0 after three `sendv` calls, the shutdown error
(43) is latched, and `cb_flush_done` gets 8 and 8. With a last result of 3 bytes it
returns 1 and `cb_flush_done` gets 8 and 3. -/
theorem lcbio_ctx_put_ex_event_witness :
    (lcbio_ctx_put_ex exEnv (lcbio_ctx_new true) 8 [(-1, 4), (-1, 4), (0, 0)] 0 0 some).map
        (fun r => (r.1, r.2.err, r.2.log))
      = some (0, 43, [Call.sendv, Call.sendv, Call.sendv, Call.async_signal,
          Call.cb_flush_done 8 8]) ∧
    (lcbio_ctx_put_ex exEnv (lcbio_ctx_new true) 8 [(-1, 4), (-1, 4), (3, 0)] 0 0 some).map
        (fun r => (r.1, r.2.err, r.2.log))
      = some (1, 0, [Call.sendv, Call.sendv, Call.sendv, Call.cb_flush_done 8 3]) ∧
    ∃ ctx1 nw ret,
      lcbio_ctx_put_ex exEnv (lcbio_ctx_new true) 8 ([(-1, 4), (-1, 4)] ++ [(0, 0)]) 0 0 some
        = (call_flush_done ctx1 8 nw some).map (fun c => (ret, c)) ∧
      ctx1.log.filter is_flush_done = (lcbio_ctx_new true).log.filter is_flush_done ∧
      (ret = 1 ↔ 0 < ((0, 0) : Int × Int).1) ∧ (ret = 0 ↔ ((0, 0) : Int × Int).1 ≤ 0) :=
  ⟨by decide, by decide,
    match lcbio_ctx_put_ex_event exEnv (lcbio_ctx_new true) 8 [(-1, 4), (-1, 4)] (0, 0) 0 0
        some rfl rfl rfl (by decide) (by decide) with
    | ⟨ctx1, nw, ret, h1, h2, h3, h4, _⟩ => ⟨ctx1, nw, ret, h1, h2, h3, h4⟩⟩

/-- Claim C26, as worded, fails: when `sendv` finds the connection closed (result 0) no
byte was transferred, yet `cb_flush_done` is called with `nb` as transferred count. -/
theorem put_ex_contract_fails : ¬ put_ex_contract exEnv (lcbio_ctx_new true) 8 [(0, 0)] := by
  intro h
  exact absurd (h [] (0, 0) rfl (by decide) (by decide)) (by decide)

/-! ### The error slot -/

/-- Claim C21 fails on the code. In completion mode, with a read posted,
`lcbio_ctx_senderr(ctx, 7)` latches 7; when the read then completes with a failure,
`Cr_handler` puts 43 in the error slot through `invoke_entered_errcb`. In event mode,
when the read callback of `E_handler` latches 7 with `lcbio_ctx_senderr` and the write
of the output ring then fails in the same call, `E_handler` puts 16 in the slot and calls
`cb_err` with it. -/
theorem error_slot_overwritten :
    (run exEnv [Event.call (Api.rwant 1), Event.call (Api.schedule exSched),
        Event.call (Api.senderr 7)] (lcbio_ctx_new false)).map (fun c => c.err) = some 7 ∧
    (run exEnv [Event.call (Api.rwant 1), Event.call (Api.schedule exSched),
        Event.call (Api.senderr 7), Event.read_done (-1) 0 0 exSched [] []]
      (lcbio_ctx_new false)).map (fun c => (c.err, c.log))
      = some (43, [Call.read2, Call.async_signal, Call.cb_err 43]) ∧
    (E_handler_read exEnv
        { lcbio_ctx_new true with rdwant := 1, output := some 5, evactive := 1, watched := 6 }
        6 exWriteFails (exec_all exEnv [Api.senderr 7])).map (fun r => (r.1, r.2.err))
      = some (false, 7) ∧
    (E_handler exEnv
        { lcbio_ctx_new true with rdwant := 1, output := some 5, evactive := 1, watched := 6 }
        6 exWriteFails exSched (exec_all exEnv [Api.senderr 7]) (exec_all exEnv [])
        (exec_all exEnv [])).map (fun c => (c.err, c.log))
      = some (16, [Call.cb_read 10, Call.cancel, Call.async_signal, Call.sendv,
          Call.cb_err 16]) := by
  refine ⟨?_, ?_, ?_, ?_⟩ <;> decide

/-! ### The lifetime of a context -/

theorem core_fields (c c' : lcbio_CTX) (h : core c' = core c) :
    c'.freed = c.freed ∧ c'.state = c.state ∧ c'.npending = c.npending ∧
    c'.entered = c.entered ∧ c'.is_event = c.is_event ∧
    c'.posted_writes = c.posted_writes ∧ c'.posted_reads = c.posted_reads ∧
    c'.posted_ex = c.posted_ex := by
  unfold core at h
  simp only [Prod.mk.injEq] at h
  exact h

theorem inv0_of_core (c c' : lcbio_CTX) (h : core c' = core c) (hi : Inv0 c) : Inv0 c' := by
  obtain ⟨f, s, n, e, v, w, r, x⟩ := core_fields c c' h
  unfold Inv0 at hi ⊢
  rw [f, s, n, e, v, w, r, x]
  exact hi

theorem drained_of_core (c c' : lcbio_CTX) (h : core c' = core c) (hd : Drained c) :
    Drained c' := by
  obtain ⟨f, s, n, e, _, _, _, _⟩ := core_fields c c' h
  unfold Drained at hd ⊢
  rw [f, s, n, e]
  exact hd

theorem step_of_core (c c' : lcbio_CTX) (h : core c' = core c) : Step c c' := by
  obtain ⟨f, _, _, e, v, _, _, x⟩ := core_fields c c' h
  refine ⟨inv0_of_core c c' h, fun _ => drained_of_core c c' h, e, v, fun _ => f, ?_⟩
  intro y hy
  rw [x]
  exact hy

theorem step_refl (c : lcbio_CTX) : Step c c := step_of_core c c rfl

theorem step_trans (a b c : lcbio_CTX) (h1 : Step a b) (h2 : Step b c) : Step a c := by
  obtain ⟨a1, a2, a3, a4, a5, a6⟩ := h1
  obtain ⟨b1, b2, b3, b4, b5, b6⟩ := h2
  refine ⟨fun h => b1 (a1 h), fun h hd => b2 (a1 h) (a2 h hd), b3.trans a3, b4.trans a4, ?_,
    fun x hx => b6 x (a6 x hx)⟩
  intro he
  have he' : b.entered ≠ 0 := by rw [a3]; exact he
  exact (b5 he').trans (a5 he)

theorem core_log_call (c : lcbio_CTX) (x : Call) : core (log_call c x) = core c := rfl

theorem core_deactivate_watcher (c : lcbio_CTX) : core (deactivate_watcher c) = core c := by
  unfold deactivate_watcher
  split <;> rfl

theorem core_async_signal (c c' : lcbio_CTX) (h : lcbio_async_signal c = some c') :
    core c' = core c := by
  unfold lcbio_async_signal at h
  split at h
  · rw [← Option.some.inj h]
    rfl
  · cases h

theorem core_senderr (c c' : lcbio_CTX) (err : Nat) (h : lcbio_ctx_senderr c err = some c') :
    core c' = core c := by
  unfold lcbio_ctx_senderr at h
  split at h
  · cases h
  · simp only [] at h
    have h1 := core_async_signal _ c' h
    rw [h1, core_deactivate_watcher]
    split <;> rfl

theorem core_rwant (c c' : lcbio_CTX) (n : Nat) (h : lcbio_ctx_rwant c n = some c') :
    core c' = core c := by
  unfold lcbio_ctx_rwant at h
  split at h
  · cases h
  · rw [← Option.some.inj h]
    rfl

theorem core_put (env : Env) (c c' : lcbio_CTX) (nbuf : Nat) (a b d : Bool)
    (h : lcbio_ctx_put env c nbuf a b d = some c') : core c' = core c := by
  unfold lcbio_ctx_put at h
  split at h
  · cases h
  · simp only [] at h
    split at h
    · split at h
      · exact core_senderr _ _ _ h
      · rw [← Option.some.inj h]
        rfl
    · split at h
      · exact core_senderr _ _ _ h
      · split at h
        · exact (core_senderr _ _ _ h).trans rfl
        · split at h
          · exact (core_senderr _ _ _ h).trans rfl
          · rw [← Option.some.inj h]
            rfl

theorem close_ex_detach_fields (c : lcbio_CTX) (cb : Option Bool) (dtor : Bool) :
    (close_ex_detach c cb dtor).freed = c.freed ∧
    (close_ex_detach c cb dtor).state = easy_state.ES_DETACHED ∧
    (close_ex_detach c cb dtor).npending = c.npending ∧
    (close_ex_detach c cb dtor).entered = c.entered ∧
    (close_ex_detach c cb dtor).is_event = c.is_event ∧
    (close_ex_detach c cb dtor).posted_writes = c.posted_writes ∧
    (close_ex_detach c cb dtor).posted_reads = c.posted_reads ∧
    (close_ex_detach c cb dtor).posted_ex = c.posted_ex := by
  unfold close_ex_detach
  by_cases he : c.event = true <;> by_cases ha : c.evactive ≠ 0 <;>
    by_cases hs : c.as_err = true <;> rcases cb with _ | _ | _ <;>
    simp [deactivate_watcher, log_call, he, ha, hs]

theorem free_ctx_fields (c : lcbio_CTX) :
    (free_ctx c).freed = c.freed + 1 ∧ (free_ctx c).state = c.state ∧
    (free_ctx c).npending = c.npending ∧ (free_ctx c).entered = c.entered ∧
    (free_ctx c).is_event = c.is_event ∧ (free_ctx c).posted_writes = c.posted_writes ∧
    (free_ctx c).posted_reads = c.posted_reads ∧ (free_ctx c).posted_ex = c.posted_ex := by
  unfold free_ctx
  cases c.flush_ready <;> simp [log_call]

theorem close_ex_step (c c' : lcbio_CTX) (cb : Option Bool) (dtor : Bool)
    (h : lcbio_ctx_close_ex c cb dtor = some c') : Step c c' := by
  obtain ⟨d1, d2, d3, d4, d5, d6, d7, d8⟩ := close_ex_detach_fields c cb dtor
  obtain ⟨f1, f2, f3, f4, f5, f6, f7, f8⟩ := free_ctx_fields (close_ex_detach c cb dtor)
  unfold lcbio_ctx_close_ex at h
  split at h
  · cases h
  · rename_i hfreed
    have hf0 : c.freed = 0 := by_contra hfreed
    simp only [] at h
    split at h
    · rename_i hcond
      rw [d3, d4] at hcond
      have e := Option.some.inj h
      have g1 : c'.freed = 1 := by rw [← e, f1, d1, hf0]
      have g2 : c'.state = easy_state.ES_DETACHED := by rw [← e, f2, d2]
      have g3 : c'.npending = c.npending := by rw [← e, f3, d3]
      have g4 : c'.entered = c.entered := by rw [← e, f4, d4]
      have g5 : c'.is_event = c.is_event := by rw [← e, f5, d5]
      have g6 : c'.posted_writes = c.posted_writes := by rw [← e, f6, d6]
      have g7 : c'.posted_reads = c.posted_reads := by rw [← e, f7, d7]
      have g8 : c'.posted_ex = c.posted_ex := by rw [← e, f8, d8]
      refine ⟨?_, ?_, g4, g5, fun he => absurd hcond.2 he, fun x hx => by rw [g8]; exact hx⟩
      · intro hi
        obtain ⟨_, _, i3, i4⟩ := hi
        unfold Inv0
        rw [g1, g2, g3, g4, g5, g6, g7, g8]
        exact ⟨le_refl 1, fun _ => ⟨rfl, hcond.1, hcond.2⟩, i3, i4⟩
      · intro _ _ hz
        rw [g1] at hz
        cases hz
    · rename_i hcond
      rw [d3, d4] at hcond
      have e := Option.some.inj h
      have g1 : c'.freed = 0 := by rw [← e, d1, hf0]
      have g2 : c'.state = easy_state.ES_DETACHED := by rw [← e, d2]
      have g3 : c'.npending = c.npending := by rw [← e, d3]
      have g4 : c'.entered = c.entered := by rw [← e, d4]
      have g5 : c'.is_event = c.is_event := by rw [← e, d5]
      have g6 : c'.posted_writes = c.posted_writes := by rw [← e, d6]
      have g7 : c'.posted_reads = c.posted_reads := by rw [← e, d7]
      have g8 : c'.posted_ex = c.posted_ex := by rw [← e, d8]
      refine ⟨?_, ?_, g4, g5, fun _ => by rw [g1, hf0], fun x hx => by rw [g8]; exact hx⟩
      · intro hi
        obtain ⟨_, _, i3, i4⟩ := hi
        unfold Inv0
        rw [g1, g3, g5, g6, g7, g8]
        exact ⟨Nat.zero_le 1, fun hz => absurd hz (by decide), i3, i4⟩
      · intro _ _ _ _ he hn
        rw [g4] at he
        rw [g3] at hn
        exact hcond ⟨hn, he⟩

theorem core_E_schedule (c : lcbio_CTX) : core (E_schedule c) = core c := by
  unfold E_schedule
  simp only []
  split
  · exact core_deactivate_watcher c
  · rfl

/-- What `C_schedule` changes of the fields the lifetime depends on: `k` operations are
posted. -/
theorem C_schedule_posted (env : Env) (c c' : lcbio_CTX) (o : SchedResult)
    (h : C_schedule env c o = some c') :
    c'.freed = c.freed ∧ c'.state = c.state ∧ c'.entered = c.entered ∧
    c'.is_event = c.is_event ∧ c'.posted_ex = c.posted_ex ∧
    ∃ k, c'.npending = c.npending + k ∧
      c'.posted_writes + c'.posted_reads = c.posted_writes + c.posted_reads + k := by
  have hcore : ∀ x : lcbio_CTX, core c' = core x →
      c'.freed = x.freed ∧ c'.state = x.state ∧ c'.entered = x.entered ∧
      c'.is_event = x.is_event ∧ c'.posted_ex = x.posted_ex ∧
      c'.npending = x.npending ∧ c'.posted_writes = x.posted_writes ∧
      c'.posted_reads = x.posted_reads := by
    intro x hx
    obtain ⟨f, s, n, e, v, w, r, p⟩ := core_fields x c' hx
    exact ⟨f, s, e, v, p, n, w, r⟩
  unfold C_schedule at h
  simp only [] at h
  split at h
  · split at h
    · obtain ⟨f, s, e, v, p, n, w, r⟩ := hcore _ (core_senderr _ _ _ h)
      exact ⟨f, s, e, v, p, 0, n, by rw [w, r]; rfl⟩
    · split at h
      · split at h
        · obtain ⟨f, s, e, v, p, n, w, r⟩ := hcore _ (core_senderr _ _ _ h)
          refine ⟨f, s, e, v, p, 1, n, ?_⟩
          rw [w, r]
          show c.posted_writes + 1 + c.posted_reads = _
          omega
        · rw [← Option.some.inj h]
          refine ⟨rfl, rfl, rfl, rfl, rfl, 2, ?_, ?_⟩
          · show c.npending + 1 + 1 = _
            omega
          · show c.posted_writes + 1 + (c.posted_reads + 1) = _
            omega
      · rw [← Option.some.inj h]
        refine ⟨rfl, rfl, rfl, rfl, rfl, 1, rfl, ?_⟩
        show c.posted_writes + 1 + c.posted_reads = _
        omega
  · split at h
    · split at h
      · obtain ⟨f, s, e, v, p, n, w, r⟩ := hcore _ (core_senderr _ _ _ h)
        exact ⟨f, s, e, v, p, 0, n, by rw [w, r]; rfl⟩
      · rw [← Option.some.inj h]
        exact ⟨rfl, rfl, rfl, rfl, rfl, 1, rfl, rfl⟩
    · rw [← Option.some.inj h]
      exact ⟨rfl, rfl, rfl, rfl, rfl, 0, rfl, rfl⟩

theorem schedule_step (env : Env) (c c' : lcbio_CTX) (o : SchedResult)
    (h : lcbio_ctx_schedule env c o = some c') : Step c c' := by
  unfold lcbio_ctx_schedule at h
  split at h
  · cases h
  · split at h
    · rw [← Option.some.inj h]
      exact step_refl c
    · rename_i hfreed hsup
      have hst : c.state = easy_state.ES_ACTIVE := by
        by_contra hne
        exact hsup (Or.inr (Or.inr hne))
      split at h
      · rw [← Option.some.inj h]
        exact step_of_core c _ (core_E_schedule c)
      · rename_i hev
        have hev' : c.is_event = false := by
          cases hv : c.is_event with
          | true => exact absurd hv hev
          | false => rfl
        obtain ⟨f, s, e, v, p, k, n, w⟩ := C_schedule_posted env c c' o h
        refine ⟨?_, ?_, e, v, fun _ => f, fun x hx => by rw [p]; exact hx⟩
        · intro hi
          obtain ⟨i1, i2, _, i4⟩ := hi
          unfold Inv0
          rw [f, s, v, p, n]
          refine ⟨i1, ?_, ?_, ?_⟩
          · intro hz
            rw [hst] at i2
            exact absurd (i2 hz).1 (by decide)
          · intro ht
            rw [hev'] at ht
            cases ht
          · omega
        · intro _ _ _ hd
          rw [s, hst] at hd
          cases hd

theorem still_there_some (r : Option lcbio_CTX) (c : lcbio_CTX) (h : still_there r = some c) :
    r = some c ∧ c.freed = 0 := by
  unfold still_there at h
  split at h
  · cases h
  · rename_i x
    split at h
    · cases h
    · rename_i hf
      have e := Option.some.inj h
      subst e
      exact ⟨rfl, by_contra hf⟩

theorem call_flush_ready_step (c c' : lcbio_CTX) (cb : Callback) (hcb : Good cb)
    (h : call_flush_ready c cb = some c') : Step c c' := by
  unfold call_flush_ready at h
  split at h
  · cases h
  · rw [← Option.some.inj h]
    exact step_of_core c _ rfl
  · exact step_trans c _ c' (step_of_core c _ (core_log_call c Call.cb_flush_ready))
      (hcb _ _ h)

theorem call_flush_done_step (c c' : lcbio_CTX) (nb nw : Nat) (cb : Callback) (hcb : Good cb)
    (h : call_flush_done c nb nw cb = some c') : Step c c' :=
  step_trans c _ c' (step_of_core c _ (core_log_call c (Call.cb_flush_done nb nw)))
    (hcb _ _ h)

theorem wwant_step (c c' : lcbio_CTX) (cb : Callback) (hcb : Good cb)
    (h : lcbio_ctx_wwant c cb = some c') : Step c c' := by
  unfold lcbio_ctx_wwant at h
  split at h
  · cases h
  · split at h
    · exact call_flush_ready_step c c' cb hcb h
    · rw [← Option.some.inj h]
      exact step_of_core c _ rfl

theorem map_pair_some (o : Option lcbio_CTX) (k r : Int) (c' : lcbio_CTX)
    (h : o.map (fun c => (k, c)) = some (r, c')) : o = some c' := by
  cases o with
  | none => cases h
  | some x =>
    have e := Option.some.inj h
    rw [(Prod.mk.inj e).2]

theorem E_put_ex_step (env : Env) (nb : Nat) (cb : Callback) (hcb : Good cb)
    (results : List (Int × Int)) (c c' : lcbio_CTX) (r : Int)
    (h : E_put_ex env nb cb results c = some (r, c')) : Step c c' := by
  induction results generalizing c with
  | nil =>
    rw [E_put_ex] at h
    cases h
  | cons x rest ih =>
    obtain ⟨nw, oserr⟩ := x
    have hlog : Step c (log_call c Call.sendv) := step_of_core c _ rfl
    rw [E_put_ex] at h
    split at h
    · exact step_trans _ _ _ hlog
        (call_flush_done_step _ c' _ _ cb hcb (map_pair_some _ _ _ _ h))
    · split at h
      · split at h
        · exact step_trans _ _ _ hlog (ih _ h)
        · split at h
          · exact step_trans _ _ _ hlog
              (call_flush_done_step _ c' _ _ cb hcb (map_pair_some _ _ _ _ h))
          · split at h
            · cases h
            · rename_i ctx2 hs
              exact step_trans _ _ _ hlog (step_trans _ ctx2 _
                (step_of_core _ _ (core_senderr _ _ _ hs))
                (call_flush_done_step _ c' _ _ cb hcb (map_pair_some _ _ _ _ h)))
      · split at h
        · cases h
        · rename_i ctx2 hs
          exact step_trans _ _ _ hlog (step_trans _ ctx2 _
            (step_of_core _ _ (core_senderr _ _ _ hs))
            (call_flush_done_step _ c' _ _ cb hcb (map_pair_some _ _ _ _ h)))

theorem C_put_ex_step (env : Env) (c c' : lcbio_CTX) (nb : Nat) (status saverr : Int)
    (cb : Callback) (hcb : Good cb) (r : Int) (hfreed : c.freed = 0)
    (hev : c.is_event = false)
    (h : C_put_ex env c nb status saverr cb = some (r, c')) : Step c c' := by
  unfold C_put_ex at h
  simp only [] at h
  split at h
  · split at h
    · cases h
    · rename_i ctx2 hs
      obtain ⟨hs1, _⟩ := still_there_some _ _ hs
      have hsend := map_pair_some _ _ _ _ h
      exact step_trans _ _ _ (step_of_core c _ (core_log_call c (Call.write2_ex nb)))
        (step_trans _ _ _ (call_flush_done_step _ ctx2 _ _ cb hcb hs1)
          (step_of_core _ _ (core_senderr _ _ _ hsend)))
  · have e := (Prod.mk.inj (Option.some.inj h)).2
    rw [← e]
    refine ⟨?_, ?_, rfl, rfl, fun _ => rfl, fun x hx => List.mem_cons_of_mem _ hx⟩
    · intro hi
      obtain ⟨i1, _, _, i4⟩ := hi
      refine ⟨i1, ?_, ?_, ?_⟩
      · intro hz
        have hz' : c.freed = 1 := hz
        omega
      · intro ht
        have ht' : c.is_event = true := ht
        rw [hev] at ht'
        cases ht'
      · show c.npending + 1 = c.posted_writes + c.posted_reads + (nb :: c.posted_ex).length
        rw [List.length_cons]
        omega
    · intro _ _ _ _ _ hn
      have hn' : c.npending + 1 = 0 := hn
      omega

theorem put_ex_step (env : Env) (c c' : lcbio_CTX) (nb : Nat) (results : List (Int × Int))
    (status saverr : Int) (cb : Callback) (hcb : Good cb) (r : Int)
    (h : lcbio_ctx_put_ex env c nb results status saverr cb = some (r, c')) : Step c c' := by
  unfold lcbio_ctx_put_ex at h
  split at h
  · cases h
  · rename_i hfreed
    split at h
    · exact E_put_ex_step env nb cb hcb results c c' r h
    · rename_i hev
      have hev' : c.is_event = false := by
        cases hv : c.is_event with
        | true => exact absurd hv hev
        | false => rfl
      exact C_put_ex_step env c c' nb status saverr cb hcb r (by_contra hfreed) hev' h

mutual
theorem exec_step (env : Env) : ∀ (a : Api) (c c' : lcbio_CTX), exec env a c = some c' → Step c c'
  | Api.rwant n, c, c', h => by
    rw [exec] at h
    exact step_of_core c c' (core_rwant c c' n h)
  | Api.wwant flush_ready, c, c', h => by
    rw [exec] at h
    exact wwant_step c c' _ (fun x y hxy => exec_all_step env flush_ready x y hxy) h
  | Api.put nbuf calloc_ok init_ok ensure_ok, c, c', h => by
    rw [exec] at h
    exact step_of_core c c' (core_put env c c' nbuf calloc_ok init_ok ensure_ok h)
  | Api.put_ex nb results status saverr flush_done, c, c', h => by
    rw [exec] at h
    cases hp : lcbio_ctx_put_ex env c nb results status saverr
        (fun c => exec_all env flush_done c) with
    | none =>
      rw [hp] at h
      cases h
    | some p =>
      obtain ⟨r, x⟩ := p
      rw [hp] at h
      have e : x = c' := Option.some.inj h
      rw [← e]
      exact put_ex_step env c x nb results status saverr _
        (fun x y hxy => exec_all_step env flush_done x y hxy) r hp
  | Api.senderr err, c, c', h => by
    rw [exec] at h
    exact step_of_core c c' (core_senderr c c' err h)
  | Api.schedule o, c, c', h => by
    rw [exec] at h
    exact schedule_step env c c' o h
  | Api.close_ex cb dtor, c, c', h => by
    rw [exec] at h
    exact close_ex_step c c' cb dtor h
theorem exec_all_step (env : Env) :
    ∀ (l : List Api) (c c' : lcbio_CTX), exec_all env l c = some c' → Step c c'
  | [], c, c', h => by
    rw [exec_all] at h
    rw [← Option.some.inj h]
    exact step_refl c
  | a :: rest, c, c', h => by
    rw [exec_all] at h
    cases ha : exec env a c with
    | none =>
      rw [ha] at h
      cases h
    | some x =>
      rw [ha] at h
      exact step_trans c x c' (exec_step env a c x ha) (exec_all_step env rest x c' h)
end

theorem script_good (env : Env) (l : List Api) : Good (exec_all env l) :=
  fun c c' h => exec_all_step env l c c' h

theorem settled_step (c c' : lcbio_CTX) (hc : Settled c) (hs : Step c c') : Settled c' :=
  ⟨⟨hs.1 hc.1.1, hs.2.1 hc.1.1 hc.1.2⟩, hs.2.2.1.trans hc.2⟩

theorem settled_of_core (c c' : lcbio_CTX) (h : core c' = core c) (hc : Settled c) :
    Settled c' := settled_step c c' hc (step_of_core c c' h)

theorem state_cases (s : easy_state) (h : s ≠ easy_state.ES_ACTIVE) :
    s = easy_state.ES_DETACHED := by
  cases s
  · exact absurd rfl h
  · rfl

theorem entered_return (c c1 c2 : lcbio_CTX) (hi : Inv0 c) (hf : c.freed = 0)
    (hcore : (c1.freed, c1.state, c1.npending, c1.is_event,
      c1.posted_writes, c1.posted_reads, c1.posted_ex) = (c.freed, c.state, c.npending,
      c.is_event, c.posted_writes, c.posted_reads, c.posted_ex))
    (he1 : c1.entered = 1) (hs : Step c1 c2) :
    Inv0 { c2 with entered := c2.entered - 1 } ∧ c2.freed = 0 ∧ c2.entered - 1 = 0 ∧
      c2.is_event = c.is_event ∧ ∀ x ∈ c.posted_ex, x ∈ c2.posted_ex := by
  simp only [Prod.mk.injEq] at hcore
  obtain ⟨f, s, n, v, w, r, x⟩ := hcore
  obtain ⟨i1, i2, i3, i4⟩ := hi
  have h1 : Inv0 c1 := by
    refine ⟨by rw [f]; exact i1, ?_, by rw [v, n]; exact i3, by rw [n, w, r, x]; exact i4⟩
    intro h
    rw [f, hf] at h
    cases h
  obtain ⟨s1, _, s3, s4, s5, s6⟩ := hs
  have hf2 : c2.freed = 0 := by
    rw [s5 (by rw [he1]; decide), f, hf]
  obtain ⟨j1, j2, j3, j4⟩ := s1 h1
  refine ⟨⟨j1, ?_, j3, j4⟩, hf2, by rw [s3, he1], s4.trans v, ?_⟩
  · intro h
    have h' : c2.freed = 1 := h
    rw [hf2] at h'
    cases h'
  · intro y hy
    exact s6 y (by rw [x]; exact hy)

theorem invoke_read_cb_inv (c c' : lcbio_CTX) (nb : Nat) (cb : Callback) (hcb : Good cb)
    (hi : Inv0 c) (hf : c.freed = 0) (he : c.entered = 0)
    (h : invoke_read_cb c nb cb = some c') :
    Inv0 c' ∧ c'.freed = 0 ∧ c'.entered = 0 ∧ c'.is_event = c.is_event ∧
      ∀ x ∈ c.posted_ex, x ∈ c'.posted_ex := by
  unfold invoke_read_cb at h
  simp only [] at h
  split at h
  · cases h
  · rename_i c2 hc2
    split at h
    · cases h
    · rw [← Option.some.inj h]
      have hs := hcb _ _ hc2
      refine entered_return c _ c2 hi hf ?_ ?_ hs
      · rfl
      · show c.entered + 1 = 1
        rw [he]

theorem invoke_entered_errcb_inv (c c' : lcbio_CTX) (err : Nat) (cb : Callback)
    (hcb : Good cb) (hi : Inv0 c) (hf : c.freed = 0) (he : c.entered = 0)
    (h : invoke_entered_errcb c err cb = some c') :
    Inv0 c' ∧ c'.freed = 0 ∧ c'.entered = 0 ∧ c'.is_event = c.is_event ∧
      ∀ x ∈ c.posted_ex, x ∈ c'.posted_ex := by
  unfold invoke_entered_errcb at h
  simp only [] at h
  split at h
  · cases h
  · rename_i c2 hc2
    split at h
    · cases h
    · rw [← Option.some.inj h]
      have hs := hcb _ _ hc2
      refine entered_return c _ c2 hi hf ?_ ?_ hs
      · rfl
      · show c.entered + 1 = 1
        rw [he]

theorem free_ctx_settled (c : lcbio_CTX) (hi : Inv0 c) (hf : c.freed = 0)
    (he : c.entered = 0) (hs : c.state = easy_state.ES_DETACHED) (hn : c.npending = 0) :
    Settled (free_ctx c) := by
  obtain ⟨f1, f2, f3, f4, f5, f6, f7, f8⟩ := free_ctx_fields c
  obtain ⟨_, _, i3, i4⟩ := hi
  refine ⟨⟨⟨?_, ?_, ?_, ?_⟩, ?_⟩, by rw [f4, he]⟩
  · rw [f1, hf]
  · intro _
    exact ⟨by rw [f2, hs], by rw [f3, hn], by rw [f4, he]⟩
  · intro _
    rw [f3, hn]
  · rw [f3, f6, f7, f8]
    exact i4
  · intro h
    rw [f1, hf] at h
    cases h

theorem free_if_drained_settled (c : lcbio_CTX) (hi : Inv0 c) (hf : c.freed = 0)
    (he : c.entered = 0) : Settled (free_if_drained c) := by
  unfold free_if_drained
  split
  · rename_i h
    exact free_ctx_settled c hi hf he (state_cases _ h.1) h.2
  · rename_i h
    refine ⟨⟨hi, ?_⟩, he⟩
    intro _ hs _ hn
    exact h ⟨by rw [hs]; decide, hn⟩

theorem E_free_detached_settled (c : lcbio_CTX) (hi : Inv0 c) (hf : c.freed = 0)
    (he : c.entered = 0) (hv : c.is_event = true) :
    Settled (E_free_detached c).2 ∧
      ((E_free_detached c).1 = false → (E_free_detached c).2 = c) := by
  unfold E_free_detached
  split
  · rename_i h
    exact ⟨free_ctx_settled c hi hf he h (hi.2.2.1 hv), fun hb => by cases hb⟩
  · rename_i h
    refine ⟨⟨⟨hi, ?_⟩, he⟩, fun _ => rfl⟩
    intro _ hs _
    exact absurd hs h

theorem schedule_freed (env : Env) (c c' : lcbio_CTX) (o : SchedResult)
    (h : lcbio_ctx_schedule env c o = some c') : c'.freed = c.freed := by
  unfold lcbio_ctx_schedule at h
  split at h
  · cases h
  · split at h
    · rw [← Option.some.inj h]
    · split at h
      · rw [← Option.some.inj h]
        exact (core_fields c _ (core_E_schedule c)).1
      · exact (C_schedule_posted env c c' o h).1

theorem Cw_handler_eq (env : Env) (c : lcbio_CTX) (status oserr : Int) (cb : Callback) :
    ∃ c2 : lcbio_CTX, core c2 = (c.freed, c.state, c.npending - 1, c.entered, c.is_event,
        c.posted_writes - 1, c.posted_reads, c.posted_ex) ∧
      Cw_handler env c status oserr cb =
        (if c2.state = easy_state.ES_ACTIVE ∧ status ≠ 0 then
          invoke_entered_errcb c2 (convert_lcberr env oserr lcbio_IOSTATUS.LCBIO_IOERR) cb
        else some c2).map free_if_drained := by
  unfold Cw_handler
  refine ⟨_, ?_, rfl⟩
  split <;> rfl

theorem Cw_handler_settled (env : Env) (c c' : lcbio_CTX) (status oserr : Int)
    (cb : Callback) (hcb : Good cb) (hc : Settled c) (hf : c.freed = 0)
    (hp : 0 < c.posted_writes) (h : Cw_handler env c status oserr cb = some c') :
    Settled c' := by
  obtain ⟨c2, hcore, heq⟩ := Cw_handler_eq env c status oserr cb
  rw [heq] at h
  obtain ⟨⟨⟨i1, i2, i3, i4⟩, _⟩, he⟩ := hc
  unfold core at hcore
  simp only [Prod.mk.injEq] at hcore
  obtain ⟨f, s, n, e, v, w, r, x⟩ := hcore
  have h2 : Inv0 c2 := by
    refine ⟨by rw [f]; exact i1, ?_, ?_, ?_⟩
    · intro hh
      rw [f, hf] at hh
      cases hh
    · intro hh
      rw [v] at hh
      rw [n, i3 hh]
    · rw [n, w, r, x]
      omega
  obtain ⟨y, hy, hy'⟩ := Option.map_eq_some'.mp h
  rw [← hy']
  split at hy
  · obtain ⟨r1, r2, r3, _, _⟩ := invoke_entered_errcb_inv c2 y _ cb hcb h2
      (by rw [f, hf]) (by rw [e, he]) hy
    exact free_if_drained_settled y r1 r2 r3
  · rw [← Option.some.inj hy]
    exact free_if_drained_settled c2 h2 (by rw [f, hf]) (by rw [e, he])

theorem Cr_handler_settled (env : Env) (c c' : lcbio_CTX) (nr : Int) (total : Nat)
    (oserr : Int) (o : SchedResult) (cb_read cb_err : Callback) (hr : Good cb_read)
    (hcb : Good cb_err) (hc : Settled c) (hf : c.freed = 0) (hp : 0 < c.posted_reads)
    (h : Cr_handler env c nr total oserr o cb_read cb_err = some c') : Settled c' := by
  obtain ⟨⟨⟨i1, i2, i3, i4⟩, _⟩, he⟩ := hc
  have h1 : Inv0 { c with is_reading := 0, npending := c.npending - 1,
                          posted_reads := c.posted_reads - 1 } := by
    refine ⟨i1, ?_, ?_, ?_⟩
    · intro hh
      have hh' : c.freed = 1 := hh
      omega
    · intro hh
      show c.npending - 1 = 0
      rw [i3 hh]
    · show c.npending - 1 = c.posted_writes + (c.posted_reads - 1) + c.posted_ex.length
      omega
  unfold Cr_handler at h
  simp only [] at h
  obtain ⟨y, hy, hy'⟩ := Option.map_eq_some'.mp h
  rw [← hy']
  split at hy
  · split at hy
    · split at hy
      · cases hy
      · rename_i x hx
        have hx' : Inv0 x ∧ x.freed = 0 ∧ x.entered = 0 := by
          split at hx
          · obtain ⟨r1, r2, r3, _, _⟩ := invoke_read_cb_inv _ x _ cb_read hr
              (by exact h1) (by exact hf) (by exact he) hx
            exact ⟨r1, r2, r3⟩
          · rw [← Option.some.inj hx]
            exact ⟨h1, hf, he⟩
        obtain ⟨s1, _, s3, _, _, _⟩ := schedule_step env x y o hy
        have hfy : y.freed = 0 := by
          rw [schedule_freed env x y o hy, hx'.2.1]
        exact free_if_drained_settled y (s1 hx'.1) hfy (s3.trans hx'.2.2)
    · obtain ⟨r1, r2, r3, _, _⟩ := invoke_entered_errcb_inv _ y _ cb_err hcb
        (by exact h1) (by exact hf) (by exact he) hy
      exact free_if_drained_settled y r1 r2 r3
  · rw [← Option.some.inj hy]
    exact free_if_drained_settled _ h1 hf he

theorem Cw_ex_handler_settled (env : Env) (c c' : lcbio_CTX) (nflushed : Nat)
    (status oserr : Int) (cb : Callback) (hcb : Good cb) (hc : Settled c)
    (hp : nflushed ∈ c.posted_ex)
    (h : Cw_ex_handler env c nflushed status oserr cb = some c') : Settled c' := by
  unfold Cw_ex_handler at h
  split at h
  · cases h
  · rename_i c1 hc1
    obtain ⟨hc1', hf1⟩ := still_there_some _ _ hc1
    have hs := call_flush_done_step c c1 nflushed nflushed cb hcb hc1'
    obtain ⟨⟨⟨i1, i2, i3, i4⟩, _⟩, he⟩ := settled_step c c1 hc hs
    have hm : nflushed ∈ c1.posted_ex := hs.2.2.2.2.2 nflushed hp
    have hlen := List.length_pos_of_mem hm
    simp only [] at h
    split at h
    · cases h
    · rename_i hst
      have hact : c1.state = easy_state.ES_ACTIVE := by
        by_contra hne
        exact hst hne
      have h2 : Settled { c1 with npending := c1.npending - 1,
                                  posted_ex := c1.posted_ex.erase nflushed } := by
        refine ⟨⟨⟨i1, ?_, ?_, ?_⟩, ?_⟩, he⟩
        · intro hh
          have hh' : c1.freed = 1 := hh
          omega
        · intro hh
          show c1.npending - 1 = 0
          rw [i3 hh]
        · show c1.npending - 1 =
            c1.posted_writes + c1.posted_reads + (c1.posted_ex.erase nflushed).length
          rw [List.length_erase_of_mem hm]
          omega
        · intro _ hd _
          have hd' : c1.state = easy_state.ES_DETACHED := hd
          rw [hact] at hd'
          cases hd'
      split at h
      · exact settled_of_core _ c' (core_senderr _ _ _ h) h2
      · rw [← Option.some.inj h]
        exact h2

theorem err_handler_settled (c c' : lcbio_CTX) (cb : Callback) (hcb : Good cb)
    (hc : Settled c) (h : err_handler c cb = some c') : Settled c' :=
  settled_step c c' hc
    (step_trans c _ c' (step_of_core c _ (core_log_call c (Call.cb_err c.err))) (hcb _ _ h))

theorem exec_settled (env : Env) (a : Api) (c c' : lcbio_CTX) (hc : Settled c)
    (h : exec env a c = some c') : Settled c' :=
  settled_step c c' hc (exec_step env a c c' h)

theorem E_handler_read_settled (env : Env) (c c' : lcbio_CTX) (which : Nat)
    (r : EventResult) (cb : Callback) (hcb : Good cb) (hc : Settled c) (hf : c.freed = 0)
    (hv : c.is_event = true) (b : Bool)
    (h : E_handler_read env c which r cb = some (b, c')) :
    Settled c' ∧ c'.is_event = true := by
  have called : ∀ (b : Bool) (x : lcbio_CTX),
      (if r.nused ≥ c.rdwant then (invoke_read_cb c r.nused cb).map E_free_detached
        else some (false, c)) = some (b, x) → Settled x ∧ x.is_event = true := by
    intro b x hx
    split at hx
    · obtain ⟨y, hy, hy'⟩ := Option.map_eq_some'.mp hx
      obtain ⟨r1, r2, r3, r4, _⟩ := invoke_read_cb_inv c y _ cb hcb hc.1.1 hf hc.2 hy
      have hs := (E_free_detached_settled y r1 r2 r3 (r4.trans hv)).1
      rw [hy'] at hs
      refine ⟨hs, ?_⟩
      have e : x = (E_free_detached y).2 := by rw [hy']
      rw [e]
      unfold E_free_detached
      split
      · exact (free_ctx_fields y).2.2.2.2.1.trans (r4.trans hv)
      · exact r4.trans hv
    · rw [← (Prod.mk.inj (Option.some.inj hx)).2]
      exact ⟨hc, hv⟩
  unfold E_handler_read at h
  simp only [] at h
  split at h
  · split at h
    · cases h
    · rename_i x hx
      rw [← (Prod.mk.inj (Option.some.inj h)).2]
      exact called _ _ hx
    · rename_i x hx
      obtain ⟨k1, k2⟩ := called _ _ hx
      split at h
      · obtain ⟨y, hy, hy'⟩ := Option.map_eq_some'.mp h
        rw [← (Prod.mk.inj hy').2]
        exact ⟨settled_of_core x y (core_senderr _ _ _ hy) k1,
          (core_fields x y (core_senderr _ _ _ hy)).2.2.2.2.1.trans k2⟩
      · rw [← (Prod.mk.inj (Option.some.inj h)).2]
        exact ⟨k1, k2⟩
  · rw [← (Prod.mk.inj (Option.some.inj h)).2]
    exact ⟨hc, hv⟩

theorem E_handler_write_settled (env : Env) (c c' : lcbio_CTX) (which : Nat)
    (r : EventResult) (cb_flush_ready cb_err : Callback) (hfr : Good cb_flush_ready)
    (hcb : Good cb_err) (hc : Settled c) (b : Bool)
    (h : E_handler_write env c which r cb_flush_ready cb_err = some (b, c')) :
    Settled c' := by
  unfold E_handler_write at h
  split at h
  · split at h
    · split at h
      · cases h
      · rename_i x hx
        rw [← (Prod.mk.inj (Option.some.inj h)).2]
        obtain ⟨hx', _⟩ := still_there_some _ _ hx
        exact settled_step c x hc (step_trans c { c with wwant := 0 } x
          (step_of_core c _ rfl) (call_flush_ready_step _ x _ hfr hx'))
    · split at h
      · rw [← (Prod.mk.inj (Option.some.inj h)).2]
        exact hc
      · simp only [] at h
        split at h
        · obtain ⟨y, hy, hy'⟩ := Option.map_eq_some'.mp h
          rw [← (Prod.mk.inj hy').2]
          refine err_handler_settled _ y cb_err hcb (settled_of_core c _ ?_ hc) hy
          exact (core_deactivate_watcher _).trans rfl
        · rw [← (Prod.mk.inj (Option.some.inj h)).2]
          exact settled_of_core c _ rfl hc
  · rw [← (Prod.mk.inj (Option.some.inj h)).2]
    exact hc

theorem E_handler_settled (env : Env) (c c' : lcbio_CTX) (which : Nat) (r : EventResult)
    (o : SchedResult) (cb_read cb_flush_ready cb_err : Callback) (hr : Good cb_read)
    (hfr : Good cb_flush_ready) (hcb : Good cb_err) (hc : Settled c) (hf : c.freed = 0)
    (hv : c.is_event = true)
    (h : E_handler env c which r o cb_read cb_flush_ready cb_err = some c') :
    Settled c' := by
  unfold E_handler at h
  split at h
  · cases h
  · rename_i x hx
    rw [← Option.some.inj h]
    exact (E_handler_read_settled env c x which r cb_read hr hc hf hv true hx).1
  · rename_i x hx
    have hx' := (E_handler_read_settled env c x which r cb_read hr hc hf hv false hx).1
    split at h
    · cases h
    · rename_i y hy
      rw [← Option.some.inj h]
      exact E_handler_write_settled env x y which r _ _ hfr hcb hx' true hy
    · rename_i y hy
      exact settled_step y c' (E_handler_write_settled env x y which r _ _ hfr hcb hx' false hy)
        (schedule_step env y c' o h)

theorem deliver_settled (env : Env) (ev : Event) (c c' : lcbio_CTX) (hc : Settled c)
    (hen : enabled ev c = true) (h : deliver env ev c = some c') : Settled c' := by
  unfold deliver at h
  split at h
  · cases h
  · rename_i hf
    have hf' : c.freed = 0 := by_contra hf
    cases ev with
    | call a => exact exec_settled env a c c' hc h
    | readiness which r o cb_read cb_flush_ready cb_err =>
      have hv : c.is_event = true := by
        unfold enabled at hen
        simp only [Bool.and_eq_true] at hen
        exact hen.1.1.1
      exact E_handler_settled env c c' which r o _ _ _ (script_good env cb_read)
        (script_good env cb_flush_ready) (script_good env cb_err) hc hf' hv h
    | write_done status oserr cb_err =>
      exact Cw_handler_settled env c c' status oserr _ (script_good env cb_err) hc hf'
        (of_decide_eq_true hen) h
    | read_done nr total oserr o cb_read cb_err =>
      exact Cr_handler_settled env c c' nr total oserr o _ _ (script_good env cb_read)
        (script_good env cb_err) hc hf' (of_decide_eq_true hen) h
    | write_ex_done nflushed status oserr cb_flush_done =>
      exact Cw_ex_handler_settled env c c' nflushed status oserr _
        (script_good env cb_flush_done) hc (of_decide_eq_true hen) h
    | error_timer cb_err =>
      exact err_handler_settled _ c' _ (script_good env cb_err)
        (settled_of_core c { c with err_armed := false } rfl hc) h

theorem run_settled (env : Env) (trace : List Event) (c c' : lcbio_CTX) (hc : Settled c)
    (h : run env trace c = some c') : Settled c' := by
  induction trace generalizing c with
  | nil =>
    rw [run] at h
    rw [← Option.some.inj h]
    exact hc
  | cons ev rest ih =>
    rw [run] at h
    split at h
    · rename_i hen
      split at h
      · cases h
      · rename_i x hx
        exact ih x (deliver_settled env ev c x hc hen hx) h
    · cases h

theorem new_settled (is_event : Bool) : Settled (lcbio_ctx_new is_event) := by
  refine ⟨⟨⟨Nat.zero_le 1, ?_, fun _ => rfl, rfl⟩, ?_⟩, rfl⟩
  · intro h
    cases h
  · intro _ h
    cases h

/-- At every point between two events of a run from a new context that the code handles,
the context has been freed at most once, it is outside every callback, it has been freed
exactly when it is Detached with no operation pending, and an Active context has not
been freed. -/
theorem ctx_lifetime (env : Env) (is_event : Bool) (trace : List Event) (c : lcbio_CTX)
    (h : run env trace (lcbio_ctx_new is_event) = some c) :
    c.freed ≤ 1 ∧ c.entered = 0 ∧
      (c.freed = 1 ↔ c.state = easy_state.ES_DETACHED ∧ c.npending = 0) ∧
      (c.state = easy_state.ES_ACTIVE → c.freed = 0) := by
  obtain ⟨⟨⟨i1, i2, _, _⟩, hd⟩, he⟩ := run_settled env trace _ c (new_settled is_event) h
  refine ⟨i1, he, ⟨fun hf => ⟨(i2 hf).1, (i2 hf).2.1⟩, ?_⟩, ?_⟩
  · intro hs
    by_contra hne
    have hz : c.freed = 0 := by omega
    exact hd hz hs.1 he hs.2
  · intro ha
    by_contra hne
    have h1 : c.freed = 1 := by omega
    rw [(i2 h1).1] at ha
    cases ha

theorem ctx_lifetime_witness :
    ∃ c, run exEnv [Event.call (Api.rwant 1), Event.call (Api.put 5 true true true),
        Event.call (Api.schedule exSched), Event.call (Api.close_ex (some false) true),
        Event.write_done 0 0 [], Event.read_done 3 3 0 exSched [] []]
      (lcbio_ctx_new false) = some c ∧ c.freed = 1 ∧
      (c.freed ≤ 1 ∧ c.entered = 0 ∧
        (c.freed = 1 ↔ c.state = easy_state.ES_DETACHED ∧ c.npending = 0) ∧
        (c.state = easy_state.ES_ACTIVE → c.freed = 0)) :=
  ⟨_, Confmon.some_getD_of_isSome _ (lcbio_ctx_new false) (by decide), by decide,
    ctx_lifetime exEnv false _ _
      (Confmon.some_getD_of_isSome _ (lcbio_ctx_new false) (by decide))⟩

/-- Claim C22 holds on every path but one, where the code departs from it. In completion
mode a write of 8 bytes posted by `lcbio_ctx_put_ex` is in flight when the context is
closed: the close detaches the context and leaves it to the completion (one operation is
pending); the completion can be delivered and brings `npending` to zero, and
`Cw_ex_handler` stops at its assertion that the state is Active instead of freeing the
context, so the wording of the specification fails. A write posted by
`lcbio_ctx_schedule` in the same place is completed by `Cw_handler`, which frees the
context. -/
theorem put_ex_completion_not_freed :
    (run exEnv [Event.call (Api.put_ex 8 [] 0 0 []),
        Event.call (Api.close_ex (some false) false)] (lcbio_ctx_new false)).map
        (fun c => (c.state, c.npending, c.entered, c.freed,
          enabled (Event.write_ex_done 8 0 0 []) c,
          (deliver exEnv (Event.write_ex_done 8 0 0 []) c).isSome))
      = some (easy_state.ES_DETACHED, 1, 0, 0, true, false) ∧
    ¬ free_contract exEnv (lcbio_ctx_new false) ∧
    (run exEnv [Event.call (Api.put 8 true true true), Event.call (Api.schedule exSched),
        Event.call (Api.close_ex (some false) false)] (lcbio_ctx_new false)).map
        (fun c => (c.state, c.npending, c.entered, c.freed)) =
      some (easy_state.ES_DETACHED, 1, 0, 0) ∧
    (run exEnv [Event.call (Api.put 8 true true true), Event.call (Api.schedule exSched),
        Event.call (Api.close_ex (some false) false), Event.write_done 0 0 []]
        (lcbio_ctx_new false)).map (fun c => (c.state, c.npending, c.entered, c.freed)) =
      some (easy_state.ES_DETACHED, 0, 0, 1) := by
  refine ⟨by decide, ?_, by decide, by decide⟩
  intro h
  obtain ⟨c', hd, _⟩ := h [Event.call (Api.put_ex 8 [] 0 0 []),
    Event.call (Api.close_ex (some false) false)] (Event.write_ex_done 8 0 0 [])
    ((run exEnv [Event.call (Api.put_ex 8 [] 0 0 []),
      Event.call (Api.close_ex (some false) false)] (lcbio_ctx_new false)).getD
        (lcbio_ctx_new false))
    (Confmon.some_getD_of_isSome _ _ (by decide)) (by decide) (by decide) rfl (by decide)
  have hs : (deliver exEnv (Event.write_ex_done 8 0 0 [])
      ((run exEnv [Event.call (Api.put_ex 8 [] 0 0 []),
        Event.call (Api.close_ex (some false) false)] (lcbio_ctx_new false)).getD
          (lcbio_ctx_new false))).isSome = false := by decide
  rw [hd] at hs
  cases hs

theorem settled_freed_iff (c : lcbio_CTX) (hc : Settled c)
    (hs : c.state = easy_state.ES_DETACHED) : c.freed = 1 ↔ c.npending = 0 := by
  obtain ⟨⟨⟨i1, i2, _, _⟩, hd⟩, he⟩ := hc
  refine ⟨fun h => (i2 h).2.1, fun h => ?_⟩
  by_contra hne
  have hz : c.freed = 0 := by omega
  exact hd hz hs he h

theorem free_if_drained_state (c : lcbio_CTX) : (free_if_drained c).state = c.state := by
  unfold free_if_drained
  split
  · exact (free_ctx_fields c).2.1
  · rfl

/-- The completion of a write or of a read posted by `lcbio_ctx_schedule` on a Detached
context that is not freed is handled, and frees the context exactly when it leaves no
operation pending. -/
theorem completion_frees (env : Env) (c : lcbio_CTX) (ev : Event) (hc : Settled c)
    (hf : c.freed = 0) (hs : c.state = easy_state.ES_DETACHED)
    (hev : (∃ status oserr cb_err, ev = Event.write_done status oserr cb_err) ∨
      (∃ nr total oserr o cb_read cb_err, ev = Event.read_done nr total oserr o cb_read cb_err))
    (hen : enabled ev c = true) :
    ∃ c', deliver env ev c = some c' ∧ c'.state = easy_state.ES_DETACHED ∧
      (c'.freed = 1 ↔ c'.npending = 0) := by
  have hdel : ∃ c', deliver env ev c = some c' ∧ c'.state = easy_state.ES_DETACHED := by
    rcases hev with ⟨status, oserr, cb_err, e⟩ | ⟨nr, total, oserr, o, cb_read, cb_err, e⟩
    · subst e
      obtain ⟨c2, hcore, heq⟩ := Cw_handler_eq env c status oserr (exec_all env cb_err)
      unfold core at hcore
      simp only [Prod.mk.injEq] at hcore
      have hs2 : c2.state = easy_state.ES_DETACHED := hcore.2.1.trans hs
      refine ⟨free_if_drained c2, ?_, (free_if_drained_state c2).trans hs2⟩
      unfold deliver
      rw [if_neg (by rw [hf]; decide)]
      show Cw_handler env c status oserr (exec_all env cb_err) = _
      rw [heq, if_neg (by rw [hs2]; intro h; cases h.1)]
      rfl
    · subst e
      refine ⟨free_if_drained
        { c with is_reading := 0
                 npending := c.npending - 1
                 posted_reads := c.posted_reads - 1 }, ?_, (free_if_drained_state _).trans hs⟩
      unfold deliver
      rw [if_neg (by rw [hf]; decide)]
      show Cr_handler env c nr total oserr o (exec_all env cb_read) (exec_all env cb_err) = _
      unfold Cr_handler
      simp only []
      rw [if_neg (by rw [hs]; decide)]
      rfl
  obtain ⟨c', hd, hs'⟩ := hdel
  exact ⟨c', hd, hs', settled_freed_iff c' (deliver_settled env ev c c' hc hen hd) hs'⟩

end Ctx

